import Mathlib

/-!
# gbox geometry core: matrix, path, curve and arc flattening, bitmap, pixels, active regions

A shallow embedding of `src/gbox/core/prefix/matrix.c`, `src/gbox/core/path.c`, the
flatteners of `src/gbox/core/impl/geometry.c`, `src/gbox/core/bitmap.c`, the blending of
`src/gbox/core/pixmap/argb4444.h` and the insertion of
`src/gbox/utils/impl/tessellator/active_region.c`.

* Matrix layer.  The scalar is taken over exact arithmetic (`ℚ`); the private helpers
  `gb_matrix_mul_add` and `gb_matrix_det` are the ones of the build without
  `GB_CONFIG_FLOAT_FIXED` (the only one that has the `GB_NEAR0` determinant threshold), with
  the `float`/`double` roundings left out.
* Path layer.  Coordinates are the raw Q16.16 scalars of the `GB_CONFIG_FLOAT_FIXED` build, where
  `gb_float_to_fixed(x)` is `(x)`; they are integers and are not bounded here.  `tb_vector` is a
  list, the `flag` byte is a record with one boolean per bit.
* Flatteners.  `gb_geometry_make_quad` and `gb_geometry_make_cube` are taken over exact
  arithmetic (`ℚ`) like the matrix layer, with the depth of their recursion as an argument;
  so are `gb_geometry_make_arc` and `gb_geometry_make_arc2`, with `gb_sincos` as an argument.
* Bitmap.  The sizes are natural numbers, with the wrap of `tb_size_t` and `tb_uint16_t` made
  explicit; the pixel format table and the allocator are arguments.
* Pixels.  A buffer is the list of its 16-bit pixels; the arithmetic on `tb_uint32_t` wraps.
* Active regions.  The list of tbox is the list of its nodes; the mesh and the predicates on
  vertices are arguments.
-/

namespace Gbox

/-! ## Matrix (`core/prefix/matrix.c`, `core/prefix/float.h`) -/

/-- The matrix `(sx, kx, ky, sy, tx, ty)` of `gb_matrix_t`. -/
structure gb_matrix_t where
  sx : ℚ
  kx : ℚ
  ky : ℚ
  sy : ℚ
  tx : ℚ
  ty : ℚ
deriving DecidableEq

/-- Constant `GB_ONE` is `1.0f`. -/
def GB_ONE : ℚ := 1

/-- Constant `GB_NEAR0` is `1.0f / (1 << 12)`. -/
def GB_NEAR0 : ℚ := 1 / 4096

/-- Macro `gb_abs(x)`. -/
def gb_abs (x : ℚ) : ℚ := |x|

/-- Macro `gb_near0(x)` is `gb_abs(x) <= GB_NEAR0`. -/
def gb_near0 (x : ℚ) : Bool := decide (gb_abs x ≤ GB_NEAR0)

/-- Macro `gb_invert(x)` is `1.0f / x`. -/
def gb_invert (x : ℚ) : ℚ := 1 / x

/-- Macro `gb_div(x, y)` is `x / y`. -/
def gb_div (x y : ℚ) : ℚ := x / y

/-- Function `gb_matrix_mul_add(a, b, c, d)` is `a * b + c * d`. -/
def gb_matrix_mul_add (a b c d : ℚ) : ℚ := a * b + c * d

/-- Function `gb_matrix_det(sx, sy, kx, ky)`: the inverse of the determinant, or `0` when the
determinant is within `GB_NEAR0 * GB_NEAR0 * GB_NEAR0` of zero. -/
def gb_matrix_det (sx sy kx ky : ℚ) : ℚ :=
  let det := sx * sy - kx * ky
  if gb_abs det ≤ GB_NEAR0 * GB_NEAR0 * GB_NEAR0 then 0 else 1 / det

/-- Function `gb_matrix_init`. -/
def gb_matrix_init (sx kx ky sy tx ty : ℚ) : gb_matrix_t :=
  { sx := sx, kx := kx, ky := ky, sy := sy, tx := tx, ty := ty }

/-- Function `gb_matrix_clear`: the identity matrix. -/
def gb_matrix_clear : gb_matrix_t := gb_matrix_init GB_ONE 0 0 GB_ONE 0 0

/-- Function `gb_matrix_identity`. -/
def gb_matrix_identity (matrix : gb_matrix_t) : Bool :=
  decide (GB_ONE = matrix.sx) && decide (GB_ONE = matrix.sy) && decide (0 = matrix.kx)
    && decide (0 = matrix.ky) && decide (0 = matrix.tx) && decide (0 = matrix.ty)

/-- Function `gb_matrix_invert`: the returned flag and the matrix left behind.  A failed
`tb_assert_and_check_return_val` returns `tb_false` before `*matrix = mx`. -/
def gb_matrix_invert (matrix : gb_matrix_t) : Bool × gb_matrix_t :=
  if gb_matrix_identity matrix then (true, matrix)
  else if 0 = matrix.kx ∧ 0 = matrix.ky then
    -- no rotate
    if GB_ONE ≠ matrix.sx ∧ gb_near0 matrix.sx = true then (false, matrix)
    else
      let mx : gb_matrix_t :=
        if GB_ONE ≠ matrix.sx then
          { matrix with sx := gb_invert matrix.sx, tx := gb_div (-matrix.tx) matrix.sx }
        else matrix
      if GB_ONE ≠ matrix.sy ∧ gb_near0 matrix.sy = true then (false, matrix)
      else
        let mx : gb_matrix_t :=
          if GB_ONE ≠ matrix.sy then
            { mx with sy := gb_invert matrix.sy, ty := gb_div (-matrix.ty) matrix.sy }
          else mx
        (true, mx)
  else
    let det := gb_matrix_det matrix.sx matrix.sy matrix.kx matrix.ky
    if det = 0 then (false, matrix)
    else
      (true,
        { sx := matrix.sy * det
          sy := matrix.sx * det
          kx := -matrix.kx * det
          ky := -matrix.ky * det
          tx := (matrix.kx * matrix.ty - matrix.sy * matrix.tx) * det
          ty := (matrix.ky * matrix.tx - matrix.sx * matrix.ty) * det })

/-- Function `gb_matrix_multiply(matrix, factor)`: the returned flag and the matrix left in
`matrix`. -/
def gb_matrix_multiply (matrix factor : gb_matrix_t) : Bool × gb_matrix_t :=
  if gb_matrix_identity factor then (true, matrix)
  else
    (true,
      { sx := gb_matrix_mul_add matrix.sx factor.sx matrix.kx factor.ky
        ky := gb_matrix_mul_add matrix.ky factor.sx matrix.sy factor.ky
        kx := gb_matrix_mul_add matrix.sx factor.kx matrix.kx factor.sy
        sy := gb_matrix_mul_add matrix.ky factor.kx matrix.sy factor.sy
        tx := gb_matrix_mul_add matrix.sx factor.tx matrix.kx factor.ty + matrix.tx
        ty := gb_matrix_mul_add matrix.ky factor.tx matrix.sy factor.ty + matrix.ty })

/-- Function `gb_matrix_multiply_lhs(matrix, factor)`: the returned flag and the matrix left in
`matrix`. -/
def gb_matrix_multiply_lhs (matrix factor : gb_matrix_t) : Bool × gb_matrix_t :=
  if gb_matrix_identity factor then (true, matrix)
  else
    let r := gb_matrix_multiply factor matrix
    (r.1, r.2)

/-- Modelled from the spec: `gb_point_apply` (`point.c` is not among the sources) applies the
affine map `[x' y' 1]ᵀ = [[sx kx tx][ky sy ty][0 0 1]] · [x y 1]ᵀ` of the matrix to a point. -/
def gb_point_apply (p : ℚ × ℚ) (matrix : gb_matrix_t) : ℚ × ℚ :=
  (matrix.sx * p.1 + matrix.kx * p.2 + matrix.tx, matrix.ky * p.1 + matrix.sy * p.2 + matrix.ty)

/-- The determinant `sx·sy − kx·ky` that `gb_matrix_det` forms before inverting it. -/
def gb_matrix_determinant (matrix : gb_matrix_t) : ℚ :=
  matrix.sx * matrix.sy - matrix.kx * matrix.ky

/-- The two products `M · M⁻¹` and `M⁻¹ · M`, formed with `gb_matrix_multiply`, are the
identity. -/
def gb_matrix_inverse_of (M N : gb_matrix_t) : Prop :=
  (gb_matrix_multiply M N).2 = gb_matrix_clear ∧ (gb_matrix_multiply N M).2 = gb_matrix_clear

instance (M N : gb_matrix_t) : Decidable (gb_matrix_inverse_of M N) := by
  unfold gb_matrix_inverse_of; infer_instance


/-! ## Path (`core/path.h`, `core/path.c`) -/

/-- The point `gb_point_t`; the coordinates are raw fixed-point scalars. -/
structure gb_point_t where
  x : Int
  y : Int
deriving DecidableEq

instance : Inhabited gb_point_t := ⟨⟨0, 0⟩⟩

/-- The rectangle `gb_rect_t`. -/
structure gb_rect_t where
  x : Int
  y : Int
  w : Int
  h : Int
deriving DecidableEq

/-- The line `gb_line_t`. -/
structure gb_line_t where
  p0 : gb_point_t
  p1 : gb_point_t
deriving DecidableEq

/-- The triangle `gb_triangle_t`. -/
structure gb_triangle_t where
  p0 : gb_point_t
  p1 : gb_point_t
  p2 : gb_point_t
deriving DecidableEq

/-- The circle `gb_circle_t`. -/
structure gb_circle_t where
  c : gb_point_t
  r : Int
deriving DecidableEq

/-- The ellipse `gb_ellipse_t`. -/
structure gb_ellipse_t where
  c : gb_point_t
  rx : Int
  ry : Int
deriving DecidableEq

/-- The arc `gb_arc_t`: center, radii, start angle `ab` and sweep angle `an`. -/
structure gb_arc_t where
  c : gb_point_t
  rx : Int
  ry : Int
  ab : Int
  an : Int
deriving DecidableEq

/-- The round rectangle `gb_round_rect_t`: the bounds and the four corner radii, in the order
left-top, right-top, right-bottom, left-bottom. -/
structure gb_round_rect_t where
  bounds : gb_rect_t
  radius_lt : gb_point_t
  radius_rt : gb_point_t
  radius_rb : gb_point_t
  radius_lb : gb_point_t
deriving DecidableEq

/-- The shape `gb_shape_t`: the `type` tag together with the member of the union `u` it
selects. `NONE` is the zero tag. -/
inductive gb_shape_t where
  | NONE
  | ARC (arc : gb_arc_t)
  | CIRCLE (circle : gb_circle_t)
  | ELLIPSE (ellipse : gb_ellipse_t)
  | LINE (line : gb_line_t)
  | POINT (point : gb_point_t)
  | RECT (rect : gb_rect_t)
  | ROUND_RECT (round_rect : gb_round_rect_t)
  | TRIANGLE (triangle : gb_triangle_t)
deriving DecidableEq

/-- The rotation direction argument of the shape adders. -/
inductive gb_rotate_direction_e where
  | CW
  | CCW
deriving DecidableEq

/-- The path code enum `gb_path_code_e`. -/
inductive gb_path_code_e where
  | MOVE
  | CLOS
  | LINE
  | QUAD
  | CUBIC
deriving DecidableEq

/-- The numeric value of a path code: `MOVE = 0, CLOS = 1, LINE = 2, QUAD = 3, CUBIC = 4`. -/
def gb_path_code_e.val : gb_path_code_e → Nat
  | .MOVE => 0
  | .CLOS => 1
  | .LINE => 2
  | .QUAD => 3
  | .CUBIC => 4

/-- Macro `gb_path_point_step(code)` is `((code) < 1? 1 : (code) - 1)`. -/
def gb_path_point_step (code : gb_path_code_e) : Nat :=
  if code.val < 1 then 1 else code.val - 1

/-- The `flag` byte of the path, one field per bit of `gb_path_flag_e`:
`DIRTY_HINT = 1`, `DIRTY_BOUNDS = 2`, `DIRTY_POLYGON = 4`, `DIRTY_CONVEX = 8`, `CURVE = 16`,
`CONVEX = 32`, `CLOSED = 64`, `SINGLE = 128`. -/
structure gb_path_flag_t where
  dirty_hint : Bool
  dirty_bounds : Bool
  dirty_polygon : Bool
  dirty_convex : Bool
  curve : Bool
  convex : Bool
  closed : Bool
  single : Bool
deriving DecidableEq

/-- The value `flag | GB_PATH_FLAG_DIRTY_ALL`. -/
def gb_path_flag_t.or_dirty_all (flag : gb_path_flag_t) : gb_path_flag_t :=
  { flag with dirty_hint := true, dirty_bounds := true, dirty_polygon := true,
              dirty_convex := true }

/-- The buffer that `impl->polygon.points` points into: nothing yet, the data of `impl->points`
(paths without curves) or the data of `impl->polygon_points`. -/
inductive gb_polygon_points_e where
  | NULL
  | POINTS
  | POLYGON_POINTS
deriving DecidableEq

/-- The polygon `gb_polygon_t` as a caller reads it: the points, the counts of the contours
with their terminating `0`, and the convex flag. -/
structure gb_polygon_t where
  points : List gb_point_t
  counts : List Nat
  convex : Bool
deriving DecidableEq

/-- The path `gb_path_impl_t`.  The iterator table and the scratch `item` are left out;
`polygon_ref` and `polygon_convex` are the `points` pointer and the `convex` member of
`impl->polygon`, whose `counts` pointer is always the data of `polygon_counts`. -/
structure gb_path_impl_t where
  flag : gb_path_flag_t
  hint : gb_shape_t
  polygon_ref : gb_polygon_points_e
  polygon_convex : Bool
  bounds : gb_rect_t
  head : gb_point_t
  codes : List gb_path_code_e
  points : List gb_point_t
  polygon_points : List gb_point_t
  polygon_counts : List Nat
deriving DecidableEq

/-- Function `tb_vector_replace_last`: overwrite the last element of a vector that has one. -/
def tb_vector_replace_last {α : Type} (vector : List α) (data : α) : List α :=
  match vector with
  | [] => []
  | _ :: _ => vector.dropLast ++ [data]

/-- The item `gb_path_item_t` of the path iterator: the code and `points`, the pointer into
the point vector, kept as the part of the vector that starts there. -/
structure gb_path_item_t where
  code : gb_path_code_e
  points : List gb_point_t
deriving DecidableEq

/-- The point `item->points[i]`. -/
def gb_path_item_t.point (item : gb_path_item_t) (i : Nat) : gb_point_t :=
  item.points.getD i default

/-- Function `gb_path_itor_item` at the position with the given code index and point index: the
points start at `point_index` for a `MOVE` and one point earlier for any other code.  For a
code other than `MOVE` at point index 0 the source fails `tb_assert(code < 1 || point_index)`
and asks the point vector for the item at `(tb_size_t)-1`; here the subtraction stops at 0
and the points start at index 0, so nothing is to be read off this definition for that
position. -/
def gb_path_itor_item (impl : gb_path_impl_t) (code_index point_index : Nat) :
    Option gb_path_item_t :=
  match impl.codes.get? code_index with
  | none => none
  | some code =>
    some { code := code
           points := impl.points.drop (if code.val < 1 then point_index else point_index - 1) }

/-- The items that `tb_for_all_if (gb_path_item_ref_t, item, path, ...)` visits for the codes
from `code_index` on: `gb_path_itor_next` advances the code index by one and the point index
by the step of the code.  The position `(code_index << 16) | point_index` is kept as the two
indices, which it packs faithfully up to the `TB_MAXU16` that `gb_path_itor_tail` asserts.
As in `gb_path_itor_item`, a code other than `MOVE` at point index 0 gets the points from
index 0, where the source indexes the point vector at `(tb_size_t)-1`. -/
def gb_path_items_from (points : List gb_point_t) :
    List gb_path_code_e → Nat → List gb_path_item_t
  | [], _ => []
  | code :: codes, point_index =>
    { code := code
      points := points.drop (if code.val < 1 then point_index else point_index - 1) }
      :: gb_path_items_from points codes (point_index + gb_path_point_step code)

/-- The items of a whole path, from `gb_path_itor_head` to `gb_path_itor_tail`. -/
def gb_path_items (impl : gb_path_impl_t) : List gb_path_item_t :=
  gb_path_items_from impl.points impl.codes 0

/-- Function `gb_path_init`: `tb_malloc0_type` zeroes the record; the flag is
`DIRTY_ALL | CLOSED | SINGLE`. -/
def gb_path_init : gb_path_impl_t :=
  { flag := { dirty_hint := true, dirty_bounds := true, dirty_polygon := true,
              dirty_convex := true, curve := false, convex := false, closed := true,
              single := true }
    hint := .NONE
    polygon_ref := .NULL
    polygon_convex := false
    bounds := ⟨0, 0, 0, 0⟩
    head := ⟨0, 0⟩
    codes := []
    points := []
    polygon_points := []
    polygon_counts := [] }

/-- Function `gb_path_clear`: the flag becomes `DIRTY_ALL | SINGLE`, codes and points are
emptied. -/
def gb_path_clear (impl : gb_path_impl_t) : gb_path_impl_t :=
  { impl with
    flag := { dirty_hint := true, dirty_bounds := true, dirty_polygon := true,
              dirty_convex := true, curve := false, convex := false, closed := false,
              single := true }
    codes := []
    points := [] }

/-- Function `gb_path_null`: no code stored. -/
def gb_path_null (impl : gb_path_impl_t) : Bool :=
  impl.codes.length == 0

/-- Function `gb_path_copy(path, copied)`. -/
def gb_path_copy (impl copied : gb_path_impl_t) : gb_path_impl_t :=
  if gb_path_null copied then gb_path_clear impl
  else
    { impl with
      codes := copied.codes
      points := copied.points
      flag := { copied.flag with dirty_polygon := true }
      hint := copied.hint
      head := copied.head
      bounds := copied.bounds }

/-- Function `gb_path_last(path, point)`: whether a last point exists, and the value left in
`*point`. -/
def gb_path_last (impl : gb_path_impl_t) (point : gb_point_t) : Bool × gb_point_t :=
  match impl.points.getLast? with
  | some last => (true, last)
  | none => (false, point)

/-- Function `gb_path_last_set`: overwrite the last point, if there is one. -/
def gb_path_last_set (impl : gb_path_impl_t) (point : gb_point_t) : gb_path_impl_t :=
  { impl with points := tb_vector_replace_last impl.points point }

/-- Function `gb_path_apply(path, matrix)`, with `apply` the map that
`gb_point_apply(point, matrix)` performs on a point (`point.c` is not among the sources). -/
def gb_path_apply (impl : gb_path_impl_t) (apply : gb_point_t → gb_point_t) : gb_path_impl_t :=
  if gb_path_null impl then impl else { impl with points := impl.points.map apply }

/-- Function `gb_path_move_to`. -/
def gb_path_move_to (impl : gb_path_impl_t) (point : gb_point_t) : gb_path_impl_t :=
  let impl1 : gb_path_impl_t :=
    if impl.codes.getLast? = some .MOVE then
      { impl with points := tb_vector_replace_last impl.points point }
    else
      let impl2 : gb_path_impl_t :=
        { impl with codes := impl.codes ++ [.MOVE], points := impl.points ++ [point] }
      if impl2.codes.length > 1 then { impl2 with flag := { impl2.flag with single := false } }
      else impl2
  { impl1 with
    head := point
    flag := { impl1.flag with closed := false }.or_dirty_all }

/-- The patch that `line_to`, `quad_to` and `cubic_to` share: when the flag has `CLOSED`,
move to the last point (to `{0}` when there is none). -/
def gb_path_patch_move (impl : gb_path_impl_t) : gb_path_impl_t :=
  if impl.flag.closed then gb_path_move_to impl (gb_path_last impl ⟨0, 0⟩).2 else impl

/-- Function `gb_path_line_to`. -/
def gb_path_line_to (impl : gb_path_impl_t) (point : gb_point_t) : gb_path_impl_t :=
  let impl1 := gb_path_patch_move impl
  { impl1 with
    codes := impl1.codes ++ [.LINE]
    points := impl1.points ++ [point]
    flag := impl1.flag.or_dirty_all }

/-- Function `gb_path_line_to(path, &impl->head)` as `gb_path_clos` calls it: the argument points at
`impl->head`, which the patched move overwrites before the point is stored. -/
def gb_path_line_to_head (impl : gb_path_impl_t) : gb_path_impl_t :=
  let impl1 := gb_path_patch_move impl
  { impl1 with
    codes := impl1.codes ++ [.LINE]
    points := impl1.points ++ [impl1.head]
    flag := impl1.flag.or_dirty_all }

/-- Function `gb_path_quad_to`. -/
def gb_path_quad_to (impl : gb_path_impl_t) (ctrl point : gb_point_t) : gb_path_impl_t :=
  let impl1 := gb_path_patch_move impl
  { impl1 with
    codes := impl1.codes ++ [.QUAD]
    points := impl1.points ++ [ctrl] ++ [point]
    flag := { impl1.flag.or_dirty_all with curve := true } }

/-- Function `gb_path_cubic_to`. -/
def gb_path_cubic_to (impl : gb_path_impl_t) (ctrl0 ctrl1 point : gb_point_t) :
    gb_path_impl_t :=
  let impl1 := gb_path_patch_move impl
  { impl1 with
    codes := impl1.codes ++ [.CUBIC]
    points := impl1.points ++ [ctrl0] ++ [ctrl1] ++ [point]
    flag := { impl1.flag.or_dirty_all with curve := true } }

/-- Function `gb_path_clos`. -/
def gb_path_clos (impl : gb_path_impl_t) : gb_path_impl_t :=
  let impl1 : gb_path_impl_t :=
    if impl.points.length > 2 ∧ impl.codes.length ≠ 0 ∧ impl.codes.getLast? ≠ some .CLOS then
      let last := gb_path_last impl ⟨0, 0⟩
      let impl2 : gb_path_impl_t :=
        if last.1 = true ∧ (last.2.x ≠ impl.head.x ∨ last.2.y ≠ impl.head.y) then
          gb_path_line_to_head impl
        else impl
      { impl2 with codes := impl2.codes ++ [.CLOS] }
    else impl
  { impl1 with flag := { impl1.flag with closed := true } }

/-- Function `gb_point_make` / `gb_point_imake` in the fixed-point build store the two scalars. -/
def gb_point_make (x y : Int) : gb_point_t := ⟨x, y⟩

/-- Function `gb_path_move2_to`. -/
def gb_path_move2_to (impl : gb_path_impl_t) (x y : Int) : gb_path_impl_t :=
  gb_path_move_to impl (gb_point_make x y)

/-- Function `gb_path_line2_to`. -/
def gb_path_line2_to (impl : gb_path_impl_t) (x y : Int) : gb_path_impl_t :=
  gb_path_line_to impl (gb_point_make x y)

/-- Function `gb_path_quad2_to`. -/
def gb_path_quad2_to (impl : gb_path_impl_t) (cx cy x y : Int) : gb_path_impl_t :=
  gb_path_quad_to impl (gb_point_make cx cy) (gb_point_make x y)

/-- Function `gb_path_cubic2_to`. -/
def gb_path_cubic2_to (impl : gb_path_impl_t) (cx0 cy0 cx1 cy1 x y : Int) : gb_path_impl_t :=
  gb_path_cubic_to impl (gb_point_make cx0 cy0) (gb_point_make cx1 cy1) (gb_point_make x y)

/-! ### Lazily computed caches: hint, bounds, convexity, polygon -/

/-- The functions that `path.c` calls and that are not among the sources: `gb_mul`
(`tb_fixed_mul`), the flatteners of `impl/quad.h` and `impl/cubic.h` as the list of points they
hand to their callback, `gb_arc_make_quad` of `impl/arc.h` as the list of `(ctrl, point)` pairs
it hands to its callback (`ctrl` is null for the first), and three helpers of the shapes. -/
structure gb_deps_t where
  gb_mul : Int → Int → Int
  gb_quad_make_line : gb_point_t → gb_point_t → gb_point_t → List gb_point_t
  gb_cubic_make_line : gb_point_t → gb_point_t → gb_point_t → gb_point_t → List gb_point_t
  gb_arc_make_quad : gb_arc_t → List (Option gb_point_t × gb_point_t)
  gb_round_rect_is_rect : gb_round_rect_t → Bool
  gb_round_rect_is_ellipse : gb_round_rect_t → Bool
  gb_ellipse_make_from_rect : gb_rect_t → gb_ellipse_t

/-- Modelled from the spec: `gb_bounds_make` (`impl/bounds.h` is not among the sources) makes the
axis-aligned bounding box over the first `count` points of a point array, as
`(x, y, w, h)` with `(x, y)` the least corner. -/
def gb_bounds_make (points : List gb_point_t) (count : Nat) : gb_rect_t :=
  match points.take count with
  | [] => ⟨0, 0, 0, 0⟩
  | p :: ps =>
    let x0 := ps.foldl (fun m q => min m q.x) p.x
    let y0 := ps.foldl (fun m q => min m q.y) p.y
    let x1 := ps.foldl (fun m q => max m q.x) p.x
    let y1 := ps.foldl (fun m q => max m q.y) p.y
    ⟨x0, y0, x1 - x0, y1 - y0⟩

/-- Function `gb_path_make_hint`: the returned flag and the path left behind.  `points[i]` and
`codes[i]` are the array reads of the source; the data pointers of an initialised path are not
null. -/
def gb_path_make_hint (impl : gb_path_impl_t) : Bool × gb_path_impl_t :=
  let impl1 : gb_path_impl_t := { impl with hint := .NONE }
  if impl1.flag.curve then (true, impl1)
  else
    let points (i : Nat) : gb_point_t := impl1.points.getD i default
    let codes (i : Nat) : Option gb_path_code_e := impl1.codes.get? i
    let count := impl1.points.length
    if count = 5
        ∧ (points 0).x = (points 4).x
        ∧ (points 0).y = (points 4).y
        ∧ codes 0 = some .MOVE
        ∧ codes 1 = some .LINE
        ∧ codes 2 = some .LINE
        ∧ codes 3 = some .LINE
        ∧ codes 4 = some .LINE
        ∧ (((points 0).x ≠ (points 1).x ∧ (points 0).y = (points 1).y
            ∧ (points 1).x = (points 2).x ∧ (points 1).y ≠ (points 2).y
            ∧ (points 2).x ≠ (points 3).x ∧ (points 2).y = (points 3).y
            ∧ (points 3).x = (points 4).x ∧ (points 3).y ≠ (points 4).y)
          ∨ ((points 0).x = (points 1).x ∧ (points 0).y ≠ (points 1).y
            ∧ (points 1).x ≠ (points 2).x ∧ (points 1).y = (points 2).y
            ∧ (points 2).x = (points 3).x ∧ (points 2).y ≠ (points 3).y
            ∧ (points 3).x ≠ (points 4).x ∧ (points 3).y = (points 4).y)) then
      (true, { impl1 with hint := .RECT (gb_bounds_make impl1.points 4) })
    else if count = 4
        ∧ (points 0).x = (points 3).x
        ∧ (points 0).y = (points 3).y
        ∧ codes 0 = some .MOVE
        ∧ codes 1 = some .LINE
        ∧ codes 2 = some .LINE
        ∧ codes 3 = some .LINE
        ∧ (points 0).x ≠ (points 1).x
        ∧ (points 0).y ≠ (points 1).y
        ∧ (points 0).x ≠ (points 2).x
        ∧ (points 0).y ≠ (points 2).y
        ∧ (points 1).x ≠ (points 2).x
        ∧ (points 1).y ≠ (points 2).y then
      (true, { impl1 with hint := .TRIANGLE ⟨points 0, points 1, points 2⟩ })
    else if count = 2
        ∧ codes 0 = some .MOVE
        ∧ codes 1 = some .LINE
        ∧ (points 0).x ≠ (points 1).x
        ∧ (points 0).y ≠ (points 1).y then
      (true, { impl1 with hint := .LINE ⟨points 0, points 1⟩ })
    else if count = 1 ∧ codes 0 = some .MOVE then
      (true, { impl1 with hint := .POINT (points 0) })
    else (true, impl1)

/-- Function `gb_path_hint`: the shape returned (null when the path is null or has no hint) and the
path left behind. -/
def gb_path_hint (impl : gb_path_impl_t) : Option gb_shape_t × gb_path_impl_t :=
  if gb_path_null impl then (none, impl)
  else
    let made : Bool × gb_path_impl_t :=
      if impl.flag.dirty_hint then
        let r := gb_path_make_hint impl
        if r.1 then (true, { r.2 with flag := { r.2.flag with dirty_hint := false } })
        else (false, r.2)
      else (true, impl)
    if made.1 then (if made.2.hint ≠ .NONE then some made.2.hint else none, made.2)
    else (none, made.2)

/-- The local variables of the scan of `gb_path_make_convex`, with `convex` the bit
`GB_PATH_FLAG_CONVEX` of the flag and `left` set once the loop has been left by a `break`. -/
structure gb_path_convex_scan_t where
  x0 : Int
  y0 : Int
  x1 : Int
  y1 : Int
  x2 : Int
  y2 : Int
  cross_prev : Int
  point_count : Nat
  contour_count : Nat
  convex : Bool
  left : Bool
deriving DecidableEq

/-- The "update points" block: `(x0, y0) = (x1, y1)`, `(x1, y1) = (x2, y2)`,
`(x2, y2) = point`. -/
def gb_path_convex_scan_t.update (s : gb_path_convex_scan_t) (point : gb_point_t) :
    gb_path_convex_scan_t :=
  { s with x0 := s.x1, y0 := s.y1, x1 := s.x2, y1 := s.y2, x2 := point.x, y2 := point.y }

/-- The value that arithmetic on the 32-bit `tb_fixed_t` leaves: the two's complement value
of the low 32 bits. -/
def tb_fixed_t (x : Int) : Int := (x + 2147483648) % 4294967296 - 2147483648

/-- The sign of `cross_value = (tb_hong_t)(x0 - x1) * (y2 - y1) - (tb_hong_t)(y0 - y1) *
(x2 - x1)`, the cross value of the vectors `(p1, p0)` and `(p1, p2)`.  The four differences
are formed in `tb_fixed_t`, where they wrap; the products and their difference are formed in
the 64-bit `tb_hong_t`, which holds them exactly. -/
def gb_path_cross (x0 y0 x1 y1 x2 y2 : Int) : Int :=
  let cross_value :=
    tb_fixed_t (x0 - x1) * tb_fixed_t (y2 - y1) - tb_fixed_t (y0 - y1) * tb_fixed_t (x2 - x1)
  if cross_value < 0 then -1 else if cross_value > 0 then 1 else 0

/-- The block "compute the cross value ... concave contour? ... update the previous cross":
when `cross * cross_prev < 0` the convex bit is cleared and the loop is left. -/
def gb_path_convex_scan_t.check (s : gb_path_convex_scan_t) : gb_path_convex_scan_t :=
  let cross := gb_path_cross s.x0 s.y0 s.x1 s.y1 s.x2 s.y2
  if cross * s.cross_prev < 0 then { s with convex := false, left := true }
  else { s with cross_prev := cross }

/-- The statements after the `switch` of the scan: nothing more while `point_count <= 2`,
else the check of the cross value. -/
def gb_path_convex_scan_t.after (s : gb_path_convex_scan_t) : gb_path_convex_scan_t :=
  if s.point_count > 2 then s.check else s

/-- One pass of the body of the loop of `gb_path_make_convex` for an item; `points` is the
data of `impl->points`, which the `CLOS` case reads at index `1`. -/
def gb_path_make_convex_item (points : List gb_point_t) (s : gb_path_convex_scan_t)
    (item : gb_path_item_t) : gb_path_convex_scan_t :=
  match item.code with
  | .MOVE =>
    let s1 := s.update (item.point 0)
    { s1 with contour_count := s1.contour_count + 1, point_count := s1.point_count + 1 }.after
  | .LINE =>
    let s1 := s.update (item.point 0)
    { s1 with point_count := s1.point_count + 1 }.after
  | .QUAD =>
    let s1 := s.update (item.point 1)
    let s2 := if s1.point_count > 1 then s1.check else s1
    if s2.left then s2
    else
      let s3 := { s2 with point_count := s2.point_count + 2 }.update (item.point 2)
      s3.after
  | .CUBIC =>
    let s1 := s.update (item.point 1)
    let s2 := if s1.point_count > 1 then s1.check else s1
    if s2.left then s2
    else
      let s3 := { s2 with point_count := s2.point_count + 3 }.update (item.point 2)
      let s4 := s3.check
      if s4.left then s4
      else (s4.update (item.point 3)).after
  | .CLOS =>
    (s.update (points.getD 1 default)).after

/-- The loop `tb_for_all_if (gb_path_item_ref_t, item, impl, item && contour_count < 2)`: the
body runs for the items met while `contour_count < 2`, until a `break`. -/
def gb_path_make_convex_scan (points : List gb_point_t) (items : List gb_path_item_t)
    (s : gb_path_convex_scan_t) : gb_path_convex_scan_t :=
  items.foldl
    (fun s item =>
      if s.left then s
      else if s.contour_count < 2 then gb_path_make_convex_item points s item
      else s)
    s

/-- Function `gb_path_make_convex`: the returned flag and the path left behind. -/
def gb_path_make_convex (impl : gb_path_impl_t) : Bool × gb_path_impl_t :=
  let impl0 : gb_path_impl_t := { impl with flag := { impl.flag with convex := false } }
  let hint := gb_path_hint impl0
  let impl1 : gb_path_impl_t :=
    match hint.1 with
    | some (.RECT _) | some (.CIRCLE _) | some (.ELLIPSE _) | some (.TRIANGLE _)
    | some (.ROUND_RECT _) => { hint.2 with flag := { hint.2.flag with convex := true } }
    | _ => hint.2
  if impl1.flag.convex = false ∧ impl1.flag.single = true ∧ impl1.flag.closed = true
      ∧ impl1.codes.length > 3 then
    let s := gb_path_make_convex_scan impl1.points (gb_path_items impl1)
      { x0 := 0, y0 := 0, x1 := 0, y1 := 0, x2 := 0, y2 := 0, cross_prev := 0,
        point_count := 0, contour_count := 0, convex := true, left := false }
    (true, { impl1 with flag := { impl1.flag with convex := s.convex } })
  else (true, impl1)

/-- Function `gb_path_convex`: the value returned and the path left behind. -/
def gb_path_convex (impl : gb_path_impl_t) : Bool × gb_path_impl_t :=
  if gb_path_null impl then (true, impl)
  else if impl.flag.dirty_convex then
    let r := gb_path_make_convex impl
    if r.1 then
      let impl1 : gb_path_impl_t := { r.2 with flag := { r.2.flag with dirty_convex := false } }
      (impl1.flag.convex, impl1)
    else (false, r.2)
  else (impl.flag.convex, impl)

/-- Function `gb_path_convex_set`. -/
def gb_path_convex_set (impl : gb_path_impl_t) (convex : Bool) : gb_path_impl_t :=
  { impl with flag := { impl.flag with convex := convex, dirty_convex := false } }

/-- Function `gb_path_bounds`: the rectangle returned (null for a null path) and the path left
behind; `gb_lsh(r, 1)` doubles the radius. -/
def gb_path_bounds (impl : gb_path_impl_t) : Option gb_rect_t × gb_path_impl_t :=
  if gb_path_null impl then (none, impl)
  else if impl.flag.dirty_bounds then
    let impl1 : gb_path_impl_t :=
      if impl.flag.dirty_hint = false then
        match impl.hint with
        | .RECT rect =>
          { impl with bounds := rect, flag := { impl.flag with dirty_bounds := false } }
        | .CIRCLE ci =>
          { impl with
            bounds := ⟨ci.c.x - ci.r, ci.c.y - ci.r, 2 * ci.r, 2 * ci.r⟩
            flag := { impl.flag with dirty_bounds := false } }
        | .ELLIPSE el =>
          { impl with
            bounds := ⟨el.c.x - el.rx, el.c.y - el.ry, 2 * el.rx, 2 * el.ry⟩
            flag := { impl.flag with dirty_bounds := false } }
        | _ => impl
      else impl
    let impl2 : gb_path_impl_t :=
      if impl1.flag.dirty_bounds then
        { impl1 with
          bounds := gb_bounds_make impl1.points impl1.points.length
          flag := { impl1.flag with dirty_bounds := false } }
      else impl1
    (some impl2.bounds, impl2)
  else (some impl.bounds, impl)

/-- The addition of the `tb_uint16_t` point counters of `gb_path_make_python`. -/
def gb_u16_add (count step : Nat) : Nat := (count + step) % 65536

/-- The vectors and the counter `values[1].u16` of the curve branch of
`gb_path_make_python`. -/
structure gb_path_python_t where
  polygon_points : List gb_point_t
  polygon_counts : List Nat
  count : Nat

/-- One pass of the loop of the curve branch of `gb_path_make_python`;
`gb_path_make_line_for_curve_to` appends each flattened point and adds one to the counter. -/
def gb_path_make_python_item (deps : gb_deps_t) (v : gb_path_python_t) (item : gb_path_item_t) :
    gb_path_python_t :=
  match item.code with
  | .MOVE =>
    { polygon_counts := if v.count ≠ 0 then v.polygon_counts ++ [v.count] else v.polygon_counts
      polygon_points := v.polygon_points ++ [item.point 0]
      count := 1 }
  | .LINE =>
    { v with polygon_points := v.polygon_points ++ [item.point 1]
             count := gb_u16_add v.count 1 }
  | .QUAD =>
    (deps.gb_quad_make_line (item.point 0) (item.point 1) (item.point 2)).foldl
      (fun v point =>
        { v with polygon_points := v.polygon_points ++ [point], count := gb_u16_add v.count 1 })
      v
  | .CUBIC =>
    (deps.gb_cubic_make_line (item.point 0) (item.point 1) (item.point 2) (item.point 3)).foldl
      (fun v point =>
        { v with polygon_points := v.polygon_points ++ [point], count := gb_u16_add v.count 1 })
      v
  | .CLOS => v

/-- One pass of the loop over `impl->codes` of the branch of `gb_path_make_python` for paths
without curves: the counts so far and the `tb_uint16_t count`. -/
def gb_path_make_python_code (v : List Nat × Nat) (code : gb_path_code_e) : List Nat × Nat :=
  let v1 : List Nat × Nat :=
    if code = .MOVE then (if v.2 ≠ 0 then v.1 ++ [v.2] else v.1, 0) else v
  (v1.1, gb_u16_add v1.2 (gb_path_point_step code))

/-- The block "append the last count" and "append the tail count". -/
def gb_path_python_counts (counts : List Nat) (count : Nat) : List Nat :=
  (if count ≠ 0 then counts ++ [count] else counts) ++ [0]

/-- Function `gb_path_make_python`: the returned flag and the path left behind. -/
def gb_path_make_python (deps : gb_deps_t) (impl : gb_path_impl_t) : Bool × gb_path_impl_t :=
  let impl1 : gb_path_impl_t :=
    if impl.flag.curve then
      let v := (gb_path_items impl).foldl (gb_path_make_python_item deps)
        { polygon_points := [], polygon_counts := [], count := 0 }
      { impl with
        polygon_points := v.polygon_points
        polygon_counts := gb_path_python_counts v.polygon_counts v.count
        polygon_ref := .POLYGON_POINTS }
    else
      let v := impl.codes.foldl gb_path_make_python_code ([], 0)
      { impl with
        polygon_counts := gb_path_python_counts v.1 v.2
        polygon_ref := .POINTS }
  let convex := gb_path_convex impl1
  (true, { convex.2 with polygon_convex := convex.1 })

/-- The polygon `impl->polygon` as a caller reads it through its pointers. -/
def gb_path_polygon_value (impl : gb_path_impl_t) : gb_polygon_t :=
  { points :=
      match impl.polygon_ref with
      | .NULL => []
      | .POINTS => impl.points
      | .POLYGON_POINTS => impl.polygon_points
    counts := impl.polygon_counts
    convex := impl.polygon_convex }

/-- Function `gb_path_polygon`: the polygon returned (null for a null path) and the path left
behind. -/
def gb_path_polygon (deps : gb_deps_t) (impl : gb_path_impl_t) :
    Option gb_polygon_t × gb_path_impl_t :=
  if gb_path_null impl then (none, impl)
  else if impl.flag.dirty_polygon then
    let r := gb_path_make_python deps impl
    if r.1 then
      let impl1 : gb_path_impl_t := { r.2 with flag := { r.2.flag with dirty_polygon := false } }
      (some (gb_path_polygon_value impl1), impl1)
    else (none, r.2)
  else (some (gb_path_polygon_value impl), impl)

/-! ### Composers and shape adders -/

/-- Function `gb_path_make_quad_for_arc_to`: the first point, whose `ctrl` is null, is skipped. -/
def gb_path_make_quad_for_arc_to (impl : gb_path_impl_t)
    (call : Option gb_point_t × gb_point_t) : gb_path_impl_t :=
  match call.1 with
  | some ctrl => gb_path_quad_to impl ctrl call.2
  | none => impl

/-- Function `gb_path_make_quad_for_add_arc`: the first point, whose `ctrl` is null, is moved to. -/
def gb_path_make_quad_for_add_arc (impl : gb_path_impl_t)
    (call : Option gb_point_t × gb_point_t) : gb_path_impl_t :=
  match call.1 with
  | some ctrl => gb_path_quad_to impl ctrl call.2
  | none => gb_path_move_to impl call.2

/-- The block "null and dirty? make hint": whether the adder records its shape as the hint. -/
def gb_path_hint_maked (impl : gb_path_impl_t) : Bool :=
  gb_path_null impl && impl.flag.dirty_hint

/-- The block "hint have been maked? remove dirty". -/
def gb_path_hint_done (hint_maked : Bool) (impl : gb_path_impl_t) : gb_path_impl_t :=
  if hint_maked then { impl with flag := { impl.flag with dirty_hint := false } } else impl

/-- Function `gb_path_arc_to`. -/
def gb_path_arc_to (deps : gb_deps_t) (impl : gb_path_impl_t) (arc : gb_arc_t) :
    gb_path_impl_t :=
  let hint_maked := gb_path_hint_maked impl
  let impl1 : gb_path_impl_t := if hint_maked then { impl with hint := .ARC arc } else impl
  gb_path_hint_done hint_maked
    ((deps.gb_arc_make_quad arc).foldl gb_path_make_quad_for_arc_to impl1)

/-- Function `gb_path_path_to`: the codes of `added` are replayed, but for a `MOVE` at the head. -/
def gb_path_path_to (impl added : gb_path_impl_t) : gb_path_impl_t :=
  (gb_path_items added).enum.foldl
    (fun impl ⟨itor, item⟩ =>
      match item.code with
      | .MOVE => if itor ≠ 0 then gb_path_move_to impl (item.point 0) else impl
      | .LINE => gb_path_line_to impl (item.point 1)
      | .QUAD => gb_path_quad_to impl (item.point 1) (item.point 2)
      | .CUBIC => gb_path_cubic_to impl (item.point 1) (item.point 2) (item.point 3)
      | .CLOS => gb_path_clos impl)
    impl

/-- The path and the locals `need_move`, `need_close` of the reversed walks. -/
structure gb_path_rwalk_t where
  impl : gb_path_impl_t
  need_move : Bool
  need_close : Bool

/-- One pass of the body of the loop of `gb_path_rpath_to` and `gb_path_add_rpath`. -/
def gb_path_rwalk_item (w : gb_path_rwalk_t) (item : gb_path_item_t) : gb_path_rwalk_t :=
  let w1 : gb_path_rwalk_t :=
    if w.need_move then { w with impl := gb_path_move_to w.impl (item.point 0), need_move := false }
    else w
  match item.code with
  | .MOVE =>
    let w2 : gb_path_rwalk_t :=
      if w1.need_close then { w1 with impl := gb_path_clos w1.impl, need_close := false } else w1
    { w2 with need_move := true }
  | .LINE => { w1 with impl := gb_path_line_to w1.impl (item.point 0) }
  | .QUAD => { w1 with impl := gb_path_quad_to w1.impl (item.point 1) (item.point 0) }
  | .CUBIC =>
    { w1 with impl := gb_path_cubic_to w1.impl (item.point 2) (item.point 1) (item.point 0) }
  | .CLOS => { w1 with need_close := true }

/-- Function `gb_path_rpath_to`: `tb_rfor_all_if` visits the items of `added` from the last to the
first; `need_move` starts false. -/
def gb_path_rpath_to (impl added : gb_path_impl_t) : gb_path_impl_t :=
  ((gb_path_items added).reverse.foldl gb_path_rwalk_item
    { impl := impl, need_move := false, need_close := false }).impl

/-- Function `gb_path_add_path`. -/
def gb_path_add_path (impl added : gb_path_impl_t) : gb_path_impl_t :=
  if gb_path_null impl then gb_path_copy impl added
  else
    (gb_path_items added).foldl
      (fun impl item =>
        match item.code with
        | .MOVE => gb_path_move_to impl (item.point 0)
        | .LINE => gb_path_line_to impl (item.point 1)
        | .QUAD => gb_path_quad_to impl (item.point 1) (item.point 2)
        | .CUBIC => gb_path_cubic_to impl (item.point 1) (item.point 2) (item.point 3)
        | .CLOS => gb_path_clos impl)
      impl

/-- Function `gb_path_add_rpath`: as `gb_path_rpath_to`, with `need_move` starting true. -/
def gb_path_add_rpath (impl added : gb_path_impl_t) : gb_path_impl_t :=
  ((gb_path_items added).reverse.foldl gb_path_rwalk_item
    { impl := impl, need_move := true, need_close := false }).impl

/-- Function `gb_path_add_line`. -/
def gb_path_add_line (impl : gb_path_impl_t) (line : gb_line_t) : gb_path_impl_t :=
  let hint_maked := gb_path_hint_maked impl
  let impl1 : gb_path_impl_t :=
    if hint_maked then
      { impl with hint := .LINE line, flag := { impl.flag with dirty_hint := false } }
    else impl
  gb_path_hint_done hint_maked (gb_path_line_to (gb_path_move_to impl1 line.p0) line.p1)

/-- Function `gb_path_add_triangle`. -/
def gb_path_add_triangle (impl : gb_path_impl_t) (triangle : gb_triangle_t) : gb_path_impl_t :=
  let hint_maked := gb_path_hint_maked impl
  let impl1 : gb_path_impl_t :=
    if hint_maked then { impl with hint := .TRIANGLE triangle } else impl
  let impl2 := gb_path_move_to impl1 triangle.p0
  let impl3 := gb_path_line_to impl2 triangle.p1
  let impl4 := gb_path_line_to impl3 triangle.p2
  gb_path_hint_done hint_maked (gb_path_clos impl4)

/-- Function `gb_path_add_rect`. -/
def gb_path_add_rect (impl : gb_path_impl_t) (rect : gb_rect_t)
    (direction : gb_rotate_direction_e) : gb_path_impl_t :=
  let hint_maked := gb_path_hint_maked impl
  let impl1 : gb_path_impl_t := if hint_maked then { impl with hint := .RECT rect } else impl
  let impl2 := gb_path_move2_to impl1 rect.x rect.y
  let impl3 :=
    if direction = .CW then
      let a := gb_path_line2_to impl2 (rect.x + rect.w) rect.y
      let b := gb_path_line2_to a (rect.x + rect.w) (rect.y + rect.h)
      gb_path_line2_to b rect.x (rect.y + rect.h)
    else
      let a := gb_path_line2_to impl2 rect.x (rect.y + rect.h)
      let b := gb_path_line2_to a (rect.x + rect.w) (rect.y + rect.h)
      gb_path_line2_to b (rect.x + rect.w) rect.y
  gb_path_hint_done hint_maked (gb_path_clos impl3)

/-- Constant `GB_TAN_PIOVER8` of the fixed-point build. -/
def GB_TAN_PIOVER8 : Int := 27146

/-- Constant `GB_SQRT2_OVER2` of the fixed-point build. -/
def GB_SQRT2_OVER2 : Int := 46341

/-- Constant `GB_DEGREE_360` of the fixed-point build. -/
def GB_DEGREE_360 : Int := 23592960

/-- Function `gb_path_add_ellipse`. -/
def gb_path_add_ellipse (deps : gb_deps_t) (impl : gb_path_impl_t) (ellipse : gb_ellipse_t)
    (direction : gb_rotate_direction_e) : gb_path_impl_t :=
  let hint_maked := gb_path_hint_maked impl
  let impl1 : gb_path_impl_t :=
    if hint_maked then { impl with hint := .ELLIPSE ellipse } else impl
  let rx := ellipse.rx
  let ry := ellipse.ry
  let x0 := ellipse.c.x
  let y0 := ellipse.c.y
  let sx := deps.gb_mul rx GB_TAN_PIOVER8
  let sy := deps.gb_mul ry GB_TAN_PIOVER8
  let mx := deps.gb_mul rx GB_SQRT2_OVER2
  let my := deps.gb_mul ry GB_SQRT2_OVER2
  let x1 := x0 - rx
  let y1 := y0 - ry
  let x2 := x0 + rx
  let y2 := y0 + ry
  let impl2 := gb_path_move2_to impl1 x2 y0
  let impl3 :=
    if direction = .CW then
      let a := gb_path_quad2_to impl2 x2 (y0 + sy) (x0 + mx) (y0 + my)
      let b := gb_path_quad2_to a (x0 + sx) y2 x0 y2
      let c := gb_path_quad2_to b (x0 - sx) y2 (x0 - mx) (y0 + my)
      let d := gb_path_quad2_to c x1 (y0 + sy) x1 y0
      let e := gb_path_quad2_to d x1 (y0 - sy) (x0 - mx) (y0 - my)
      let f := gb_path_quad2_to e (x0 - sx) y1 x0 y1
      let g := gb_path_quad2_to f (x0 + sx) y1 (x0 + mx) (y0 - my)
      gb_path_quad2_to g x2 (y0 - sy) x2 y0
    else
      let a := gb_path_quad2_to impl2 x2 (y0 - sy) (x0 + mx) (y0 - my)
      let b := gb_path_quad2_to a (x0 + sx) y1 x0 y1
      let c := gb_path_quad2_to b (x0 - sx) y1 (x0 - mx) (y0 - my)
      let d := gb_path_quad2_to c x1 (y0 - sy) x1 y0
      let e := gb_path_quad2_to d x1 (y0 + sy) (x0 - mx) (y0 + my)
      let f := gb_path_quad2_to e (x0 - sx) y2 x0 y2
      let g := gb_path_quad2_to f (x0 + sx) y2 (x0 + mx) (y0 + my)
      gb_path_quad2_to g x2 (y0 + sy) x2 y0
  gb_path_hint_done hint_maked (gb_path_clos impl3)

/-- Function `gb_path_add_arc`; `gb_ellipse_make` stores the center and the two radii. -/
def gb_path_add_arc (deps : gb_deps_t) (impl : gb_path_impl_t) (arc : gb_arc_t) :
    gb_path_impl_t :=
  if arc.an ≥ GB_DEGREE_360 ∨ arc.an ≤ -GB_DEGREE_360 then
    gb_path_add_ellipse deps impl ⟨⟨arc.c.x, arc.c.y⟩, arc.rx, arc.ry⟩
      (if arc.an > 0 then .CW else .CCW)
  else
    let hint_maked := gb_path_hint_maked impl
    let impl1 : gb_path_impl_t := if hint_maked then { impl with hint := .ARC arc } else impl
    gb_path_hint_done hint_maked
      ((deps.gb_arc_make_quad arc).foldl gb_path_make_quad_for_add_arc impl1)

/-- Function `gb_path_add_circle`; `gb_ellipse_make` stores the center and the radius twice. -/
def gb_path_add_circle (deps : gb_deps_t) (impl : gb_path_impl_t) (ci : gb_circle_t)
    (direction : gb_rotate_direction_e) : gb_path_impl_t :=
  let hint_maked := gb_path_hint_maked impl
  let impl1 : gb_path_impl_t :=
    if hint_maked then
      { impl with hint := .CIRCLE ci, flag := { impl.flag with dirty_hint := false } }
    else impl
  gb_path_hint_done hint_maked
    (gb_path_add_ellipse deps impl1 ⟨⟨ci.c.x, ci.c.y⟩, ci.r, ci.r⟩ direction)

/-- Function `gb_path_add_round_rect`. -/
def gb_path_add_round_rect (deps : gb_deps_t) (impl : gb_path_impl_t) (rect : gb_round_rect_t)
    (direction : gb_rotate_direction_e) : gb_path_impl_t :=
  if deps.gb_round_rect_is_rect rect then gb_path_add_rect impl rect.bounds direction
  else if deps.gb_round_rect_is_ellipse rect then
    gb_path_add_ellipse deps impl (deps.gb_ellipse_make_from_rect rect.bounds) direction
  else
    let hint_maked := gb_path_hint_maked impl
    let impl1 : gb_path_impl_t :=
      if hint_maked then { impl with hint := .ROUND_RECT rect } else impl
    let xl := rect.bounds.x
    let yt := rect.bounds.y
    let xr := xl + rect.bounds.w
    let yb := yt + rect.bounds.h
    let rx1 := rect.radius_lt.x
    let ry1 := rect.radius_lt.y
    let rx2 := rect.radius_rt.x
    let ry2 := rect.radius_rt.y
    let rx3 := rect.radius_rb.x
    let ry3 := rect.radius_rb.y
    let rx4 := rect.radius_lb.x
    let ry4 := rect.radius_lb.y
    let cx1 := xl + rx1
    let cy1 := yt + ry1
    let cx2 := xr - rx2
    let cy2 := yt + ry2
    let cx3 := xr - rx3
    let cy3 := yb - ry3
    let cx4 := xl + rx4
    let cy4 := yb - ry4
    let sx1 := deps.gb_mul rx1 GB_TAN_PIOVER8
    let sy1 := deps.gb_mul ry1 GB_TAN_PIOVER8
    let mx1 := deps.gb_mul rx1 GB_SQRT2_OVER2
    let my1 := deps.gb_mul ry1 GB_SQRT2_OVER2
    let sx2 := deps.gb_mul rx2 GB_TAN_PIOVER8
    let sy2 := deps.gb_mul ry2 GB_TAN_PIOVER8
    let mx2 := deps.gb_mul rx2 GB_SQRT2_OVER2
    let my2 := deps.gb_mul ry2 GB_SQRT2_OVER2
    let sx3 := deps.gb_mul rx3 GB_TAN_PIOVER8
    let sy3 := deps.gb_mul ry3 GB_TAN_PIOVER8
    let mx3 := deps.gb_mul rx3 GB_SQRT2_OVER2
    let my3 := deps.gb_mul ry3 GB_SQRT2_OVER2
    let sx4 := deps.gb_mul rx4 GB_TAN_PIOVER8
    let sy4 := deps.gb_mul ry4 GB_TAN_PIOVER8
    let mx4 := deps.gb_mul rx4 GB_SQRT2_OVER2
    let my4 := deps.gb_mul ry4 GB_SQRT2_OVER2
    let impl2 := gb_path_move2_to impl1 xl (yt + ry1)
    let impl3 :=
      if direction = .CW then
        let a := gb_path_quad2_to impl2 xl (cy1 - sy1) (cx1 - mx1) (cy1 - my1)
        let b := gb_path_quad2_to a (cx1 - sx1) yt cx1 yt
        let c := gb_path_line2_to b cx2 yt
        let d := gb_path_quad2_to c (cx2 + sx2) yt (cx2 + mx2) (cy2 - my2)
        let e := gb_path_quad2_to d xr (cy2 - sy2) xr cy2
        let f := gb_path_line2_to e xr cy3
        let g := gb_path_quad2_to f xr (cy3 + sy3) (cx3 + mx3) (cy3 + my3)
        let h := gb_path_quad2_to g (cx3 + sx3) yb cx3 yb
        let i := gb_path_line2_to h cx4 yb
        let j := gb_path_quad2_to i (cx4 - sx4) yb (cx4 - mx4) (cy4 + my4)
        let k := gb_path_quad2_to j xl (cy4 + sy4) xl cy4
        gb_path_line2_to k xl cy1
      else
        let a := gb_path_line2_to impl2 xl cy4
        let b := gb_path_quad2_to a (cx4 - rx4) (cy4 + sy4) (cx4 - mx4) (cy4 + my4)
        let c := gb_path_quad2_to b (cx4 - sx4) yb cx4 yb
        let d := gb_path_line2_to c cx3 yb
        let e := gb_path_quad2_to d (cx3 + sx3) yb (cx3 + mx3) (cy3 + my3)
        let f := gb_path_quad2_to e xr (cy3 + sy3) xr cy3
        let g := gb_path_line2_to f xr cy2
        let h := gb_path_quad2_to g xr (cy2 - sy2) (cx2 + mx2) (cy2 - my2)
        let i := gb_path_quad2_to h (cx2 + sx2) yt cx2 yt
        let j := gb_path_line2_to i cx1 yt
        let k := gb_path_quad2_to j (cx1 - sx1) yt (cx1 - mx1) (cy1 - my1)
        gb_path_quad2_to k xl (cy1 - sy1) xl cy1
  gb_path_hint_done hint_maked (gb_path_clos impl3)

/-! ### Sequences of public operations -/

/-- The public operations on one path, with their arguments; the `2` and `2i` variants of the
source only build the argument from its coordinates and call these. -/
inductive gb_path_op where
  | clear
  | last_set (point : gb_point_t)
  | apply (apply : gb_point_t → gb_point_t)
  | convex_set (convex : Bool)
  | bounds
  | convex
  | hint
  | polygon
  | move_to (point : gb_point_t)
  | line_to (point : gb_point_t)
  | quad_to (ctrl point : gb_point_t)
  | cubic_to (ctrl0 ctrl1 point : gb_point_t)
  | clos
  | arc_to (arc : gb_arc_t)
  | add_line (line : gb_line_t)
  | add_arc (arc : gb_arc_t)
  | add_triangle (triangle : gb_triangle_t)
  | add_rect (rect : gb_rect_t) (direction : gb_rotate_direction_e)
  | add_round_rect (rect : gb_round_rect_t) (direction : gb_rotate_direction_e)
  | add_circle (ci : gb_circle_t) (direction : gb_rotate_direction_e)
  | add_ellipse (ellipse : gb_ellipse_t) (direction : gb_rotate_direction_e)

/-- The path that a public operation leaves behind. -/
def gb_path_op.run (deps : gb_deps_t) (impl : gb_path_impl_t) : gb_path_op → gb_path_impl_t
  | .clear => gb_path_clear impl
  | .last_set point => gb_path_last_set impl point
  | .apply f => gb_path_apply impl f
  | .convex_set b => gb_path_convex_set impl b
  | .bounds => (gb_path_bounds impl).2
  | .convex => (gb_path_convex impl).2
  | .hint => (gb_path_hint impl).2
  | .polygon => (gb_path_polygon deps impl).2
  | .move_to point => gb_path_move_to impl point
  | .line_to point => gb_path_line_to impl point
  | .quad_to ctrl point => gb_path_quad_to impl ctrl point
  | .cubic_to ctrl0 ctrl1 point => gb_path_cubic_to impl ctrl0 ctrl1 point
  | .clos => gb_path_clos impl
  | .arc_to arc => gb_path_arc_to deps impl arc
  | .add_line line => gb_path_add_line impl line
  | .add_arc arc => gb_path_add_arc deps impl arc
  | .add_triangle triangle => gb_path_add_triangle impl triangle
  | .add_rect rect direction => gb_path_add_rect impl rect direction
  | .add_round_rect rect direction => gb_path_add_round_rect deps impl rect direction
  | .add_circle ci direction => gb_path_add_circle deps impl ci direction
  | .add_ellipse ellipse direction => gb_path_add_ellipse deps impl ellipse direction

/-- The paths that sequences of public operations build, starting from `gb_path_init`; the
operations with a second path take one that was built the same way. -/
inductive gb_path_reachable (deps : gb_deps_t) : gb_path_impl_t → Prop where
  | init : gb_path_reachable deps gb_path_init
  | op {impl : gb_path_impl_t} (o : gb_path_op) :
      gb_path_reachable deps impl → gb_path_reachable deps (o.run deps impl)
  | copy {impl copied : gb_path_impl_t} :
      gb_path_reachable deps impl → gb_path_reachable deps copied →
      gb_path_reachable deps (gb_path_copy impl copied)
  | path_to {impl added : gb_path_impl_t} :
      gb_path_reachable deps impl → gb_path_reachable deps added →
      gb_path_reachable deps (gb_path_path_to impl added)
  | rpath_to {impl added : gb_path_impl_t} :
      gb_path_reachable deps impl → gb_path_reachable deps added →
      gb_path_reachable deps (gb_path_rpath_to impl added)
  | add_path {impl added : gb_path_impl_t} :
      gb_path_reachable deps impl → gb_path_reachable deps added →
      gb_path_reachable deps (gb_path_add_path impl added)
  | add_rpath {impl added : gb_path_impl_t} :
      gb_path_reachable deps impl → gb_path_reachable deps added →
      gb_path_reachable deps (gb_path_add_rpath impl added)

/-- One instance of the functions that are not among the sources, for evaluating examples:
the 16.16 product, flatteners that hand over the end point alone, an arc that hands over its
center, and round rectangles that are neither rectangles nor ellipses. -/
def gb_deps_sample : gb_deps_t :=
  { gb_mul := fun a b => (a * b) / 65536
    gb_quad_make_line := fun _ _ pe => [pe]
    gb_cubic_make_line := fun _ _ _ pe => [pe]
    gb_arc_make_quad := fun arc => [(none, arc.c)]
    gb_round_rect_is_rect := fun _ => false
    gb_round_rect_is_ellipse := fun _ => false
    gb_ellipse_make_from_rect := fun rect => ⟨⟨rect.x, rect.y⟩, rect.w, rect.h⟩ }

/-- The sum of the steps of the stored codes. -/
def gb_path_steps (codes : List gb_path_code_e) : Nat :=
  (codes.map gb_path_point_step).sum

/-- The number of stored points is the sum of the steps of the stored codes. -/
def gb_path_counted (impl : gb_path_impl_t) : Prop :=
  impl.points.length = gb_path_steps impl.codes

/-! ### Paths entered point by point, and convex polygons -/

/-- The path left by `move_to` of the first point of a contour followed by `line_to` of each
of its further points. -/
def gb_path_add_contour (impl : gb_path_impl_t) (contour : gb_point_t × List gb_point_t) :
    gb_path_impl_t :=
  contour.2.foldl gb_path_line_to (gb_path_move_to impl contour.1)

/-- The path built from `gb_path_init` by entering the contours one after the other, each by
a `move_to` and the `line_to` calls of its further points. -/
def gb_path_of_contours (contours : List (gb_point_t × List gb_point_t)) : gb_path_impl_t :=
  contours.foldl gb_path_add_contour gb_path_init

/-- The path built from `gb_path_init` by entering a polygon as one `move_to`, a `line_to`
for each further vertex, and `clos`. -/
def gb_path_of_polygon : List gb_point_t → gb_path_impl_t
  | [] => gb_path_init
  | p :: ps => gb_path_clos (gb_path_add_contour gb_path_init (p, ps))

/-- Twice the signed area of the triangle `a b c`: positive when `c` lies to the left of the
directed line from `a` to `b`. -/
def gb_orient (a b c : gb_point_t) : Int :=
  (b.x - a.x) * (c.y - a.y) - (b.y - a.y) * (c.x - a.x)

/-- All vertices other than the two ends of an edge lie strictly on the left of that edge,
for every edge `i → i + 1` of the closed polygon. -/
def gb_polygon_left (points : List gb_point_t) : Prop :=
  ∀ i, i < points.length → ∀ j, j < points.length → j ≠ i → j ≠ (i + 1) % points.length →
    0 < gb_orient (points.getD i default) (points.getD ((i + 1) % points.length) default)
      (points.getD j default)

/-- All vertices other than the two ends of an edge lie strictly on the right of that edge,
for every edge of the closed polygon. -/
def gb_polygon_right (points : List gb_point_t) : Prop :=
  ∀ i, i < points.length → ∀ j, j < points.length → j ≠ i → j ≠ (i + 1) % points.length →
    gb_orient (points.getD i default) (points.getD ((i + 1) % points.length) default)
      (points.getD j default) < 0

/-- A strictly convex polygon, given by its vertices in order along the boundary: at least
three vertices, and every edge has all the other vertices strictly on one and the same side. -/
def gb_polygon_strictly_convex (points : List gb_point_t) : Prop :=
  3 ≤ points.length ∧ (gb_polygon_left points ∨ gb_polygon_right points)

/-- The differences of the coordinates of any two vertices fit the 32-bit `tb_fixed_t`. -/
def gb_polygon_fits32 (points : List gb_point_t) : Prop :=
  ∀ p ∈ points, ∀ q ∈ points,
    (-2147483648 ≤ p.x - q.x ∧ p.x - q.x ≤ 2147483647)
      ∧ (-2147483648 ≤ p.y - q.y ∧ p.y - q.y ≤ 2147483647)

instance (points : List gb_point_t) : Decidable (gb_polygon_fits32 points) := by
  unfold gb_polygon_fits32; infer_instance

instance (points : List gb_point_t) : Decidable (gb_polygon_left points) := by
  unfold gb_polygon_left; infer_instance

instance (points : List gb_point_t) : Decidable (gb_polygon_right points) := by
  unfold gb_polygon_right; infer_instance

instance (points : List gb_point_t) : Decidable (gb_polygon_strictly_convex points) := by
  unfold gb_polygon_strictly_convex; infer_instance

/-! ## Curve flattening (`core/impl/geometry.c`)

The scalar is taken over exact arithmetic (`ℚ`), with the macros of the build without
`GB_CONFIG_FLOAT_FIXED`; a point is the pair of its coordinates.  The recursive flatteners
take the depth of recursion they may use as their first argument and give `none` when it is
used up; their result is the list of the points handed to `func`, in the order of the calls. -/

/-- Macro `gb_lsh(x, y)` is `x * (1 << y)`. -/
def gb_lsh (x : ℚ) (y : Nat) : ℚ := x * 2 ^ y

/-- Macro `gb_rsh(x, y)` is `x / (1 << y)`. -/
def gb_rsh (x : ℚ) (y : Nat) : ℚ := x / 2 ^ y

/-- Modelled from the spec: the macro `gb_fabs` (its header is not among the sources; `float.h`
has the absolute value as `gb_abs`), the absolute value that the L1 error of the flatteners is
made of. -/
def gb_fabs (x : ℚ) : ℚ := |x|

/-- Function `gb_geometry_make_quad(pb, cp, pe, func, priv)`: the points handed to `func`, in
order; the first argument bounds the depth of the recursion. -/
def gb_geometry_make_quad : Nat → ℚ × ℚ → ℚ × ℚ → ℚ × ℚ → Option (List (ℚ × ℚ))
  | 0, _, _, _ => none
  | fuel + 1, pb, cp, pe =>
    let mx := cp.1 - gb_rsh (pb.1 + pe.1) 1
    let my := cp.2 - gb_rsh (pb.2 + pe.2) 1
    if gb_fabs mx + gb_fabs my ≤ GB_ONE then some [pe]
    else
      let cpb : ℚ × ℚ := (gb_rsh (pb.1 + cp.1) 1, gb_rsh (pb.2 + cp.2) 1)
      let cpe : ℚ × ℚ := (gb_rsh (cp.1 + pe.1) 1, gb_rsh (cp.2 + pe.2) 1)
      let p0 : ℚ × ℚ := (gb_rsh (cpb.1 + cpe.1) 1, gb_rsh (cpb.2 + cpe.2) 1)
      match gb_geometry_make_quad fuel pb cpb p0 with
      | none => none
      | some head =>
        match gb_geometry_make_quad fuel p0 cpe pe with
        | none => none
        | some tail => some (head ++ tail)

/-- Function `gb_geometry_make_cube(pb, cpb, cpe, pe, func, priv)`: the points handed to
`func`, in order; the first argument bounds the depth of the recursion. -/
def gb_geometry_make_cube :
    Nat → ℚ × ℚ → ℚ × ℚ → ℚ × ℚ → ℚ × ℚ → Option (List (ℚ × ℚ))
  | 0, _, _, _, _ => none
  | fuel + 1, pb, cpb, cpe, pe =>
    let mxb := gb_lsh (cpb.1 - pb.1) 1 + cpb.1 - pe.1
    let myb := gb_lsh (cpb.2 - pb.2) 1 + cpb.2 - pe.2
    let mxe := gb_lsh (cpe.1 - pe.1) 1 + cpe.1 - pb.1
    let mye := gb_lsh (cpe.2 - pe.2) 1 + cpe.2 - pb.2
    let mxb := gb_fabs mxb
    let myb := gb_fabs myb
    let mxe := gb_fabs mxe
    let mye := gb_fabs mye
    let mxb := if mxe < mxb then mxe else mxb
    let myb := if mye < myb then mye else myb
    if mxb + myb ≤ GB_ONE then some [pe]
    else
      let cp0 : ℚ × ℚ := (gb_rsh (cpb.1 + cpe.1) 1, gb_rsh (cpb.2 + cpe.2) 1)
      let cp1 : ℚ × ℚ := (gb_rsh (pb.1 + cpb.1) 1, gb_rsh (pb.2 + cpb.2) 1)
      let cp2 : ℚ × ℚ := (gb_rsh (cpe.1 + pe.1) 1, gb_rsh (cpe.2 + pe.2) 1)
      let pb0 : ℚ × ℚ := (gb_rsh (cp0.1 + cp1.1) 1, gb_rsh (cp0.2 + cp1.2) 1)
      let pe0 : ℚ × ℚ := (gb_rsh (cp0.1 + cp2.1) 1, gb_rsh (cp0.2 + cp2.2) 1)
      let p0 : ℚ × ℚ := (gb_rsh (pb0.1 + pe0.1) 1, gb_rsh (pb0.2 + pe0.2) 1)
      match gb_geometry_make_cube fuel pb cp1 pb0 p0 with
      | none => none
      | some head =>
        match gb_geometry_make_cube fuel p0 pe0 cp2 pe with
        | none => none
        | some tail => some (head ++ tail)

/-! ### The curves that the flatteners approximate -/

/-- The point at parameter `t` of the quadratic Bézier curve with the control points
`pb, cp, pe`. -/
def gb_quad_at (pb cp pe : ℚ × ℚ) (t : ℚ) : ℚ × ℚ :=
  ((1 - t) ^ 2 * pb.1 + 2 * (1 - t) * t * cp.1 + t ^ 2 * pe.1,
   (1 - t) ^ 2 * pb.2 + 2 * (1 - t) * t * cp.2 + t ^ 2 * pe.2)

/-- The point at parameter `t` of the cubic Bézier curve with the control points
`pb, cpb, cpe, pe`. -/
def gb_cubic_at (pb cpb cpe pe : ℚ × ℚ) (t : ℚ) : ℚ × ℚ :=
  ((1 - t) ^ 3 * pb.1 + 3 * (1 - t) ^ 2 * t * cpb.1 + 3 * (1 - t) * t ^ 2 * cpe.1
      + t ^ 3 * pe.1,
   (1 - t) ^ 3 * pb.2 + 3 * (1 - t) ^ 2 * t * cpb.2 + 3 * (1 - t) * t ^ 2 * cpe.2
      + t ^ 3 * pe.2)

/-- The control point between the parameters `u` and `v` of the quadratic curve: the part of
the curve over `[u, v]` is the quadratic curve with the control points
`gb_quad_at u`, `gb_quad_ctrl u v`, `gb_quad_at v`. -/
def gb_quad_ctrl (pb cp pe : ℚ × ℚ) (u v : ℚ) : ℚ × ℚ :=
  ((1 - u) * (1 - v) * pb.1 + (u * (1 - v) + (1 - u) * v) * cp.1 + u * v * pe.1,
   (1 - u) * (1 - v) * pb.2 + (u * (1 - v) + (1 - u) * v) * cp.2 + u * v * pe.2)

/-- The control point of the cubic curve for the parameters `u, v, w`: the part of the curve
over `[u, v]` is the cubic curve with the control points `gb_cubic_at u`,
`gb_cubic_ctrl u u v`, `gb_cubic_ctrl u v v`, `gb_cubic_at v`. -/
def gb_cubic_ctrl (pb cpb cpe pe : ℚ × ℚ) (u v w : ℚ) : ℚ × ℚ :=
  ((1 - u) * (1 - v) * (1 - w) * pb.1
      + (u * (1 - v) * (1 - w) + (1 - u) * v * (1 - w) + (1 - u) * (1 - v) * w) * cpb.1
      + (u * v * (1 - w) + u * (1 - v) * w + (1 - u) * v * w) * cpe.1
      + u * v * w * pe.1,
   (1 - u) * (1 - v) * (1 - w) * pb.2
      + (u * (1 - v) * (1 - w) + (1 - u) * v * (1 - w) + (1 - u) * (1 - v) * w) * cpb.2
      + (u * v * (1 - w) + u * (1 - v) * w + (1 - u) * v * w) * cpe.2
      + u * v * w * pe.2)

/-- The midpoint of the segment from `p` to `q`. -/
def gb_point_mid (p q : ℚ × ℚ) : ℚ × ℚ := ((p.1 + q.1) / 2, (p.2 + q.2) / 2)

/-- The distance from `p` to `q` is at most `d`. -/
def gb_point_within (p q : ℚ × ℚ) (d : ℚ) : Prop :=
  (p.1 - q.1) ^ 2 + (p.2 - q.2) ^ 2 ≤ d ^ 2

/-- The polyline from `p0`, at the parameter `t0`, through the points `tps`, each with its
parameter, ends on `pe` at the parameter `te`; the parameters increase, every point is the
point of `curve` at its parameter, and every segment satisfies `seg`. -/
def gb_flatten_segments (curve : ℚ → ℚ × ℚ) (seg : ℚ → ℚ × ℚ → ℚ → ℚ × ℚ → Prop) :
    ℚ → ℚ × ℚ → List (ℚ × (ℚ × ℚ)) → ℚ → ℚ × ℚ → Prop
  | t0, p0, [], te, pe => t0 = te ∧ p0 = pe
  | t0, p0, tp :: tps, te, pe =>
    t0 < tp.1 ∧ p0 = curve t0 ∧ tp.2 = curve tp.1 ∧ seg t0 p0 tp.1 tp.2 ∧
      gb_flatten_segments curve seg tp.1 tp.2 tps te pe

/-- The midpoint of the segment from `p0` to `p1` is within `GB_ONE` of the point of `curve`
at the middle of the parameter interval `[t0, t1]`. -/
def gb_segment_near (curve : ℚ → ℚ × ℚ) (t0 : ℚ) (p0 : ℚ × ℚ) (t1 : ℚ) (p1 : ℚ × ℚ) : Prop :=
  gb_point_within (gb_point_mid p0 p1) (curve ((t0 + t1) / 2)) GB_ONE

/-- The sum over both axes of the absolute second differences `|pb - 2 cpb + cpe|` and
`|cpb - 2 cpe + pe|` of the control points of a cubic curve; it bounds both end deviations and
the two halves of a curve have at most half of it. -/
def gb_cubic_spread (pb cpb cpe pe : ℚ × ℚ) : ℚ :=
  |pb.1 - 2 * cpb.1 + cpe.1| + |cpb.1 - 2 * cpe.1 + pe.1|
    + (|pb.2 - 2 * cpb.2 + cpe.2| + |cpb.2 - 2 * cpe.2 + pe.2|)

/-- The smaller of the two end deviations `|2 (cpb - pb) + (cpb - pe)|` and
`|2 (cpe - pe) + (cpe - pb)|` of a cubic curve, taken for each axis and summed: the error
with which `gb_geometry_make_cube` decides whether to stop. -/
def gb_cubic_deviation_min (pb cpb cpe pe : ℚ × ℚ) : ℚ :=
  min |2 * (cpb.1 - pb.1) + cpb.1 - pe.1| |2 * (cpe.1 - pe.1) + cpe.1 - pb.1|
    + min |2 * (cpb.2 - pb.2) + cpb.2 - pe.2| |2 * (cpe.2 - pe.2) + cpe.2 - pb.2|

/-- The larger of the two end deviations of a cubic curve, taken for each axis and summed. -/
def gb_cubic_deviation_max (pb cpb cpe pe : ℚ × ℚ) : ℚ :=
  max |2 * (cpb.1 - pb.1) + cpb.1 - pe.1| |2 * (cpe.1 - pe.1) + cpe.1 - pb.1|
    + max |2 * (cpb.2 - pb.2) + cpb.2 - pe.2| |2 * (cpe.2 - pe.2) + cpe.2 - pb.2|

/-- What holds of a segment from `p0` to `p1` that `gb_geometry_make_cube` produces for the
part over `[t0, t1]` of the cubic curve `pb, cpb, cpe, pe`: the smaller end deviation of that
part is at most `GB_ONE`, the midpoint of the segment is within `(GB_ONE + E) / 8` of the
point of the curve at the middle of the interval, in the L1 distance, with `E` the larger end
deviation of the part, and within `GB_ONE` of it when `E ≤ 7`. -/
def gb_cubic_segment_near (pb cpb cpe pe : ℚ × ℚ) (t0 : ℚ) (p0 : ℚ × ℚ) (t1 : ℚ)
    (p1 : ℚ × ℚ) : Prop :=
  let b := gb_cubic_at pb cpb cpe pe t0
  let cb := gb_cubic_ctrl pb cpb cpe pe t0 t0 t1
  let ce := gb_cubic_ctrl pb cpb cpe pe t0 t1 t1
  let e := gb_cubic_at pb cpb cpe pe t1
  let mid := gb_point_mid p0 p1
  let c := gb_cubic_at pb cpb cpe pe ((t0 + t1) / 2)
  gb_cubic_deviation_min b cb ce e ≤ GB_ONE ∧
    |mid.1 - c.1| + |mid.2 - c.2| ≤ (GB_ONE + gb_cubic_deviation_max b cb ce e) / 8 ∧
    (gb_cubic_deviation_max b cb ce e ≤ 7 → gb_point_within mid c GB_ONE)

/-! ### Invariants of the paths that the public operations build -/

/-- A property of paths that `gb_path_init` has and that every step of the public operations
keeps: `gb_path_clear`, the steps that leave the codes, the points, the head and the `CLOSED`
bit alone (the caches and the recorded hint), `gb_path_last_set`, `gb_path_apply` and the
five openers. -/
structure gb_path_invariant (P : gb_path_impl_t → Prop) : Prop where
  init : P gb_path_init
  clear : ∀ p, P (gb_path_clear p)
  frame : ∀ p q, q.codes = p.codes → q.points = p.points → q.head = p.head →
    q.flag.closed = p.flag.closed → P p → P q
  last_set : ∀ p point, P p → P (gb_path_last_set p point)
  apply : ∀ p f, P p → P (gb_path_apply p f)
  move_to : ∀ p point, P p → P (gb_path_move_to p point)
  line_to : ∀ p point, P p → P (gb_path_line_to p point)
  quad_to : ∀ p ctrl point, P p → P (gb_path_quad_to p ctrl point)
  cubic_to : ∀ p ctrl0 ctrl1 point, P p → P (gb_path_cubic_to p ctrl0 ctrl1 point)
  clos : ∀ p, P p → P (gb_path_clos p)

/-- The shape of the stream of a path: the points are counted by the codes, the stream does
not start with `CLOS`, a stream that ends with `CLOS` has the `CLOSED` bit, a `CLOS` is
followed by nothing but a `MOVE`, and no `MOVE` follows a `MOVE`. -/
structure gb_path_wellformed (impl : gb_path_impl_t) : Prop where
  counted : gb_path_counted impl
  first : impl.codes.head? ≠ some .CLOS
  closed : impl.codes.getLast? = some .CLOS → impl.flag.closed = true
  clos_move : impl.codes.Chain' (fun a b => a = gb_path_code_e.CLOS → b = gb_path_code_e.MOVE)
  move_move :
    impl.codes.Chain' (fun a b => ¬(a = gb_path_code_e.MOVE ∧ b = gb_path_code_e.MOVE))

/-! ## Matrix initialisers and in-place scaling (`core/prefix/matrix.c`) -/

/-- Macro `gb_mul(x, y)` is `x * y`. -/
def gb_mul (x y : ℚ) : ℚ := x * y

/-- Function `gb_matrix_init_sincos(matrix, sin, cos)`. -/
def gb_matrix_init_sincos (sin cos : ℚ) : gb_matrix_t :=
  gb_matrix_init cos (-sin) sin cos 0 0

/-- Function `gb_matrix_init_scale(matrix, sx, sy)`. -/
def gb_matrix_init_scale (sx sy : ℚ) : gb_matrix_t :=
  gb_matrix_init sx 0 0 sy 0 0

/-- Function `gb_matrix_init_translate(matrix, tx, ty)`. -/
def gb_matrix_init_translate (tx ty : ℚ) : gb_matrix_t :=
  gb_matrix_init GB_ONE 0 0 GB_ONE tx ty

/-- Function `gb_matrix_scale(matrix, sx, sy)`: the returned flag and the matrix left in
`matrix`. -/
def gb_matrix_scale (matrix : gb_matrix_t) (sx sy : ℚ) : Bool × gb_matrix_t :=
  if ¬ (GB_ONE ≠ sx ∨ GB_ONE ≠ sy) then (true, matrix)
  else
    (true,
      { matrix with
        sx := gb_mul matrix.sx sx
        ky := gb_mul matrix.ky sx
        kx := gb_mul matrix.kx sy
        sy := gb_mul matrix.sy sy })

/-- Function `gb_matrix_translate_lhs(matrix, dx, dy)`: the returned flag and the matrix left
in `matrix`. -/
def gb_matrix_translate_lhs (matrix : gb_matrix_t) (dx dy : ℚ) : Bool × gb_matrix_t :=
  if ¬ (dx ≠ 0 ∨ dy ≠ 0) then (true, matrix)
  else (true, { matrix with tx := matrix.tx + dx, ty := matrix.ty + dy })

/-! ## The not-a-number scalar (`core/prefix/float.h`, build with `GB_CONFIG_FLOAT_FIXED`) -/

/-- Constant `TB_FIXED_NAN` of tbox (not among the sources): `(tb_int_t)0x80000000`. -/
def TB_FIXED_NAN : Int := -2147483648

/-- Constant `GB_NAN` is `TB_FIXED_NAN`. -/
def GB_NAN : Int := TB_FIXED_NAN

/-- Macro `gb_isnan(x)` is `(x) == TB_FIXED_NAN`. -/
def gb_isnan (x : Int) : Bool := decide (x = TB_FIXED_NAN)

/-- Macro `gb_isfinite(x)` is `(x) != TB_FIXED_NAN`. -/
def gb_isfinite (x : Int) : Bool := decide (x ≠ TB_FIXED_NAN)

/-! ## The error that the flattener of quadratic curves tests -/

/-- The L1 distance `|cp.x − (pb.x + pe.x)/2| + |cp.y − (pb.y + pe.y)/2|` from the control point
to the middle of the chord. -/
def gb_quad_error (pb cp pe : ℚ × ℚ) : ℚ :=
  |cp.1 - (pb.1 + pe.1) / 2| + |cp.2 - (pb.2 + pe.2) / 2|

/-! ## Bitmap (`core/bitmap.c`)

The arguments of type `tb_size_t` are natural numbers and the arithmetic on them is taken modulo
`2^64`; the members of type `tb_uint16_t` keep the value modulo `2^16`.  A pointer is its
address, `0` for the null pointer. -/

/-- The value that arithmetic on `tb_size_t` leaves: the low 64 bits. -/
def tb_size_t (x : Nat) : Nat := x % 2 ^ 64

/-- The cast `(tb_uint16_t)x`. -/
def tb_uint16_t (x : Nat) : Nat := x % 2 ^ 16

/-- The parts that `bitmap.c` uses and that are not among the sources: the macro
`GB_PIXFMT_OK`, the constants `GB_WIDTH_MAXN` and `GB_HEIGHT_MAXN`, the member `btp` (bytes per
pixel) of the pixmap that `gb_pixmap(pixfmt, 0xff)` returns (`none` when it returns null), and
the allocator: whether `tb_malloc0_type(gb_bitmap_impl_t)` gives a record, and the pointers
that `tb_malloc0(size)` and `tb_ralloc(data, size)` return. -/
structure gb_bitmap_env_t where
  GB_PIXFMT_OK : Nat → Bool
  GB_WIDTH_MAXN : Nat
  GB_HEIGHT_MAXN : Nat
  gb_pixmap_btp : Nat → Option Nat
  tb_malloc0_type : Bool
  tb_malloc0 : Nat → Nat
  tb_ralloc : Nat → Nat → Nat

/-- The record `gb_bitmap_impl_t`. -/
structure gb_bitmap_impl_t where
  data : Nat
  size : Nat
  is_owner : Bool
  has_alpha : Bool
  pixfmt : Nat
  width : Nat
  height : Nat
  row_bytes : Nat
deriving DecidableEq

/-- Function `gb_bitmap_init(data, pixfmt, width, height, row_bytes, has_alpha)`: the bitmap
returned, `none` for null. -/
def gb_bitmap_init (env : gb_bitmap_env_t) (data pixfmt width height row_bytes : Nat)
    (has_alpha : Bool) : Option gb_bitmap_impl_t :=
  if env.GB_PIXFMT_OK pixfmt = false then none
  else if ¬ (width ≠ 0 ∧ width ≤ env.GB_WIDTH_MAXN ∧ height ≠ 0 ∧ height ≤ env.GB_HEIGHT_MAXN)
  then none
  else if env.tb_malloc0_type = false then none
  else
    match env.gb_pixmap_btp pixfmt with
    | none => none
    | some btp =>
      let row_bytes := if row_bytes = 0 then tb_size_t (width * btp) else row_bytes
      if ¬ (row_bytes ≠ 0 ∧ row_bytes ≥ tb_size_t (width * btp)) then none
      else
        let size := tb_size_t (row_bytes * height)
        let impl : gb_bitmap_impl_t :=
          { pixfmt := tb_uint16_t pixfmt
            width := tb_uint16_t width
            height := tb_uint16_t height
            row_bytes := tb_uint16_t row_bytes
            size := size
            data := if data ≠ 0 then data else env.tb_malloc0 size
            has_alpha := has_alpha
            is_owner := decide (data = 0) }
        if impl.data = 0 then none else some impl

/-- Function `gb_bitmap_data_set(bitmap, data, pixfmt, width, height, row_bytes, has_alpha)`
on a bitmap that is not null: the returned flag and the bitmap left behind. -/
def gb_bitmap_data_set (env : gb_bitmap_env_t) (impl : gb_bitmap_impl_t)
    (data pixfmt width height row_bytes : Nat) (has_alpha : Bool) : Bool × gb_bitmap_impl_t :=
  if data = 0 then (false, impl)
  else if ¬ (width ≠ 0 ∧ width ≤ env.GB_WIDTH_MAXN ∧ height ≠ 0 ∧ height ≤ env.GB_HEIGHT_MAXN)
  then (false, impl)
  else
    match env.gb_pixmap_btp pixfmt with
    | none => (false, impl)
    | some btp =>
      let row_bytes := if row_bytes = 0 then tb_size_t (width * btp) else row_bytes
      if ¬ (row_bytes ≠ 0 ∧ row_bytes ≥ tb_size_t (width * btp)) then (false, impl)
      else
        (true,
          { pixfmt := tb_uint16_t pixfmt
            width := tb_uint16_t width
            height := tb_uint16_t height
            data := data
            size := tb_size_t (row_bytes * height)
            row_bytes := tb_uint16_t row_bytes
            is_owner := true
            has_alpha := has_alpha })

/-- Function `gb_bitmap_resize(bitmap, width, height)` on a bitmap that is not null: the
returned flag and the bitmap left behind. -/
def gb_bitmap_resize (env : gb_bitmap_env_t) (impl : gb_bitmap_impl_t) (width height : Nat) :
    Bool × gb_bitmap_impl_t :=
  if impl.data = 0 then (false, impl)
  else if ¬ (impl.width ≠ width ∨ impl.height ≠ height) then (true, impl)
  else
    match env.gb_pixmap_btp impl.pixfmt with
    | none => (false, impl)
    | some btp =>
      if tb_size_t (tb_size_t (height * width) * btp) ≤ impl.size then
        -- space enough
        let impl1 : gb_bitmap_impl_t :=
          { impl with width := tb_uint16_t width, height := tb_uint16_t height }
        let impl2 : gb_bitmap_impl_t :=
          if impl1.is_owner then { impl1 with row_bytes := tb_uint16_t (tb_size_t (width * btp)) }
          else impl1
        (true, { impl2 with size := tb_size_t (impl2.row_bytes * height) })
      else if impl.is_owner = false then (false, impl)
      else
        -- grow
        let impl1 : gb_bitmap_impl_t :=
          { impl with
            width := tb_uint16_t width
            height := tb_uint16_t height
            row_bytes := tb_uint16_t (tb_size_t (width * btp)) }
        let impl2 : gb_bitmap_impl_t := { impl1 with size := tb_size_t (impl1.row_bytes * height) }
        let impl3 : gb_bitmap_impl_t := { impl2 with data := env.tb_ralloc impl2.data impl2.size }
        if impl3.data = 0 then (false, impl3) else (true, impl3)

/-- Function `gb_bitmap_size`. -/
def gb_bitmap_size (impl : gb_bitmap_impl_t) : Nat := impl.size

/-- Function `gb_bitmap_width`. -/
def gb_bitmap_width (impl : gb_bitmap_impl_t) : Nat := impl.width

/-- Function `gb_bitmap_height`. -/
def gb_bitmap_height (impl : gb_bitmap_impl_t) : Nat := impl.height

/-- Function `gb_bitmap_pixfmt`. -/
def gb_bitmap_pixfmt (impl : gb_bitmap_impl_t) : Nat := impl.pixfmt

/-- Function `gb_bitmap_row_bytes`. -/
def gb_bitmap_row_bytes (impl : gb_bitmap_impl_t) : Nat := impl.row_bytes

/-- An instance of the missing parts for closed statements: the formats `1` to `255` are
accepted and have a pixmap of 4 bytes per pixel, the largest width and height are `8192`, and
the allocator always succeeds. -/
def gb_bitmap_env_sample : gb_bitmap_env_t :=
  { GB_PIXFMT_OK := fun pixfmt => decide (0 < pixfmt ∧ pixfmt < 256)
    GB_WIDTH_MAXN := 8192
    GB_HEIGHT_MAXN := 8192
    gb_pixmap_btp := fun pixfmt => if 0 < pixfmt ∧ pixfmt < 256 then some 4 else none
    tb_malloc0_type := true
    tb_malloc0 := fun _ => 4096
    tb_ralloc := fun _ _ => 8192 }

/-! ## Arc flattening (`core/impl/geometry.c`)

As for the curves, the scalar is taken over exact arithmetic (`ℚ`) with the macros and the
constants of the build without `GB_CONFIG_FLOAT_FIXED`; a point or a vector is the pair of its
coordinates and an arc is given by its members `c`, `rx`, `ry`, `ab`, `an`.  A failed
`tb_assert_abort` ends the run: the result is `none`.  The calls of `func` are listed in order,
each as the pair `(ctrl, point)` of its arguments, `ctrl` being `none` for the null pointer. -/

/-- Constant `GB_TAN_PIOVER8` of the build without `GB_CONFIG_FLOAT_FIXED`, `0.414213562f`,
taken exactly. -/
def float.GB_TAN_PIOVER8 : ℚ := 414213562 / 1000000000

/-- Constant `GB_SQRT2_OVER2` of the build without `GB_CONFIG_FLOAT_FIXED`, `0.707106781f`,
taken exactly. -/
def float.GB_SQRT2_OVER2 : ℚ := 707106781 / 1000000000

/-- Constant `GB_PIOVER180` of the build without `GB_CONFIG_FLOAT_FIXED`, `0.017453293f`,
taken exactly. -/
def float.GB_PIOVER180 : ℚ := 17453293 / 1000000000

/-- Macro `gb_degree_to_radian(x)` is `x * GB_PIOVER180`. -/
def gb_degree_to_radian (x : ℚ) : ℚ := x * float.GB_PIOVER180

/-- Modelled from the spec: the macro `gb_ez` (its header is not among the sources), equal to
zero. -/
def gb_ez (x : ℚ) : Bool := decide (x = 0)

/-- Modelled from the spec: the macro `gb_nz` (its header is not among the sources), not
zero. -/
def gb_nz (x : ℚ) : Bool := decide (x ≠ 0)

/-- Modelled from the spec: the macro `gb_bz` (its header is not among the sources), bigger than
zero; the direction of an arc is its sign, clockwise for a positive sweep angle. -/
def gb_bz (x : ℚ) : Bool := decide (0 < x)

/-- Modelled from the spec: the macro `gb_lz` (its header is not among the sources), less than
zero. -/
def gb_lz (x : ℚ) : Bool := decide (x < 0)

/-- Modelled from the spec: `gb_vector_dot` (`vector.c` is not among the sources), the dot
product, the cosine of the sweep angle between two unit vectors. -/
def gb_vector_dot (vector other : ℚ × ℚ) : ℚ := vector.1 * other.1 + vector.2 * other.2

/-- Modelled from the spec: `gb_vector_cross` (`vector.c` is not among the sources), the cross
product, the sine of the sweep angle between two unit vectors. -/
def gb_vector_cross (vector other : ℚ × ℚ) : ℚ := vector.1 * other.2 - vector.2 * other.1

/-- The table `g_quad_points_of_unit_circle`: the quad points of the clockwise unit circle. -/
def g_quad_points_of_unit_circle : List (ℚ × ℚ) :=
  [ -- move-to
    (GB_ONE, 0),
    -- part1
    (GB_ONE, float.GB_TAN_PIOVER8),
    (float.GB_SQRT2_OVER2, float.GB_SQRT2_OVER2),
    (float.GB_TAN_PIOVER8, GB_ONE),
    (0, GB_ONE),
    -- part2
    (-float.GB_TAN_PIOVER8, GB_ONE),
    (-float.GB_SQRT2_OVER2, float.GB_SQRT2_OVER2),
    (-GB_ONE, float.GB_TAN_PIOVER8),
    (-GB_ONE, 0),
    -- part3
    (-GB_ONE, -float.GB_TAN_PIOVER8),
    (-float.GB_SQRT2_OVER2, -float.GB_SQRT2_OVER2),
    (-float.GB_TAN_PIOVER8, -GB_ONE),
    (0, -GB_ONE),
    -- part4
    (float.GB_TAN_PIOVER8, -GB_ONE),
    (float.GB_SQRT2_OVER2, -float.GB_SQRT2_OVER2),
    (GB_ONE, -float.GB_TAN_PIOVER8),
    (GB_ONE, 0) ]

/-- The first part of `gb_geometry_make_arc2`, up to "init the applied matrix": the `count`
points left in `points`, the start point followed by the quad pairs of the unit arc. -/
def gb_geometry_make_arc2_points (start stop : ℚ × ℚ) (direction : gb_rotate_direction_e) :
    Option (List (ℚ × ℚ)) :=
  -- the cos and sin value of the sweep angle
  let sweep_x := gb_vector_dot start stop
  let sweep_y := gb_vector_cross start stop
  let sweep_abs_x := gb_fabs sweep_x
  let sweep_abs_y := gb_fabs sweep_y
  if sweep_abs_y ≤ GB_NEAR0 ∧ gb_bz sweep_x = true
      ∧ ((gb_lz sweep_y = false ∧ direction = .CW)
        ∨ (gb_bz sweep_y = false ∧ direction = .CCW)) then
    some [(GB_ONE, 0)]
  else
    let sweep_y := if direction = .CCW then -sweep_y else sweep_y
    let count : Option Nat :=
      if gb_ez sweep_y = true then
        if gb_fabs (sweep_x + GB_ONE) ≤ GB_NEAR0 then some (1 + 8) else none
      else if gb_ez sweep_x = true then
        if sweep_abs_y - GB_ONE ≤ GB_NEAR0 then some (1 + (if sweep_y > 0 then 4 else 12))
        else none
      else
        let count := if gb_lz sweep_y = true then 1 + 8 else 1
        let r : Nat × Bool :=
          if gb_lz sweep_x ≠ gb_lz sweep_y then (count + 4, false) else (count, true)
        some (if decide (sweep_abs_x < sweep_abs_y) = r.2 then r.1 + 2 else r.1)
    match count with
    | none => none
    | some count =>
      if ¬ (count % 2 = 1 ∧ count ≤ g_quad_points_of_unit_circle.length) then none
      else
        let points := g_quad_points_of_unit_circle.take count
        if gb_nz sweep_abs_x = true ∧ gb_nz sweep_abs_y = true
            ∧ sweep_abs_x ≠ float.GB_SQRT2_OVER2 ∧ sweep_abs_y ≠ float.GB_SQRT2_OVER2 then
          let patched_start : ℚ × ℚ := points.getD (count - 1) (0, 0)
          let patched_stop : ℚ × ℚ := (sweep_x, sweep_y)
          let applied_matrix := gb_matrix_init_sincos patched_start.2 patched_start.1
          let cos_a := gb_vector_dot patched_start patched_stop
          let sin_a := gb_vector_cross patched_start patched_stop
          let tan_a := gb_div sin_a (cos_a + GB_ONE)
          let ctrl := gb_point_apply (GB_ONE, tan_a) applied_matrix
          some (points ++ [ctrl, patched_stop])
        else some points

/-- The loop "walk points" of `gb_geometry_make_arc2`: the calls `func(pb, pb + 1, priv)`
after both points have had the matrix applied. -/
def gb_geometry_make_arc2_walk (applied_matrix : gb_matrix_t) :
    List (ℚ × ℚ) → List (Option (ℚ × ℚ) × (ℚ × ℚ))
  | pb :: pe :: points =>
    (some (gb_point_apply pb applied_matrix), gb_point_apply pe applied_matrix)
      :: gb_geometry_make_arc2_walk applied_matrix points
  | _ => []

/-- The calls of `func` that the second part of `gb_geometry_make_arc2` makes for the points
left in `points`: the first point with a null `ctrl`, then the walk over the pairs. -/
def gb_geometry_make_arc2_done (applied_matrix : gb_matrix_t) :
    List (ℚ × ℚ) → List (Option (ℚ × ℚ) × (ℚ × ℚ))
  | [] => []
  | point :: points =>
    (none, gb_point_apply point applied_matrix)
      :: gb_geometry_make_arc2_walk applied_matrix points

/-- The matrix that `gb_geometry_make_arc2` applies to the points: the rotation of the start
vector, scaled by `(1, -1)` for the counter-clockwise direction, multiplied on the left
by `matrix` when there is one. -/
def gb_geometry_make_arc2_matrix (start : ℚ × ℚ) (matrix : Option gb_matrix_t)
    (direction : gb_rotate_direction_e) : gb_matrix_t :=
  let applied_matrix := gb_matrix_init_sincos start.2 start.1
  let applied_matrix :=
    if direction = .CCW then (gb_matrix_scale applied_matrix GB_ONE (-GB_ONE)).2
    else applied_matrix
  match matrix with
  | some matrix => (gb_matrix_multiply_lhs applied_matrix matrix).2
  | none => applied_matrix

/-- Function `gb_geometry_make_arc2(start, stop, matrix, direction, func, priv)`: the calls of
`func`, in order. -/
def gb_geometry_make_arc2 (start stop : ℚ × ℚ) (matrix : Option gb_matrix_t)
    (direction : gb_rotate_direction_e) : Option (List (Option (ℚ × ℚ) × (ℚ × ℚ))) :=
  match gb_geometry_make_arc2_points start stop direction with
  | none => none
  | some points =>
    some (gb_geometry_make_arc2_done (gb_geometry_make_arc2_matrix start matrix direction) points)

/-- Function `gb_geometry_make_arc(arc, func, priv)`: the calls of `func`, in order.
`gb_sincos` (`tb_sincosf` of tbox) is an argument: it gives the sine and the cosine of a
radian value, in this order. -/
def gb_geometry_make_arc (gb_sincos : ℚ → ℚ × ℚ) (c : ℚ × ℚ) (rx ry ab an : ℚ) :
    Option (List (Option (ℚ × ℚ) × (ℚ × ℚ))) :=
  if gb_ez rx = true ∧ gb_ez ry = true then some [(none, (c.1, c.2))]
  else
    let start : ℚ × ℚ :=
      ((gb_sincos (gb_degree_to_radian ab)).2, (gb_sincos (gb_degree_to_radian ab)).1)
    let stop : ℚ × ℚ :=
      ((gb_sincos (gb_degree_to_radian (ab + an))).2,
        (gb_sincos (gb_degree_to_radian (ab + an))).1)
    let matrix := gb_matrix_init_scale rx ry
    let matrix := (gb_matrix_translate_lhs matrix c.1 c.2).2
    gb_geometry_make_arc2 start stop (some matrix)
      (if gb_bz an = true then .CW else .CCW)

/-- Spec side: the placement `translate(c) · scale(rx, ry) · rotate-by-start · scale(1, −1)`
of a point `q` of the unit arc, read from right to left, the factor `scale(1, −1)` present
only when the sweep angle `an` is not positive; `co` and `s` are the cosine and the sine of
the start angle. -/
def gb_arc_place (c : ℚ × ℚ) (rx ry co s an : ℚ) (q : ℚ × ℚ) : ℚ × ℚ :=
  let flipped : ℚ × ℚ := if 0 < an then q else (q.1, -q.2)
  let rotated : ℚ × ℚ := (co * flipped.1 - s * flipped.2, s * flipped.1 + co * flipped.2)
  let scaled : ℚ × ℚ := (rx * rotated.1, ry * rotated.2)
  (c.1 + scaled.1, c.2 + scaled.2)


/-! ## Matrix: pivot initialisers and in-place translation (`core/prefix/matrix.c`) -/

/-- Function `gb_matrix_init_sincosp(matrix, sin, cos, px, py)`. -/
def gb_matrix_init_sincosp (sin cos px py : ℚ) : gb_matrix_t :=
  let one_cos := GB_ONE - cos
  gb_matrix_init cos (-sin) sin cos (gb_mul sin py + gb_mul one_cos px)
    (gb_mul (-sin) px + gb_mul one_cos py)

/-- Function `gb_matrix_init_skewp(matrix, kx, ky, px, py)`. -/
def gb_matrix_init_skewp (kx ky px py : ℚ) : gb_matrix_t :=
  gb_matrix_init GB_ONE kx ky GB_ONE (gb_mul (-kx) py) (gb_mul (-ky) px)

/-- Function `gb_matrix_init_scalep(matrix, sx, sy, px, py)`. -/
def gb_matrix_init_scalep (sx sy px py : ℚ) : gb_matrix_t :=
  gb_matrix_init sx 0 0 sy (px - gb_mul sx px) (py - gb_mul sy py)

/-- Function `gb_matrix_translate(matrix, dx, dy)`: the returned flag and the matrix left in
`matrix`. -/
def gb_matrix_translate (matrix : gb_matrix_t) (dx dy : ℚ) : Bool × gb_matrix_t :=
  if ¬ (dx ≠ 0 ∨ dy ≠ 0) then (true, matrix)
  else
    (true,
      { matrix with
        tx := gb_matrix_mul_add matrix.sx dx matrix.kx dy + matrix.tx
        ty := gb_matrix_mul_add matrix.ky dx matrix.sy dy + matrix.ty })

/-! ## The second differences of a cubic curve -/

/-- The largest absolute second difference `|pb - 2 cpb + cpe|`, `|cpb - 2 cpe + pe|` of the
control points of a cubic curve, over both axes. -/
def gb_cubic_second (pb cpb cpe pe : ℚ × ℚ) : ℚ :=
  max (max |pb.1 - 2 * cpb.1 + cpe.1| |cpb.1 - 2 * cpe.1 + pe.1|)
    (max |pb.2 - 2 * cpb.2 + cpe.2| |cpb.2 - 2 * cpe.2 + pe.2|)

/-! ## The point count of `gb_geometry_make_arc2` -/

/-- The value of `count` in `gb_geometry_make_arc2` when `tb_assert_abort((count & 0x1) &&
count <= tb_arrayn(g_quad_points_of_unit_circle))` is reached, for a sweep that is not nearly
zero: one for the move-to point and two for each quadratic curve; `none` when one of the two
checks on the sweep before it fails.  `sweep_y` is the value after the reversal for the
counter-clockwise direction. -/
def gb_geometry_make_arc2_count (sweep_x sweep_y : ℚ) : Option Nat :=
  let sweep_abs_x := gb_fabs sweep_x
  let sweep_abs_y := gb_fabs sweep_y
  if gb_ez sweep_y = true then
    if gb_fabs (sweep_x + GB_ONE) ≤ GB_NEAR0 then some (1 + 8) else none
  else if gb_ez sweep_x = true then
    if sweep_abs_y - GB_ONE ≤ GB_NEAR0 then some (1 + (if sweep_y > 0 then 4 else 12))
    else none
  else
    let count := if gb_lz sweep_y = true then 1 + 8 else 1
    let r : Nat × Bool :=
      if gb_lz sweep_x ≠ gb_lz sweep_y then (count + 4, false) else (count, true)
    some (if decide (sweep_abs_x < sweep_abs_y) = r.2 then r.1 + 2 else r.1)

/-! ## The packed position of the path iterator (`core/path.c`) -/

/-- Function `gb_path_itor_head`. -/
def gb_path_itor_head : Nat := 0

/-- Function `gb_path_itor_tail`: `(code_tail << 16) | point_tail`. -/
def gb_path_itor_tail (impl : gb_path_impl_t) : Nat :=
  tb_size_t (impl.codes.length <<< 16) ||| impl.points.length

/-- Function `gb_path_itor_next`: `itor + (0x10000 | gb_path_point_step(code))` for the code
at the index `itor >> 16`; `none` when there is no code at that index. -/
def gb_path_itor_next (impl : gb_path_impl_t) (itor : Nat) : Option Nat :=
  match impl.codes.get? (itor >>> 16) with
  | none => none
  | some code => some (tb_size_t (itor + (0x10000 ||| gb_path_point_step code)))

/-- Function `gb_path_itor_prev`: `itor - (0x10000 | gb_path_point_step(code))` for the code
at the index `(itor >> 16) - 1`; `none` when there is no code at that index. -/
def gb_path_itor_prev (impl : gb_path_impl_t) (itor : Nat) : Option Nat :=
  if itor >>> 16 = 0 then none
  else
    match impl.codes.get? ((itor >>> 16) - 1) with
    | none => none
    | some code => some (tb_size_t (itor + 2 ^ 64 - (0x10000 ||| gb_path_point_step code)))

/-- Function `gb_path_itor_item` at a packed position: the code index is `itor >> 16` and the
point index `itor & 0xffff`. -/
def gb_path_itor_item_at (impl : gb_path_impl_t) (itor : Nat) : Option gb_path_item_t :=
  gb_path_itor_item impl (itor >>> 16) (itor &&& 0xffff)

/-- The position that `i` applications of `gb_path_itor_next` reach from
`gb_path_itor_head`. -/
def gb_path_itor_walk (impl : gb_path_impl_t) : Nat → Option Nat
  | 0 => some gb_path_itor_head
  | i + 1 => (gb_path_itor_walk impl i).bind (gb_path_itor_next impl)

/-! ## ARGB4444 pixels (`core/pixmap/argb4444.h`)

A pixel buffer is the list of its 16-bit pixels, which `tb_bits_get_u16_le` and
`tb_bits_set_u16_le` of tbox read and write; a pointer into it is an index.  The arithmetic on
`tb_uint32_t` is taken modulo `2^32`. -/

/-- The value that arithmetic on `tb_uint32_t` leaves: the low 32 bits. -/
def tb_uint32_t (x : Nat) : Nat := x % 2 ^ 32

/-- Function `gb_pixmap_argb4444_blend(d, s, a)`. -/
def gb_pixmap_argb4444_blend (d s a : Nat) : Nat :=
  let s := (s ||| tb_uint32_t (s <<< 12)) &&& 0x0f0f0f0f
  let d := (d ||| tb_uint32_t (d <<< 12)) &&& 0x0f0f0f0f
  let d := tb_uint32_t ((tb_uint32_t (tb_uint32_t (s + 2 ^ 32 - d) * a) >>> 5) + d) &&& 0x0f0f0f0f
  tb_uint16_t ((d &&& 0xffff) ||| (d >>> 12))

/-- Function `gb_pixmap_argb4444_blend2(d, s, a)`. -/
def gb_pixmap_argb4444_blend2 (d s a : Nat) : Nat :=
  let d := (d ||| tb_uint32_t (d <<< 12)) &&& 0x0f0f0f0f
  let d := tb_uint32_t ((tb_uint32_t (tb_uint32_t (s + 2 ^ 32 - d) * a) >>> 5) + d) &&& 0x0f0f0f0f
  tb_uint16_t ((d &&& 0xffff) ||| (d >>> 12))

/-- Function `gb_pixmap_argb4444_pixel_set_la(data, pixel, alpha)` for `data` pointing at the
pixel with the given index of a buffer. -/
def gb_pixmap_argb4444_pixel_set_la (data : List Nat) (index pixel alpha : Nat) : List Nat :=
  data.set index (gb_pixmap_argb4444_blend (data.getD index 0) pixel (alpha >>> 3))

/-- Function `gb_pixmap_argb4444_pixels_fill_la(data, pixel, count, alpha)` for `data`
pointing at the first pixel of a buffer: the unrolled loop runs `count / 4` times over four
pixels, the second loop over the `count & 0x3` pixels left. -/
def gb_pixmap_argb4444_pixels_fill_la (data : List Nat) (pixel count alpha : Nat) : List Nat :=
  let l := count &&& 0x3
  let count := count - l
  let alpha := alpha >>> 3
  let s := (pixel ||| tb_uint32_t (pixel <<< 16)) &&& 0x0f0f0f0f
  let data :=
    (List.range (count / 4)).foldl
      (fun data k =>
        let p := 4 * k
        let data := data.set p (gb_pixmap_argb4444_blend2 (data.getD p 0) s alpha)
        let data := data.set (p + 1) (gb_pixmap_argb4444_blend2 (data.getD (p + 1) 0) s alpha)
        let data := data.set (p + 2) (gb_pixmap_argb4444_blend2 (data.getD (p + 2) 0) s alpha)
        data.set (p + 3) (gb_pixmap_argb4444_blend2 (data.getD (p + 3) 0) s alpha))
      data
  (List.range l).foldl
    (fun data k =>
      let p := count + k
      data.set p (gb_pixmap_argb4444_blend2 (data.getD p 0) s alpha))
    data

/-- The 4-bit channel `c` of an ARGB4444 pixel: `0` blue, `1` green, `2` red, `3` alpha. -/
def gb_pixmap_argb4444_channel (pixel c : Nat) : Nat := (pixel >>> (4 * c)) &&& 0xf

/-- The blend `(s_c·a + d_c·(32 − a)) >> 5` of one channel, as the comment on
`gb_pixmap_argb4444_blend` gives it. -/
def gb_pixmap_argb4444_blend_channel (d s a c : Nat) : Nat :=
  (gb_pixmap_argb4444_channel s c * a + gb_pixmap_argb4444_channel d c * (32 - a)) >>> 5

/-! ## Active regions of the tessellator (`utils/impl/tessellator/active_region.c`)

A reference to a mesh edge or vertex is its address.  The list `impl->active_regions` of tbox
is the list of its nodes in order, each with its iterator (the address of the node, never `0`,
which stands for `tb_iterator_tail`) and the region stored in it.  A failed
`tb_assertf_abort` ends the run: the result is `none`. -/

/-- The active region `gb_tessellator_active_region_t`. -/
structure gb_tessellator_active_region_t where
  position : Nat
  edge : Nat
  winding : Int
  dirty : Bool
  inside : Bool
  bounds : Bool
  fixedge : Bool
deriving DecidableEq

/-- The parts of the mesh and of the geometry of the tessellator that `active_region.c` uses
and that are not among the sources: the origin and the destination of an edge, whether an edge
goes up, and the three predicates on vertices. -/
structure gb_tessellator_deps_t where
  gb_mesh_edge_org : Nat → Nat
  gb_mesh_edge_dst : Nat → Nat
  gb_tessellator_edge_go_up : Nat → Bool
  gb_tessellator_vertex_in_top_or_hleft_or_eq : Nat → Nat → Bool
  gb_tessellator_vertex_on_edge_or_left : Nat → Nat → Nat → Bool
  gb_tessellator_vertex_on_edge_or_right : Nat → Nat → Nat → Bool

/-- The members of `gb_tessellator_impl_t` that the insertion of a region touches: the list
`active_regions`, and for each edge the member `region` of its `gb_tessellator_edge_t`, kept
as the iterator of the node that holds the region pointed at (`0` for null). -/
structure gb_tessellator_impl_t where
  active_regions : List (Nat × gb_tessellator_active_region_t)
  edge_region : Nat → Nat

/-- Function `gb_tessellator_active_region_leq(lregion, rregion)`. -/
def gb_tessellator_active_region_leq (deps : gb_tessellator_deps_t)
    (lregion rregion : gb_tessellator_active_region_t) : Option Bool :=
  let ledge_org := deps.gb_mesh_edge_org lregion.edge
  let ledge_dst := deps.gb_mesh_edge_dst lregion.edge
  let redge_org := deps.gb_mesh_edge_org rregion.edge
  let redge_dst := deps.gb_mesh_edge_dst rregion.edge
  -- two edges must go up
  if deps.gb_tessellator_edge_go_up lregion.edge = false then none
  else if deps.gb_tessellator_edge_go_up rregion.edge = false then none
  else if ledge_dst = redge_dst then
    if ledge_org = redge_org then some true
    else if deps.gb_tessellator_vertex_in_top_or_hleft_or_eq ledge_org redge_org = true then
      some (deps.gb_tessellator_vertex_on_edge_or_left ledge_org redge_dst redge_org)
    else some (deps.gb_tessellator_vertex_on_edge_or_right redge_org ledge_dst ledge_org)
  else
    if deps.gb_tessellator_vertex_in_top_or_hleft_or_eq ledge_dst redge_dst = true then
      some (deps.gb_tessellator_vertex_on_edge_or_right redge_dst ledge_dst ledge_org)
    else some (deps.gb_tessellator_vertex_on_edge_or_left ledge_dst redge_dst redge_org)

/-- Function `gb_tessellator_active_region_comp`: `(!leq(ldata, rdata) << 1) - 1`. -/
def gb_tessellator_active_region_comp (deps : gb_tessellator_deps_t)
    (ldata rdata : gb_tessellator_active_region_t) : Option Int :=
  (gb_tessellator_active_region_leq deps ldata rdata).map
    (fun leq => (if leq = false then 1 else 0) * 2 - 1)

/-- The predicate `tb_predicate_beq` of tbox on the active regions:
`tb_iterator_comp(iterator, item, value) >= 0`. -/
def tb_predicate_beq (deps : gb_tessellator_deps_t)
    (item value : gb_tessellator_active_region_t) : Option Bool :=
  (gb_tessellator_active_region_comp deps item value).map (fun comp => decide (comp ≥ 0))

/-- The iterator `tb_iterator_tail` of a list. -/
def tb_iterator_tail : Nat := 0

/-- The iterator `tb_iterator_head` of a list: that of its first node, the tail when it is
empty. -/
def tb_iterator_head {α : Type} (list : List (Nat × α)) : Nat :=
  match list with
  | [] => tb_iterator_tail
  | node :: _ => node.1

/-- The walk of `tb_find_if` of tbox over the nodes up to the tail: the iterator of the first
node whose item satisfies the predicate, the tail when there is none. -/
def tb_find_if_walk {α : Type} (pred : α → Option Bool) : List (Nat × α) → Option Nat
  | [] => some tb_iterator_tail
  | node :: nodes =>
    match pred node.2 with
    | none => none
    | some true => some node.1
    | some false => tb_find_if_walk pred nodes

/-- The call `tb_find_if(list, head, tb_iterator_tail(list), pred, value)` of tbox. -/
def tb_find_if {α : Type} (list : List (Nat × α)) (head : Nat) (pred : α → Option Bool) :
    Option Nat :=
  tb_find_if_walk pred (list.dropWhile (fun node => node.1 ≠ head))

/-- The iterator of the node that `tb_list_insert_prev` of tbox makes: an address that no
node of the list has and that is not the tail. -/
def tb_list_node_new {α : Type} (list : List (Nat × α)) : Nat :=
  (list.map Prod.fst).foldl max 0 + 1

/-- Function `tb_list_insert_prev(list, itor, data)` of tbox: the list with the new node
before the node at `itor`, at the end for the tail. -/
def tb_list_insert_prev {α : Type} (list : List (Nat × α)) (itor : Nat) (data : α) :
    List (Nat × α) :=
  list.takeWhile (fun node => node.1 ≠ itor)
    ++ (tb_list_node_new list, data) :: list.dropWhile (fun node => node.1 ≠ itor)

/-- Function `gb_tessellator_active_regions_insert_done(impl, prev, region)`: the state left
and the iterator of the node that holds the region returned. -/
def gb_tessellator_active_regions_insert_done (deps : gb_tessellator_deps_t)
    (impl : gb_tessellator_impl_t) (prev : Nat) (region : gb_tessellator_active_region_t) :
    Option (gb_tessellator_impl_t × Nat) :=
  -- the edge must go up
  if deps.gb_tessellator_edge_go_up region.edge = false then none
  else
    match tb_find_if impl.active_regions prev (fun item => tb_predicate_beq deps item region) with
    | none => none
    | some itor =>
      let list := tb_list_insert_prev impl.active_regions itor region
      let itor := tb_list_node_new impl.active_regions
      -- save the region position in the real region
      let list := list.map (fun node =>
        if node.1 = itor then (node.1, { node.2 with position := itor }) else node)
      -- save the region reference to the edge
      some ({ active_regions := list
              edge_region := Function.update impl.edge_region region.edge itor }, itor)

/-- Function `gb_tessellator_active_regions_insert(impl, region)`. -/
def gb_tessellator_active_regions_insert (deps : gb_tessellator_deps_t)
    (impl : gb_tessellator_impl_t) (region : gb_tessellator_active_region_t) :
    Option (gb_tessellator_impl_t × Nat) :=
  gb_tessellator_active_regions_insert_done deps impl (tb_iterator_head impl.active_regions)
    region

/-- Function `gb_tessellator_active_regions_insert_after(impl, region_prev, region)`; the
`tb_assert` checks on `region_prev` leave the run as it is. -/
def gb_tessellator_active_regions_insert_after (deps : gb_tessellator_deps_t)
    (impl : gb_tessellator_impl_t) (region_prev region : gb_tessellator_active_region_t) :
    Option (gb_tessellator_impl_t × Nat) :=
  gb_tessellator_active_regions_insert_done deps impl region_prev.position region

/-- The active regions are sorted: every region is `leq` every region after it. -/
def gb_tessellator_active_regions_sorted (deps : gb_tessellator_deps_t)
    (list : List (Nat × gb_tessellator_active_region_t)) : Prop :=
  list.Pairwise (fun l r => gb_tessellator_active_region_leq deps l.2 r.2 = some true)

/-- The nodes of a list have different iterators, none of them the tail. -/
def tb_list_wellformed {α : Type} (list : List (Nat × α)) : Prop :=
  (list.map Prod.fst).Nodup ∧ tb_iterator_tail ∉ list.map Prod.fst

/-- An instance of the missing parts for closed statements: the edge `e` is the vertical edge
at `x = e` that goes up from its origin `(e, 1)`, the vertex `2 e + 1`, to its destination
`(e, 0)`, the vertex `2 e`; a vertex is in top or horizontally left of another when its `y`
is less, or equal with `x` not greater. -/
def gb_tessellator_deps_sample : gb_tessellator_deps_t :=
  { gb_mesh_edge_org := fun edge => 2 * edge + 1
    gb_mesh_edge_dst := fun edge => 2 * edge
    gb_tessellator_edge_go_up := fun _ => true
    gb_tessellator_vertex_in_top_or_hleft_or_eq := fun v w =>
      decide (v % 2 < w % 2 ∨ (v % 2 = w % 2 ∧ v / 2 ≤ w / 2))
    gb_tessellator_vertex_on_edge_or_left := fun v upper _ => decide (v / 2 ≤ upper / 2)
    gb_tessellator_vertex_on_edge_or_right := fun v upper _ => decide (upper / 2 ≤ v / 2) }

/-- What an insertion of `region` has to leave, given the nodes `before` that the search
skips: the call returns the iterator of a new node; the list is the old one with the new node
put in after `before`, all other nodes as they were and in their order; the new node holds
`region` with its `position` set to the iterator of the node; the edge of `region` refers to
that node; and the list is sorted, with different iterators. -/
def gb_tessellator_active_regions_inserted (deps : gb_tessellator_deps_t)
    (impl : gb_tessellator_impl_t) (region : gb_tessellator_active_region_t)
    (before : List (Nat × gb_tessellator_active_region_t))
    (result : Option (gb_tessellator_impl_t × Nat)) : Prop :=
  ∃ (l r : List (Nat × gb_tessellator_active_region_t)) (impl' : gb_tessellator_impl_t)
      (itor : Nat),
    result = some (impl', itor)
    ∧ impl.active_regions = before ++ l ++ r
    ∧ itor ∉ impl.active_regions.map Prod.fst
    ∧ impl'.active_regions = before ++ l ++ (itor, { region with position := itor }) :: r
    ∧ impl'.edge_region region.edge = itor
    ∧ (∀ edge : Nat, edge ≠ region.edge → impl'.edge_region edge = impl.edge_region edge)
    ∧ gb_tessellator_active_regions_sorted deps impl'.active_regions
    ∧ tb_list_wellformed impl'.active_regions
/-! ## Matrix theorems -/

theorem gb_matrix_identity_iff (m : gb_matrix_t) :
    gb_matrix_identity m = true ↔ m = gb_matrix_clear := by
  cases m
  simp only [gb_matrix_identity, gb_matrix_clear, gb_matrix_init, GB_ONE, Bool.and_eq_true,
    decide_eq_true_eq, gb_matrix_t.mk.injEq]
  constructor
  · rintro ⟨⟨⟨⟨⟨h1, h2⟩, h3⟩, h4⟩, h5⟩, h6⟩
    exact ⟨h1.symm, h3.symm, h4.symm, h2.symm, h5.symm, h6.symm⟩
  · rintro ⟨h1, h2, h3, h4, h5, h6⟩
    exact ⟨⟨⟨⟨⟨h1.symm, h4.symm⟩, h2.symm⟩, h3.symm⟩, h5.symm⟩, h6.symm⟩

theorem gb_point_apply_clear (p : ℚ × ℚ) : gb_point_apply p gb_matrix_clear = p := by
  simp [gb_point_apply, gb_matrix_clear, gb_matrix_init, GB_ONE]

theorem gb_matrix_multiply_clear_left (N : gb_matrix_t) :
    (gb_matrix_multiply gb_matrix_clear N).2 = N := by
  unfold gb_matrix_multiply
  split
  · rename_i h
    exact ((gb_matrix_identity_iff N).1 h).symm
  · cases N
    simp [gb_matrix_clear, gb_matrix_init, gb_matrix_mul_add, GB_ONE]

theorem gb_matrix_multiply_eq (M N : gb_matrix_t) :
    (gb_matrix_multiply M N).2 =
      { sx := M.sx * N.sx + M.kx * N.ky
        ky := M.ky * N.sx + M.sy * N.ky
        kx := M.sx * N.kx + M.kx * N.sy
        sy := M.ky * N.kx + M.sy * N.sy
        tx := M.sx * N.tx + M.kx * N.ty + M.tx
        ty := M.ky * N.tx + M.sy * N.ty + M.ty } := by
  unfold gb_matrix_multiply
  split
  · rename_i h
    rw [(gb_matrix_identity_iff N).1 h]
    cases M
    simp [gb_matrix_clear, gb_matrix_init, GB_ONE]
  · simp [gb_matrix_mul_add]

/-- C1: `gb_matrix_multiply(M, A)` post-multiplies: the matrix left in `M` maps every point
`p` to the original `M` applied to `A` applied to `p`. -/
theorem gb_matrix_multiply_post (M A : gb_matrix_t) (p : ℚ × ℚ) :
    gb_point_apply p (gb_matrix_multiply M A).2 = gb_point_apply (gb_point_apply p A) M := by
  unfold gb_matrix_multiply
  split
  · rename_i h
    rw [(gb_matrix_identity_iff A).1 h, gb_point_apply_clear]
  · simp only [gb_point_apply, gb_matrix_mul_add, Prod.mk.injEq]
    constructor <;> ring

/-- C2: `gb_matrix_multiply_lhs(M, A)` pre-multiplies: the matrix left in `M` maps every
point `p` to `A` applied to the original `M` applied to `p`; `M` or `A` may be the identity. -/
theorem gb_matrix_multiply_lhs_pre (M A : gb_matrix_t) (p : ℚ × ℚ) :
    gb_point_apply p (gb_matrix_multiply_lhs M A).2 = gb_point_apply (gb_point_apply p M) A := by
  unfold gb_matrix_multiply_lhs
  split
  · rename_i h
    rw [(gb_matrix_identity_iff A).1 h, gb_point_apply_clear]
  · simp only [gb_matrix_multiply_eq, gb_point_apply, Prod.mk.injEq]
    constructor <;> ring

/-- C3 (counterexample): the claim fails at two matrices whose determinant exceeds `NEAR0³`.
For `scale(1/4096, 1)` the axis-aligned path refuses to invert (`gb_near0(sx)`), so no inverse
is produced; for `translate(5, 0)` the call succeeds but leaves the matrix as it was, and the
product with it is `translate(10, 0)`, not the identity. -/
theorem gb_matrix_invert_inverse_counterexample :
    (GB_NEAR0 ^ 3 < |gb_matrix_determinant ⟨1 / 4096, 0, 0, 1, 0, 0⟩| ∧
      (gb_matrix_invert ⟨1 / 4096, 0, 0, 1, 0, 0⟩).1 = false) ∧
    (GB_NEAR0 ^ 3 < |gb_matrix_determinant ⟨1, 0, 0, 1, 5, 0⟩| ∧
      gb_matrix_invert ⟨1, 0, 0, 1, 5, 0⟩ = (true, ⟨1, 0, 0, 1, 5, 0⟩) ∧
      (gb_matrix_multiply ⟨1, 0, 0, 1, 5, 0⟩ (gb_matrix_invert ⟨1, 0, 0, 1, 5, 0⟩).2).2
        = ⟨1, 0, 0, 1, 10, 0⟩ ∧
      ¬ gb_matrix_inverse_of ⟨1, 0, 0, 1, 5, 0⟩ (gb_matrix_invert ⟨1, 0, 0, 1, 5, 0⟩).2) := by
  have hinv : gb_matrix_invert ⟨1, 0, 0, 1, 5, 0⟩ = (true, ⟨1, 0, 0, 1, 5, 0⟩) := by
    norm_num [gb_matrix_invert, gb_matrix_identity, GB_ONE]
  have habs : |(1 : ℚ) / 4096| = 1 / 4096 := abs_of_pos (by norm_num)
  refine ⟨⟨?_, ?_⟩, ?_, hinv, ?_, ?_⟩
  · norm_num [gb_matrix_determinant, GB_NEAR0, habs]
  · norm_num [gb_matrix_invert, gb_matrix_identity, gb_near0, gb_abs, GB_ONE, GB_NEAR0, habs]
  · norm_num [gb_matrix_determinant, GB_NEAR0]
  · rw [hinv, gb_matrix_multiply_eq]
    norm_num
  · rw [hinv, gb_matrix_inverse_of, gb_matrix_multiply_eq]
    norm_num [gb_matrix_clear, gb_matrix_init, GB_ONE]

theorem gb_matrix_invert_general (M : gb_matrix_t) (hk : ¬ (0 = M.kx ∧ 0 = M.ky)) :
    gb_matrix_invert M =
      if |gb_matrix_determinant M| ≤ GB_NEAR0 ^ 3 then (false, M)
      else
        (true,
          { sx := M.sy / gb_matrix_determinant M
            sy := M.sx / gb_matrix_determinant M
            kx := -M.kx / gb_matrix_determinant M
            ky := -M.ky / gb_matrix_determinant M
            tx := (M.kx * M.ty - M.sy * M.tx) / gb_matrix_determinant M
            ty := (M.ky * M.tx - M.sx * M.ty) / gb_matrix_determinant M }) := by
  have hid : gb_matrix_identity M = false := by
    rw [Bool.eq_false_iff, Ne, gb_matrix_identity_iff]
    rintro rfl
    exact hk ⟨rfl, rfl⟩
  have hpow : GB_NEAR0 * GB_NEAR0 * GB_NEAR0 = GB_NEAR0 ^ 3 := by ring
  unfold gb_matrix_invert
  rw [hid]
  simp only [Bool.false_eq_true, if_false, if_neg hk, gb_matrix_det, gb_abs, hpow]
  rw [show M.sx * M.sy - M.kx * M.ky = gb_matrix_determinant M from rfl]
  by_cases hd : |gb_matrix_determinant M| ≤ GB_NEAR0 ^ 3
  · simp [hd]
  · have hpos : (0 : ℚ) ≤ GB_NEAR0 ^ 3 := by norm_num [GB_NEAR0]
    have hne : gb_matrix_determinant M ≠ 0 := by
      intro h0
      rw [h0, abs_zero] at hd
      exact hd hpos
    simp [hd, hne, div_eq_mul_inv]

theorem gb_matrix_invert_axis (M : gb_matrix_t) (hkx : M.kx = 0) (hky : M.ky = 0)
    (hid : M ≠ gb_matrix_clear) :
    gb_matrix_invert M =
      if (M.sx ≠ 1 ∧ |M.sx| ≤ GB_NEAR0) ∨ (M.sy ≠ 1 ∧ |M.sy| ≤ GB_NEAR0) then (false, M)
      else
        (true,
          { sx := if M.sx = 1 then M.sx else 1 / M.sx
            kx := M.kx
            ky := M.ky
            sy := if M.sy = 1 then M.sy else 1 / M.sy
            tx := if M.sx = 1 then M.tx else -M.tx / M.sx
            ty := if M.sy = 1 then M.ty else -M.ty / M.sy }) := by
  have hid' : gb_matrix_identity M = false := by
    rw [Bool.eq_false_iff, Ne, gb_matrix_identity_iff]
    exact hid
  unfold gb_matrix_invert
  rw [hid']
  obtain ⟨sx, kx, ky, sy, tx, ty⟩ := M
  simp only at hkx hky
  subst hkx hky
  simp only [Bool.false_eq_true, if_false, and_self, if_true, gb_near0, gb_abs,
    decide_eq_true_eq, GB_ONE, gb_invert, gb_div, ne_eq]
  by_cases h1 : sx = 1 <;> by_cases h2 : sy = 1 <;>
    by_cases h3 : |sx| ≤ GB_NEAR0 <;> by_cases h4 : |sy| ≤ GB_NEAR0 <;>
    simp [h1, h2, h3, h4, eq_comm]

theorem gb_matrix_invert_clear : gb_matrix_invert gb_matrix_clear = (true, gb_matrix_clear) := by
  unfold gb_matrix_invert
  rw [(gb_matrix_identity_iff _).2 rfl]
  rfl

theorem gb_matrix_invert_axis_ok (M : gb_matrix_t) (hkx : M.kx = 0) (hky : M.ky = 0) :
    (gb_matrix_invert M).1 = true ↔
      (M.sx = 1 ∨ GB_NEAR0 < |M.sx|) ∧ (M.sy = 1 ∨ GB_NEAR0 < |M.sy|) := by
  by_cases hid : M = gb_matrix_clear
  · subst hid
    rw [gb_matrix_invert_clear]
    simp [gb_matrix_clear, gb_matrix_init, GB_ONE]
  · rw [gb_matrix_invert_axis M hkx hky hid]
    simp only [lt_iff_not_le]
    by_cases h1 : M.sx = 1 <;> by_cases h2 : M.sy = 1 <;>
      by_cases h3 : |M.sx| ≤ GB_NEAR0 <;> by_cases h4 : |M.sy| ≤ GB_NEAR0 <;>
      simp only [h1, h2, h3, h4, ne_eq, not_true_eq_false, not_false_eq_true, false_and,
        true_and, and_true, and_false, or_self, or_true, true_or, or_false, false_or, if_true,
        if_false, Bool.false_eq_true, iff_false, false_iff, iff_true, true_iff, and_self]

theorem gb_matrix_invert_general_ok (M : gb_matrix_t) (hk : ¬ (M.kx = 0 ∧ M.ky = 0)) :
    (gb_matrix_invert M).1 = true ↔ GB_NEAR0 ^ 3 < |gb_matrix_determinant M| := by
  have hk' : ¬ (0 = M.kx ∧ 0 = M.ky) := fun h => hk ⟨h.1.symm, h.2.symm⟩
  rw [gb_matrix_invert_general M hk']
  by_cases hd : |gb_matrix_determinant M| ≤ GB_NEAR0 ^ 3
  · simp [hd, not_lt.2 hd]
  · simp [hd, not_le.1 hd]

theorem gb_matrix_axis_det_large (M : gb_matrix_t) (hkx : M.kx = 0) (hky : M.ky = 0)
    (hx : M.sx = 1 ∨ GB_NEAR0 < |M.sx|) (hy : M.sy = 1 ∨ GB_NEAR0 < |M.sy|) :
    GB_NEAR0 ^ 3 < |gb_matrix_determinant M| := by
  have hx' : GB_NEAR0 < |M.sx| := by
    rcases hx with h | h
    · rw [h]; norm_num [GB_NEAR0]
    · exact h
  have hy' : GB_NEAR0 < |M.sy| := by
    rcases hy with h | h
    · rw [h]; norm_num [GB_NEAR0]
    · exact h
  have hdet : |gb_matrix_determinant M| = |M.sx| * |M.sy| := by
    rw [gb_matrix_determinant, hkx, hky, zero_mul, sub_zero, abs_mul]
  rw [hdet]
  have hN : (0 : ℚ) < GB_NEAR0 := by norm_num [GB_NEAR0]
  have hN1 : GB_NEAR0 < 1 := by norm_num [GB_NEAR0]
  have h2 : GB_NEAR0 * GB_NEAR0 < |M.sx| * |M.sy| :=
    mul_lt_mul'' hx' hy' hN.le hN.le
  have h3 : GB_NEAR0 ^ 3 < GB_NEAR0 * GB_NEAR0 := by
    have : GB_NEAR0 ^ 3 = GB_NEAR0 * GB_NEAR0 * GB_NEAR0 := by ring
    rw [this]
    nlinarith [mul_pos hN hN]
  exact lt_trans h3 h2

/-- C4 (counterexample): for `scale(1, 1/8192)` the determinant `1/8192` exceeds `NEAR0³`, yet
`gb_matrix_invert` returns false, because the axis-aligned path tests `gb_near0(sy)`. -/
theorem gb_matrix_invert_threshold_counterexample :
    GB_NEAR0 ^ 3 < |gb_matrix_determinant ⟨1, 0, 0, 1 / 8192, 0, 0⟩| ∧
      (gb_matrix_invert ⟨1, 0, 0, 1 / 8192, 0, 0⟩).1 = false := by
  have habs : |(1 : ℚ) / 8192| = 1 / 8192 := abs_of_pos (by norm_num)
  constructor
  · norm_num [gb_matrix_determinant, GB_NEAR0, habs]
  · norm_num [gb_matrix_invert, gb_matrix_identity, gb_near0, gb_abs, GB_ONE, GB_NEAR0, habs]

/-- C4 (amended): `gb_matrix_invert` returns false whenever `|det| ≤ NEAR0³`; on the general
path (`kx ≠ 0` or `ky ≠ 0`) it returns true exactly when `|det| > NEAR0³`; on the axis-aligned
path (`kx = ky = 0`) it returns true exactly when each of `sx`, `sy` is `1` or has an absolute
value above `NEAR0`. -/
theorem gb_matrix_invert_threshold (M : gb_matrix_t) :
    (|gb_matrix_determinant M| ≤ GB_NEAR0 ^ 3 → (gb_matrix_invert M).1 = false) ∧
    (¬ (M.kx = 0 ∧ M.ky = 0) →
      ((gb_matrix_invert M).1 = true ↔ GB_NEAR0 ^ 3 < |gb_matrix_determinant M|)) ∧
    (M.kx = 0 ∧ M.ky = 0 →
      ((gb_matrix_invert M).1 = true ↔
        (M.sx = 1 ∨ GB_NEAR0 < |M.sx|) ∧ (M.sy = 1 ∨ GB_NEAR0 < |M.sy|))) := by
  refine ⟨fun hd => ?_, gb_matrix_invert_general_ok M,
    fun hk => gb_matrix_invert_axis_ok M hk.1 hk.2⟩
  rw [Bool.eq_false_iff]
  intro ht
  by_cases hk : M.kx = 0 ∧ M.ky = 0
  · have h := (gb_matrix_invert_axis_ok M hk.1 hk.2).1 ht
    exact absurd (gb_matrix_axis_det_large M hk.1 hk.2 h.1 h.2) (not_lt.2 hd)
  · exact absurd ((gb_matrix_invert_general_ok M hk).1 ht) (not_lt.2 hd)

/-- C3 (amended): for every matrix with `|det| > NEAR0³` that is either on the general path
(`kx ≠ 0` or `ky ≠ 0`) or axis-aligned with each of `sx`, `sy` above `NEAR0` in absolute value
when it is not `1`, and with a zero translation component wherever the scale is exactly `1`,
`gb_matrix_invert` returns true and leaves a matrix whose products with the original on both
sides, formed with `gb_matrix_multiply`, are exactly the identity. -/
theorem gb_matrix_invert_inverse (M : gb_matrix_t)
    (hdet : GB_NEAR0 ^ 3 < |gb_matrix_determinant M|)
    (haxis : M.kx = 0 → M.ky = 0 →
      (M.sx = 1 → M.tx = 0) ∧ (M.sx ≠ 1 → GB_NEAR0 < |M.sx|) ∧
      (M.sy = 1 → M.ty = 0) ∧ (M.sy ≠ 1 → GB_NEAR0 < |M.sy|)) :
    (gb_matrix_invert M).1 = true ∧ gb_matrix_inverse_of M (gb_matrix_invert M).2 := by
  have hpos : (0 : ℚ) ≤ GB_NEAR0 ^ 3 := by norm_num [GB_NEAR0]
  have hne : gb_matrix_determinant M ≠ 0 := by
    intro h0
    rw [h0, abs_zero] at hdet
    exact absurd hdet (not_lt.2 hpos)
  by_cases hk : M.kx = 0 ∧ M.ky = 0
  · obtain ⟨h1, h2, h3, h4⟩ := haxis hk.1 hk.2
    by_cases hid : M = gb_matrix_clear
    · subst hid
      rw [gb_matrix_invert_clear]
      exact ⟨rfl, gb_matrix_multiply_clear_left _, gb_matrix_multiply_clear_left _⟩
    · have hg : ¬ ((M.sx ≠ 1 ∧ |M.sx| ≤ GB_NEAR0) ∨ (M.sy ≠ 1 ∧ |M.sy| ≤ GB_NEAR0)) := by
        rintro (⟨ha, hb⟩ | ⟨ha, hb⟩)
        · exact absurd (h2 ha) (not_lt.2 hb)
        · exact absurd (h4 ha) (not_lt.2 hb)
      rw [gb_matrix_invert_axis M hk.1 hk.2 hid, if_neg hg]
      refine ⟨rfl, ?_⟩
      obtain ⟨sx, kx, ky, sy, tx, ty⟩ := M
      obtain ⟨hkx, hky⟩ := hk
      simp only at hkx hky h1 h3 hne
      subst hkx hky
      simp only [gb_matrix_determinant, mul_zero, sub_zero] at hne
      have hsx : sx ≠ 0 := left_ne_zero_of_mul hne
      have hsy : sy ≠ 0 := right_ne_zero_of_mul hne
      simp only [gb_matrix_inverse_of, gb_matrix_multiply_eq, gb_matrix_clear, gb_matrix_init,
        GB_ONE, gb_matrix_t.mk.injEq]
      by_cases hx1 : sx = 1 <;> by_cases hy1 : sy = 1
      · simp [hx1, hy1, h1 hx1, h3 hy1]
      · simp only [hx1, hy1, h1 hx1, if_true, if_false]
        refine ⟨⟨?_, ?_, ?_, ?_, ?_, ?_⟩, ⟨?_, ?_, ?_, ?_, ?_, ?_⟩⟩ <;>
          ((try field_simp); (try ring))
      · simp only [hx1, hy1, h3 hy1, if_true, if_false]
        refine ⟨⟨?_, ?_, ?_, ?_, ?_, ?_⟩, ⟨?_, ?_, ?_, ?_, ?_, ?_⟩⟩ <;>
          ((try field_simp); (try ring))
      · simp only [hx1, hy1, if_false]
        refine ⟨⟨?_, ?_, ?_, ?_, ?_, ?_⟩, ⟨?_, ?_, ?_, ?_, ?_, ?_⟩⟩ <;>
          ((try field_simp); (try ring))
  · have hk' : ¬ (0 = M.kx ∧ 0 = M.ky) := fun h => hk ⟨h.1.symm, h.2.symm⟩
    rw [gb_matrix_invert_general M hk', if_neg (not_le.2 hdet)]
    refine ⟨rfl, ?_⟩
    obtain ⟨sx, kx, ky, sy, tx, ty⟩ := M
    simp only [gb_matrix_determinant] at hne ⊢
    simp only [gb_matrix_inverse_of, gb_matrix_multiply_eq, gb_matrix_clear, gb_matrix_init,
      GB_ONE, gb_matrix_t.mk.injEq]
    refine ⟨⟨?_, ?_, ?_, ?_, ?_, ?_⟩, ⟨?_, ?_, ?_, ?_, ?_, ?_⟩⟩ <;>
      ((try field_simp); (try ring))

/-- C3 (witness): the amended claim at the skewed matrix `(2, 1, 1, 1, 3, 4)`. -/
theorem gb_matrix_invert_inverse_witness :
    (gb_matrix_invert ⟨2, 1, 1, 1, 3, 4⟩).1 = true ∧
      gb_matrix_inverse_of ⟨2, 1, 1, 1, 3, 4⟩ (gb_matrix_invert ⟨2, 1, 1, 1, 3, 4⟩).2 :=
  gb_matrix_invert_inverse ⟨2, 1, 1, 1, 3, 4⟩
    (by norm_num [gb_matrix_determinant, GB_NEAR0])
    (by intro h; norm_num at h)

/-! ## Path theorems -/

theorem gb_path_steps_append (a b : List gb_path_code_e) :
    gb_path_steps (a ++ b) = gb_path_steps a + gb_path_steps b := by
  simp [gb_path_steps]

theorem tb_vector_replace_last_length {α : Type} (v : List α) (d : α) :
    (tb_vector_replace_last v d).length = v.length := by
  cases v with
  | nil => rfl
  | cons a l => simp [tb_vector_replace_last]

theorem gb_path_counted_of_eq {p q : gb_path_impl_t} (hc : q.codes = p.codes)
    (hp : q.points.length = p.points.length) (h : gb_path_counted p) : gb_path_counted q := by
  unfold gb_path_counted at *
  rw [hc, hp, h]

theorem gb_path_counted_move_to (p : gb_path_impl_t) (pt : gb_point_t)
    (h : gb_path_counted p) : gb_path_counted (gb_path_move_to p pt) := by
  unfold gb_path_counted at *
  unfold gb_path_move_to
  by_cases hl : p.codes.getLast? = some .MOVE
  · simp only [hl, if_true, tb_vector_replace_last_length]
    exact h
  · simp only [hl, if_false]
    split <;> simp [gb_path_steps_append, h, gb_path_steps, gb_path_point_step,
      gb_path_code_e.val]

theorem gb_path_counted_patch_move (p : gb_path_impl_t) (h : gb_path_counted p) :
    gb_path_counted (gb_path_patch_move p) := by
  unfold gb_path_patch_move
  split
  · exact gb_path_counted_move_to p _ h
  · exact h

theorem gb_path_counted_line_to (p : gb_path_impl_t) (pt : gb_point_t)
    (h : gb_path_counted p) : gb_path_counted (gb_path_line_to p pt) := by
  have h1 := gb_path_counted_patch_move p h
  unfold gb_path_counted at *
  simp [gb_path_line_to, gb_path_steps_append, h1, gb_path_steps, gb_path_point_step,
    gb_path_code_e.val]

theorem gb_path_counted_line_to_head (p : gb_path_impl_t)
    (h : gb_path_counted p) : gb_path_counted (gb_path_line_to_head p) := by
  have h1 := gb_path_counted_patch_move p h
  unfold gb_path_counted at *
  simp [gb_path_line_to_head, gb_path_steps_append, h1, gb_path_steps, gb_path_point_step,
    gb_path_code_e.val]

theorem gb_path_counted_quad_to (p : gb_path_impl_t) (c pt : gb_point_t)
    (h : gb_path_counted p) : gb_path_counted (gb_path_quad_to p c pt) := by
  have h1 := gb_path_counted_patch_move p h
  unfold gb_path_counted at *
  simp [gb_path_quad_to, gb_path_steps_append, h1, gb_path_steps, gb_path_point_step,
    gb_path_code_e.val]

theorem gb_path_counted_cubic_to (p : gb_path_impl_t) (c0 c1 pt : gb_point_t)
    (h : gb_path_counted p) : gb_path_counted (gb_path_cubic_to p c0 c1 pt) := by
  have h1 := gb_path_counted_patch_move p h
  unfold gb_path_counted at *
  simp [gb_path_cubic_to, gb_path_steps_append, h1, gb_path_steps, gb_path_point_step,
    gb_path_code_e.val]

theorem gb_path_counted_clos (p : gb_path_impl_t)
    (h : gb_path_counted p) : gb_path_counted (gb_path_clos p) := by
  unfold gb_path_clos
  simp only
  split
  · split
    · have h1 := gb_path_counted_line_to_head p h
      unfold gb_path_counted at *
      simp [gb_path_steps_append, h1, gb_path_steps, gb_path_point_step, gb_path_code_e.val]
    · unfold gb_path_counted at *
      simp [gb_path_steps_append, h, gb_path_steps, gb_path_point_step, gb_path_code_e.val]
  · exact h

theorem gb_path_make_hint_stream (p : gb_path_impl_t) :
    (gb_path_make_hint p).2.codes = p.codes ∧ (gb_path_make_hint p).2.points = p.points := by
  unfold gb_path_make_hint
  simp only
  split_ifs <;> exact ⟨rfl, rfl⟩

theorem gb_path_hint_stream (p : gb_path_impl_t) :
    (gb_path_hint p).2.codes = p.codes ∧ (gb_path_hint p).2.points = p.points := by
  unfold gb_path_hint
  simp only
  split_ifs <;> first | exact ⟨rfl, rfl⟩ | exact gb_path_make_hint_stream p

theorem gb_path_make_convex_stream (p : gb_path_impl_t) :
    (gb_path_make_convex p).2.codes = p.codes ∧ (gb_path_make_convex p).2.points = p.points := by
  have h := gb_path_hint_stream { p with flag := { p.flag with convex := false } }
  unfold gb_path_make_convex
  simp only
  split_ifs <;> split <;> exact h

theorem gb_path_convex_stream (p : gb_path_impl_t) :
    (gb_path_convex p).2.codes = p.codes ∧ (gb_path_convex p).2.points = p.points := by
  unfold gb_path_convex
  simp only
  split_ifs <;> first | exact ⟨rfl, rfl⟩ | exact gb_path_make_convex_stream p

theorem gb_path_bounds_stream (p : gb_path_impl_t) :
    (gb_path_bounds p).2.codes = p.codes ∧ (gb_path_bounds p).2.points = p.points := by
  unfold gb_path_bounds
  simp only
  split_ifs <;> first | exact ⟨rfl, rfl⟩ | (split <;> exact ⟨rfl, rfl⟩)

theorem gb_path_make_python_stream (deps : gb_deps_t) (p : gb_path_impl_t) :
    (gb_path_make_python deps p).2.codes = p.codes ∧
      (gb_path_make_python deps p).2.points = p.points := by
  unfold gb_path_make_python
  simp only
  split_ifs
  · exact gb_path_convex_stream _
  · exact gb_path_convex_stream _

theorem gb_path_polygon_stream (deps : gb_deps_t) (p : gb_path_impl_t) :
    (gb_path_polygon deps p).2.codes = p.codes ∧
      (gb_path_polygon deps p).2.points = p.points := by
  unfold gb_path_polygon
  simp only
  split_ifs <;> first | exact ⟨rfl, rfl⟩ | exact gb_path_make_python_stream deps p

theorem gb_path_counted_hint_done (b : Bool) (p : gb_path_impl_t) (h : gb_path_counted p) :
    gb_path_counted (gb_path_hint_done b p) := by
  unfold gb_path_hint_done
  split
  · exact gb_path_counted_of_eq rfl rfl h
  · exact h

theorem gb_path_counted_foldl {α : Type} (f : gb_path_impl_t → α → gb_path_impl_t)
    (hf : ∀ p a, gb_path_counted p → gb_path_counted (f p a)) (l : List α) (p : gb_path_impl_t)
    (h : gb_path_counted p) : gb_path_counted (l.foldl f p) := by
  induction l generalizing p with
  | nil => exact h
  | cons a l ih => exact ih _ (hf p a h)

theorem gb_path_counted_clear (p : gb_path_impl_t) : gb_path_counted (gb_path_clear p) := by
  simp [gb_path_counted, gb_path_clear, gb_path_steps]

theorem gb_path_counted_init : gb_path_counted gb_path_init := by
  simp [gb_path_counted, gb_path_init, gb_path_steps]

theorem gb_path_counted_copy (p q : gb_path_impl_t) (hq : gb_path_counted q) :
    gb_path_counted (gb_path_copy p q) := by
  unfold gb_path_copy
  split
  · exact gb_path_counted_clear p
  · exact hq

theorem gb_path_counted_last_set (p : gb_path_impl_t) (pt : gb_point_t)
    (h : gb_path_counted p) : gb_path_counted (gb_path_last_set p pt) := by
  unfold gb_path_counted at *
  simp only [gb_path_last_set, tb_vector_replace_last_length]
  exact h

theorem gb_path_counted_apply (p : gb_path_impl_t) (f : gb_point_t → gb_point_t)
    (h : gb_path_counted p) : gb_path_counted (gb_path_apply p f) := by
  unfold gb_path_apply
  split
  · exact h
  · unfold gb_path_counted at *
    simp only [List.length_map]
    exact h

theorem gb_path_counted_arc_to (deps : gb_deps_t) (p : gb_path_impl_t) (arc : gb_arc_t)
    (h : gb_path_counted p) : gb_path_counted (gb_path_arc_to deps p arc) := by
  unfold gb_path_arc_to
  apply gb_path_counted_hint_done
  apply gb_path_counted_foldl
  · intro q a hq
    unfold gb_path_make_quad_for_arc_to
    split
    · exact gb_path_counted_quad_to _ _ _ hq
    · exact hq
  · split
    · exact gb_path_counted_of_eq rfl rfl h
    · exact h

theorem gb_path_counted_add_line (p : gb_path_impl_t) (line : gb_line_t)
    (h : gb_path_counted p) : gb_path_counted (gb_path_add_line p line) := by
  unfold gb_path_add_line
  apply gb_path_counted_hint_done
  apply gb_path_counted_line_to
  apply gb_path_counted_move_to
  split
  · exact gb_path_counted_of_eq rfl rfl h
  · exact h

theorem gb_path_counted_add_triangle (p : gb_path_impl_t) (t : gb_triangle_t)
    (h : gb_path_counted p) : gb_path_counted (gb_path_add_triangle p t) := by
  unfold gb_path_add_triangle
  apply gb_path_counted_hint_done
  apply gb_path_counted_clos
  apply gb_path_counted_line_to
  apply gb_path_counted_line_to
  apply gb_path_counted_move_to
  split
  · exact gb_path_counted_of_eq rfl rfl h
  · exact h

theorem gb_path_counted_add_rect (p : gb_path_impl_t) (r : gb_rect_t)
    (d : gb_rotate_direction_e) (h : gb_path_counted p) :
    gb_path_counted (gb_path_add_rect p r d) := by
  unfold gb_path_add_rect
  apply gb_path_counted_hint_done
  apply gb_path_counted_clos
  have h2 : gb_path_counted
      (gb_path_move2_to (if gb_path_hint_maked p = true then { p with hint := .RECT r } else p)
        r.x r.y) := by
    apply gb_path_counted_move_to
    split
    · exact gb_path_counted_of_eq rfl rfl h
    · exact h
  simp only [gb_path_line2_to]
  split <;> (repeat apply gb_path_counted_line_to) <;> exact h2

theorem gb_path_counted_add_ellipse (deps : gb_deps_t) (p : gb_path_impl_t) (e : gb_ellipse_t)
    (d : gb_rotate_direction_e) (h : gb_path_counted p) :
    gb_path_counted (gb_path_add_ellipse deps p e d) := by
  unfold gb_path_add_ellipse
  apply gb_path_counted_hint_done
  apply gb_path_counted_clos
  have h1 : gb_path_counted
      (if gb_path_hint_maked p = true then { p with hint := .ELLIPSE e } else p) := by
    split
    · exact gb_path_counted_of_eq rfl rfl h
    · exact h
  simp only [gb_path_quad2_to, gb_path_move2_to]
  split <;> (repeat apply gb_path_counted_quad_to) <;> apply gb_path_counted_move_to <;> exact h1

theorem gb_path_counted_add_arc (deps : gb_deps_t) (p : gb_path_impl_t) (arc : gb_arc_t)
    (h : gb_path_counted p) : gb_path_counted (gb_path_add_arc deps p arc) := by
  unfold gb_path_add_arc
  split
  · exact gb_path_counted_add_ellipse deps p _ _ h
  · apply gb_path_counted_hint_done
    apply gb_path_counted_foldl
    · intro q a hq
      unfold gb_path_make_quad_for_add_arc
      split
      · exact gb_path_counted_quad_to _ _ _ hq
      · exact gb_path_counted_move_to _ _ hq
    · split
      · exact gb_path_counted_of_eq rfl rfl h
      · exact h

theorem gb_path_counted_add_circle (deps : gb_deps_t) (p : gb_path_impl_t) (c : gb_circle_t)
    (d : gb_rotate_direction_e) (h : gb_path_counted p) :
    gb_path_counted (gb_path_add_circle deps p c d) := by
  unfold gb_path_add_circle
  apply gb_path_counted_hint_done
  apply gb_path_counted_add_ellipse
  split
  · exact gb_path_counted_of_eq rfl rfl h
  · exact h

theorem gb_path_counted_add_round_rect (deps : gb_deps_t) (p : gb_path_impl_t)
    (r : gb_round_rect_t) (d : gb_rotate_direction_e) (h : gb_path_counted p) :
    gb_path_counted (gb_path_add_round_rect deps p r d) := by
  unfold gb_path_add_round_rect
  split
  · exact gb_path_counted_add_rect p _ _ h
  · split
    · exact gb_path_counted_add_ellipse deps p _ _ h
    · apply gb_path_counted_hint_done
      apply gb_path_counted_clos
      have h1 : gb_path_counted
          (if gb_path_hint_maked p = true then { p with hint := .ROUND_RECT r } else p) := by
        split
        · exact gb_path_counted_of_eq rfl rfl h
        · exact h
      simp only [gb_path_quad2_to, gb_path_move2_to, gb_path_line2_to]
      split
      · refine gb_path_counted_line_to _ _ ?_
        refine gb_path_counted_quad_to _ _ _ ?_
        refine gb_path_counted_quad_to _ _ _ ?_
        refine gb_path_counted_line_to _ _ ?_
        refine gb_path_counted_quad_to _ _ _ ?_
        refine gb_path_counted_quad_to _ _ _ ?_
        refine gb_path_counted_line_to _ _ ?_
        refine gb_path_counted_quad_to _ _ _ ?_
        refine gb_path_counted_quad_to _ _ _ ?_
        refine gb_path_counted_line_to _ _ ?_
        refine gb_path_counted_quad_to _ _ _ ?_
        refine gb_path_counted_quad_to _ _ _ ?_
        exact gb_path_counted_move_to _ _ h1
      · refine gb_path_counted_quad_to _ _ _ ?_
        refine gb_path_counted_quad_to _ _ _ ?_
        refine gb_path_counted_line_to _ _ ?_
        refine gb_path_counted_quad_to _ _ _ ?_
        refine gb_path_counted_quad_to _ _ _ ?_
        refine gb_path_counted_line_to _ _ ?_
        refine gb_path_counted_quad_to _ _ _ ?_
        refine gb_path_counted_quad_to _ _ _ ?_
        refine gb_path_counted_line_to _ _ ?_
        refine gb_path_counted_quad_to _ _ _ ?_
        refine gb_path_counted_quad_to _ _ _ ?_
        refine gb_path_counted_line_to _ _ ?_
        exact gb_path_counted_move_to _ _ h1

theorem gb_path_counted_path_to (p added : gb_path_impl_t) (h : gb_path_counted p) :
    gb_path_counted (gb_path_path_to p added) := by
  unfold gb_path_path_to
  apply gb_path_counted_foldl _ _ _ _ h
  rintro q ⟨i, item⟩ hq
  simp only
  split
  · split
    · exact gb_path_counted_move_to _ _ hq
    · exact hq
  · exact gb_path_counted_line_to _ _ hq
  · exact gb_path_counted_quad_to _ _ _ hq
  · exact gb_path_counted_cubic_to _ _ _ _ hq
  · exact gb_path_counted_clos _ hq

theorem gb_path_counted_add_path (p added : gb_path_impl_t) (h : gb_path_counted p)
    (ha : gb_path_counted added) : gb_path_counted (gb_path_add_path p added) := by
  unfold gb_path_add_path
  split
  · exact gb_path_counted_copy p added ha
  · apply gb_path_counted_foldl _ _ _ _ h
    intro q item hq
    split
    · exact gb_path_counted_move_to _ _ hq
    · exact gb_path_counted_line_to _ _ hq
    · exact gb_path_counted_quad_to _ _ _ hq
    · exact gb_path_counted_cubic_to _ _ _ _ hq
    · exact gb_path_counted_clos _ hq

theorem gb_path_counted_rwalk_item (w : gb_path_rwalk_t) (item : gb_path_item_t)
    (h : gb_path_counted w.impl) : gb_path_counted (gb_path_rwalk_item w item).impl := by
  obtain ⟨p, need_move, need_close⟩ := w
  obtain ⟨code, pts⟩ := item
  have hm := gb_path_counted_move_to p (gb_path_item_t.point ⟨code, pts⟩ 0) h
  have hc := gb_path_counted_clos p h
  have hmc := gb_path_counted_clos _ hm
  cases need_move <;> cases need_close <;> cases code <;>
    simp only [gb_path_rwalk_item, if_true, if_false, Bool.false_eq_true] <;>
    first
      | assumption
      | exact gb_path_counted_line_to _ _ (by assumption)
      | exact gb_path_counted_quad_to _ _ _ (by assumption)
      | exact gb_path_counted_cubic_to _ _ _ _ (by assumption)

theorem gb_path_counted_rwalk (l : List gb_path_item_t) (w : gb_path_rwalk_t)
    (h : gb_path_counted w.impl) :
    gb_path_counted (l.foldl gb_path_rwalk_item w).impl := by
  induction l generalizing w with
  | nil => exact h
  | cons a l ih => exact ih _ (gb_path_counted_rwalk_item w a h)

theorem gb_path_counted_run (deps : gb_deps_t) (o : gb_path_op) (p : gb_path_impl_t)
    (h : gb_path_counted p) : gb_path_counted (o.run deps p) := by
  cases o with
  | clear => exact gb_path_counted_clear p
  | last_set point => exact gb_path_counted_last_set p point h
  | apply f => exact gb_path_counted_apply p f h
  | convex_set b => exact gb_path_counted_of_eq rfl rfl h
  | bounds =>
    exact gb_path_counted_of_eq (gb_path_bounds_stream p).1
      (congrArg List.length (gb_path_bounds_stream p).2) h
  | convex =>
    exact gb_path_counted_of_eq (gb_path_convex_stream p).1
      (congrArg List.length (gb_path_convex_stream p).2) h
  | hint =>
    exact gb_path_counted_of_eq (gb_path_hint_stream p).1
      (congrArg List.length (gb_path_hint_stream p).2) h
  | polygon =>
    exact gb_path_counted_of_eq (gb_path_polygon_stream deps p).1
      (congrArg List.length (gb_path_polygon_stream deps p).2) h
  | move_to point => exact gb_path_counted_move_to p point h
  | line_to point => exact gb_path_counted_line_to p point h
  | quad_to ctrl point => exact gb_path_counted_quad_to p ctrl point h
  | cubic_to ctrl0 ctrl1 point => exact gb_path_counted_cubic_to p ctrl0 ctrl1 point h
  | clos => exact gb_path_counted_clos p h
  | arc_to arc => exact gb_path_counted_arc_to deps p arc h
  | add_line line => exact gb_path_counted_add_line p line h
  | add_arc arc => exact gb_path_counted_add_arc deps p arc h
  | add_triangle t => exact gb_path_counted_add_triangle p t h
  | add_rect r d => exact gb_path_counted_add_rect p r d h
  | add_round_rect r d => exact gb_path_counted_add_round_rect deps p r d h
  | add_circle c d => exact gb_path_counted_add_circle deps p c d h
  | add_ellipse e d => exact gb_path_counted_add_ellipse deps p e d h

/-- C6: after any sequence of public path operations starting from `gb_path_init`, the
number of stored points equals the sum over the stored opcodes of `gb_path_point_step`, and
that step is `MOVE = 1, CLOSE = 0, LINE = 1, QUAD = 2, CUBIC = 3`. -/
theorem gb_path_points_eq_steps (deps : gb_deps_t) (impl : gb_path_impl_t)
    (h : gb_path_reachable deps impl) :
    impl.points.length = (impl.codes.map gb_path_point_step).sum ∧
      gb_path_point_step .MOVE = 1 ∧ gb_path_point_step .CLOS = 0 ∧
      gb_path_point_step .LINE = 1 ∧ gb_path_point_step .QUAD = 2 ∧
      gb_path_point_step .CUBIC = 3 := by
  refine ⟨?_, rfl, rfl, rfl, rfl, rfl⟩
  induction h with
  | init => exact gb_path_counted_init
  | op o _ ih => exact gb_path_counted_run deps o _ ih
  | copy _ _ _ ih2 => exact gb_path_counted_copy _ _ ih2
  | path_to _ _ ih1 _ => exact gb_path_counted_path_to _ _ ih1
  | rpath_to _ _ ih1 _ => exact gb_path_counted_rwalk _ _ ih1
  | add_path _ _ ih1 ih2 => exact gb_path_counted_add_path _ _ ih1 ih2
  | add_rpath _ _ ih1 _ => exact gb_path_counted_rwalk _ _ ih1

/-- C6 (witness): the path built by `move_to`, `quad_to`, `clos`, `cubic_to`. -/
theorem gb_path_points_eq_steps_witness :
    (gb_path_cubic_to (gb_path_clos (gb_path_quad_to (gb_path_move_to gb_path_init ⟨1, 2⟩)
        ⟨3, 4⟩ ⟨5, 6⟩)) ⟨7, 8⟩ ⟨9, 10⟩ ⟨11, 12⟩).points.length = 8 ∧
      (gb_path_cubic_to (gb_path_clos (gb_path_quad_to (gb_path_move_to gb_path_init ⟨1, 2⟩)
        ⟨3, 4⟩ ⟨5, 6⟩)) ⟨7, 8⟩ ⟨9, 10⟩ ⟨11, 12⟩).codes = [.MOVE, .QUAD, .LINE, .CLOS, .MOVE, .CUBIC] ∧
      (gb_path_cubic_to (gb_path_clos (gb_path_quad_to (gb_path_move_to gb_path_init ⟨1, 2⟩)
        ⟨3, 4⟩ ⟨5, 6⟩)) ⟨7, 8⟩ ⟨9, 10⟩ ⟨11, 12⟩).points.length =
      ((gb_path_cubic_to (gb_path_clos (gb_path_quad_to (gb_path_move_to gb_path_init ⟨1, 2⟩)
        ⟨3, 4⟩ ⟨5, 6⟩)) ⟨7, 8⟩ ⟨9, 10⟩ ⟨11, 12⟩).codes.map gb_path_point_step).sum :=
  ⟨by decide, by decide,
    (gb_path_points_eq_steps gb_deps_sample _
      (.op (.cubic_to ⟨7, 8⟩ ⟨9, 10⟩ ⟨11, 12⟩)
        (.op .clos (.op (.quad_to ⟨3, 4⟩ ⟨5, 6⟩) (.op (.move_to ⟨1, 2⟩) .init))))).1⟩

/-- C5 (failing input): `gb_path_init`, `gb_path_clear`, `gb_path_line_to`.  After the clear
the flag has lost `CLOSED`, so `line_to` does not patch a `MOVE` and the first stored opcode is
`LINE`; straight after `gb_path_init` the same call stores `MOVE, LINE`. -/
theorem gb_path_clear_line_to_first_code :
    gb_path_reachable gb_deps_sample (gb_path_line_to (gb_path_clear gb_path_init) ⟨3, 4⟩) ∧
      (gb_path_line_to (gb_path_clear gb_path_init) ⟨3, 4⟩).codes = [.LINE] ∧
      (gb_path_line_to (gb_path_clear gb_path_init) ⟨3, 4⟩).codes.head? ≠ some .MOVE ∧
      (gb_path_line_to gb_path_init ⟨3, 4⟩).codes = [.MOVE, .LINE] :=
  ⟨.op (.line_to ⟨3, 4⟩) (.op .clear .init), by decide, by decide, by decide⟩

/-- C7 (failing input): three mutations that leave a dirty bit clear.  After `move_to`,
`line_to` and a bounds query, `gb_path_last_set` and `gb_path_apply` change the points and
leave `DIRTY_BOUNDS` clear, so the next bounds query returns the old rectangle; after a convex
query on an open contour that ends on its start, `gb_path_clos` appends `CLOS` and leaves
`DIRTY_CONVEX` clear, so the next convex query returns the old answer, while the same contour
closed before its first query is convex. -/
theorem gb_path_mutation_keeps_cache :
    ((gb_path_last_set
        (gb_path_bounds (gb_path_line_to (gb_path_move_to gb_path_init ⟨0, 0⟩) ⟨4, 0⟩)).2
        ⟨9, 9⟩).points = [⟨0, 0⟩, ⟨9, 9⟩] ∧
      (gb_path_last_set
        (gb_path_bounds (gb_path_line_to (gb_path_move_to gb_path_init ⟨0, 0⟩) ⟨4, 0⟩)).2
        ⟨9, 9⟩).flag.dirty_bounds = false ∧
      (gb_path_bounds (gb_path_last_set
        (gb_path_bounds (gb_path_line_to (gb_path_move_to gb_path_init ⟨0, 0⟩) ⟨4, 0⟩)).2
        ⟨9, 9⟩)).1 = some ⟨0, 0, 4, 0⟩) ∧
    ((gb_path_apply
        (gb_path_bounds (gb_path_line_to (gb_path_move_to gb_path_init ⟨0, 0⟩) ⟨4, 0⟩)).2
        (fun p => ⟨p.x + 10, p.y + 10⟩)).points = [⟨10, 10⟩, ⟨14, 10⟩] ∧
      (gb_path_apply
        (gb_path_bounds (gb_path_line_to (gb_path_move_to gb_path_init ⟨0, 0⟩) ⟨4, 0⟩)).2
        (fun p => ⟨p.x + 10, p.y + 10⟩)).flag.dirty_bounds = false ∧
      (gb_path_bounds (gb_path_apply
        (gb_path_bounds (gb_path_line_to (gb_path_move_to gb_path_init ⟨0, 0⟩) ⟨4, 0⟩)).2
        (fun p => ⟨p.x + 10, p.y + 10⟩))).1 = some ⟨0, 0, 4, 0⟩) ∧
    ((gb_path_clos (gb_path_convex (gb_path_add_contour gb_path_init
        (⟨0, 0⟩, [⟨4, 1⟩, ⟨5, 5⟩, ⟨1, 4⟩, ⟨0, 0⟩]))).2).codes
        = [.MOVE, .LINE, .LINE, .LINE, .LINE, .CLOS] ∧
      (gb_path_clos (gb_path_convex (gb_path_add_contour gb_path_init
        (⟨0, 0⟩, [⟨4, 1⟩, ⟨5, 5⟩, ⟨1, 4⟩, ⟨0, 0⟩]))).2).flag.dirty_convex = false ∧
      (gb_path_convex (gb_path_clos (gb_path_convex (gb_path_add_contour gb_path_init
        (⟨0, 0⟩, [⟨4, 1⟩, ⟨5, 5⟩, ⟨1, 4⟩, ⟨0, 0⟩]))).2)).1 = false ∧
      (gb_path_convex (gb_path_clos (gb_path_add_contour gb_path_init
        (⟨0, 0⟩, [⟨4, 1⟩, ⟨5, 5⟩, ⟨1, 4⟩, ⟨0, 0⟩])))).1 = true) := by
  refine ⟨⟨?_, ?_, ?_⟩, ⟨?_, ?_, ?_⟩, ⟨?_, ?_, ?_, ?_⟩⟩ <;> decide

/-- C9 (failing input): the dart `(2,1) (4,0) (2,4) (0,0)`, entered by `move_to`, three
`line_to` and `clos`.  No hint shape is recognised and `gb_path_convex` returns true, although
the turn at the starting vertex `(2,1)` and the turn at `(4,0)` have cross values of opposite
sign: the scan reads `item->points[0]` for `LINE`, the start of the segment, so it never
examines the turn at the starting vertex. -/
theorem gb_path_convex_accepts_dart :
    (gb_path_of_polygon [⟨2, 1⟩, ⟨4, 0⟩, ⟨2, 4⟩, ⟨0, 0⟩]).codes
        = [.MOVE, .LINE, .LINE, .LINE, .LINE, .CLOS] ∧
      (gb_path_of_polygon [⟨2, 1⟩, ⟨4, 0⟩, ⟨2, 4⟩, ⟨0, 0⟩]).points
        = [⟨2, 1⟩, ⟨4, 0⟩, ⟨2, 4⟩, ⟨0, 0⟩, ⟨2, 1⟩] ∧
      (gb_path_hint (gb_path_of_polygon [⟨2, 1⟩, ⟨4, 0⟩, ⟨2, 4⟩, ⟨0, 0⟩])).1 = none ∧
      (gb_path_convex (gb_path_of_polygon [⟨2, 1⟩, ⟨4, 0⟩, ⟨2, 4⟩, ⟨0, 0⟩])).1 = true ∧
      gb_path_cross 0 0 2 1 4 0 = 1 ∧
      gb_path_cross 2 1 4 0 2 4 = -1 ∧
      ¬ gb_polygon_strictly_convex [⟨2, 1⟩, ⟨4, 0⟩, ⟨2, 4⟩, ⟨0, 0⟩] := by
  refine ⟨?_, ?_, ?_, ?_, ?_, ?_, ?_⟩ <;> decide

/-! ### The scan of `gb_path_make_convex` on a closed contour of lines -/

theorem gb_path_make_convex_scan_cons (P : List gb_point_t) (item : gb_path_item_t)
    (items : List gb_path_item_t) (s : gb_path_convex_scan_t) :
    gb_path_make_convex_scan P (item :: items) s =
      gb_path_make_convex_scan P items
        (if s.left then s
         else if s.contour_count < 2 then gb_path_make_convex_item P s item else s) := rfl

theorem gb_path_make_convex_scan_nil (P : List gb_point_t) (s : gb_path_convex_scan_t) :
    gb_path_make_convex_scan P [] s = s := rfl

theorem gb_path_drop_getD (P : List gb_point_t) (k : Nat) :
    (P.drop k).getD 0 default = P.getD k default := by
  simp [List.getD_eq_getElem?_getD]

/-- The scan state after a `LINE` item whose check passes. -/
theorem gb_path_make_convex_item_line (P : List gb_point_t) (s : gb_path_convex_scan_t)
    (pts : List gb_point_t) (q : gb_point_t) (hq : pts.getD 0 default = q)
    (hpc : 2 ≤ s.point_count)
    (hc : ¬ gb_path_cross s.x1 s.y1 s.x2 s.y2 q.x q.y * s.cross_prev < 0) :
    gb_path_make_convex_item P s ⟨.LINE, pts⟩ =
      { s with x0 := s.x1, y0 := s.y1, x1 := s.x2, y1 := s.y2, x2 := q.x, y2 := q.y,
               point_count := s.point_count + 1,
               cross_prev := gb_path_cross s.x1 s.y1 s.x2 s.y2 q.x q.y } := by
  have h3 : s.point_count + 1 > 2 := by omega
  simp only [gb_path_make_convex_item, gb_path_item_t.point, hq, gb_path_convex_scan_t.update,
    gb_path_convex_scan_t.after, gb_path_convex_scan_t.check, h3, if_true, hc, if_false]

/-- The scan state after the `CLOS` item when its check passes. -/
theorem gb_path_make_convex_item_clos (P : List gb_point_t) (s : gb_path_convex_scan_t)
    (pts : List gb_point_t) (q : gb_point_t) (hq : P.getD 1 default = q)
    (hpc : 3 ≤ s.point_count)
    (hc : ¬ gb_path_cross s.x1 s.y1 s.x2 s.y2 q.x q.y * s.cross_prev < 0) :
    (gb_path_make_convex_item P s ⟨.CLOS, pts⟩).convex = s.convex := by
  have h3 : s.point_count > 2 := by omega
  simp only [gb_path_make_convex_item, hq, gb_path_convex_scan_t.update,
    gb_path_convex_scan_t.after, gb_path_convex_scan_t.check, h3, if_true, hc, if_false]

/-- From the state after the `k`-th `LINE` (`k ≥ 2`) to the end of the scan: when the cross
values of the remaining consecutive triples are all `c`, and the one that the `CLOS` case forms
is `c` or `0`, the convex bit stays set. -/
theorem gb_path_make_convex_scan_lines (P : List gb_point_t) (n : Nat) (c : Int)
    (H1 : ∀ k, 2 ≤ k → k < n →
      gb_path_cross (P.getD (k - 2) default).x (P.getD (k - 2) default).y
        (P.getD (k - 1) default).x (P.getD (k - 1) default).y
        (P.getD k default).x (P.getD k default).y = c)
    (H2 : gb_path_cross (P.getD (n - 2) default).x (P.getD (n - 2) default).y
        (P.getD (n - 1) default).x (P.getD (n - 1) default).y
        (P.getD 1 default).x (P.getD 1 default).y = c ∨
      gb_path_cross (P.getD (n - 2) default).x (P.getD (n - 2) default).y
        (P.getD (n - 1) default).x (P.getD (n - 1) default).y
        (P.getD 1 default).x (P.getD 1 default).y = 0)
    (j k : Nat) (hk : 2 ≤ k) (hkj : k + j = n) (s : gb_path_convex_scan_t)
    (hleft : s.left = false) (hconvex : s.convex = true) (hcc : s.contour_count = 1)
    (hpc : s.point_count = k + 1)
    (hx1 : s.x1 = (P.getD (k - 2) default).x) (hy1 : s.y1 = (P.getD (k - 2) default).y)
    (hx2 : s.x2 = (P.getD (k - 1) default).x) (hy2 : s.y2 = (P.getD (k - 1) default).y)
    (hprev : s.cross_prev = 0 ∨ s.cross_prev = c) :
    (gb_path_make_convex_scan P
      (gb_path_items_from P (List.replicate j .LINE ++ [.CLOS]) (k + 1)) s).convex = true := by
  induction j generalizing k s with
  | zero =>
    have hkn : k = n := by omega
    subst hkn
    simp only [List.replicate_zero, List.nil_append, gb_path_items_from,
      gb_path_make_convex_scan_cons, gb_path_make_convex_scan_nil, hleft, hcc,
      Bool.false_eq_true, if_false]
    have hlt : (1 : Nat) < 2 := by omega
    rw [if_pos hlt]
    rw [gb_path_make_convex_item_clos P s _ (P.getD 1 default) rfl (by omega)]
    · exact hconvex
    · rw [hx1, hy1, hx2, hy2]
      rcases H2 with h | h <;> rcases hprev with hp | hp <;> rw [h, hp] <;>
        first | exact not_lt.2 (mul_self_nonneg c) | simp
  | succ j ih =>
    have hkn : k < n := by omega
    have hcross := H1 k hk hkn
    have hstep : ¬ gb_path_cross s.x1 s.y1 s.x2 s.y2 (P.getD k default).x (P.getD k default).y
        * s.cross_prev < 0 := by
      rw [hx1, hy1, hx2, hy2, hcross]
      rcases hprev with hp | hp <;> rw [hp] <;>
        first | exact not_lt.2 (mul_self_nonneg c) | simp
    have hval : gb_path_code_e.LINE.val < 1 ↔ False := by decide
    simp only [List.replicate_succ, List.cons_append, gb_path_items_from,
      gb_path_make_convex_scan_cons, hleft, hcc, Bool.false_eq_true, if_false, hval,
      Nat.add_sub_cancel]
    have hlt : (1 : Nat) < 2 := by omega
    rw [if_pos hlt]
    rw [gb_path_make_convex_item_line P s _ (P.getD k default) (gb_path_drop_getD P k)
      (by omega) hstep]
    have hs : gb_path_point_step .LINE = 1 := rfl
    rw [hs]
    apply ih (k + 1) (by omega) (by omega)
    · exact hleft
    · exact hconvex
    · exact hcc
    · simp only [hpc]
    · simp only [Nat.add_sub_cancel, hx2]
      congr 2
    · simp only [hy2]
      congr 2
    · rfl
    · rfl
    · right
      rw [hx1, hy1, hx2, hy2]
      exact hcross

/-- The whole scan on `MOVE, LINE × (m + 3), CLOS`: the convex bit stays set when the
consecutive triples of points all have the cross value `c` and the triple that the `CLOS` case
forms has the cross value `c` or `0`. -/
theorem gb_path_make_convex_scan_polygon (P : List gb_point_t) (m : Nat) (c : Int)
    (H1 : ∀ k, 2 ≤ k → k < m + 3 →
      gb_path_cross (P.getD (k - 2) default).x (P.getD (k - 2) default).y
        (P.getD (k - 1) default).x (P.getD (k - 1) default).y
        (P.getD k default).x (P.getD k default).y = c)
    (H2 : gb_path_cross (P.getD (m + 3 - 2) default).x (P.getD (m + 3 - 2) default).y
        (P.getD (m + 3 - 1) default).x (P.getD (m + 3 - 1) default).y
        (P.getD 1 default).x (P.getD 1 default).y = c ∨
      gb_path_cross (P.getD (m + 3 - 2) default).x (P.getD (m + 3 - 2) default).y
        (P.getD (m + 3 - 1) default).x (P.getD (m + 3 - 1) default).y
        (P.getD 1 default).x (P.getD 1 default).y = 0) :
    (gb_path_make_convex_scan P
      (gb_path_items_from P (.MOVE :: (List.replicate (m + 3) .LINE ++ [.CLOS])) 0)
      { x0 := 0, y0 := 0, x1 := 0, y1 := 0, x2 := 0, y2 := 0, cross_prev := 0,
        point_count := 0, contour_count := 0, convex := true, left := false }).convex
      = true := by
  have hrep : List.replicate (m + 3) gb_path_code_e.LINE
      = .LINE :: .LINE :: List.replicate (m + 1) .LINE := rfl
  rw [hrep]
  show (gb_path_make_convex_scan P
    (gb_path_items_from P (List.replicate (m + 1) .LINE ++ [.CLOS]) (2 + 1))
    (gb_path_make_convex_item P
      { x0 := 0, y0 := 0, x1 := (P.getD 0 default).x, y1 := (P.getD 0 default).y,
        x2 := (P.getD 0 default).x, y2 := (P.getD 0 default).y, cross_prev := 0,
        point_count := 2, contour_count := 1, convex := true, left := false }
      ⟨.LINE, P.drop 1⟩)).convex = true
  rw [gb_path_make_convex_item_line P _ _ (P.getD 1 default) (gb_path_drop_getD P 1)
    (le_refl 2) (by simp)]
  apply gb_path_make_convex_scan_lines P (m + 3) c H1 H2 (m + 1) 2 (le_refl 2) (by omega)
  · rfl
  · rfl
  · rfl
  · rfl
  · rfl
  · rfl
  · rfl
  · rfl
  · left
    simp [gb_path_cross, tb_fixed_t]

theorem gb_path_make_hint_cases (p : gb_path_impl_t) :
    ∃ h, gb_path_make_hint p = (true, { p with hint := h }) ∧
      (h = .NONE ∨ (∃ r, h = .RECT r) ∨ (∃ t, h = .TRIANGLE t) ∨
        ((∃ l, h = .LINE l) ∧ p.points.length = 2) ∨
        ((∃ q, h = .POINT q) ∧ p.points.length = 1)) := by
  unfold gb_path_make_hint
  simp only
  split_ifs with h1 h2 h3 h4 h5
  · exact ⟨_, rfl, Or.inl rfl⟩
  · exact ⟨_, rfl, Or.inr (Or.inl ⟨_, rfl⟩)⟩
  · exact ⟨_, rfl, Or.inr (Or.inr (Or.inl ⟨_, rfl⟩))⟩
  · exact ⟨_, rfl, Or.inr (Or.inr (Or.inr (Or.inl ⟨⟨_, rfl⟩, h4.1⟩)))⟩
  · exact ⟨_, rfl, Or.inr (Or.inr (Or.inr (Or.inr ⟨⟨_, rfl⟩, h5.1⟩)))⟩
  · exact ⟨_, rfl, Or.inl rfl⟩

theorem gb_path_hint_dirty (q : gb_path_impl_t) (hnull : gb_path_null q = false)
    (hdh : q.flag.dirty_hint = true) :
    ∃ h, gb_path_hint q =
        (if h ≠ .NONE then some h else none,
          { q with hint := h, flag := { q.flag with dirty_hint := false } }) ∧
      (h = .NONE ∨ (∃ r, h = .RECT r) ∨ (∃ t, h = .TRIANGLE t) ∨
        ((∃ l, h = .LINE l) ∧ q.points.length = 2) ∨
        ((∃ c, h = .POINT c) ∧ q.points.length = 1)) := by
  obtain ⟨h, hmake, hcases⟩ := gb_path_make_hint_cases q
  refine ⟨h, ?_, hcases⟩
  unfold gb_path_hint
  simp only [hnull, hdh, hmake, Bool.false_eq_true, if_false, if_true]

/-- Function `gb_path_convex` on a freshly built single closed contour without curves: the answer is
true as soon as the scan keeps the convex bit (a recognised hint can only be a rectangle or a
triangle, which set the bit themselves). -/
theorem gb_path_convex_of_scan (p : gb_path_impl_t) (hcodes : 3 < p.codes.length)
    (hpts : 3 ≤ p.points.length) (hdc : p.flag.dirty_convex = true)
    (hdh : p.flag.dirty_hint = true) (hsingle : p.flag.single = true)
    (hclosed : p.flag.closed = true)
    (hscan : (gb_path_make_convex_scan p.points (gb_path_items_from p.points p.codes 0)
      { x0 := 0, y0 := 0, x1 := 0, y1 := 0, x2 := 0, y2 := 0, cross_prev := 0,
        point_count := 0, contour_count := 0, convex := true, left := false }).convex = true) :
    (gb_path_convex p).1 = true := by
  have hnull : gb_path_null p = false := by
    simp only [gb_path_null, beq_eq_false_iff_ne, ne_eq]
    omega
  obtain ⟨h, hhint, hcases⟩ :=
    gb_path_hint_dirty { p with flag := { p.flag with convex := false } } hnull hdh
  have hconv : (gb_path_make_convex p).1 = true ∧
      (gb_path_make_convex p).2.flag.convex = true := by
    simp only [gb_path_make_convex, hhint]
    rcases hcases with h0 | ⟨r, h0⟩ | ⟨t, h0⟩ | ⟨_, h0⟩ | ⟨_, h0⟩
    · subst h0
      simp only [ne_eq, not_true_eq_false, if_false, hsingle, hclosed, gb_path_items, hscan,
        and_self, true_and, gt_iff_lt, hcodes, if_true]
    · subst h0
      simp
    · subst h0
      simp
    · simp only at h0
      omega
    · simp only at h0
      omega
  unfold gb_path_convex
  simp only [hnull, hdc, hconv.1, Bool.false_eq_true, if_false, if_true]
  exact hconv.2

theorem gb_path_flag_or_dirty_all_idem (f : gb_path_flag_t) :
    f.or_dirty_all.or_dirty_all = f.or_dirty_all := rfl

/-- A run of `line_to` on a path whose flag has no `CLOSED` and is already dirty appends one
`LINE` and one point per call. -/
theorem gb_path_foldl_line_to (ps : List gb_point_t) (p : gb_path_impl_t)
    (hcl : p.flag.closed = false) (hd : p.flag.or_dirty_all = p.flag) :
    ps.foldl gb_path_line_to p =
      { p with codes := p.codes ++ List.replicate ps.length .LINE, points := p.points ++ ps } := by
  induction ps generalizing p with
  | nil => simp
  | cons a ps ih =>
    have hstep : gb_path_line_to p a =
        { p with codes := p.codes ++ [.LINE], points := p.points ++ [a] } := by
      simp only [gb_path_line_to, gb_path_patch_move, hcl, Bool.false_eq_true, if_false, hd]
    rw [List.foldl_cons, hstep,
      ih { p with codes := p.codes ++ [.LINE], points := p.points ++ [a] } hcl hd]
    simp [List.replicate_succ]

theorem gb_path_move_to_init (p0 : gb_point_t) :
    gb_path_move_to gb_path_init p0 =
      { gb_path_init with
        codes := [.MOVE], points := [p0], head := p0,
        flag := { dirty_hint := true, dirty_bounds := true, dirty_polygon := true,
                  dirty_convex := true, curve := false, convex := false, closed := false,
                  single := true } } := rfl

/-- The path that entering a polygon leaves, when its last vertex differs from its first:
`clos` patches the closing `LINE` back to the first vertex and appends `CLOS`. -/
theorem gb_path_of_polygon_eq (p0 : gb_point_t) (ps : List gb_point_t) (hlen : 2 ≤ ps.length)
    (hlast : ps.getLast? ≠ some p0) :
    gb_path_of_polygon (p0 :: ps) =
      { gb_path_init with
        codes := .MOVE :: (List.replicate (ps.length + 1) .LINE ++ [.CLOS])
        points := p0 :: (ps ++ [p0])
        head := p0
        flag := { dirty_hint := true, dirty_bounds := true, dirty_polygon := true,
                  dirty_convex := true, curve := false, convex := false, closed := true,
                  single := true } } := by
  have hne : ps ≠ [] := by
    intro h
    rw [h] at hlen
    simp at hlen
  obtain ⟨q, hq⟩ : ∃ q, ps.getLast? = some q := by
    cases h : ps.getLast? with
    | none => exact absurd (List.getLast?_eq_none_iff.1 h) hne
    | some q => exact ⟨q, rfl⟩
  have hqp : q ≠ p0 := fun h => hlast (by rw [hq, h])
  have hqxy : q.x ≠ p0.x ∨ q.y ≠ p0.y := by
    by_contra hcon
    push_neg at hcon
    apply hqp
    cases q
    cases p0
    simp only at hcon
    simp [hcon.1, hcon.2]
  have hplast : ([p0] ++ ps).getLast? = some q := by
    rw [List.getLast?_append, hq]
    rfl
  have hclast : ([gb_path_code_e.MOVE] ++ List.replicate ps.length gb_path_code_e.LINE).getLast?
      = some .LINE := by
    obtain ⟨n, hn⟩ : ∃ n, ps.length = n + 1 := ⟨ps.length - 1, by omega⟩
    rw [hn, List.replicate_succ', ← List.append_assoc, List.getLast?_concat]
  show gb_path_clos (List.foldl gb_path_line_to (gb_path_move_to gb_path_init p0) ps) = _
  rw [gb_path_move_to_init, gb_path_foldl_line_to _ _ rfl rfl]
  unfold gb_path_clos
  have hcond : (([p0] ++ ps).length > 2 ∧
      ([gb_path_code_e.MOVE] ++ List.replicate ps.length gb_path_code_e.LINE).length ≠ 0 ∧
      ([gb_path_code_e.MOVE] ++ List.replicate ps.length gb_path_code_e.LINE).getLast?
        ≠ some .CLOS) := by
    refine ⟨?_, ?_, ?_⟩
    · simp only [List.length_append, List.length_singleton]
      omega
    · simp
    · rw [hclast]
      decide
  simp only [hcond, and_self, if_true, gb_path_last, hplast, gb_path_line_to_head,
    gb_path_patch_move, Bool.false_eq_true, if_false, ne_eq, true_and, hqxy,
    gb_path_flag_t.or_dirty_all, gb_path_init]
  simp [List.replicate_succ']

/-- A difference that fits 32 bits is not changed by the wrap of `tb_fixed_t`. -/
theorem tb_fixed_t_eq (x : Int) (h : -2147483648 ≤ x ∧ x ≤ 2147483647) : tb_fixed_t x = x := by
  unfold tb_fixed_t
  omega

/-- The cross value of the scan is the opposite of the orientation of the triple, when the
differences of the coordinates fit 32 bits. -/
theorem gb_path_cross_eq_orient (a b c : gb_point_t)
    (hab : (-2147483648 ≤ a.x - b.x ∧ a.x - b.x ≤ 2147483647)
      ∧ (-2147483648 ≤ a.y - b.y ∧ a.y - b.y ≤ 2147483647))
    (hcb : (-2147483648 ≤ c.x - b.x ∧ c.x - b.x ≤ 2147483647)
      ∧ (-2147483648 ≤ c.y - b.y ∧ c.y - b.y ≤ 2147483647)) :
    gb_path_cross a.x a.y b.x b.y c.x c.y =
      if 0 < gb_orient a b c then -1 else if gb_orient a b c < 0 then 1 else 0 := by
  have h : (a.x - b.x) * (c.y - b.y) - (a.y - b.y) * (c.x - b.x) = -gb_orient a b c := by
    unfold gb_orient
    ring
  unfold gb_path_cross
  simp only [tb_fixed_t_eq _ hab.1, tb_fixed_t_eq _ hab.2, tb_fixed_t_eq _ hcb.1,
    tb_fixed_t_eq _ hcb.2, h]
  by_cases h1 : 0 < gb_orient a b c
  · have h2 : -gb_orient a b c < 0 := by omega
    simp [h1, h2]
  · by_cases h3 : gb_orient a b c < 0
    · have h4 : ¬ (-gb_orient a b c < 0) := by omega
      have h5 : -gb_orient a b c > 0 := by omega
      simp [h1, h3, h4, h5]
    · have h4 : ¬ (-gb_orient a b c < 0) := by omega
      have h5 : ¬ (-gb_orient a b c > 0) := by omega
      simp [h1, h3, h4, h5]

theorem gb_orient_self (a b : gb_point_t) : gb_orient a b a = 0 := by
  unfold gb_orient
  ring

theorem gb_path_cross_back (a b : gb_point_t) :
    gb_path_cross a.x a.y b.x b.y a.x a.y = 0 := by
  unfold gb_path_cross
  have h : tb_fixed_t (a.x - b.x) * tb_fixed_t (a.y - b.y)
      - tb_fixed_t (a.y - b.y) * tb_fixed_t (a.x - b.x) = 0 := by ring
  simp only [h]
  simp

/-- In a strictly convex polygon whose coordinate differences fit 32 bits the cross value of
the scan is one and the same non-zero sign for every edge and every vertex off that edge. -/
theorem gb_polygon_strictly_convex_cross (points : List gb_point_t)
    (h : gb_polygon_strictly_convex points) (hfit : gb_polygon_fits32 points) :
    ∃ c : Int, ∀ i, i < points.length → ∀ j, j < points.length → j ≠ i →
      j ≠ (i + 1) % points.length →
      gb_orient (points.getD i default) (points.getD ((i + 1) % points.length) default)
        (points.getD j default) ≠ 0 ∧
      gb_path_cross (points.getD i default).x (points.getD i default).y
        (points.getD ((i + 1) % points.length) default).x
        (points.getD ((i + 1) % points.length) default).y
        (points.getD j default).x (points.getD j default).y = c := by
  have hmem : ∀ i, i < points.length → points.getD i default ∈ points := by
    intro i hi
    rw [List.getD_eq_getElem _ _ hi]
    exact List.getElem_mem _
  have hpos : 0 < points.length := by
    have := h.1
    omega
  rcases h.2 with hl | hr
  · refine ⟨-1, fun i hi j hj hji hj1 => ?_⟩
    have h0 := hl i hi j hj hji hj1
    refine ⟨by omega, ?_⟩
    rw [gb_path_cross_eq_orient _ _ _
      (hfit _ (hmem i hi) _ (hmem _ (Nat.mod_lt _ hpos)))
      (hfit _ (hmem j hj) _ (hmem _ (Nat.mod_lt _ hpos))), if_pos h0]
  · refine ⟨1, fun i hi j hj hji hj1 => ?_⟩
    have h0 := hr i hi j hj hji hj1
    refine ⟨by omega, ?_⟩
    have h1 : ¬ 0 < gb_orient (points.getD i default)
        (points.getD ((i + 1) % points.length) default) (points.getD j default) := by omega
    rw [gb_path_cross_eq_orient _ _ _
      (hfit _ (hmem i hi) _ (hmem _ (Nat.mod_lt _ hpos)))
      (hfit _ (hmem j hj) _ (hmem _ (Nat.mod_lt _ hpos))), if_neg h1, if_pos h0]

theorem gb_path_make_hint_frame (p : gb_path_impl_t) :
    (gb_path_make_hint p).2.polygon_ref = p.polygon_ref ∧
      (gb_path_make_hint p).2.polygon_counts = p.polygon_counts ∧
      (gb_path_make_hint p).2.polygon_points = p.polygon_points := by
  unfold gb_path_make_hint
  simp only
  split_ifs <;> exact ⟨rfl, rfl, rfl⟩

theorem gb_path_hint_frame (p : gb_path_impl_t) :
    (gb_path_hint p).2.polygon_ref = p.polygon_ref ∧
      (gb_path_hint p).2.polygon_counts = p.polygon_counts ∧
      (gb_path_hint p).2.polygon_points = p.polygon_points := by
  unfold gb_path_hint
  simp only
  split_ifs <;> first | exact ⟨rfl, rfl, rfl⟩ | exact gb_path_make_hint_frame p

theorem gb_path_make_convex_frame (p : gb_path_impl_t) :
    (gb_path_make_convex p).2.polygon_ref = p.polygon_ref ∧
      (gb_path_make_convex p).2.polygon_counts = p.polygon_counts ∧
      (gb_path_make_convex p).2.polygon_points = p.polygon_points := by
  have h := gb_path_hint_frame { p with flag := { p.flag with convex := false } }
  unfold gb_path_make_convex
  simp only
  split_ifs <;> split <;> exact h

theorem gb_path_convex_frame (p : gb_path_impl_t) :
    (gb_path_convex p).2.polygon_ref = p.polygon_ref ∧
      (gb_path_convex p).2.polygon_counts = p.polygon_counts ∧
      (gb_path_convex p).2.polygon_points = p.polygon_points := by
  unfold gb_path_convex
  simp only
  split_ifs <;> first | exact ⟨rfl, rfl, rfl⟩ | exact gb_path_make_convex_frame p

/-- The counter of the loop over the codes after a run of `LINE`. -/
theorem gb_path_make_python_code_lines (k : Nat) (acc : List Nat) (count : Nat)
    (h : count < 65536) :
    (List.replicate k gb_path_code_e.LINE).foldl gb_path_make_python_code (acc, count)
      = (acc, (count + k) % 65536) := by
  induction k generalizing count with
  | zero => simp [Nat.mod_eq_of_lt h]
  | succ k ih =>
    have hstep : gb_path_make_python_code (acc, count) .LINE = (acc, (count + 1) % 65536) := by
      simp [gb_path_make_python_code, gb_u16_add, gb_path_point_step, gb_path_code_e.val]
    rw [List.replicate_succ, List.foldl_cons, hstep, ih _ (Nat.mod_lt _ (by norm_num))]
    congr 1
    omega

/-- The loop over the codes of one contour `MOVE, LINE × k`. -/
theorem gb_path_make_python_code_contour (k : Nat) (acc : List Nat) (count : Nat) :
    (gb_path_code_e.MOVE :: List.replicate k gb_path_code_e.LINE).foldl
        gb_path_make_python_code (acc, count)
      = (if count ≠ 0 then acc ++ [count] else acc, (1 + k) % 65536) := by
  have hstep : gb_path_make_python_code (acc, count) .MOVE
      = (if count ≠ 0 then acc ++ [count] else acc, 1) := by
    simp [gb_path_make_python_code, gb_u16_add, gb_path_point_step, gb_path_code_e.val]
  rw [List.foldl_cons, hstep, gb_path_make_python_code_lines _ _ _ (by norm_num)]

/-- The counts that the loop over the codes leaves for a sequence of contours of lines: the
16-bit count of each contour, unless that count is zero, then the terminating `0`. -/
theorem gb_path_python_counts_contours (cs : List (gb_point_t × List gb_point_t))
    (acc : List Nat) (count : Nat) :
    gb_path_python_counts
        (((cs.map (fun c => gb_path_code_e.MOVE :: List.replicate c.2.length .LINE)).flatten.foldl
          gb_path_make_python_code (acc, count)).1)
        (((cs.map (fun c => gb_path_code_e.MOVE :: List.replicate c.2.length .LINE)).flatten.foldl
          gb_path_make_python_code (acc, count)).2)
      = (if count ≠ 0 then acc ++ [count] else acc)
          ++ (cs.map (fun c => (1 + c.2.length) % 65536)).filter (fun n => n ≠ 0) ++ [0] := by
  induction cs generalizing acc count with
  | nil => simp [gb_path_python_counts]
  | cons c cs ih =>
    simp only [List.map_cons, List.flatten_cons, List.foldl_append,
      gb_path_make_python_code_contour, ih]
    by_cases h : (1 + c.2.length) % 65536 = 0
    · simp [h]
    · simp [h, List.filter_cons]

/-- One contour entered after a path whose last code is not `MOVE`: a `MOVE` and the `LINE`
codes are appended with their points; no curve is recorded and the polygon is dirty. -/
theorem gb_path_add_contour_eq (p : gb_path_impl_t) (c : gb_point_t × List gb_point_t)
    (h : p.codes.getLast? ≠ some .MOVE) :
    (gb_path_add_contour p c).codes = p.codes ++ .MOVE :: List.replicate c.2.length .LINE ∧
      (gb_path_add_contour p c).points = p.points ++ c.1 :: c.2 ∧
      (gb_path_add_contour p c).flag.curve = p.flag.curve ∧
      (gb_path_add_contour p c).flag.dirty_polygon = true := by
  unfold gb_path_add_contour
  rw [gb_path_foldl_line_to]
  · simp only [gb_path_move_to, h, if_false]
    refine ⟨?_, ?_, ?_, ?_⟩
    · split <;> simp
    · split <;> simp
    · split <;> rfl
    · rfl
  · simp only [gb_path_move_to]
    rfl
  · simp only [gb_path_move_to]
    rfl

theorem gb_path_add_contour_last (p : gb_path_impl_t) (c : gb_point_t × List gb_point_t)
    (h : p.codes.getLast? ≠ some .MOVE) (hc : c.2 ≠ []) :
    (gb_path_add_contour p c).codes.getLast? ≠ some .MOVE := by
  rw [(gb_path_add_contour_eq p c h).1]
  obtain ⟨n, hn⟩ : ∃ n, c.2.length = n + 1 :=
    ⟨c.2.length - 1, by have := List.length_pos.2 hc; omega⟩
  rw [hn, List.replicate_succ', ← List.cons_append, ← List.append_assoc, List.getLast?_concat]
  decide

/-- The codes and points of a path entered contour by contour, when no two `move_to` calls
are adjacent. -/
theorem gb_path_foldl_contours (cs : List (gb_point_t × List gb_point_t)) (p : gb_path_impl_t)
    (h : p.codes.getLast? ≠ some .MOVE) (hadj : ∀ c ∈ cs.dropLast, c.2 ≠ []) :
    (cs.foldl gb_path_add_contour p).codes =
        p.codes ++ (cs.map (fun c => gb_path_code_e.MOVE :: List.replicate c.2.length .LINE)).flatten ∧
      (cs.foldl gb_path_add_contour p).points = p.points ++ (cs.map (fun c => c.1 :: c.2)).flatten ∧
      (cs.foldl gb_path_add_contour p).flag.curve = p.flag.curve ∧
      (cs ≠ [] → (cs.foldl gb_path_add_contour p).flag.dirty_polygon = true) := by
  induction cs generalizing p with
  | nil => simp
  | cons c cs ih =>
    obtain ⟨h1, h2, h3, h4⟩ := gb_path_add_contour_eq p c h
    cases cs with
    | nil =>
      simp only [List.foldl_cons, List.foldl_nil, List.map_cons, List.map_nil, List.flatten_cons,
        List.flatten_nil, List.append_nil]
      exact ⟨h1, h2, h3, fun _ => h4⟩
    | cons c' cs' =>
      have hc : c.2 ≠ [] := hadj c (by simp [List.dropLast])
      have hadj' : ∀ d ∈ (c' :: cs').dropLast, d.2 ≠ [] := by
        intro d hd
        apply hadj d
        rw [List.dropLast_cons₂]
        exact List.mem_cons_of_mem _ hd
      obtain ⟨i1, i2, i3, i4⟩ := ih (gb_path_add_contour p c)
        (gb_path_add_contour_last p c h hc) hadj'
      rw [List.foldl_cons]
      refine ⟨?_, ?_, ?_, fun _ => i4 (by simp)⟩
      · rw [i1, h1]
        simp
      · rw [i2, h2]
        simp
      · rw [i3, h3]

/-- The polygon that `gb_path_polygon` returns for a path entered as contours of lines, no two
`move_to` calls adjacent: its points are the entered points in order, its counts are the 16-bit
point counts of the contours, those equal to zero left out, followed by the terminating `0`. -/
theorem gb_path_polygon_of_contours (deps : gb_deps_t) (cs : List (gb_point_t × List gb_point_t))
    (hne : cs ≠ []) (hadj : ∀ c ∈ cs.dropLast, c.2 ≠ []) :
    ∃ poly, (gb_path_polygon deps (gb_path_of_contours cs)).1 = some poly ∧
      poly.points = (cs.map (fun c => c.1 :: c.2)).flatten ∧
      poly.counts =
        (cs.map (fun c => (1 + c.2.length) % 65536)).filter (fun n => n ≠ 0) ++ [0] := by
  obtain ⟨h1, h2, h3, h4⟩ := gb_path_foldl_contours cs gb_path_init (by decide) hadj
  have h4' : (gb_path_of_contours cs).flag.dirty_polygon = true := h4 hne
  have hcodes : (gb_path_of_contours cs).codes =
      (cs.map (fun c => gb_path_code_e.MOVE :: List.replicate c.2.length .LINE)).flatten := by
    rw [gb_path_of_contours, h1]
    rfl
  have hpoints : (gb_path_of_contours cs).points = (cs.map (fun c => c.1 :: c.2)).flatten := by
    rw [gb_path_of_contours, h2]
    rfl
  have hcurve : (gb_path_of_contours cs).flag.curve = false := by
    rw [gb_path_of_contours, h3]
    rfl
  have hnull : gb_path_null (gb_path_of_contours cs) = false := by
    simp only [gb_path_null, hcodes, beq_eq_false_iff_ne, ne_eq]
    cases cs with
    | nil => exact absurd rfl hne
    | cons c cs => simp
  unfold gb_path_polygon
  simp only [hnull, Bool.false_eq_true, if_false]
  rw [if_pos h4']
  simp only [gb_path_make_python, hcurve, Bool.false_eq_true, if_false, if_true,
    gb_path_polygon_value]
  refine ⟨_, rfl, ?_, ?_⟩
  · simp only [(gb_path_convex_frame _).1, (gb_path_convex_stream _).2, hpoints]
  · simp only [(gb_path_convex_frame _).2.1, hcodes]
    have := gb_path_python_counts_contours cs [] 0
    simpa using this

/-- The polygon of a single contour of `k + 1` points: the number of its points and its
counts. -/
theorem gb_path_polygon_one_contour (deps : gb_deps_t) (p q : gb_point_t) (k : Nat) :
    (gb_path_polygon deps (gb_path_of_contours [(p, List.replicate k q)])).1.map
      (fun poly => (poly.points.length, poly.counts))
      = some (k + 1, [(1 + k) % 65536].filter (fun n => n ≠ 0) ++ [0]) := by
  obtain ⟨poly, h1, h2, h3⟩ := gb_path_polygon_of_contours deps
    [(p, List.replicate k q)] (List.cons_ne_nil _ _)
    (fun c hc => (List.not_mem_nil c hc).elim)
  have hlen : poly.points.length = k + 1 := by
    rw [h2]
    simp only [List.map_cons, List.map_nil, List.flatten_cons, List.flatten_nil,
      List.append_nil, List.length_cons, List.length_replicate]
  have hcounts : poly.counts = [(1 + k) % 65536].filter (fun n => n ≠ 0) ++ [0] := by
    rw [h3]
    simp only [List.map_cons, List.map_nil, List.length_replicate]
  rw [h1, Option.map_some', hlen, hcounts]

/-- C8 (counterexample): one contour of 65536 points, entered by `move_to` and 65535
`line_to` calls.  The `tb_uint16_t` count of `gb_path_make_python` wraps to `0`, so the polygon
holds the 65536 points but its counts array is the terminating `0` alone, not the point count
of the contour followed by `0`. -/
theorem gb_path_polygon_lines_counterexample :
    (gb_path_polygon gb_deps_sample
        (gb_path_of_contours [(⟨0, 0⟩, List.replicate 65535 ⟨1, 1⟩)])).1.map
      (fun poly => (poly.points.length, poly.counts)) = some (65536, [0]) := by
  rw [gb_path_polygon_one_contour gb_deps_sample ⟨0, 0⟩ ⟨1, 1⟩ 65535]
  rfl

/-- C8 (amended): for every path built from `gb_path_init` by a `move_to` followed by
`line_to` calls, repeated for one or more contours with no two `move_to` calls adjacent and at
most 65535 points in each contour, `gb_path_polygon` returns a polygon whose points are the
entered points in order and whose counts are the point counts of the contours in order
followed by a single terminating `0`. -/
theorem gb_path_polygon_lines (deps : gb_deps_t) (cs : List (gb_point_t × List gb_point_t))
    (hne : cs ≠ []) (hadj : ∀ c ∈ cs.dropLast, c.2 ≠ [])
    (hsz : ∀ c ∈ cs, c.2.length + 1 ≤ 65535) :
    ∃ poly, (gb_path_polygon deps (gb_path_of_contours cs)).1 = some poly ∧
      poly.points = (cs.map (fun c => c.1 :: c.2)).flatten ∧
      poly.counts = cs.map (fun c => c.2.length + 1) ++ [0] := by
  obtain ⟨poly, h1, h2, h3⟩ := gb_path_polygon_of_contours deps cs hne hadj
  refine ⟨poly, h1, h2, ?_⟩
  rw [h3]
  congr 1
  clear h1 h2 h3 hne hadj
  induction cs with
  | nil => rfl
  | cons c cs ih =>
    have hc := hsz c (List.mem_cons_self _ _)
    have hmod : (1 + c.2.length) % 65536 = c.2.length + 1 := by
      rw [Nat.mod_eq_of_lt (by omega)]
      omega
    simp only [List.map_cons, hmod]
    rw [List.filter_cons_of_pos (by simp), ih (fun d hd => hsz d (List.mem_cons_of_mem _ hd))]

/-- C8 (witness): two contours, of three and of two points. -/
theorem gb_path_polygon_lines_witness :
    ∃ poly, (gb_path_polygon gb_deps_sample (gb_path_of_contours
        [(⟨0, 0⟩, [⟨1, 0⟩, ⟨1, 1⟩]), (⟨5, 5⟩, [⟨6, 6⟩])])).1 = some poly ∧
      poly.points = [⟨0, 0⟩, ⟨1, 0⟩, ⟨1, 1⟩, ⟨5, 5⟩, ⟨6, 6⟩] ∧
      poly.counts = [3, 2, 0] :=
  gb_path_polygon_lines gb_deps_sample [(⟨0, 0⟩, [⟨1, 0⟩, ⟨1, 1⟩]), (⟨5, 5⟩, [⟨6, 6⟩])]
    (by decide) (by decide) (by decide)

/-! ### Hint shapes of paths entered point by point -/

theorem gb_path_of_contours_rect (a b c d e : gb_point_t) :
    gb_path_of_contours [(a, [b, c, d, e])] =
      { gb_path_init with
        codes := [.MOVE, .LINE, .LINE, .LINE, .LINE]
        points := [a, b, c, d, e]
        head := a
        flag := { dirty_hint := true, dirty_bounds := true, dirty_polygon := true,
                  dirty_convex := true, curve := false, convex := false, closed := false,
                  single := true } } := rfl

theorem gb_path_of_contours_triangle (a b c d : gb_point_t) :
    gb_path_of_contours [(a, [b, c, d])] =
      { gb_path_init with
        codes := [.MOVE, .LINE, .LINE, .LINE]
        points := [a, b, c, d]
        head := a
        flag := { dirty_hint := true, dirty_bounds := true, dirty_polygon := true,
                  dirty_convex := true, curve := false, convex := false, closed := false,
                  single := true } } := rfl

/-- The bounding box of the four corners of an axis-aligned rectangle, in either orientation. -/
theorem gb_bounds_make_rect (x0 y0 x1 y1 : Int) (n : Nat) (hn : 4 ≤ n) :
    gb_bounds_make [⟨x0, y0⟩, ⟨x1, y0⟩, ⟨x1, y1⟩, ⟨x0, y1⟩, ⟨x0, y0⟩] n
        = ⟨min x0 x1, min y0 y1, |x1 - x0|, |y1 - y0|⟩ ∧
      gb_bounds_make [⟨x0, y0⟩, ⟨x0, y1⟩, ⟨x1, y1⟩, ⟨x1, y0⟩, ⟨x0, y0⟩] n
        = ⟨min x0 x1, min y0 y1, |x1 - x0|, |y1 - y0|⟩ := by
  obtain ⟨k, rfl⟩ : ∃ k, n = k + 4 := ⟨n - 4, by omega⟩
  have hx : |x1 - x0| = max x0 x1 - min x0 x1 := by
    rcases le_total x0 x1 with h | h
    · rw [abs_of_nonneg (by omega), max_eq_right h, min_eq_left h]
    · rw [abs_of_nonpos (by omega), max_eq_left h, min_eq_right h]; omega
  have hy : |y1 - y0| = max y0 y1 - min y0 y1 := by
    rcases le_total y0 y1 with h | h
    · rw [abs_of_nonneg (by omega), max_eq_right h, min_eq_left h]
    · rw [abs_of_nonpos (by omega), max_eq_left h, min_eq_right h]; omega
  rw [hx, hy]
  cases k with
  | zero =>
    simp only [gb_bounds_make, List.take, List.foldl, gb_rect_t.mk.injEq]
    refine ⟨⟨?_, ?_, ?_, ?_⟩, ⟨?_, ?_, ?_, ?_⟩⟩ <;> omega
  | succ k =>
    simp only [gb_bounds_make, List.take, List.take_nil, List.foldl, gb_rect_t.mk.injEq]
    refine ⟨⟨?_, ?_, ?_, ?_⟩, ⟨?_, ?_, ?_, ?_⟩⟩ <;> omega

/-- C11: for `x0 ≠ x1` and `y0 ≠ y1`, the path `MOVE(x0,y0) LINE(x1,y0) LINE(x1,y1) LINE(x0,y1)
LINE(x0,y0)` entered by `move_to` and `line_to`, and the same rectangle entered in the other
orientation, has the hint `RECT(min x, min y, |x1 - x0|, |y1 - y0|)`, bounds equal to that
rectangle (asked before or after the hint), and is convex. -/
theorem gb_path_hint_rect (x0 y0 x1 y1 : Int) (hx : x0 ≠ x1) (hy : y0 ≠ y1) :
    ∀ p ∈ [gb_path_of_contours [(⟨x0, y0⟩, [⟨x1, y0⟩, ⟨x1, y1⟩, ⟨x0, y1⟩, ⟨x0, y0⟩])],
           gb_path_of_contours [(⟨x0, y0⟩, [⟨x0, y1⟩, ⟨x1, y1⟩, ⟨x1, y0⟩, ⟨x0, y0⟩])]],
      (gb_path_hint p).1 = some (.RECT ⟨min x0 x1, min y0 y1, |x1 - x0|, |y1 - y0|⟩) ∧
      (gb_path_bounds p).1 = some ⟨min x0 x1, min y0 y1, |x1 - x0|, |y1 - y0|⟩ ∧
      (gb_path_bounds (gb_path_hint p).2).1
        = some ⟨min x0 x1, min y0 y1, |x1 - x0|, |y1 - y0|⟩ ∧
      (gb_path_convex p).1 = true := by
  have hx' : x1 ≠ x0 := fun h => hx h.symm
  have hy' : y1 ≠ y0 := fun h => hy h.symm
  have hb4 := gb_bounds_make_rect x0 y0 x1 y1 4 (le_refl 4)
  have hb5 := gb_bounds_make_rect x0 y0 x1 y1 5 (by decide)
  intro p hp
  simp only [List.mem_cons, List.mem_singleton, List.not_mem_nil, or_false] at hp
  rcases hp with rfl | rfl
  · rw [gb_path_of_contours_rect]
    simp [gb_path_hint, gb_path_make_hint, gb_path_bounds, gb_path_convex, gb_path_make_convex,
      gb_path_null, gb_path_init, hx, hy, hx', hy', hb4.1, hb5.1]
  · rw [gb_path_of_contours_rect]
    simp [gb_path_hint, gb_path_make_hint, gb_path_bounds, gb_path_convex, gb_path_make_convex,
      gb_path_null, gb_path_init, hx, hy, hx', hy', hb4.2, hb5.2]

/-- C11 (witness): `MOVE(0,0) LINE(10,0) LINE(10,10) LINE(0,10) LINE(0,0)` gives
`RECT(0,0,10,10)`. -/
theorem gb_path_hint_rect_witness :
    (gb_path_hint (gb_path_of_contours
        [(⟨0, 0⟩, [⟨10, 0⟩, ⟨10, 10⟩, ⟨0, 10⟩, ⟨0, 0⟩])])).1 = some (.RECT ⟨0, 0, 10, 10⟩) ∧
      (gb_path_bounds (gb_path_of_contours
        [(⟨0, 0⟩, [⟨10, 0⟩, ⟨10, 10⟩, ⟨0, 10⟩, ⟨0, 0⟩])])).1 = some ⟨0, 0, 10, 10⟩ ∧
      (gb_path_convex (gb_path_of_contours
        [(⟨0, 0⟩, [⟨10, 0⟩, ⟨10, 10⟩, ⟨0, 10⟩, ⟨0, 0⟩])])).1 = true :=
  have h := gb_path_hint_rect 0 0 10 10 (by decide) (by decide) _ (List.mem_cons_self _ _)
  ⟨h.1, h.2.1, h.2.2.2⟩

/-- C12 (counterexample): the collinear points `(0,0), (1,1), (2,2)` are reported as a
`TRIANGLE`, and the genuine triangle `(0,0), (10,0), (5,5)`, two of whose vertices share a
`y`, is not. -/
theorem gb_path_hint_triangle_counterexample :
    (gb_orient ⟨0, 0⟩ ⟨1, 1⟩ ⟨2, 2⟩ = 0 ∧
      (gb_path_hint (gb_path_of_contours [(⟨0, 0⟩, [⟨1, 1⟩, ⟨2, 2⟩, ⟨0, 0⟩])])).1
        = some (.TRIANGLE ⟨⟨0, 0⟩, ⟨1, 1⟩, ⟨2, 2⟩⟩)) ∧
    (gb_orient ⟨0, 0⟩ ⟨10, 0⟩ ⟨5, 5⟩ ≠ 0 ∧
      (gb_path_hint (gb_path_of_contours [(⟨0, 0⟩, [⟨10, 0⟩, ⟨5, 5⟩, ⟨0, 0⟩])])).1 = none) := by
  decide

/-- C12 (amended): for the path `MOVE p0, LINE p1, LINE p2, LINE p0` entered by `move_to` and
`line_to`, `gb_path_hint` reports `TRIANGLE(p0, p1, p2)` exactly when the three points differ
pairwise in `x` and differ pairwise in `y`, and reports no hint otherwise. -/
theorem gb_path_hint_triangle (p0 p1 p2 : gb_point_t) :
    (gb_path_hint (gb_path_of_contours [(p0, [p1, p2, p0])])).1 =
      if p0.x ≠ p1.x ∧ p0.y ≠ p1.y ∧ p0.x ≠ p2.x ∧ p0.y ≠ p2.y ∧ p1.x ≠ p2.x ∧ p1.y ≠ p2.y
      then some (.TRIANGLE ⟨p0, p1, p2⟩) else none := by
  rw [gb_path_of_contours_triangle]
  by_cases h : p0.x ≠ p1.x ∧ p0.y ≠ p1.y ∧ p0.x ≠ p2.x ∧ p0.y ≠ p2.y ∧ p1.x ≠ p2.x ∧ p1.y ≠ p2.y
  · rw [if_pos h]
    obtain ⟨h1, h2, h3, h4, h5, h6⟩ := h
    simp [gb_path_hint, gb_path_make_hint, gb_path_null, gb_path_init, h1, h2, h3, h4, h5, h6]
  · rw [if_neg h]
    simp only [gb_path_hint, gb_path_make_hint, gb_path_null, gb_path_init]
    simp [h]

/-! ### Invariants of reachable paths -/

theorem gb_path_make_hint_contour (p : gb_path_impl_t) :
    (gb_path_make_hint p).2.head = p.head ∧
      (gb_path_make_hint p).2.flag.closed = p.flag.closed := by
  unfold gb_path_make_hint
  simp only
  split_ifs <;> exact ⟨rfl, rfl⟩

theorem gb_path_hint_contour (p : gb_path_impl_t) :
    (gb_path_hint p).2.head = p.head ∧ (gb_path_hint p).2.flag.closed = p.flag.closed := by
  unfold gb_path_hint
  simp only
  split_ifs <;> first | exact ⟨rfl, rfl⟩ | exact gb_path_make_hint_contour p

theorem gb_path_make_convex_contour (p : gb_path_impl_t) :
    (gb_path_make_convex p).2.head = p.head ∧
      (gb_path_make_convex p).2.flag.closed = p.flag.closed := by
  have h := gb_path_hint_contour { p with flag := { p.flag with convex := false } }
  unfold gb_path_make_convex
  simp only
  split_ifs <;> split <;> exact h

theorem gb_path_convex_contour (p : gb_path_impl_t) :
    (gb_path_convex p).2.head = p.head ∧ (gb_path_convex p).2.flag.closed = p.flag.closed := by
  unfold gb_path_convex
  simp only
  split_ifs <;> first | exact ⟨rfl, rfl⟩ | exact gb_path_make_convex_contour p

theorem gb_path_bounds_contour (p : gb_path_impl_t) :
    (gb_path_bounds p).2.head = p.head ∧ (gb_path_bounds p).2.flag.closed = p.flag.closed := by
  unfold gb_path_bounds
  simp only
  split_ifs <;> first | exact ⟨rfl, rfl⟩ | (split <;> exact ⟨rfl, rfl⟩)

theorem gb_path_make_python_contour (deps : gb_deps_t) (p : gb_path_impl_t) :
    (gb_path_make_python deps p).2.head = p.head ∧
      (gb_path_make_python deps p).2.flag.closed = p.flag.closed := by
  unfold gb_path_make_python
  simp only
  split_ifs
  · exact gb_path_convex_contour _
  · exact gb_path_convex_contour _

theorem gb_path_polygon_contour (deps : gb_deps_t) (p : gb_path_impl_t) :
    (gb_path_polygon deps p).2.head = p.head ∧
      (gb_path_polygon deps p).2.flag.closed = p.flag.closed := by
  unfold gb_path_polygon
  simp only
  split_ifs <;> first | exact ⟨rfl, rfl⟩ | exact gb_path_make_python_contour deps p

theorem gb_path_invariant.hint_done {P : gb_path_impl_t → Prop} (H : gb_path_invariant P)
    (b : Bool) (p : gb_path_impl_t) (h : P p) :
    P (gb_path_hint_done b p) := by
  unfold gb_path_hint_done
  split
  · exact H.frame p _ rfl rfl rfl rfl h
  · exact h

theorem gb_path_invariant.hint_set {P : gb_path_impl_t → Prop} (H : gb_path_invariant P)
    (b : Bool) (s : gb_shape_t) (p : gb_path_impl_t) (h : P p) :
    P (if b = true then { p with hint := s } else p) := by
  split
  · exact H.frame p _ rfl rfl rfl rfl h
  · exact h

theorem gb_path_foldl_invariant {P : gb_path_impl_t → Prop} {α : Type} (f : gb_path_impl_t → α → gb_path_impl_t)
    (hf : ∀ p a, P p → P (f p a)) (l : List α) (p : gb_path_impl_t) (h : P p) :
    P (l.foldl f p) := by
  induction l generalizing p with
  | nil => exact h
  | cons a l ih => exact ih _ (hf p a h)

theorem gb_path_invariant.copy {P : gb_path_impl_t → Prop} (H : gb_path_invariant P)
    (p q : gb_path_impl_t) (hq : P q) : P (gb_path_copy p q) := by
  unfold gb_path_copy
  split
  · exact H.clear p
  · exact H.frame q _ rfl rfl rfl rfl hq

theorem gb_path_invariant.arc_to {P : gb_path_impl_t → Prop} (H : gb_path_invariant P)
    (deps : gb_deps_t) (p : gb_path_impl_t) (arc : gb_arc_t)
    (h : P p) : P (gb_path_arc_to deps p arc) := by
  unfold gb_path_arc_to
  apply H.hint_done
  apply gb_path_foldl_invariant
  · intro q a hq
    unfold gb_path_make_quad_for_arc_to
    split
    · exact H.quad_to _ _ _ hq
    · exact hq
  · exact H.hint_set _ _ _ h

theorem gb_path_invariant.add_line {P : gb_path_impl_t → Prop} (H : gb_path_invariant P)
    (p : gb_path_impl_t) (line : gb_line_t) (h : P p) :
    P (gb_path_add_line p line) := by
  unfold gb_path_add_line
  apply H.hint_done
  apply H.line_to
  apply H.move_to
  split
  · exact H.frame p _ rfl rfl rfl rfl h
  · exact h

theorem gb_path_invariant.add_triangle {P : gb_path_impl_t → Prop} (H : gb_path_invariant P)
    (p : gb_path_impl_t) (t : gb_triangle_t) (h : P p) :
    P (gb_path_add_triangle p t) := by
  unfold gb_path_add_triangle
  apply H.hint_done
  apply H.clos
  apply H.line_to
  apply H.line_to
  apply H.move_to
  exact H.hint_set _ _ _ h

theorem gb_path_invariant.add_rect {P : gb_path_impl_t → Prop} (H : gb_path_invariant P)
    (p : gb_path_impl_t) (r : gb_rect_t)
    (d : gb_rotate_direction_e) (h : P p) : P (gb_path_add_rect p r d) := by
  unfold gb_path_add_rect
  apply H.hint_done
  apply H.clos
  have h2 : P (gb_path_move2_to
      (if gb_path_hint_maked p = true then { p with hint := .RECT r } else p) r.x r.y) :=
    H.move_to _ _ (H.hint_set _ _ _ h)
  simp only [gb_path_line2_to]
  split
  · exact H.line_to _ _ (H.line_to _ _ (H.line_to _ _ h2))
  · exact H.line_to _ _ (H.line_to _ _ (H.line_to _ _ h2))

theorem gb_path_invariant.add_ellipse {P : gb_path_impl_t → Prop} (H : gb_path_invariant P)
    (deps : gb_deps_t) (p : gb_path_impl_t)
    (e : gb_ellipse_t) (d : gb_rotate_direction_e) (h : P p) :
    P (gb_path_add_ellipse deps p e d) := by
  unfold gb_path_add_ellipse
  apply H.hint_done
  apply H.clos
  have h2 := H.move_to _ (gb_point_make (e.c.x + e.rx) e.c.y)
    (H.hint_set (gb_path_hint_maked p) (.ELLIPSE e) _ h)
  simp only [gb_path_quad2_to, gb_path_move2_to]
  split
  · exact H.quad_to _ _ _ (H.quad_to _ _ _ (H.quad_to _ _ _ (H.quad_to _ _ _
      (H.quad_to _ _ _ (H.quad_to _ _ _ (H.quad_to _ _ _ (H.quad_to _ _ _ h2)))))))
  · exact H.quad_to _ _ _ (H.quad_to _ _ _ (H.quad_to _ _ _ (H.quad_to _ _ _
      (H.quad_to _ _ _ (H.quad_to _ _ _ (H.quad_to _ _ _ (H.quad_to _ _ _ h2)))))))

theorem gb_path_invariant.add_arc {P : gb_path_impl_t → Prop} (H : gb_path_invariant P)
    (deps : gb_deps_t) (p : gb_path_impl_t) (arc : gb_arc_t)
    (h : P p) : P (gb_path_add_arc deps p arc) := by
  unfold gb_path_add_arc
  split
  · exact H.add_ellipse deps p _ _ h
  · apply H.hint_done
    apply gb_path_foldl_invariant
    · intro q a hq
      unfold gb_path_make_quad_for_add_arc
      split
      · exact H.quad_to _ _ _ hq
      · exact H.move_to _ _ hq
    · exact H.hint_set _ _ _ h

theorem gb_path_invariant.add_circle {P : gb_path_impl_t → Prop} (H : gb_path_invariant P)
    (deps : gb_deps_t) (p : gb_path_impl_t) (c : gb_circle_t)
    (d : gb_rotate_direction_e) (h : P p) : P (gb_path_add_circle deps p c d) := by
  unfold gb_path_add_circle
  apply H.hint_done
  apply H.add_ellipse
  split
  · exact H.frame p _ rfl rfl rfl rfl h
  · exact h

theorem gb_path_invariant.add_round_rect {P : gb_path_impl_t → Prop} (H : gb_path_invariant P)
    (deps : gb_deps_t) (p : gb_path_impl_t)
    (r : gb_round_rect_t) (d : gb_rotate_direction_e) (h : P p) :
    P (gb_path_add_round_rect deps p r d) := by
  unfold gb_path_add_round_rect
  split
  · exact H.add_rect p _ _ h
  · split
    · exact H.add_ellipse deps p _ _ h
    · apply H.hint_done
      apply H.clos
      have h2 := H.move_to _ (gb_point_make r.bounds.x (r.bounds.y + r.radius_lt.y))
        (H.hint_set (gb_path_hint_maked p) (.ROUND_RECT r) _ h)
      simp only [gb_path_quad2_to, gb_path_move2_to, gb_path_line2_to]
      split
      · exact H.line_to _ _ (H.quad_to _ _ _ (H.quad_to _ _ _ (H.line_to _ _
          (H.quad_to _ _ _ (H.quad_to _ _ _ (H.line_to _ _ (H.quad_to _ _ _
          (H.quad_to _ _ _ (H.line_to _ _ (H.quad_to _ _ _ (H.quad_to _ _ _ h2)))))))))))
      · exact H.quad_to _ _ _ (H.quad_to _ _ _ (H.line_to _ _ (H.quad_to _ _ _
          (H.quad_to _ _ _ (H.line_to _ _ (H.quad_to _ _ _ (H.quad_to _ _ _
          (H.line_to _ _ (H.quad_to _ _ _ (H.quad_to _ _ _ (H.line_to _ _ h2)))))))))))

theorem gb_path_invariant.path_to {P : gb_path_impl_t → Prop} (H : gb_path_invariant P)
    (p added : gb_path_impl_t) (h : P p) :
    P (gb_path_path_to p added) := by
  unfold gb_path_path_to
  apply gb_path_foldl_invariant _ _ _ _ h
  rintro q ⟨i, item⟩ hq
  simp only
  split
  · split
    · exact H.move_to _ _ hq
    · exact hq
  · exact H.line_to _ _ hq
  · exact H.quad_to _ _ _ hq
  · exact H.cubic_to _ _ _ _ hq
  · exact H.clos _ hq

theorem gb_path_invariant.add_path {P : gb_path_impl_t → Prop} (H : gb_path_invariant P)
    (p added : gb_path_impl_t) (h : P p) (ha : P added) :
    P (gb_path_add_path p added) := by
  unfold gb_path_add_path
  split
  · exact H.copy p added ha
  · apply gb_path_foldl_invariant _ _ _ _ h
    intro q item hq
    split
    · exact H.move_to _ _ hq
    · exact H.line_to _ _ hq
    · exact H.quad_to _ _ _ hq
    · exact H.cubic_to _ _ _ _ hq
    · exact H.clos _ hq

theorem gb_path_invariant.rwalk_item {P : gb_path_impl_t → Prop} (H : gb_path_invariant P)
    (w : gb_path_rwalk_t) (item : gb_path_item_t)
    (h : P w.impl) : P (gb_path_rwalk_item w item).impl := by
  obtain ⟨p, need_move, need_close⟩ := w
  obtain ⟨code, pts⟩ := item
  have hm := H.move_to p (gb_path_item_t.point ⟨code, pts⟩ 0) h
  have hc := H.clos p h
  have hmc := H.clos _ hm
  cases need_move <;> cases need_close <;> cases code <;>
    simp only [gb_path_rwalk_item, if_true, if_false, Bool.false_eq_true] <;>
    first
      | assumption
      | exact H.line_to _ _ (by assumption)
      | exact H.quad_to _ _ _ (by assumption)
      | exact H.cubic_to _ _ _ _ (by assumption)

theorem gb_path_invariant.rwalk {P : gb_path_impl_t → Prop} (H : gb_path_invariant P)
    (l : List gb_path_item_t) (w : gb_path_rwalk_t)
    (h : P w.impl) : P (l.foldl gb_path_rwalk_item w).impl := by
  induction l generalizing w with
  | nil => exact h
  | cons a l ih => exact ih _ (H.rwalk_item w a h)

theorem gb_path_invariant.run {P : gb_path_impl_t → Prop} (H : gb_path_invariant P)
    (deps : gb_deps_t) (o : gb_path_op) (p : gb_path_impl_t)
    (h : P p) : P (o.run deps p) := by
  cases o with
  | clear => exact H.clear p
  | last_set point => exact H.last_set p point h
  | apply f => exact H.apply p f h
  | convex_set b => exact H.frame p _ rfl rfl rfl rfl h
  | bounds =>
    exact H.frame p _ (gb_path_bounds_stream p).1 (gb_path_bounds_stream p).2
      (gb_path_bounds_contour p).1 (gb_path_bounds_contour p).2 h
  | convex =>
    exact H.frame p _ (gb_path_convex_stream p).1 (gb_path_convex_stream p).2
      (gb_path_convex_contour p).1 (gb_path_convex_contour p).2 h
  | hint =>
    exact H.frame p _ (gb_path_hint_stream p).1 (gb_path_hint_stream p).2
      (gb_path_hint_contour p).1 (gb_path_hint_contour p).2 h
  | polygon =>
    exact H.frame p _ (gb_path_polygon_stream deps p).1 (gb_path_polygon_stream deps p).2
      (gb_path_polygon_contour deps p).1 (gb_path_polygon_contour deps p).2 h
  | move_to point => exact H.move_to p point h
  | line_to point => exact H.line_to p point h
  | quad_to ctrl point => exact H.quad_to p ctrl point h
  | cubic_to ctrl0 ctrl1 point => exact H.cubic_to p ctrl0 ctrl1 point h
  | clos => exact H.clos p h
  | arc_to arc => exact H.arc_to deps p arc h
  | add_line line => exact H.add_line p line h
  | add_arc arc => exact H.add_arc deps p arc h
  | add_triangle t => exact H.add_triangle p t h
  | add_rect r d => exact H.add_rect p r d h
  | add_round_rect r d => exact H.add_round_rect deps p r d h
  | add_circle c d => exact H.add_circle deps p c d h
  | add_ellipse e d => exact H.add_ellipse deps p e d h

/-- An invariant holds of every path that the public operations build. -/
theorem gb_path_invariant.reachable {P : gb_path_impl_t → Prop} (H : gb_path_invariant P)
    (deps : gb_deps_t) (p : gb_path_impl_t)
    (h : gb_path_reachable deps p) : P p := by
  induction h with
  | init => exact H.init
  | op o _ ih => exact H.run deps o _ ih
  | copy _ _ _ ih2 => exact H.copy _ _ ih2
  | path_to _ _ ih1 _ => exact H.path_to _ _ ih1
  | rpath_to _ _ ih1 _ => exact H.rwalk _ _ ih1
  | add_path _ _ ih1 ih2 => exact H.add_path _ _ ih1 ih2
  | add_rpath _ _ ih1 _ => exact H.rwalk _ _ ih1

/-! ### The stream of a reachable path is well formed -/

theorem gb_path_move_to_codes (p : gb_path_impl_t) (pt : gb_point_t) :
    (gb_path_move_to p pt).codes
        = (if p.codes.getLast? = some .MOVE then p.codes else p.codes ++ [.MOVE]) ∧
      (gb_path_move_to p pt).points
        = (if p.codes.getLast? = some .MOVE then tb_vector_replace_last p.points pt
           else p.points ++ [pt]) ∧
      (gb_path_move_to p pt).head = pt ∧
      (gb_path_move_to p pt).flag.closed = false := by
  unfold gb_path_move_to
  simp only
  split_ifs <;> simp [gb_path_flag_t.or_dirty_all]

theorem gb_path_move_to_last (p : gb_path_impl_t) (pt : gb_point_t) :
    (gb_path_move_to p pt).codes.getLast? = some .MOVE := by
  rw [(gb_path_move_to_codes p pt).1]
  split_ifs with h
  · exact h
  · simp

theorem gb_path_head_append (codes : List gb_path_code_e) (c : gb_path_code_e)
    (h : codes.head? ≠ some .CLOS) (hc : c ≠ .CLOS) : (codes ++ [c]).head? ≠ some .CLOS := by
  cases codes with
  | nil => simpa using hc
  | cons a l => simpa using h

theorem gb_path_wellformed_move_to (p : gb_path_impl_t) (pt : gb_point_t)
    (h : gb_path_wellformed p) : gb_path_wellformed (gb_path_move_to p pt) := by
  refine ⟨gb_path_counted_move_to p pt h.counted, ?_, ?_, ?_, ?_⟩
  · rw [(gb_path_move_to_codes p pt).1]
    split_ifs with hm
    · exact h.first
    · exact gb_path_head_append p.codes .MOVE h.first (by decide)
  · intro hl
    rw [gb_path_move_to_last] at hl
    exact absurd hl (by decide)
  · rw [(gb_path_move_to_codes p pt).1]
    split_ifs with hm
    · exact h.clos_move
    · refine List.chain'_append.2 ⟨h.clos_move, List.chain'_singleton _, ?_⟩
      intro x _ y hy _
      simpa using hy.symm
  · rw [(gb_path_move_to_codes p pt).1]
    split_ifs with hm
    · exact h.move_move
    · refine List.chain'_append.2 ⟨h.move_move, List.chain'_singleton _, ?_⟩
      intro x hx y _ hxy
      rw [Option.mem_def] at hx
      rw [hxy.1] at hx
      exact hm hx

theorem gb_path_wellformed_patch_move (p : gb_path_impl_t) (h : gb_path_wellformed p) :
    gb_path_wellformed (gb_path_patch_move p) ∧
      (gb_path_patch_move p).flag.closed = false ∧
      (gb_path_patch_move p).codes.getLast? ≠ some .CLOS := by
  unfold gb_path_patch_move
  split_ifs with hc
  · refine ⟨gb_path_wellformed_move_to p _ h, (gb_path_move_to_codes p _).2.2.2, ?_⟩
    rw [gb_path_move_to_last]
    decide
  · refine ⟨h, by simpa using hc, ?_⟩
    intro hl
    exact hc (h.closed hl)

/-- Appending an opener other than `MOVE` and `CLOS` to a well-formed stream that does not end
with `CLOS`. -/
theorem gb_path_wellformed_append (q r : gb_path_impl_t) (c : gb_path_code_e)
    (h : gb_path_wellformed q) (hl : q.codes.getLast? ≠ some .CLOS)
    (hc : c ≠ .CLOS) (hm : c ≠ .MOVE) (hr : r.codes = q.codes ++ [c])
    (hcount : gb_path_counted r) : gb_path_wellformed r := by
  refine ⟨hcount, hr ▸ gb_path_head_append q.codes c h.first hc, ?_, ?_, ?_⟩
  · intro hlast
    rw [hr] at hlast
    simp at hlast
    exact absurd hlast hc
  · rw [hr]
    refine List.chain'_append.2 ⟨h.clos_move, List.chain'_singleton _, ?_⟩
    intro x hx y _ hxc
    rw [Option.mem_def] at hx
    rw [hxc] at hx
    exact absurd hx hl
  · rw [hr]
    refine List.chain'_append.2 ⟨h.move_move, List.chain'_singleton _, ?_⟩
    intro x _ y hy hxy
    have : y = c := by simpa using hy.symm
    exact hm (this ▸ hxy.2)

theorem gb_path_wellformed_line_to (p : gb_path_impl_t) (pt : gb_point_t)
    (h : gb_path_wellformed p) : gb_path_wellformed (gb_path_line_to p pt) := by
  obtain ⟨h1, _, h3⟩ := gb_path_wellformed_patch_move p h
  exact gb_path_wellformed_append _ _ .LINE h1 h3 (by decide) (by decide) rfl
    (gb_path_counted_line_to p pt h.counted)

theorem gb_path_wellformed_line_to_head (p : gb_path_impl_t)
    (h : gb_path_wellformed p) : gb_path_wellformed (gb_path_line_to_head p) := by
  obtain ⟨h1, _, h3⟩ := gb_path_wellformed_patch_move p h
  exact gb_path_wellformed_append _ _ .LINE h1 h3 (by decide) (by decide) rfl
    (gb_path_counted_line_to_head p h.counted)

theorem gb_path_wellformed_quad_to (p : gb_path_impl_t) (c pt : gb_point_t)
    (h : gb_path_wellformed p) : gb_path_wellformed (gb_path_quad_to p c pt) := by
  obtain ⟨h1, _, h3⟩ := gb_path_wellformed_patch_move p h
  exact gb_path_wellformed_append _ _ .QUAD h1 h3 (by decide) (by decide) rfl
    (gb_path_counted_quad_to p c pt h.counted)

theorem gb_path_wellformed_cubic_to (p : gb_path_impl_t) (c0 c1 pt : gb_point_t)
    (h : gb_path_wellformed p) : gb_path_wellformed (gb_path_cubic_to p c0 c1 pt) := by
  obtain ⟨h1, _, h3⟩ := gb_path_wellformed_patch_move p h
  exact gb_path_wellformed_append _ _ .CUBIC h1 h3 (by decide) (by decide) rfl
    (gb_path_counted_cubic_to p c0 c1 pt h.counted)

/-- The codes that `gb_path_clos` leaves: a `CLOS` is appended, after the `LINE` (and the
patched `MOVE`) of `gb_path_line_to_head` when the last point is not the head, when more than
two points are stored and the stream does not end with `CLOS` already. -/
theorem gb_path_clos_codes (p : gb_path_impl_t) :
    (gb_path_clos p).flag.closed = true ∧
    ((gb_path_clos p).codes = p.codes ∨
      (p.codes ≠ [] ∧ p.codes.getLast? ≠ some .CLOS ∧
        (gb_path_clos p).codes = p.codes ++ [.CLOS]) ∨
      (p.codes.getLast? ≠ some .CLOS ∧
        (gb_path_clos p).codes = (gb_path_line_to_head p).codes ++ [.CLOS])) := by
  unfold gb_path_clos
  simp only
  split_ifs with h1 h2
  · exact ⟨trivial, Or.inr (Or.inr ⟨h1.2.2, rfl⟩)⟩
  · exact ⟨trivial, Or.inr (Or.inl ⟨fun h0 => h1.2.1 (by rw [h0]; rfl), h1.2.2, rfl⟩)⟩
  · exact ⟨trivial, Or.inl rfl⟩

theorem gb_path_wellformed_clos (p : gb_path_impl_t) (h : gb_path_wellformed p) :
    gb_path_wellformed (gb_path_clos p) := by
  obtain ⟨hcl, hcodes⟩ := gb_path_clos_codes p
  refine ⟨gb_path_counted_clos p h.counted, ?_, fun _ => hcl, ?_, ?_⟩
  · rcases hcodes with hc | ⟨hne, _, hc⟩ | ⟨_, hc⟩
    · rw [hc]; exact h.first
    · rw [hc, List.head?_append_of_ne_nil _ hne]; exact h.first
    · rw [hc, List.head?_append_of_ne_nil _ (by simp [gb_path_line_to_head])]
      exact (gb_path_wellformed_line_to_head p h).first
  · rcases hcodes with hc | ⟨_, hl, hc⟩ | ⟨_, hc⟩
    · rw [hc]; exact h.clos_move
    · rw [hc]
      refine List.chain'_append.2 ⟨h.clos_move, List.chain'_singleton _, ?_⟩
      intro x hx y _ hxc
      rw [Option.mem_def] at hx
      rw [hxc] at hx
      exact absurd hx hl
    · rw [hc]
      refine List.chain'_append.2
        ⟨(gb_path_wellformed_line_to_head p h).clos_move, List.chain'_singleton _, ?_⟩
      intro x hx y _ hxc
      rw [Option.mem_def] at hx
      rw [hxc] at hx
      simp [gb_path_line_to_head] at hx
  · rcases hcodes with hc | ⟨_, _, hc⟩ | ⟨_, hc⟩
    · rw [hc]; exact h.move_move
    · rw [hc]
      refine List.chain'_append.2 ⟨h.move_move, List.chain'_singleton _, ?_⟩
      intro x _ y hy hxy
      have : y = .CLOS := by simpa using hy.symm
      rw [this] at hxy
      exact absurd hxy.2 (by decide)
    · rw [hc]
      refine List.chain'_append.2
        ⟨(gb_path_wellformed_line_to_head p h).move_move, List.chain'_singleton _, ?_⟩
      intro x _ y hy hxy
      have : y = .CLOS := by simpa using hy.symm
      rw [this] at hxy
      exact absurd hxy.2 (by decide)

theorem gb_path_wellformed_of_eq (p q : gb_path_impl_t) (hc : q.codes = p.codes)
    (hp : q.points.length = p.points.length) (hcl : q.flag.closed = p.flag.closed)
    (h : gb_path_wellformed p) : gb_path_wellformed q :=
  ⟨gb_path_counted_of_eq hc hp h.counted, hc ▸ h.first, fun hl => hcl ▸ h.closed (hc ▸ hl),
    hc ▸ h.clos_move, hc ▸ h.move_move⟩

theorem gb_path_wellformed_init : gb_path_wellformed gb_path_init :=
  ⟨gb_path_counted_init, by simp [gb_path_init], fun _ => rfl, List.chain'_nil,
    List.chain'_nil⟩

theorem gb_path_wellformed_clear (p : gb_path_impl_t) : gb_path_wellformed (gb_path_clear p) :=
  ⟨gb_path_counted_clear p, by simp [gb_path_clear], fun hl => by simp [gb_path_clear] at hl,
    List.chain'_nil, List.chain'_nil⟩

/-- Being well formed is an invariant of the public operations. -/
theorem gb_path_wellformed_invariant : gb_path_invariant gb_path_wellformed where
  init := gb_path_wellformed_init
  clear := gb_path_wellformed_clear
  frame := fun p q hc hp _ hcl h => gb_path_wellformed_of_eq p q hc (congrArg _ hp) hcl h
  last_set := fun p pt h =>
    gb_path_wellformed_of_eq p _ rfl (tb_vector_replace_last_length _ _) rfl h
  apply := fun p f h => by
    unfold gb_path_apply
    split
    · exact h
    · exact gb_path_wellformed_of_eq p _ rfl (List.length_map _ _) rfl h
  move_to := gb_path_wellformed_move_to
  line_to := gb_path_wellformed_line_to
  quad_to := gb_path_wellformed_quad_to
  cubic_to := gb_path_wellformed_cubic_to
  clos := gb_path_wellformed_clos

/-! ### Contours: close, move and the automatic move -/

theorem gb_path_chain_next {R : gb_path_code_e → gb_path_code_e → Prop}
    (l : List gb_path_code_e) (h : l.Chain' R) (i : Nat) (a b : gb_path_code_e)
    (ha : l[i]? = some a) (hb : l[i + 1]? = some b) : R a b := by
  induction l generalizing i with
  | nil => simp at ha
  | cons x l ih =>
    cases i with
    | zero =>
      cases l with
      | nil => simp at hb
      | cons y l =>
        simp only [List.getElem?_cons_zero, Option.some.injEq, zero_add,
          List.getElem?_cons_succ] at ha hb
        subst ha hb
        exact h.rel_head
    | succ i =>
      simp only [List.getElem?_cons_succ] at ha hb
      exact ih h.tail i ha hb

theorem gb_path_wellformed_points (p : gb_path_impl_t) (h : gb_path_wellformed p)
    (hne : p.codes ≠ []) : p.points ≠ [] := by
  have hc := h.counted
  have hf := h.first
  unfold gb_path_counted at hc
  intro hp
  rw [hp] at hc
  cases hcodes : p.codes with
  | nil => exact hne hcodes
  | cons c cs =>
    rw [hcodes] at hc hf
    cases c <;>
      simp [gb_path_steps, gb_path_point_step, gb_path_code_e.val] at hc hf <;> omega

/-- The patched move of a well-formed path whose stream ends with `CLOS`: a `MOVE` to the
last point is appended and that point becomes the head. -/
theorem gb_path_patch_move_after_clos (p : gb_path_impl_t) (h : gb_path_wellformed p)
    (hl : p.codes.getLast? = some .CLOS) :
    ∃ last, p.points.getLast? = some last ∧
      (gb_path_patch_move p).codes = p.codes ++ [.MOVE] ∧
      (gb_path_patch_move p).points = p.points ++ [last] ∧
      (gb_path_patch_move p).head = last := by
  have hne : p.codes ≠ [] := by
    intro h0
    rw [h0] at hl
    simp at hl
  have hp := gb_path_wellformed_points p h hne
  obtain ⟨last, hlast⟩ : ∃ last, p.points.getLast? = some last := by
    cases hq : p.points.getLast? with
    | none => exact absurd (List.getLast?_eq_none_iff.1 hq) hp
    | some last => exact ⟨last, rfl⟩
  have hm : ¬ p.codes.getLast? = some .MOVE := by
    rw [hl]
    decide
  refine ⟨last, hlast, ?_⟩
  have hpm : gb_path_patch_move p = gb_path_move_to p last := by
    simp only [gb_path_patch_move, h.closed hl, if_true, gb_path_last, hlast]
  rw [hpm, (gb_path_move_to_codes p last).1, (gb_path_move_to_codes p last).2.1,
    (gb_path_move_to_codes p last).2.2.1, if_neg hm, if_neg hm]
  exact ⟨rfl, rfl, rfl⟩

/-- C13 (failing input): `move_to (0,0)`, `line_to (10,0)`, `line_to (10,10)`, then
`gb_path_apply` with the translation by `(100, 0)`, then `gb_path_clos`; and `move_to (5,5)`,
`gb_path_last_set (7,7)`, `line_to (9,7)`, `line_to (9,9)`, `gb_path_clos`.  Both leave
`impl->head` at the point first moved to, so `clos` appends its `LINE` to that stale point and
the contour does not end on the point stored for its `MOVE`. -/
theorem gb_path_clos_stale_head :
    (gb_path_reachable gb_deps_sample
        (gb_path_clos (gb_path_apply
          (gb_path_line_to (gb_path_line_to (gb_path_move_to gb_path_init ⟨0, 0⟩) ⟨10, 0⟩)
            ⟨10, 10⟩) (fun q => ⟨q.x + 100, q.y⟩))) ∧
      (gb_path_clos (gb_path_apply
          (gb_path_line_to (gb_path_line_to (gb_path_move_to gb_path_init ⟨0, 0⟩) ⟨10, 0⟩)
            ⟨10, 10⟩) (fun q => ⟨q.x + 100, q.y⟩))).codes
        = [.MOVE, .LINE, .LINE, .LINE, .CLOS] ∧
      (gb_path_clos (gb_path_apply
          (gb_path_line_to (gb_path_line_to (gb_path_move_to gb_path_init ⟨0, 0⟩) ⟨10, 0⟩)
            ⟨10, 10⟩) (fun q => ⟨q.x + 100, q.y⟩))).points
        = [⟨100, 0⟩, ⟨110, 0⟩, ⟨110, 10⟩, ⟨0, 0⟩]) ∧
    (gb_path_reachable gb_deps_sample
        (gb_path_clos (gb_path_line_to (gb_path_line_to
          (gb_path_last_set (gb_path_move_to gb_path_init ⟨5, 5⟩) ⟨7, 7⟩) ⟨9, 7⟩) ⟨9, 9⟩)) ∧
      (gb_path_clos (gb_path_line_to (gb_path_line_to
          (gb_path_last_set (gb_path_move_to gb_path_init ⟨5, 5⟩) ⟨7, 7⟩) ⟨9, 7⟩) ⟨9, 9⟩)).codes
        = [.MOVE, .LINE, .LINE, .LINE, .CLOS] ∧
      (gb_path_clos (gb_path_line_to (gb_path_line_to
          (gb_path_last_set (gb_path_move_to gb_path_init ⟨5, 5⟩) ⟨7, 7⟩) ⟨9, 7⟩) ⟨9, 9⟩)).points
        = [⟨7, 7⟩, ⟨9, 7⟩, ⟨9, 9⟩, ⟨5, 5⟩]) :=
  ⟨⟨.op .clos (.op (.apply _) (.op (.line_to _) (.op (.line_to _) (.op (.move_to _) .init)))),
      by decide, by decide⟩,
    ⟨.op .clos (.op (.line_to _) (.op (.line_to _) (.op (.last_set _) (.op (.move_to _) .init)))),
      by decide, by decide⟩⟩

/-- A path whose stream ends with `CLOS` and whose flag has `CLOSED` is left as it is by
`gb_path_clos`. -/
theorem gb_path_clos_closed (p : gb_path_impl_t) (hl : p.codes.getLast? = some .CLOS)
    (hc : p.flag.closed = true) : gb_path_clos p = p := by
  obtain ⟨flag, hint, polygon_ref, polygon_convex, bounds, head, codes, points,
    polygon_points, polygon_counts⟩ := p
  obtain ⟨dh, db, dp, dc, curve, convex, closed, single⟩ := flag
  simp only at hl hc
  subst hc
  simp [gb_path_clos, hl]

theorem gb_path_clos_flag (p : gb_path_impl_t) : (gb_path_clos p).flag.closed = true :=
  (gb_path_clos_codes p).1

/-- C14: `gb_path_clos` twice in a row leaves the same path (codes, points, flags and all)
as once, for every path state; and in every path that the public operations build, a `MOVE`
lies between any two `CLOS` codes, so no contour carries two of them and no two are
adjacent. -/
theorem gb_path_clos_idempotent (deps : gb_deps_t) :
    (∀ impl : gb_path_impl_t, gb_path_clos (gb_path_clos impl) = gb_path_clos impl) ∧
    (∀ impl : gb_path_impl_t, gb_path_reachable deps impl →
      (∀ i j : Nat, i < j → impl.codes[i]? = some gb_path_code_e.CLOS →
        impl.codes[j]? = some gb_path_code_e.CLOS →
        ∃ k : Nat, i < k ∧ k < j ∧ impl.codes[k]? = some gb_path_code_e.MOVE) ∧
      (∀ i : Nat, impl.codes[i]? = some gb_path_code_e.CLOS →
        impl.codes[i + 1]? ≠ some gb_path_code_e.CLOS)) := by
  constructor
  · intro impl
    by_cases hc : impl.points.length > 2 ∧ impl.codes.length ≠ 0 ∧
        impl.codes.getLast? ≠ some .CLOS
    · have hlast : (gb_path_clos impl).codes.getLast? = some .CLOS := by
        unfold gb_path_clos
        simp only [hc, ne_eq, not_false_eq_true, and_self, if_true]
        simp
      exact gb_path_clos_closed _ hlast (gb_path_clos_flag impl)
    · have h1 : gb_path_clos impl = { impl with flag := { impl.flag with closed := true } } := by
        unfold gb_path_clos
        simp only [if_neg hc]
      rw [h1]
      unfold gb_path_clos
      simp only [if_neg hc]
  · intro impl hr
    have hw := gb_path_wellformed_invariant.reachable deps impl hr
    have hnext : ∀ i : Nat, impl.codes[i]? = some gb_path_code_e.CLOS →
        ∀ c, impl.codes[i + 1]? = some c → c = .MOVE := fun i hi c hc => gb_path_chain_next _ hw.clos_move i _ _ hi hc rfl
    constructor
    · intro i j hij hi hj
      have hjl : j < impl.codes.length := (List.getElem?_eq_some_iff.1 hj).1
      have hil : i + 1 < impl.codes.length := by omega
      have hm := hnext i hi _ (List.getElem?_eq_getElem hil)
      refine ⟨i + 1, by omega, ?_, by rw [List.getElem?_eq_getElem hil, hm]⟩
      rcases Nat.lt_or_ge (i + 1) j with h | h
      · exact h
      · have hji : j = i + 1 := by omega
        rw [hji, List.getElem?_eq_getElem hil, hm] at hj
        exact absurd hj (by decide)
    · intro i hi hn
      exact absurd (hnext i hi _ hn) (by decide)

/-- C14 (witness): three `clos` calls in a row on a triangle and on its continuation. -/
theorem gb_path_clos_idempotent_witness :
    gb_path_clos (gb_path_clos (gb_path_line_to (gb_path_line_to
        (gb_path_move_to gb_path_init ⟨0, 0⟩) ⟨4, 0⟩) ⟨4, 3⟩))
      = gb_path_clos (gb_path_line_to (gb_path_line_to
        (gb_path_move_to gb_path_init ⟨0, 0⟩) ⟨4, 0⟩) ⟨4, 3⟩) ∧
    (gb_path_clos (gb_path_clos (gb_path_line_to (gb_path_line_to
        (gb_path_move_to gb_path_init ⟨0, 0⟩) ⟨4, 0⟩) ⟨4, 3⟩))).codes
      = [.MOVE, .LINE, .LINE, .LINE, .CLOS] ∧
    ∀ i : Nat, (gb_path_clos (gb_path_clos (gb_path_line_to (gb_path_line_to
        (gb_path_move_to gb_path_init ⟨0, 0⟩) ⟨4, 0⟩) ⟨4, 3⟩))).codes[i]? = some gb_path_code_e.CLOS →
      (gb_path_clos (gb_path_clos (gb_path_line_to (gb_path_line_to
        (gb_path_move_to gb_path_init ⟨0, 0⟩) ⟨4, 0⟩) ⟨4, 3⟩))).codes[i + 1]? ≠ some gb_path_code_e.CLOS :=
  ⟨(gb_path_clos_idempotent gb_deps_sample).1 _, by decide,
    ((gb_path_clos_idempotent gb_deps_sample).2 _
      (.op .clos (.op .clos (.op (.line_to _) (.op (.line_to _)
        (.op (.move_to _) .init)))))).2⟩

/-- C15: in a path that the public operations build and whose last opcode is `MOVE`,
`gb_path_move_to` stores no opcode and no point: it replaces the last point and the contour
head by its argument (and clears `CLOSED`, sets the dirty bits); and no such path has two
adjacent `MOVE` opcodes. -/
theorem gb_path_move_to_collapse (deps : gb_deps_t) (impl : gb_path_impl_t)
    (h : gb_path_reachable deps impl) :
    (impl.codes.getLast? = some .MOVE → ∀ point : gb_point_t,
      gb_path_move_to impl point =
        { impl with
          points := impl.points.dropLast ++ [point]
          head := point
          flag := { impl.flag with closed := false }.or_dirty_all } ∧
      (gb_path_move_to impl point).codes.length = impl.codes.length ∧
      (gb_path_move_to impl point).points.length = impl.points.length) ∧
    (∀ i : Nat, impl.codes[i]? = some gb_path_code_e.MOVE →
      impl.codes[i + 1]? ≠ some gb_path_code_e.MOVE) := by
  have hw := gb_path_wellformed_invariant.reachable deps impl h
  constructor
  · intro hl point
    have hne : impl.codes ≠ [] := by
      intro h0
      rw [h0] at hl
      simp at hl
    have hp := gb_path_wellformed_points impl hw hne
    have hrep : tb_vector_replace_last impl.points point = impl.points.dropLast ++ [point] := by
      cases hq : impl.points with
      | nil => exact absurd hq hp
      | cons a l => rfl
    have heq : gb_path_move_to impl point =
        { impl with
          points := impl.points.dropLast ++ [point]
          head := point
          flag := { impl.flag with closed := false }.or_dirty_all } := by
      simp only [gb_path_move_to, hl, if_true, hrep]
    refine ⟨heq, by rw [heq], ?_⟩
    rw [heq]
    have hlen : 0 < impl.points.length := List.length_pos.2 hp
    simp only [List.length_append, List.length_dropLast, List.length_singleton]
    omega
  · intro i hi hn
    exact gb_path_chain_next _ hw.move_move i _ _ hi hn ⟨rfl, rfl⟩

/-- C15 (witness): a second `move_to` after `move_to (1,2)`. -/
theorem gb_path_move_to_collapse_witness :
    gb_path_move_to (gb_path_move_to gb_path_init ⟨1, 2⟩) ⟨3, 4⟩ =
        { gb_path_move_to gb_path_init ⟨1, 2⟩ with points := [⟨3, 4⟩], head := ⟨3, 4⟩ } ∧
      (gb_path_move_to (gb_path_move_to gb_path_init ⟨1, 2⟩) ⟨3, 4⟩).codes = [.MOVE] :=
  ⟨((gb_path_move_to_collapse gb_deps_sample _ (.op (.move_to ⟨1, 2⟩) .init)).1
      (by decide) ⟨3, 4⟩).1, by decide⟩

/-- C16: in a path that the public operations build and whose last opcode is `CLOS`, each of
`gb_path_line_to`, `gb_path_quad_to` and `gb_path_cubic_to` first appends a `MOVE` whose point
is the last stored point, which becomes the head, and then its own opcode and points; and in
no such path does a `LINE`, `QUAD` or `CUBIC` directly follow a `CLOS`. -/
theorem gb_path_auto_move (deps : gb_deps_t) (impl : gb_path_impl_t)
    (h : gb_path_reachable deps impl) :
    (impl.codes.getLast? = some .CLOS →
      ∃ last, impl.points.getLast? = some last ∧
        (∀ point, (gb_path_line_to impl point).codes = impl.codes ++ [.MOVE, .LINE] ∧
          (gb_path_line_to impl point).points = impl.points ++ [last, point] ∧
          (gb_path_line_to impl point).head = last) ∧
        (∀ ctrl point, (gb_path_quad_to impl ctrl point).codes = impl.codes ++ [.MOVE, .QUAD] ∧
          (gb_path_quad_to impl ctrl point).points = impl.points ++ [last, ctrl, point] ∧
          (gb_path_quad_to impl ctrl point).head = last) ∧
        (∀ ctrl0 ctrl1 point,
          (gb_path_cubic_to impl ctrl0 ctrl1 point).codes = impl.codes ++ [.MOVE, .CUBIC] ∧
          (gb_path_cubic_to impl ctrl0 ctrl1 point).points
            = impl.points ++ [last, ctrl0, ctrl1, point] ∧
          (gb_path_cubic_to impl ctrl0 ctrl1 point).head = last)) ∧
    (∀ i : Nat, impl.codes[i]? = some gb_path_code_e.CLOS →
      impl.codes[i + 1]? ≠ some gb_path_code_e.LINE ∧
      impl.codes[i + 1]? ≠ some gb_path_code_e.QUAD ∧
      impl.codes[i + 1]? ≠ some gb_path_code_e.CUBIC) := by
  have hw := gb_path_wellformed_invariant.reachable deps impl h
  constructor
  · intro hl
    obtain ⟨last, hlast, hc, hp, hh⟩ := gb_path_patch_move_after_clos impl hw hl
    refine ⟨last, hlast, ?_, ?_, ?_⟩
    · intro point
      simp only [gb_path_line_to, hc, hp, hh, List.append_assoc, List.singleton_append,
        and_self]
    · intro ctrl point
      simp [gb_path_quad_to, hc, hp, hh]
    · intro ctrl0 ctrl1 point
      simp [gb_path_cubic_to, hc, hp, hh]
  · intro i hi
    have hnext : ∀ c, impl.codes[i + 1]? = some c → c = .MOVE :=
      fun c hc => gb_path_chain_next _ hw.clos_move i _ _ hi hc rfl
    exact ⟨fun hn => absurd (hnext _ hn) (by decide), fun hn => absurd (hnext _ hn) (by decide),
      fun hn => absurd (hnext _ hn) (by decide)⟩

/-- C16 (witness): `line_to (7,7)` after a closed triangle. -/
theorem gb_path_auto_move_witness :
    (gb_path_line_to (gb_path_clos (gb_path_line_to (gb_path_line_to
        (gb_path_move_to gb_path_init ⟨0, 0⟩) ⟨4, 0⟩) ⟨4, 3⟩)) ⟨7, 7⟩).codes
      = [.MOVE, .LINE, .LINE, .LINE, .CLOS, .MOVE, .LINE] ∧
    (gb_path_line_to (gb_path_clos (gb_path_line_to (gb_path_line_to
        (gb_path_move_to gb_path_init ⟨0, 0⟩) ⟨4, 0⟩) ⟨4, 3⟩)) ⟨7, 7⟩).points
      = [⟨0, 0⟩, ⟨4, 0⟩, ⟨4, 3⟩, ⟨0, 0⟩, ⟨0, 0⟩, ⟨7, 7⟩] ∧
    ∃ last, (gb_path_clos (gb_path_line_to (gb_path_line_to
        (gb_path_move_to gb_path_init ⟨0, 0⟩) ⟨4, 0⟩) ⟨4, 3⟩)).points.getLast? = some last ∧
      (gb_path_line_to (gb_path_clos (gb_path_line_to (gb_path_line_to
        (gb_path_move_to gb_path_init ⟨0, 0⟩) ⟨4, 0⟩) ⟨4, 3⟩)) ⟨7, 7⟩).head = last :=
  have h := (gb_path_auto_move gb_deps_sample
    (gb_path_clos (gb_path_line_to (gb_path_line_to
      (gb_path_move_to gb_path_init ⟨0, 0⟩) ⟨4, 0⟩) ⟨4, 3⟩))
    (.op .clos (.op (.line_to _) (.op (.line_to _) (.op (.move_to _) .init))))).1 (by decide)
  ⟨by decide, by decide, h.choose, h.choose_spec.1, (h.choose_spec.2.1 ⟨7, 7⟩).2.2⟩

/-- C17 (failing input): the open contour `MOVE (0,0), LINE (1,0), LINE (2,5)` appended in
reverse to an empty path.  The walk starts on the last `LINE` item, whose `points[0]` is the
point before it, so the new `MOVE` goes to `(1,0)` and the last point `(2,5)` is never
stored; the closed contour `MOVE (0,0), LINE (1,0), LINE (2,5), LINE (0,0), CLOS` starts on
its `CLOS` item and is reversed whole. -/
theorem gb_path_add_rpath_open_contour :
    (gb_path_line_to (gb_path_line_to (gb_path_move_to gb_path_init ⟨0, 0⟩) ⟨1, 0⟩)
        ⟨2, 5⟩).codes = [.MOVE, .LINE, .LINE] ∧
      (gb_path_line_to (gb_path_line_to (gb_path_move_to gb_path_init ⟨0, 0⟩) ⟨1, 0⟩)
        ⟨2, 5⟩).points = [⟨0, 0⟩, ⟨1, 0⟩, ⟨2, 5⟩] ∧
      (gb_path_add_rpath gb_path_init
        (gb_path_line_to (gb_path_line_to (gb_path_move_to gb_path_init ⟨0, 0⟩) ⟨1, 0⟩)
          ⟨2, 5⟩)).codes = [.MOVE, .LINE, .LINE] ∧
      (gb_path_add_rpath gb_path_init
        (gb_path_line_to (gb_path_line_to (gb_path_move_to gb_path_init ⟨0, 0⟩) ⟨1, 0⟩)
          ⟨2, 5⟩)).points = [⟨1, 0⟩, ⟨1, 0⟩, ⟨0, 0⟩] ∧
      (gb_path_clos (gb_path_line_to (gb_path_line_to (gb_path_move_to gb_path_init ⟨0, 0⟩)
        ⟨1, 0⟩) ⟨2, 5⟩)).points = [⟨0, 0⟩, ⟨1, 0⟩, ⟨2, 5⟩, ⟨0, 0⟩] ∧
      (gb_path_add_rpath gb_path_init
        (gb_path_clos (gb_path_line_to (gb_path_line_to (gb_path_move_to gb_path_init ⟨0, 0⟩)
          ⟨1, 0⟩) ⟨2, 5⟩))).codes = [.MOVE, .LINE, .LINE, .LINE, .CLOS] ∧
      (gb_path_add_rpath gb_path_init
        (gb_path_clos (gb_path_line_to (gb_path_line_to (gb_path_move_to gb_path_init ⟨0, 0⟩)
          ⟨1, 0⟩) ⟨2, 5⟩))).points = [⟨0, 0⟩, ⟨2, 5⟩, ⟨1, 0⟩, ⟨0, 0⟩] := by
  decide

/-! ### Curve flattening -/

theorem gb_flatten_segments_append (curve : ℚ → ℚ × ℚ)
    (seg : ℚ → ℚ × ℚ → ℚ → ℚ × ℚ → Prop) (l r : List (ℚ × (ℚ × ℚ)))
    (t0 : ℚ) (p0 : ℚ × ℚ) (tm : ℚ) (pm : ℚ × ℚ) (te : ℚ) (pe : ℚ × ℚ)
    (hl : gb_flatten_segments curve seg t0 p0 l tm pm)
    (hr : gb_flatten_segments curve seg tm pm r te pe) :
    gb_flatten_segments curve seg t0 p0 (l ++ r) te pe := by
  induction l generalizing t0 p0 with
  | nil =>
    obtain ⟨h1, h2⟩ := hl
    subst h1 h2
    exact hr
  | cons tp l ih =>
    obtain ⟨h1, h2, h3, h4, h5⟩ := hl
    exact ⟨h1, h2, h3, h4, ih _ _ h5⟩

theorem gb_point_within_of_abs (p q : ℚ × ℚ) (h : |p.1 - q.1| + |p.2 - q.2| ≤ 1) :
    gb_point_within p q GB_ONE := by
  unfold gb_point_within GB_ONE
  have hx := abs_nonneg (p.1 - q.1)
  have hy := abs_nonneg (p.2 - q.2)
  have h1 : (p.1 - q.1) ^ 2 = |p.1 - q.1| ^ 2 := (sq_abs _).symm
  have h2 : (p.2 - q.2) ^ 2 = |p.2 - q.2| ^ 2 := (sq_abs _).symm
  rw [h1, h2]
  nlinarith

/-- The flattener of quadratic curves returns the same list with more depth allowed. -/
theorem gb_geometry_make_quad_mono (fuel : Nat) (pb cp pe : ℚ × ℚ) (out : List (ℚ × ℚ))
    (h : gb_geometry_make_quad fuel pb cp pe = some out) :
    gb_geometry_make_quad (fuel + 1) pb cp pe = some out := by
  induction fuel generalizing pb cp pe out with
  | zero => simp [gb_geometry_make_quad] at h
  | succ n ih =>
    rw [gb_geometry_make_quad] at h ⊢
    simp only at h ⊢
    split_ifs at h ⊢ with hc
    · exact h
    · cases h1 : gb_geometry_make_quad n pb _ _ with
      | none => rw [h1] at h; simp at h
      | some a =>
        rw [h1] at h
        cases h2 : gb_geometry_make_quad n _ _ pe with
        | none => rw [h2] at h; simp at h
        | some b =>
          rw [h2] at h
          rw [ih _ _ _ _ h1, ih _ _ _ _ h2]
          exact h

theorem gb_geometry_make_quad_mono_le (fuel fuel' : Nat) (hle : fuel ≤ fuel')
    (pb cp pe : ℚ × ℚ) (out : List (ℚ × ℚ))
    (h : gb_geometry_make_quad fuel pb cp pe = some out) :
    gb_geometry_make_quad fuel' pb cp pe = some out := by
  induction hle with
  | refl => exact h
  | step _ ih => exact gb_geometry_make_quad_mono _ _ _ _ _ ih

/-- The flattener of quadratic curves returns once the depth allowed is more than the number
of times its error has to be quartered to come down to `GB_ONE`. -/
theorem gb_geometry_make_quad_some (n : Nat) (pb cp pe : ℚ × ℚ)
    (h : |cp.1 - (pb.1 + pe.1) / 2| + |cp.2 - (pb.2 + pe.2) / 2| ≤ 4 ^ n) :
    ∃ out, gb_geometry_make_quad (n + 1) pb cp pe = some out := by
  induction n generalizing pb cp pe with
  | zero =>
    refine ⟨[pe], ?_⟩
    rw [gb_geometry_make_quad]
    simp only [gb_rsh, gb_fabs, GB_ONE, pow_one]
    rw [if_pos (by simpa using h)]
  | succ n ih =>
    rw [gb_geometry_make_quad]
    simp only [gb_rsh, gb_fabs, GB_ONE, pow_one]
    split_ifs with hc
    · exact ⟨_, rfl⟩
    · have hq : ∀ a b c : ℚ, |(a + b) / 2 - (a + ((a + b) / 2 + (b + c) / 2) / 2) / 2|
          = |b - (a + c) / 2| / 4 := by
        intro a b c
        rw [show (a + b) / 2 - (a + ((a + b) / 2 + (b + c) / 2) / 2) / 2
          = (b - (a + c) / 2) / 4 by ring, abs_div]
        norm_num
      have hq' : ∀ a b c : ℚ, |(b + c) / 2 - (((a + b) / 2 + (b + c) / 2) / 2 + c) / 2|
          = |b - (a + c) / 2| / 4 := by
        intro a b c
        rw [show (b + c) / 2 - (((a + b) / 2 + (b + c) / 2) / 2 + c) / 2
          = (b - (a + c) / 2) / 4 by ring, abs_div]
        norm_num
      have h4 : (4 : ℚ) ^ (n + 1) = 4 * 4 ^ n := by ring
      obtain ⟨a, ha⟩ := ih pb ((pb.1 + cp.1) / 2, (pb.2 + cp.2) / 2)
        (((pb.1 + cp.1) / 2 + (cp.1 + pe.1) / 2) / 2, ((pb.2 + cp.2) / 2 + (cp.2 + pe.2) / 2) / 2)
        (by simp only [hq]; linarith)
      obtain ⟨b, hb⟩ := ih
        (((pb.1 + cp.1) / 2 + (cp.1 + pe.1) / 2) / 2, ((pb.2 + cp.2) / 2 + (cp.2 + pe.2) / 2) / 2)
        ((cp.1 + pe.1) / 2, (cp.2 + pe.2) / 2) pe
        (by simp only [hq']; linarith)
      exact ⟨a ++ b, by rw [ha, hb]⟩

/-- The segments that the flattener produces for the part over `[a, b]` of a quadratic
curve, handed over as the control points of that part. -/
theorem gb_geometry_make_quad_segments (fuel : Nat) (q0 q1 q2 : ℚ × ℚ) (a b : ℚ)
    (pb cp pe : ℚ × ℚ) (out : List (ℚ × ℚ)) (hab : a < b)
    (hpb : pb = gb_quad_at q0 q1 q2 a) (hcp : cp = gb_quad_ctrl q0 q1 q2 a b)
    (hpe : pe = gb_quad_at q0 q1 q2 b)
    (h : gb_geometry_make_quad fuel pb cp pe = some out) :
    ∃ tps : List (ℚ × (ℚ × ℚ)), tps.map Prod.snd = out ∧
      gb_flatten_segments (gb_quad_at q0 q1 q2) (gb_segment_near (gb_quad_at q0 q1 q2))
        a pb tps b pe := by
  induction fuel generalizing a b pb cp pe out with
  | zero => simp [gb_geometry_make_quad] at h
  | succ n ih =>
    rw [gb_geometry_make_quad] at h
    simp only [gb_rsh, gb_fabs, GB_ONE, pow_one] at h
    split_ifs at h with hc
    · simp only [Option.some.injEq] at h
      subst h
      refine ⟨[(b, pe)], rfl, hab, hpb, hpe, ?_, rfl, rfl⟩
      apply gb_point_within_of_abs
      have hx : (gb_point_mid pb pe).1 - (gb_quad_at q0 q1 q2 ((a + b) / 2)).1
          = -(cp.1 - (pb.1 + pe.1) / 2) / 2 := by
        rw [hpb, hcp, hpe]
        simp only [gb_point_mid, gb_quad_at, gb_quad_ctrl]
        ring
      have hy : (gb_point_mid pb pe).2 - (gb_quad_at q0 q1 q2 ((a + b) / 2)).2
          = -(cp.2 - (pb.2 + pe.2) / 2) / 2 := by
        rw [hpb, hcp, hpe]
        simp only [gb_point_mid, gb_quad_at, gb_quad_ctrl]
        ring
      rw [hx, hy, abs_div, abs_div, abs_neg, abs_neg]
      have h2 : |(2 : ℚ)| = 2 := abs_of_pos (by norm_num)
      rw [h2]
      have hx0 := abs_nonneg (cp.1 - (pb.1 + pe.1) / 2)
      have hy0 := abs_nonneg (cp.2 - (pb.2 + pe.2) / 2)
      linarith
    · cases h1 : gb_geometry_make_quad n pb ((pb.1 + cp.1) / 2, (pb.2 + cp.2) / 2)
          (((pb.1 + cp.1) / 2 + (cp.1 + pe.1) / 2) / 2,
            ((pb.2 + cp.2) / 2 + (cp.2 + pe.2) / 2) / 2) with
      | none => rw [h1] at h; simp at h
      | some l =>
        rw [h1] at h
        cases h2 : gb_geometry_make_quad n
            (((pb.1 + cp.1) / 2 + (cp.1 + pe.1) / 2) / 2,
              ((pb.2 + cp.2) / 2 + (cp.2 + pe.2) / 2) / 2)
            ((cp.1 + pe.1) / 2, (cp.2 + pe.2) / 2) pe with
        | none => rw [h2] at h; simp at h
        | some r =>
          rw [h2] at h
          simp only [Option.some.injEq] at h
          subst h
          have hm1 : a < (a + b) / 2 := by linarith
          have hm2 : (a + b) / 2 < b := by linarith
          have hmid : ((((pb.1 + cp.1) / 2 + (cp.1 + pe.1) / 2) / 2,
              ((pb.2 + cp.2) / 2 + (cp.2 + pe.2) / 2) / 2) : ℚ × ℚ)
              = gb_quad_at q0 q1 q2 ((a + b) / 2) := by
            rw [hpb, hcp, hpe]
            simp only [gb_quad_at, gb_quad_ctrl, Prod.mk.injEq]
            constructor <;> ring
          have hcl : (((pb.1 + cp.1) / 2, (pb.2 + cp.2) / 2) : ℚ × ℚ)
              = gb_quad_ctrl q0 q1 q2 a ((a + b) / 2) := by
            rw [hpb, hcp]
            simp only [gb_quad_at, gb_quad_ctrl, Prod.mk.injEq]
            constructor <;> ring
          have hcr : (((cp.1 + pe.1) / 2, (cp.2 + pe.2) / 2) : ℚ × ℚ)
              = gb_quad_ctrl q0 q1 q2 ((a + b) / 2) b := by
            rw [hcp, hpe]
            simp only [gb_quad_at, gb_quad_ctrl, Prod.mk.injEq]
            constructor <;> ring
          obtain ⟨tl, htl, hsl⟩ := ih a ((a + b) / 2) _ _ _ l hm1 hpb hcl hmid h1
          obtain ⟨tr, htr, hsr⟩ := ih ((a + b) / 2) b _ _ _ r hm2 hmid hcr hpe h2
          exact ⟨tl ++ tr, by rw [List.map_append, htl, htr],
            gb_flatten_segments_append _ _ _ _ _ _ _ _ _ _ hsl hsr⟩

theorem gb_quad_at_ends (pb cp pe : ℚ × ℚ) :
    gb_quad_at pb cp pe 0 = pb ∧ gb_quad_ctrl pb cp pe 0 1 = cp ∧
      gb_quad_at pb cp pe 1 = pe := by
  refine ⟨?_, ?_, ?_⟩ <;> simp [gb_quad_at, gb_quad_ctrl]

/-- C18: over exact arithmetic `gb_geometry_make_quad` returns, with the same list for every
depth of recursion from some depth on, and the polyline from `pb` through the points it
hands over follows the curve: the points lie on the curve at parameters that increase from
`0` to `1`, and the midpoint of every segment is within `GB_ONE` of the point of the curve at
the middle of the parameter interval that the segment spans. -/
theorem gb_geometry_make_quad_error (pb cp pe : ℚ × ℚ) :
    ∃ (fuel : Nat) (out : List (ℚ × ℚ)),
      (∀ fuel', fuel ≤ fuel' → gb_geometry_make_quad fuel' pb cp pe = some out) ∧
      ∃ tps : List (ℚ × (ℚ × ℚ)), tps.map Prod.snd = out ∧
        gb_flatten_segments (gb_quad_at pb cp pe) (gb_segment_near (gb_quad_at pb cp pe))
          0 pb tps 1 pe := by
  obtain ⟨n, hn⟩ := pow_unbounded_of_one_lt
    (|cp.1 - (pb.1 + pe.1) / 2| + |cp.2 - (pb.2 + pe.2) / 2|) (by norm_num : (1 : ℚ) < 4)
  obtain ⟨out, hout⟩ := gb_geometry_make_quad_some n pb cp pe hn.le
  obtain ⟨h0, hc, h1⟩ := gb_quad_at_ends pb cp pe
  exact ⟨n + 1, out, fun fuel' hle => gb_geometry_make_quad_mono_le _ _ hle _ _ _ _ hout,
    gb_geometry_make_quad_segments (n + 1) pb cp pe 0 1 pb cp pe out (by norm_num)
      h0.symm hc.symm h1.symm hout⟩

/-- The test with which `gb_geometry_make_cube` stops, in terms of the smaller end
deviation. -/
theorem gb_geometry_make_cube_test (pb cpb cpe pe : ℚ × ℚ) :
    (if gb_fabs (gb_lsh (cpe.1 - pe.1) 1 + cpe.1 - pb.1)
          < gb_fabs (gb_lsh (cpb.1 - pb.1) 1 + cpb.1 - pe.1)
        then gb_fabs (gb_lsh (cpe.1 - pe.1) 1 + cpe.1 - pb.1)
        else gb_fabs (gb_lsh (cpb.1 - pb.1) 1 + cpb.1 - pe.1))
      + (if gb_fabs (gb_lsh (cpe.2 - pe.2) 1 + cpe.2 - pb.2)
          < gb_fabs (gb_lsh (cpb.2 - pb.2) 1 + cpb.2 - pe.2)
        then gb_fabs (gb_lsh (cpe.2 - pe.2) 1 + cpe.2 - pb.2)
        else gb_fabs (gb_lsh (cpb.2 - pb.2) 1 + cpb.2 - pe.2))
      = gb_cubic_deviation_min pb cpb cpe pe := by
  have hmin : ∀ x y : ℚ, (if y < x then y else x) = min x y := by
    intro x y
    rw [min_def]
    split_ifs <;> linarith
  have hl : ∀ x : ℚ, gb_lsh x 1 = 2 * x := fun x => by simp [gb_lsh, mul_comm]
  simp only [hmin, gb_fabs, hl, gb_cubic_deviation_min]

/-- One step of `gb_geometry_make_cube`, with the test as the smaller end deviation and the
halved sums as midpoints. -/
theorem gb_geometry_make_cube_succ (n : Nat) (pb cpb cpe pe : ℚ × ℚ) :
    gb_geometry_make_cube (n + 1) pb cpb cpe pe =
      if gb_cubic_deviation_min pb cpb cpe pe ≤ GB_ONE then some [pe]
      else
        match gb_geometry_make_cube n pb (gb_point_mid pb cpb)
            (gb_point_mid (gb_point_mid cpb cpe) (gb_point_mid pb cpb))
            (gb_point_mid (gb_point_mid (gb_point_mid cpb cpe) (gb_point_mid pb cpb))
              (gb_point_mid (gb_point_mid cpb cpe) (gb_point_mid cpe pe))) with
        | none => none
        | some head =>
          match gb_geometry_make_cube n
              (gb_point_mid (gb_point_mid (gb_point_mid cpb cpe) (gb_point_mid pb cpb))
                (gb_point_mid (gb_point_mid cpb cpe) (gb_point_mid cpe pe)))
              (gb_point_mid (gb_point_mid cpb cpe) (gb_point_mid cpe pe))
              (gb_point_mid cpe pe) pe with
          | none => none
          | some tail => some (head ++ tail) := by
  rw [gb_geometry_make_cube]
  simp only [gb_geometry_make_cube_test, gb_rsh, pow_one, gb_point_mid]

/-- The flattener of cubic curves returns the same list with more depth allowed. -/
theorem gb_geometry_make_cube_mono (fuel : Nat) (pb cpb cpe pe : ℚ × ℚ)
    (out : List (ℚ × ℚ)) (h : gb_geometry_make_cube fuel pb cpb cpe pe = some out) :
    gb_geometry_make_cube (fuel + 1) pb cpb cpe pe = some out := by
  induction fuel generalizing pb cpb cpe pe out with
  | zero => simp [gb_geometry_make_cube] at h
  | succ n ih =>
    rw [gb_geometry_make_cube_succ] at h ⊢
    split_ifs at h ⊢ with hc
    · exact h
    · cases h1 : gb_geometry_make_cube n pb _ _ _ with
      | none => rw [h1] at h; simp at h
      | some a =>
        rw [h1] at h
        cases h2 : gb_geometry_make_cube n _ _ _ pe with
        | none => rw [h2] at h; simp at h
        | some b =>
          rw [h2] at h
          rw [ih _ _ _ _ _ h1, ih _ _ _ _ _ h2]
          exact h

theorem gb_geometry_make_cube_mono_le (fuel fuel' : Nat) (hle : fuel ≤ fuel')
    (pb cpb cpe pe : ℚ × ℚ) (out : List (ℚ × ℚ))
    (h : gb_geometry_make_cube fuel pb cpb cpe pe = some out) :
    gb_geometry_make_cube fuel' pb cpb cpe pe = some out := by
  induction hle with
  | refl => exact h
  | step _ ih => exact gb_geometry_make_cube_mono _ _ _ _ _ _ ih

/-- The second differences of the two halves of a cubic curve, for one axis. -/
theorem gb_cubic_halves (a b c d : ℚ) :
    |a - 2 * ((a + b) / 2) + ((b + c) / 2 + (a + b) / 2) / 2|
        + |(a + b) / 2 - 2 * (((b + c) / 2 + (a + b) / 2) / 2)
            + (((b + c) / 2 + (a + b) / 2) / 2 + ((b + c) / 2 + (c + d) / 2) / 2) / 2|
      ≤ (|a - 2 * b + c| + |b - 2 * c + d|) / 2 ∧
    |(((b + c) / 2 + (a + b) / 2) / 2 + ((b + c) / 2 + (c + d) / 2) / 2) / 2
          - 2 * (((b + c) / 2 + (c + d) / 2) / 2) + (c + d) / 2|
        + |((b + c) / 2 + (c + d) / 2) / 2 - 2 * ((c + d) / 2) + d|
      ≤ (|a - 2 * b + c| + |b - 2 * c + d|) / 2 := by
  have h1 := neg_abs_le (a - 2 * b + c)
  have h2 := le_abs_self (a - 2 * b + c)
  have h3 := neg_abs_le (b - 2 * c + d)
  have h4 := le_abs_self (b - 2 * c + d)
  have e1 : |a - 2 * ((a + b) / 2) + ((b + c) / 2 + (a + b) / 2) / 2|
      ≤ |a - 2 * b + c| / 4 := by
    rw [abs_le]; constructor <;> linarith
  have e2 : |(a + b) / 2 - 2 * (((b + c) / 2 + (a + b) / 2) / 2)
      + (((b + c) / 2 + (a + b) / 2) / 2 + ((b + c) / 2 + (c + d) / 2) / 2) / 2|
      ≤ (|a - 2 * b + c| + |b - 2 * c + d|) / 8 := by
    rw [abs_le]; constructor <;> linarith
  have e3 : |(((b + c) / 2 + (a + b) / 2) / 2 + ((b + c) / 2 + (c + d) / 2) / 2) / 2
      - 2 * (((b + c) / 2 + (c + d) / 2) / 2) + (c + d) / 2|
      ≤ (|a - 2 * b + c| + |b - 2 * c + d|) / 8 := by
    rw [abs_le]; constructor <;> linarith
  have e4 : |((b + c) / 2 + (c + d) / 2) / 2 - 2 * ((c + d) / 2) + d|
      ≤ |b - 2 * c + d| / 4 := by
    rw [abs_le]; constructor <;> linarith
  constructor <;> linarith

/-- The smaller end deviation is at most twice the spread. -/
theorem gb_cubic_deviation_min_le (pb cpb cpe pe : ℚ × ℚ) :
    gb_cubic_deviation_min pb cpb cpe pe ≤ 2 * gb_cubic_spread pb cpb cpe pe := by
  unfold gb_cubic_deviation_min gb_cubic_spread
  have h1 := neg_abs_le (pb.1 - 2 * cpb.1 + cpe.1)
  have h2 := le_abs_self (pb.1 - 2 * cpb.1 + cpe.1)
  have h3 := neg_abs_le (cpb.1 - 2 * cpe.1 + pe.1)
  have h4 := le_abs_self (cpb.1 - 2 * cpe.1 + pe.1)
  have h5 := neg_abs_le (pb.2 - 2 * cpb.2 + cpe.2)
  have h6 := le_abs_self (pb.2 - 2 * cpb.2 + cpe.2)
  have h7 := neg_abs_le (cpb.2 - 2 * cpe.2 + pe.2)
  have h8 := le_abs_self (cpb.2 - 2 * cpe.2 + pe.2)
  have e1 : |2 * (cpb.1 - pb.1) + cpb.1 - pe.1|
      ≤ 2 * |pb.1 - 2 * cpb.1 + cpe.1| + |cpb.1 - 2 * cpe.1 + pe.1| := by
    rw [abs_le]; constructor <;> linarith
  have e2 : |2 * (cpb.2 - pb.2) + cpb.2 - pe.2|
      ≤ 2 * |pb.2 - 2 * cpb.2 + cpe.2| + |cpb.2 - 2 * cpe.2 + pe.2| := by
    rw [abs_le]; constructor <;> linarith
  have m1 := min_le_left |2 * (cpb.1 - pb.1) + cpb.1 - pe.1| |2 * (cpe.1 - pe.1) + cpe.1 - pb.1|
  have m2 := min_le_left |2 * (cpb.2 - pb.2) + cpb.2 - pe.2| |2 * (cpe.2 - pe.2) + cpe.2 - pb.2|
  have a1 := abs_nonneg (cpb.1 - 2 * cpe.1 + pe.1)
  have a2 := abs_nonneg (cpb.2 - 2 * cpe.2 + pe.2)
  linarith


/-- The two halves of a cubic curve have at most half of its spread. -/
theorem gb_cubic_spread_halves (pb cpb cpe pe : ℚ × ℚ) :
    gb_cubic_spread pb (gb_point_mid pb cpb)
        (gb_point_mid (gb_point_mid cpb cpe) (gb_point_mid pb cpb))
        (gb_point_mid (gb_point_mid (gb_point_mid cpb cpe) (gb_point_mid pb cpb))
          (gb_point_mid (gb_point_mid cpb cpe) (gb_point_mid cpe pe)))
      ≤ gb_cubic_spread pb cpb cpe pe / 2 ∧
    gb_cubic_spread
        (gb_point_mid (gb_point_mid (gb_point_mid cpb cpe) (gb_point_mid pb cpb))
          (gb_point_mid (gb_point_mid cpb cpe) (gb_point_mid cpe pe)))
        (gb_point_mid (gb_point_mid cpb cpe) (gb_point_mid cpe pe))
        (gb_point_mid cpe pe) pe
      ≤ gb_cubic_spread pb cpb cpe pe / 2 := by
  have hx := gb_cubic_halves pb.1 cpb.1 cpe.1 pe.1
  have hy := gb_cubic_halves pb.2 cpb.2 cpe.2 pe.2
  simp only [gb_cubic_spread, gb_point_mid]
  constructor <;> linarith [hx.1, hx.2, hy.1, hy.2]

/-- The flattener of cubic curves returns once the depth allowed is more than the number of
times the spread has to be halved to come down to a half. -/
theorem gb_geometry_make_cube_some (n : Nat) (pb cpb cpe pe : ℚ × ℚ)
    (h : gb_cubic_spread pb cpb cpe pe ≤ 2 ^ n / 2) :
    ∃ out, gb_geometry_make_cube (n + 1) pb cpb cpe pe = some out := by
  induction n generalizing pb cpb cpe pe with
  | zero =>
    refine ⟨[pe], ?_⟩
    rw [gb_geometry_make_cube_succ, if_pos]
    have h2 := gb_cubic_deviation_min_le pb cpb cpe pe
    simp only [pow_zero] at h
    unfold GB_ONE
    linarith
  | succ n ih =>
    rw [gb_geometry_make_cube_succ]
    split_ifs with hc
    · exact ⟨_, rfl⟩
    · have h4 : (2 : ℚ) ^ (n + 1) = 2 * 2 ^ n := by ring
      obtain ⟨hl, hr⟩ := gb_cubic_spread_halves pb cpb cpe pe
      obtain ⟨a, ha⟩ := ih _ _ _ _ (le_trans hl (by linarith))
      obtain ⟨b, hb⟩ := ih _ _ _ _ (le_trans hr (by linarith))
      exact ⟨a ++ b, by rw [ha, hb]⟩

/-- The segment that `gb_geometry_make_cube` produces when it stops on a curve with the
control points `pb, cpb, cpe, pe`: the midpoint of the chord is off the middle of the curve
by an eighth of the sum of the two end deviations. -/
theorem gb_cubic_chord (pb cpb cpe pe : ℚ × ℚ)
    (hc : gb_cubic_deviation_min pb cpb cpe pe ≤ GB_ONE) :
    |(gb_point_mid pb pe).1 - (gb_cubic_at pb cpb cpe pe (1 / 2)).1|
        + |(gb_point_mid pb pe).2 - (gb_cubic_at pb cpb cpe pe (1 / 2)).2|
      ≤ (GB_ONE + gb_cubic_deviation_max pb cpb cpe pe) / 8 := by
  unfold gb_cubic_deviation_min at hc
  unfold gb_cubic_deviation_max
  have hx : (gb_point_mid pb pe).1 - (gb_cubic_at pb cpb cpe pe (1 / 2)).1
      = -((2 * (cpb.1 - pb.1) + cpb.1 - pe.1) + (2 * (cpe.1 - pe.1) + cpe.1 - pb.1)) / 8 := by
    simp only [gb_point_mid, gb_cubic_at]
    ring
  have hy : (gb_point_mid pb pe).2 - (gb_cubic_at pb cpb cpe pe (1 / 2)).2
      = -((2 * (cpb.2 - pb.2) + cpb.2 - pe.2) + (2 * (cpe.2 - pe.2) + cpe.2 - pb.2)) / 8 := by
    simp only [gb_point_mid, gb_cubic_at]
    ring
  have h8 : |(8 : ℚ)| = 8 := abs_of_pos (by norm_num)
  rw [hx, hy, abs_div, abs_div, abs_neg, abs_neg, h8]
  have ax := abs_add (2 * (cpb.1 - pb.1) + cpb.1 - pe.1) (2 * (cpe.1 - pe.1) + cpe.1 - pb.1)
  have ay := abs_add (2 * (cpb.2 - pb.2) + cpb.2 - pe.2) (2 * (cpe.2 - pe.2) + cpe.2 - pb.2)
  have mx := min_add_max |2 * (cpb.1 - pb.1) + cpb.1 - pe.1| |2 * (cpe.1 - pe.1) + cpe.1 - pb.1|
  have my := min_add_max |2 * (cpb.2 - pb.2) + cpb.2 - pe.2| |2 * (cpe.2 - pe.2) + cpe.2 - pb.2|
  linarith

/-- The segments that the flattener produces for the part over `[a, b]` of a cubic curve,
handed over as the control points of that part. -/
theorem gb_geometry_make_cube_segments (fuel : Nat) (q0 q1 q2 q3 : ℚ × ℚ) (a b : ℚ)
    (pb cpb cpe pe : ℚ × ℚ) (out : List (ℚ × ℚ)) (hab : a < b)
    (hpb : pb = gb_cubic_at q0 q1 q2 q3 a) (hcpb : cpb = gb_cubic_ctrl q0 q1 q2 q3 a a b)
    (hcpe : cpe = gb_cubic_ctrl q0 q1 q2 q3 a b b) (hpe : pe = gb_cubic_at q0 q1 q2 q3 b)
    (h : gb_geometry_make_cube fuel pb cpb cpe pe = some out) :
    ∃ tps : List (ℚ × (ℚ × ℚ)), tps.map Prod.snd = out ∧
      gb_flatten_segments (gb_cubic_at q0 q1 q2 q3) (gb_cubic_segment_near q0 q1 q2 q3)
        a pb tps b pe := by
  induction fuel generalizing a b pb cpb cpe pe out with
  | zero => simp [gb_geometry_make_cube] at h
  | succ n ih =>
    rw [gb_geometry_make_cube_succ] at h
    split_ifs at h with hc
    · simp only [Option.some.injEq] at h
      subst h
      have hmid : gb_cubic_at q0 q1 q2 q3 ((a + b) / 2) = gb_cubic_at pb cpb cpe pe (1 / 2) := by
        rw [hpb, hcpb, hcpe, hpe]
        simp only [gb_cubic_at, gb_cubic_ctrl, Prod.mk.injEq]
        constructor <;> ring
      have hch := gb_cubic_chord pb cpb cpe pe hc
      refine ⟨[(b, pe)], rfl, hab, hpb, hpe, ?_, rfl, rfl⟩
      unfold gb_cubic_segment_near
      simp only
      rw [← hpb, ← hcpb, ← hcpe, ← hpe, hmid]
      refine ⟨hc, hch, fun h7 => ?_⟩
      apply gb_point_within_of_abs
      unfold GB_ONE at hch
      linarith
    · cases h1 : gb_geometry_make_cube n pb _ _ _ with
      | none => rw [h1] at h; simp at h
      | some l =>
        rw [h1] at h
        cases h2 : gb_geometry_make_cube n _ _ _ pe with
        | none => rw [h2] at h; simp at h
        | some r =>
          rw [h2] at h
          simp only [Option.some.injEq] at h
          subst h
          have hm1 : a < (a + b) / 2 := by linarith
          have hm2 : (a + b) / 2 < b := by linarith
          have e1 : gb_point_mid pb cpb = gb_cubic_ctrl q0 q1 q2 q3 a a ((a + b) / 2) := by
            rw [hpb, hcpb]
            simp only [gb_point_mid, gb_cubic_at, gb_cubic_ctrl, Prod.mk.injEq]
            constructor <;> ring
          have e2 : gb_point_mid (gb_point_mid cpb cpe) (gb_point_mid pb cpb)
              = gb_cubic_ctrl q0 q1 q2 q3 a ((a + b) / 2) ((a + b) / 2) := by
            rw [hpb, hcpb, hcpe]
            simp only [gb_point_mid, gb_cubic_at, gb_cubic_ctrl, Prod.mk.injEq]
            constructor <;> ring
          have e3 : gb_point_mid (gb_point_mid (gb_point_mid cpb cpe) (gb_point_mid pb cpb))
              (gb_point_mid (gb_point_mid cpb cpe) (gb_point_mid cpe pe))
              = gb_cubic_at q0 q1 q2 q3 ((a + b) / 2) := by
            rw [hpb, hcpb, hcpe, hpe]
            simp only [gb_point_mid, gb_cubic_at, gb_cubic_ctrl, Prod.mk.injEq]
            constructor <;> ring
          have e4 : gb_point_mid (gb_point_mid cpb cpe) (gb_point_mid cpe pe)
              = gb_cubic_ctrl q0 q1 q2 q3 ((a + b) / 2) ((a + b) / 2) b := by
            rw [hcpb, hcpe, hpe]
            simp only [gb_point_mid, gb_cubic_at, gb_cubic_ctrl, Prod.mk.injEq]
            constructor <;> ring
          have e5 : gb_point_mid cpe pe = gb_cubic_ctrl q0 q1 q2 q3 ((a + b) / 2) b b := by
            rw [hcpe, hpe]
            simp only [gb_point_mid, gb_cubic_at, gb_cubic_ctrl, Prod.mk.injEq]
            constructor <;> ring
          obtain ⟨tl, htl, hsl⟩ := ih a ((a + b) / 2) _ _ _ _ l hm1 hpb e1 e2 e3 h1
          obtain ⟨tr, htr, hsr⟩ := ih ((a + b) / 2) b _ _ _ _ r hm2 e3 e4 e5 hpe h2
          exact ⟨tl ++ tr, by rw [List.map_append, htl, htr],
            gb_flatten_segments_append _ _ _ _ _ _ _ _ _ _ hsl hsr⟩

theorem gb_cubic_at_ends (pb cpb cpe pe : ℚ × ℚ) :
    gb_cubic_at pb cpb cpe pe 0 = pb ∧ gb_cubic_ctrl pb cpb cpe pe 0 0 1 = cpb ∧
      gb_cubic_ctrl pb cpb cpe pe 0 1 1 = cpe ∧ gb_cubic_at pb cpb cpe pe 1 = pe := by
  refine ⟨?_, ?_, ?_, ?_⟩ <;> simp [gb_cubic_at, gb_cubic_ctrl]

/-- C19 (counterexample): for the cubic curve `(0,0), (1,0), (0,800), (3,0)` the deviation at
the start is zero, so `gb_geometry_make_cube` hands over the end point alone, at every depth;
the midpoint `(3/2, 0)` of that one segment is `300` away from the point `(3/4, 300)` of the
curve at the middle of `[0, 1]`, so no choice of parameters makes the polyline follow the
curve within `GB_ONE`. -/
theorem gb_geometry_make_cube_error_counterexample :
    (∀ fuel, gb_geometry_make_cube (fuel + 1) (0, 0) (1, 0) (0, 800) (3, 0) = some [(3, 0)]) ∧
    gb_cubic_at (0, 0) (1, 0) (0, 800) (3, 0) (1 / 2) = (3 / 4, 300) ∧
    ¬ ∃ tps : List (ℚ × (ℚ × ℚ)), tps.map Prod.snd = [(3, 0)] ∧
      gb_flatten_segments (gb_cubic_at (0, 0) (1, 0) (0, 800) (3, 0))
        (gb_segment_near (gb_cubic_at (0, 0) (1, 0) (0, 800) (3, 0))) 0 (0, 0) tps 1 (3, 0) := by
  refine ⟨?_, ?_, ?_⟩
  · intro fuel
    rw [gb_geometry_make_cube_succ, if_pos]
    norm_num [gb_cubic_deviation_min, GB_ONE]
  · norm_num [gb_cubic_at]
  · rintro ⟨tps, hmap, hseg⟩
    match tps, hmap, hseg with
    | [(t, p)], hmap, hseg =>
      obtain ⟨_, _, _, hnear, ht, _⟩ := hseg
      simp only at ht hnear
      subst ht
      have hp : p = (3, 0) := by simpa using hmap
      subst hp
      norm_num [gb_segment_near, gb_point_within, gb_point_mid, gb_cubic_at, GB_ONE] at hnear

/-- C19 (amended): over exact arithmetic `gb_geometry_make_cube` returns, with the same list
for every depth of recursion from some depth on, and the points it hands over lie on the
curve at parameters that increase from `0` to `1`; on the part of the curve that a segment
spans the smaller of the two end deviations is at most `GB_ONE`, the midpoint of the segment
is within `(GB_ONE + E) / 8` of the point of the curve at the middle of the parameter
interval, `E` being the larger end deviation of that part, and so within `GB_ONE` of it
when `E ≤ 7`. -/
theorem gb_geometry_make_cube_error (pb cpb cpe pe : ℚ × ℚ) :
    ∃ (fuel : Nat) (out : List (ℚ × ℚ)),
      (∀ fuel', fuel ≤ fuel' → gb_geometry_make_cube fuel' pb cpb cpe pe = some out) ∧
      ∃ tps : List (ℚ × (ℚ × ℚ)), tps.map Prod.snd = out ∧
        gb_flatten_segments (gb_cubic_at pb cpb cpe pe) (gb_cubic_segment_near pb cpb cpe pe)
          0 pb tps 1 pe := by
  obtain ⟨n, hn⟩ := pow_unbounded_of_one_lt
    (2 * gb_cubic_spread pb cpb cpe pe) (by norm_num : (1 : ℚ) < 2)
  obtain ⟨out, hout⟩ := gb_geometry_make_cube_some n pb cpb cpe pe (by linarith)
  obtain ⟨h0, hcb, hce, h1⟩ := gb_cubic_at_ends pb cpb cpe pe
  exact ⟨n + 1, out, fun fuel' hle => gb_geometry_make_cube_mono_le _ _ hle _ _ _ _ _ hout,
    gb_geometry_make_cube_segments (n + 1) pb cpb cpe pe 0 1 pb cpb cpe pe out (by norm_num)
      h0.symm hcb.symm hce.symm h1.symm hout⟩

/-! ### The closed contour of an ellipse -/

/-- The path that `gb_path_add_ellipse` leaves on an empty path: one `MOVE` to
`(cx + rx, cy)`, eight `QUAD`s of which the last ends on that point, and `CLOS`, with no
`LINE` patched in. -/
theorem gb_path_add_ellipse_init (deps : gb_deps_t) (e : gb_ellipse_t)
    (d : gb_rotate_direction_e) (sx sy mx my : Int)
    (hsx : sx = deps.gb_mul e.rx GB_TAN_PIOVER8) (hsy : sy = deps.gb_mul e.ry GB_TAN_PIOVER8)
    (hmx : mx = deps.gb_mul e.rx GB_SQRT2_OVER2) (hmy : my = deps.gb_mul e.ry GB_SQRT2_OVER2) :
    gb_path_add_ellipse deps gb_path_init e d =
      { gb_path_init with
        hint := .ELLIPSE e
        codes := [.MOVE, .QUAD, .QUAD, .QUAD, .QUAD, .QUAD, .QUAD, .QUAD, .QUAD, .CLOS]
        points :=
          if d = .CW then
            [⟨e.c.x + e.rx, e.c.y⟩,
             ⟨e.c.x + e.rx, e.c.y + sy⟩, ⟨e.c.x + mx, e.c.y + my⟩,
             ⟨e.c.x + sx, e.c.y + e.ry⟩, ⟨e.c.x, e.c.y + e.ry⟩,
             ⟨e.c.x - sx, e.c.y + e.ry⟩, ⟨e.c.x - mx, e.c.y + my⟩,
             ⟨e.c.x - e.rx, e.c.y + sy⟩, ⟨e.c.x - e.rx, e.c.y⟩,
             ⟨e.c.x - e.rx, e.c.y - sy⟩, ⟨e.c.x - mx, e.c.y - my⟩,
             ⟨e.c.x - sx, e.c.y - e.ry⟩, ⟨e.c.x, e.c.y - e.ry⟩,
             ⟨e.c.x + sx, e.c.y - e.ry⟩, ⟨e.c.x + mx, e.c.y - my⟩,
             ⟨e.c.x + e.rx, e.c.y - sy⟩, ⟨e.c.x + e.rx, e.c.y⟩]
          else
            [⟨e.c.x + e.rx, e.c.y⟩,
             ⟨e.c.x + e.rx, e.c.y - sy⟩, ⟨e.c.x + mx, e.c.y - my⟩,
             ⟨e.c.x + sx, e.c.y - e.ry⟩, ⟨e.c.x, e.c.y - e.ry⟩,
             ⟨e.c.x - sx, e.c.y - e.ry⟩, ⟨e.c.x - mx, e.c.y - my⟩,
             ⟨e.c.x - e.rx, e.c.y - sy⟩, ⟨e.c.x - e.rx, e.c.y⟩,
             ⟨e.c.x - e.rx, e.c.y + sy⟩, ⟨e.c.x - mx, e.c.y + my⟩,
             ⟨e.c.x - sx, e.c.y + e.ry⟩, ⟨e.c.x, e.c.y + e.ry⟩,
             ⟨e.c.x + sx, e.c.y + e.ry⟩, ⟨e.c.x + mx, e.c.y + my⟩,
             ⟨e.c.x + e.rx, e.c.y + sy⟩, ⟨e.c.x + e.rx, e.c.y⟩]
        head := ⟨e.c.x + e.rx, e.c.y⟩
        flag := { dirty_hint := false, dirty_bounds := true, dirty_polygon := true,
                  dirty_convex := true, curve := true, convex := false, closed := true,
                  single := true } } := by
  subst hsx hsy hmx hmy
  cases d <;>
    simp [gb_path_add_ellipse, gb_path_quad2_to, gb_path_move2_to, gb_point_make,
      gb_path_hint_maked, gb_path_hint_done, gb_path_null, gb_path_init, gb_path_quad_to,
      gb_path_patch_move, gb_path_move_to, gb_path_clos, gb_path_last,
      gb_path_flag_t.or_dirty_all]

/-- The points of the polygon of a path with curves: what the loop over its items leaves in
`polygon_points`. -/
theorem gb_path_polygon_curve (deps : gb_deps_t) (p : gb_path_impl_t)
    (hnull : gb_path_null p = false) (hd : p.flag.dirty_polygon = true)
    (hc : p.flag.curve = true) :
    ∃ poly, (gb_path_polygon deps p).1 = some poly ∧
      poly.points = ((gb_path_items p).foldl (gb_path_make_python_item deps)
        { polygon_points := [], polygon_counts := [], count := 0 }).polygon_points := by
  unfold gb_path_polygon
  simp only [hnull, Bool.false_eq_true, if_false]
  rw [if_pos hd]
  simp only [gb_path_make_python, hc, if_true, gb_path_polygon_value]
  refine ⟨_, rfl, ?_⟩
  simp only [(gb_path_convex_frame _).1, (gb_path_convex_frame _).2.2]

/-- The points that the callback of the flatteners appends. -/
theorem gb_path_make_line_for_curve_to_points (l : List gb_point_t) (v : gb_path_python_t) :
    (l.foldl (fun v point =>
        { v with polygon_points := v.polygon_points ++ [point], count := gb_u16_add v.count 1 })
      v).polygon_points = v.polygon_points ++ l := by
  induction l generalizing v with
  | nil => simp
  | cons a l ih => rw [List.foldl_cons, ih]; simp

/-- C20: the path that `gb_path_add_ellipse` leaves on an empty path, in either direction,
is `MOVE`, eight `QUAD`s and `CLOS` with no `LINE` patched in, and its first and its last
stored point are `(cx + rx, cy)`; so are the first and the last point of its polygon, when the
flattener of quadratic curves hands over the end point of its curve last, as
`gb_geometry_make_quad` does.  `gb_path_add_arc` with a sweep of at least `GB_DEGREE_360`
either way is that same call. -/
theorem gb_path_add_ellipse_closed (deps : gb_deps_t) (ellipse : gb_ellipse_t)
    (direction : gb_rotate_direction_e) :
    (gb_path_add_ellipse deps gb_path_init ellipse direction).codes
        = [.MOVE, .QUAD, .QUAD, .QUAD, .QUAD, .QUAD, .QUAD, .QUAD, .QUAD, .CLOS] ∧
      (gb_path_add_ellipse deps gb_path_init ellipse direction).points.length = 17 ∧
      (gb_path_add_ellipse deps gb_path_init ellipse direction).points.head?
        = some ⟨ellipse.c.x + ellipse.rx, ellipse.c.y⟩ ∧
      (gb_path_add_ellipse deps gb_path_init ellipse direction).points.getLast?
        = some ⟨ellipse.c.x + ellipse.rx, ellipse.c.y⟩ ∧
      ((∀ pb cp pe, (deps.gb_quad_make_line pb cp pe).getLast? = some pe) →
        ∃ poly,
          (gb_path_polygon deps (gb_path_add_ellipse deps gb_path_init ellipse direction)).1
            = some poly ∧
          poly.points.head? = some ⟨ellipse.c.x + ellipse.rx, ellipse.c.y⟩ ∧
          poly.points.getLast? = some ⟨ellipse.c.x + ellipse.rx, ellipse.c.y⟩) ∧
      (∀ arc : gb_arc_t, arc.an ≥ GB_DEGREE_360 ∨ arc.an ≤ -GB_DEGREE_360 →
        gb_path_add_arc deps gb_path_init arc
          = gb_path_add_ellipse deps gb_path_init ⟨⟨arc.c.x, arc.c.y⟩, arc.rx, arc.ry⟩
              (if arc.an > 0 then .CW else .CCW)) ∧
      (∀ (fuel : Nat) (pb cp pe : ℚ × ℚ) (out : List (ℚ × ℚ)),
        gb_geometry_make_quad fuel pb cp pe = some out → out.getLast? = some pe) := by
  have hp := gb_path_add_ellipse_init deps ellipse direction _ _ _ _ rfl rfl rfl rfl
  refine ⟨?_, ?_, ?_, ?_, ?_, ?_, ?_⟩
  · rw [hp]
  · rw [hp]; cases direction <;> rfl
  · rw [hp]; cases direction <;> rfl
  · rw [hp]; cases direction <;> rfl
  · intro hquad
    obtain ⟨poly, hpoly, hpts⟩ := gb_path_polygon_curve deps
      (gb_path_add_ellipse deps gb_path_init ellipse direction)
      (by rw [hp]; rfl) (by rw [hp]) (by rw [hp])
    refine ⟨poly, hpoly, ?_⟩
    have key : ∀ (l r : List gb_point_t) (x : gb_point_t), r.getLast? = some x →
        (l ++ r).getLast? = some x := by
      intro l r x h
      rw [List.getLast?_append, h]
      rfl
    have keyc : ∀ (a : gb_point_t) (r : List gb_point_t) (x : gb_point_t),
        r.getLast? = some x → (a :: r).getLast? = some x := fun a r x h => key [a] r x h
    rw [hpts, hp]
    cases direction <;>
      (simp [gb_path_items, gb_path_items_from, gb_path_make_python_item,
        gb_path_item_t.point, gb_path_point_step, gb_path_code_e.val,
        gb_path_make_line_for_curve_to_points]
       exact keyc _ _ _ (key _ _ _ (key _ _ _ (key _ _ _ (key _ _ _ (key _ _ _ (key _ _ _
        (key _ _ _ (hquad _ _ _)))))))))
  · intro arc harc
    unfold gb_path_add_arc
    rw [if_pos harc]
  · intro fuel
    induction fuel with
    | zero => intro pb cp pe out h; simp [gb_geometry_make_quad] at h
    | succ n ih =>
      intro pb cp pe out h
      rw [gb_geometry_make_quad] at h
      simp only at h
      split_ifs at h with hc
      · simp only [Option.some.injEq] at h
        subst h
        rfl
      · cases h1 : gb_geometry_make_quad n pb _ _ with
        | none => rw [h1] at h; simp at h
        | some l =>
          rw [h1] at h
          cases h2 : gb_geometry_make_quad n _ _ pe with
          | none => rw [h2] at h; simp at h
          | some r =>
            rw [h2] at h
            simp only [Option.some.injEq] at h
            subst h
            rw [List.getLast?_append, ih _ _ _ _ h2]
            rfl

/-- C20 (witness): the ellipse with the center `(0, 0)` and the radii `65536` and `32768`,
clockwise, with a flattener that hands over the end point alone. -/
theorem gb_path_add_ellipse_closed_witness :
    (gb_path_add_ellipse gb_deps_sample gb_path_init ⟨⟨0, 0⟩, 65536, 32768⟩ .CW).points.head?
        = some ⟨65536, 0⟩ ∧
      (gb_path_add_ellipse gb_deps_sample gb_path_init
        ⟨⟨0, 0⟩, 65536, 32768⟩ .CW).points.getLast? = some ⟨65536, 0⟩ ∧
      ∃ poly,
        (gb_path_polygon gb_deps_sample (gb_path_add_ellipse gb_deps_sample gb_path_init
          ⟨⟨0, 0⟩, 65536, 32768⟩ .CW)).1 = some poly ∧
        poly.points.head? = some ⟨65536, 0⟩ ∧ poly.points.getLast? = some ⟨65536, 0⟩ :=
  have h := gb_path_add_ellipse_closed gb_deps_sample ⟨⟨0, 0⟩, 65536, 32768⟩ .CW
  ⟨h.2.2.1, h.2.2.2.1, h.2.2.2.2.1 (fun _ _ _ => rfl)⟩

/-! ## Rotation, translation and the identity factor -/

/-- C21: `gb_matrix_init_sincos(s, c)` builds the map `(x, y) ↦ (c·x − s·y, s·x + c·y)`; for
every rotation `R` so built and every translation `T = translate(dx, dy)`,
`gb_matrix_multiply(R, T)` returns true and leaves a matrix that maps the origin to `R` applied
to `(dx, dy)`; the 90° rotation (`s = 1`, `c = 0`) multiplied by `translate(1, 0)` maps `(0, 0)`
to `(0, 1)`. -/
theorem gb_matrix_init_sincos_translate (s c dx dy : ℚ) :
    (∀ x y : ℚ, gb_point_apply (x, y) (gb_matrix_init_sincos s c) = (c * x - s * y, s * x + c * y))
    ∧ (gb_matrix_multiply (gb_matrix_init_sincos s c) (gb_matrix_init_translate dx dy)).1 = true
    ∧ gb_point_apply (0, 0)
        (gb_matrix_multiply (gb_matrix_init_sincos s c) (gb_matrix_init_translate dx dy)).2
      = gb_point_apply (dx, dy) (gb_matrix_init_sincos s c)
    ∧ gb_point_apply (0, 0)
        (gb_matrix_multiply (gb_matrix_init_sincos 1 0) (gb_matrix_init_translate 1 0)).2
      = (0, 1) := by
  refine ⟨?_, ?_, ?_, ?_⟩
  · intro x y
    simp [gb_point_apply, gb_matrix_init_sincos, gb_matrix_init]
    ring
  · unfold gb_matrix_multiply
    split_ifs <;> rfl
  · unfold gb_matrix_multiply
    split_ifs with h
    · have h' := (gb_matrix_identity_iff _).1 h
      simp [gb_matrix_init_translate, gb_matrix_clear, gb_matrix_init] at h'
      obtain ⟨h1, h2⟩ := h'
      simp [gb_point_apply, gb_matrix_init_sincos, gb_matrix_init, h1, h2]
    · simp [gb_point_apply, gb_matrix_init_sincos, gb_matrix_init_translate, gb_matrix_init,
        gb_matrix_mul_add]
  · simp [gb_matrix_multiply, gb_matrix_identity, gb_point_apply, gb_matrix_init_sincos,
      gb_matrix_init_translate, gb_matrix_init, gb_matrix_mul_add, GB_ONE]

/-- C22: for every matrix `M`, `gb_matrix_multiply(M, I)` and `gb_matrix_multiply_lhs(M, I)` with
`I` the identity (`sx = sy = 1`, `kx = ky = tx = ty = 0`) return true and leave `M` as it was,
in all six elements. -/
theorem gb_matrix_multiply_identity_factor (M : gb_matrix_t) :
    gb_matrix_multiply M { sx := 1, kx := 0, ky := 0, sy := 1, tx := 0, ty := 0 } = (true, M)
    ∧ gb_matrix_multiply_lhs M { sx := 1, kx := 0, ky := 0, sy := 1, tx := 0, ty := 0 }
      = (true, M) := by
  constructor
  · simp [gb_matrix_multiply, gb_matrix_identity, GB_ONE]
  · simp [gb_matrix_multiply_lhs, gb_matrix_identity, GB_ONE]

/-! ## Openers and not-a-number coordinates -/

/-- C25, counterexample: on a fresh path, `gb_path_move_to`, `gb_path_line_to`, `gb_path_quad_to`
and `gb_path_cubic_to` called with a point whose `x` is `GB_NAN` store that point and its
opcode. -/
theorem gb_path_openers_nan_counterexample :
    gb_isnan GB_NAN = true
    ∧ (gb_path_move_to gb_path_init ⟨GB_NAN, 0⟩).codes = [.MOVE]
    ∧ (gb_path_move_to gb_path_init ⟨GB_NAN, 0⟩).points = [⟨GB_NAN, 0⟩]
    ∧ (gb_path_line_to gb_path_init ⟨GB_NAN, 0⟩).codes = [.MOVE, .LINE]
    ∧ (gb_path_line_to gb_path_init ⟨GB_NAN, 0⟩).points = [⟨0, 0⟩, ⟨GB_NAN, 0⟩]
    ∧ (gb_path_quad_to gb_path_init ⟨1, 1⟩ ⟨GB_NAN, 0⟩).codes = [.MOVE, .QUAD]
    ∧ (gb_path_quad_to gb_path_init ⟨1, 1⟩ ⟨GB_NAN, 0⟩).points = [⟨0, 0⟩, ⟨1, 1⟩, ⟨GB_NAN, 0⟩]
    ∧ (gb_path_cubic_to gb_path_init ⟨1, 1⟩ ⟨2, 2⟩ ⟨GB_NAN, 0⟩).codes = [.MOVE, .CUBIC]
    ∧ (gb_path_cubic_to gb_path_init ⟨1, 1⟩ ⟨2, 2⟩ ⟨GB_NAN, 0⟩).points
      = [⟨0, 0⟩, ⟨1, 1⟩, ⟨2, 2⟩, ⟨GB_NAN, 0⟩] := by
  refine ⟨by decide, rfl, rfl, rfl, rfl, rfl, rfl, rfl, rfl⟩

/-- C25, amended: the four openers make no test of their coordinates.  For every path and all
points, a coordinate equal to `GB_NAN` or not, `gb_path_move_to` leaves `MOVE` as the last opcode
with the point as the head of the contour and as the last stored point (replacing that of a
`MOVE` it follows, appended otherwise), and `gb_path_line_to`, `gb_path_quad_to` and
`gb_path_cubic_to` append their opcode and their points after the `MOVE` they may have to
patch in. -/
theorem gb_path_openers_store (impl : gb_path_impl_t) (ctrl0 ctrl1 point : gb_point_t) :
    ((gb_path_move_to impl point).codes.getLast? = some .MOVE
      ∧ (gb_path_move_to impl point).head = point
      ∧ (gb_path_move_to impl point).points
        = if impl.codes.getLast? = some .MOVE then tb_vector_replace_last impl.points point
          else impl.points ++ [point])
    ∧ ((gb_path_line_to impl point).codes = (gb_path_patch_move impl).codes ++ [.LINE]
      ∧ (gb_path_line_to impl point).points = (gb_path_patch_move impl).points ++ [point])
    ∧ ((gb_path_quad_to impl ctrl0 point).codes = (gb_path_patch_move impl).codes ++ [.QUAD]
      ∧ (gb_path_quad_to impl ctrl0 point).points
        = (gb_path_patch_move impl).points ++ [ctrl0, point])
    ∧ ((gb_path_cubic_to impl ctrl0 ctrl1 point).codes
        = (gb_path_patch_move impl).codes ++ [.CUBIC]
      ∧ (gb_path_cubic_to impl ctrl0 ctrl1 point).points
        = (gb_path_patch_move impl).points ++ [ctrl0, ctrl1, point]) := by
  refine ⟨⟨?_, ?_, ?_⟩, ⟨rfl, rfl⟩, ⟨rfl, ?_⟩, ⟨rfl, ?_⟩⟩
  · unfold gb_path_move_to
    by_cases h : impl.codes.getLast? = some .MOVE <;> simp [h]
    split_ifs <;> simp
  · unfold gb_path_move_to
    by_cases h : impl.codes.getLast? = some .MOVE <;> simp [h]
  · unfold gb_path_move_to
    by_cases h : impl.codes.getLast? = some .MOVE <;> simp [h]
    split_ifs <;> simp
  · simp [gb_path_quad_to]
  · simp [gb_path_cubic_to]

/-! ### The flattener of quadratic curves samples uniformly -/

theorem gb_quad_error_halves (pb cp pe : ℚ × ℚ) :
    gb_quad_error pb ((pb.1 + cp.1) / 2, (pb.2 + cp.2) / 2)
        (((pb.1 + cp.1) / 2 + (cp.1 + pe.1) / 2) / 2, ((pb.2 + cp.2) / 2 + (cp.2 + pe.2) / 2) / 2)
      = gb_quad_error pb cp pe / 4
    ∧ gb_quad_error
        (((pb.1 + cp.1) / 2 + (cp.1 + pe.1) / 2) / 2, ((pb.2 + cp.2) / 2 + (cp.2 + pe.2) / 2) / 2)
        ((cp.1 + pe.1) / 2, (cp.2 + pe.2) / 2) pe
      = gb_quad_error pb cp pe / 4 := by
  have hq : ∀ a b c : ℚ, |(a + b) / 2 - (a + ((a + b) / 2 + (b + c) / 2) / 2) / 2|
      = |b - (a + c) / 2| / 4 := by
    intro a b c
    rw [show (a + b) / 2 - (a + ((a + b) / 2 + (b + c) / 2) / 2) / 2
      = (b - (a + c) / 2) / 4 by ring, abs_div]
    norm_num
  have hr : ∀ a b c : ℚ, |(b + c) / 2 - (((a + b) / 2 + (b + c) / 2) / 2 + c) / 2|
      = |b - (a + c) / 2| / 4 := by
    intro a b c
    rw [show (b + c) / 2 - (((a + b) / 2 + (b + c) / 2) / 2 + c) / 2
      = (b - (a + c) / 2) / 4 by ring, abs_div]
    norm_num
  unfold gb_quad_error
  simp only [hq, hr]
  constructor <;> ring

theorem gb_quad_at_halves (pb cp pe : ℚ × ℚ) (t : ℚ) :
    gb_quad_at pb ((pb.1 + cp.1) / 2, (pb.2 + cp.2) / 2)
        (((pb.1 + cp.1) / 2 + (cp.1 + pe.1) / 2) / 2, ((pb.2 + cp.2) / 2 + (cp.2 + pe.2) / 2) / 2) t
      = gb_quad_at pb cp pe (t / 2)
    ∧ gb_quad_at
        (((pb.1 + cp.1) / 2 + (cp.1 + pe.1) / 2) / 2, ((pb.2 + cp.2) / 2 + (cp.2 + pe.2) / 2) / 2)
        ((cp.1 + pe.1) / 2, (cp.2 + pe.2) / 2) pe t
      = gb_quad_at pb cp pe ((1 + t) / 2) := by
  constructor <;> (unfold gb_quad_at; ext <;> (simp only; ring))

/-- The unfolding of `gb_geometry_make_quad` with the test written on `gb_quad_error`. -/
theorem gb_geometry_make_quad_succ (n : Nat) (pb cp pe : ℚ × ℚ) :
    gb_geometry_make_quad (n + 1) pb cp pe
      = if gb_quad_error pb cp pe ≤ 1 then some [pe]
        else
          match gb_geometry_make_quad n pb ((pb.1 + cp.1) / 2, (pb.2 + cp.2) / 2)
              (((pb.1 + cp.1) / 2 + (cp.1 + pe.1) / 2) / 2,
                ((pb.2 + cp.2) / 2 + (cp.2 + pe.2) / 2) / 2) with
          | none => none
          | some head =>
            match gb_geometry_make_quad n
                (((pb.1 + cp.1) / 2 + (cp.1 + pe.1) / 2) / 2,
                  ((pb.2 + cp.2) / 2 + (cp.2 + pe.2) / 2) / 2)
                ((cp.1 + pe.1) / 2, (cp.2 + pe.2) / 2) pe with
            | none => none
            | some tail => some (head ++ tail) := by
  rw [gb_geometry_make_quad]
  simp only [gb_rsh, gb_fabs, GB_ONE, pow_one, gb_quad_error]

/-- With an error `e` such that `4^(d-1) < e ≤ 4^d`, the flattener hands over the `2^d` points of
the curve at the parameters `k / 2^d`. -/
theorem gb_geometry_make_quad_range (d : Nat) (pb cp pe : ℚ × ℚ)
    (hle : gb_quad_error pb cp pe ≤ 4 ^ d)
    (hlt : ∀ d' : Nat, d' < d → ¬ gb_quad_error pb cp pe ≤ 4 ^ d') :
    gb_geometry_make_quad (d + 1) pb cp pe
      = some ((List.range (2 ^ d)).map
          (fun k : Nat => gb_quad_at pb cp pe (((k : ℚ) + 1) / 2 ^ d))) := by
  induction d generalizing pb cp pe with
  | zero =>
    have hr : List.range (2 ^ 0) = [0] := rfl
    rw [gb_geometry_make_quad_succ, if_pos (by simpa using hle), hr]
    simp [gb_quad_at]
  | succ d ih =>
    have h1 : ¬ gb_quad_error pb cp pe ≤ 1 := by
      have := hlt 0 (Nat.succ_pos d)
      simpa using this
    obtain ⟨e1, e2⟩ := gb_quad_error_halves pb cp pe
    have hle' : gb_quad_error pb cp pe / 4 ≤ 4 ^ d := by
      rw [pow_succ] at hle
      linarith
    have hlt' : ∀ d' : Nat, d' < d → ¬ gb_quad_error pb cp pe / 4 ≤ 4 ^ d' := by
      intro d' hd' hc
      apply hlt (d' + 1) (Nat.succ_lt_succ hd')
      rw [pow_succ]
      linarith
    rw [gb_geometry_make_quad_succ, if_neg h1, ih _ _ _ (e1 ▸ hle') (e1 ▸ hlt'),
      ih _ _ _ (e2 ▸ hle') (e2 ▸ hlt')]
    simp only
    congr 1
    have hp : 2 ^ (d + 1) = 2 ^ d + 2 ^ d := by rw [pow_succ]; ring
    rw [hp, List.range_add, List.map_append, List.map_map]
    congr 1
    · apply List.map_congr_left
      intro k _
      rw [(gb_quad_at_halves pb cp pe _).1]
      congr 1
      rw [pow_succ]
      ring
    · apply List.map_congr_left
      intro k _
      rw [(gb_quad_at_halves pb cp pe _).2]
      simp only [Function.comp]
      congr 1
      have h2 : (2 : ℚ) ^ d ≠ 0 := by positivity
      push_cast
      rw [pow_succ]
      field_simp
      ring

/-- C27: over exact arithmetic, with `e = |cp.x − (pb.x+pe.x)/2| + |cp.y − (pb.y+pe.y)/2|` and
`d` the least natural number such that `e ≤ 4^d`, `gb_geometry_make_quad` returns (with every
depth of recursion above `d`) after handing exactly `2^d` points to its callback, the points
`B(k/2^d)` of the curve for `k = 1, …, 2^d` in increasing `k`; the last of them is `pe`, and
when `e ≤ 1` it is the only one. -/
theorem gb_geometry_make_quad_uniform (pb cp pe : ℚ × ℚ) :
    ∃ (d : Nat) (out : List (ℚ × ℚ)),
      gb_quad_error pb cp pe ≤ 4 ^ d
      ∧ (∀ d' : Nat, gb_quad_error pb cp pe ≤ 4 ^ d' → d ≤ d')
      ∧ (∀ fuel : Nat, d + 1 ≤ fuel → gb_geometry_make_quad fuel pb cp pe = some out)
      ∧ out = (List.range (2 ^ d)).map
          (fun k : Nat => gb_quad_at pb cp pe (((k : ℚ) + 1) / 2 ^ d))
      ∧ out.length = 2 ^ d
      ∧ out.getLast? = some pe
      ∧ (gb_quad_error pb cp pe ≤ 1 → out = [pe]) := by
  have hex : ∃ d : Nat, gb_quad_error pb cp pe ≤ 4 ^ d := by
    obtain ⟨n, hn⟩ := pow_unbounded_of_one_lt (gb_quad_error pb cp pe) (by norm_num : (1 : ℚ) < 4)
    exact ⟨n, le_of_lt hn⟩
  classical
  refine ⟨Nat.find hex, _, Nat.find_spec hex, fun d' hd' => Nat.find_min' hex hd', ?_, rfl, ?_,
    ?_, ?_⟩
  · intro fuel hfuel
    exact gb_geometry_make_quad_mono_le _ _ hfuel _ _ _ _
      (gb_geometry_make_quad_range _ pb cp pe (Nat.find_spec hex)
        (fun d' hd' => Nat.find_min hex hd'))
  · simp
  · have hpos : 0 < 2 ^ Nat.find hex := Nat.pos_pow_of_pos _ (by norm_num)
    obtain ⟨m, hm⟩ : ∃ m, 2 ^ Nat.find hex = m + 1 := ⟨2 ^ Nat.find hex - 1, by omega⟩
    rw [hm, List.range_succ, List.map_append, List.map_singleton, List.getLast?_append]
    simp only [List.getLast?_singleton]
    have : ((m : ℚ) + 1) / 2 ^ Nat.find hex = 1 := by
      have h2 : ((2 : ℚ) ^ Nat.find hex) = (m : ℚ) + 1 := by exact_mod_cast hm
      rw [h2]
      field_simp
    rw [this]
    simp [gb_quad_at]
  · intro h1
    have h0 : Nat.find hex = 0 := by
      have := Nat.find_min' hex (show gb_quad_error pb cp pe ≤ 4 ^ 0 by simpa using h1)
      omega
    have hr : List.range (2 ^ 0) = [0] := rfl
    rw [h0, hr]
    simp [gb_quad_at]

/-! ### Collinear triples in the convexity scan -/

/-- C28 (failing input): the Z-shaped contour `(0,0) (4,0) (4,4) (4,8) (8,8)`, entered by
`move_to`, four `line_to` and `clos`.  The scan of `gb_path_make_convex` examines, among others,
the triples `(0,0) (4,0) (4,4)` with cross value `-1`, `(4,0) (4,4) (4,8)` with cross value `0`
and `(4,4) (4,8) (8,8)` with cross value `+1`; `cross_prev = cross` stores the zero, the test
`cross * cross_prev < 0` then compares `+1` with `0`, and `gb_path_convex` returns true.  The
same contour without the collinear point `(4,4)` is reported non-convex. -/
theorem gb_path_convex_zero_cross_resets :
    (gb_path_of_polygon [⟨0, 0⟩, ⟨4, 0⟩, ⟨4, 4⟩, ⟨4, 8⟩, ⟨8, 8⟩]).codes
        = [.MOVE, .LINE, .LINE, .LINE, .LINE, .LINE, .CLOS]
    ∧ (gb_path_of_polygon [⟨0, 0⟩, ⟨4, 0⟩, ⟨4, 4⟩, ⟨4, 8⟩, ⟨8, 8⟩]).points
        = [⟨0, 0⟩, ⟨4, 0⟩, ⟨4, 4⟩, ⟨4, 8⟩, ⟨8, 8⟩, ⟨0, 0⟩]
    ∧ (gb_path_hint (gb_path_of_polygon [⟨0, 0⟩, ⟨4, 0⟩, ⟨4, 4⟩, ⟨4, 8⟩, ⟨8, 8⟩])).1 = none
    ∧ gb_path_cross 0 0 4 0 4 4 = -1
    ∧ gb_path_cross 4 0 4 4 4 8 = 0
    ∧ gb_path_cross 4 4 4 8 8 8 = 1
    ∧ (gb_path_make_convex_scan
          (gb_path_of_polygon [⟨0, 0⟩, ⟨4, 0⟩, ⟨4, 4⟩, ⟨4, 8⟩, ⟨8, 8⟩]).points
          ((gb_path_items (gb_path_of_polygon [⟨0, 0⟩, ⟨4, 0⟩, ⟨4, 4⟩, ⟨4, 8⟩, ⟨8, 8⟩])).take 4)
          { x0 := 0, y0 := 0, x1 := 0, y1 := 0, x2 := 0, y2 := 0, cross_prev := 0,
            point_count := 0, contour_count := 0, convex := true, left := false })
        = { x0 := 0, y0 := 0, x1 := 4, y1 := 0, x2 := 4, y2 := 4, cross_prev := -1,
            point_count := 4, contour_count := 1, convex := true, left := false }
    ∧ (gb_path_make_convex_scan
          (gb_path_of_polygon [⟨0, 0⟩, ⟨4, 0⟩, ⟨4, 4⟩, ⟨4, 8⟩, ⟨8, 8⟩]).points
          ((gb_path_items (gb_path_of_polygon [⟨0, 0⟩, ⟨4, 0⟩, ⟨4, 4⟩, ⟨4, 8⟩, ⟨8, 8⟩])).take 5)
          { x0 := 0, y0 := 0, x1 := 0, y1 := 0, x2 := 0, y2 := 0, cross_prev := 0,
            point_count := 0, contour_count := 0, convex := true, left := false })
        = { x0 := 4, y0 := 0, x1 := 4, y1 := 4, x2 := 4, y2 := 8, cross_prev := 0,
            point_count := 5, contour_count := 1, convex := true, left := false }
    ∧ (gb_path_make_convex_scan
          (gb_path_of_polygon [⟨0, 0⟩, ⟨4, 0⟩, ⟨4, 4⟩, ⟨4, 8⟩, ⟨8, 8⟩]).points
          ((gb_path_items (gb_path_of_polygon [⟨0, 0⟩, ⟨4, 0⟩, ⟨4, 4⟩, ⟨4, 8⟩, ⟨8, 8⟩])).take 6)
          { x0 := 0, y0 := 0, x1 := 0, y1 := 0, x2 := 0, y2 := 0, cross_prev := 0,
            point_count := 0, contour_count := 0, convex := true, left := false })
        = { x0 := 4, y0 := 4, x1 := 4, y1 := 8, x2 := 8, y2 := 8, cross_prev := 1,
            point_count := 6, contour_count := 1, convex := true, left := false }
    ∧ (gb_path_convex (gb_path_of_polygon [⟨0, 0⟩, ⟨4, 0⟩, ⟨4, 4⟩, ⟨4, 8⟩, ⟨8, 8⟩])).1 = true
    ∧ (gb_path_convex (gb_path_of_polygon [⟨0, 0⟩, ⟨4, 0⟩, ⟨4, 8⟩, ⟨8, 8⟩])).1 = false := by
  refine ⟨?_, ?_, ?_, ?_, ?_, ?_, ?_, ?_, ?_, ?_, ?_⟩ <;> decide

/-! ## Bitmap theorems -/

/-- C23 (failing input): a bitmap made by `gb_bitmap_init` over a caller's buffer (10 × 10
pixels of 4 bytes, `row_bytes` left to its default `40`, `size = 400`, not the owner) and
resized to 20 × 5.  `20 · 5 · 4 ≤ 400` takes the "space enough" branch, which writes
`row_bytes` only for an owner: `gb_bitmap_resize` returns true and leaves `width = 20` with
`row_bytes = 40 < 20 · 4`.  Also, `gb_bitmap_init` with `row_bytes = 65544` stores
`(tb_uint16_t)65544 = 8` next to `size = 65544 · 10`. -/
theorem gb_bitmap_resize_row_bytes :
    gb_bitmap_init gb_bitmap_env_sample 1000 1 10 10 0 false
      = some { data := 1000, size := 400, is_owner := false, has_alpha := false, pixfmt := 1,
               width := 10, height := 10, row_bytes := 40 }
    ∧ gb_bitmap_resize gb_bitmap_env_sample
        { data := 1000, size := 400, is_owner := false, has_alpha := false, pixfmt := 1,
          width := 10, height := 10, row_bytes := 40 } 20 5
      = (true, { data := 1000, size := 200, is_owner := false, has_alpha := false, pixfmt := 1,
                 width := 20, height := 5, row_bytes := 40 })
    ∧ gb_bitmap_env_sample.gb_pixmap_btp 1 = some 4
    ∧ gb_bitmap_row_bytes
        (gb_bitmap_resize gb_bitmap_env_sample
          { data := 1000, size := 400, is_owner := false, has_alpha := false, pixfmt := 1,
            width := 10, height := 10, row_bytes := 40 } 20 5).2
      < gb_bitmap_width
          (gb_bitmap_resize gb_bitmap_env_sample
            { data := 1000, size := 400, is_owner := false, has_alpha := false, pixfmt := 1,
              width := 10, height := 10, row_bytes := 40 } 20 5).2 * 4
    ∧ gb_bitmap_init gb_bitmap_env_sample 0 1 10 10 65544 false
      = some { data := 4096, size := 655440, is_owner := true, has_alpha := false, pixfmt := 1,
               width := 10, height := 10, row_bytes := 8 } := by
  refine ⟨?_, ?_, ?_, ?_, ?_⟩ <;> decide

/-- C24: with `GB_WIDTH_MAXN` and `GB_HEIGHT_MAXN` at most `65535`, accepted pixel formats at
most `65535` and every pixmap of a positive number of bytes per pixel with
`GB_WIDTH_MAXN · btp ≤ 65535`, `gb_bitmap_init` returns null whenever the pixel format is
not accepted by `GB_PIXFMT_OK` or has no pixmap, `width = 0`, `width > GB_WIDTH_MAXN`,
`height = 0`, `height > GB_HEIGHT_MAXN`, or `row_bytes` is not zero and less than
`width · btp`; in every other case, with the allocations succeeding, it returns a bitmap
whose width, height and pixel format are the ones given and whose `row_bytes` is
`width · btp` when `0` was passed. -/
theorem gb_bitmap_init_checks (env : gb_bitmap_env_t)
    (data pixfmt width height row_bytes : Nat) (has_alpha : Bool)
    (hw : env.GB_WIDTH_MAXN ≤ 65535) (hh : env.GB_HEIGHT_MAXN ≤ 65535)
    (hp : ∀ p : Nat, env.GB_PIXFMT_OK p = true → p ≤ 65535)
    (hb : ∀ p btp : Nat, env.gb_pixmap_btp p = some btp →
      0 < btp ∧ env.GB_WIDTH_MAXN * btp ≤ 65535) :
    ((env.GB_PIXFMT_OK pixfmt = false ∨ env.gb_pixmap_btp pixfmt = none
        ∨ width = 0 ∨ env.GB_WIDTH_MAXN < width ∨ height = 0 ∨ env.GB_HEIGHT_MAXN < height
        ∨ (∃ btp : Nat, env.gb_pixmap_btp pixfmt = some btp ∧ row_bytes ≠ 0
            ∧ row_bytes < width * btp))
      → gb_bitmap_init env data pixfmt width height row_bytes has_alpha = none)
    ∧ (¬ (env.GB_PIXFMT_OK pixfmt = false ∨ env.gb_pixmap_btp pixfmt = none
        ∨ width = 0 ∨ env.GB_WIDTH_MAXN < width ∨ height = 0 ∨ env.GB_HEIGHT_MAXN < height
        ∨ (∃ btp : Nat, env.gb_pixmap_btp pixfmt = some btp ∧ row_bytes ≠ 0
            ∧ row_bytes < width * btp))
      → env.tb_malloc0_type = true → (data ≠ 0 ∨ ∀ size : Nat, env.tb_malloc0 size ≠ 0)
      → ∃ bitmap : gb_bitmap_impl_t,
          gb_bitmap_init env data pixfmt width height row_bytes has_alpha = some bitmap
          ∧ gb_bitmap_width bitmap = width
          ∧ gb_bitmap_height bitmap = height
          ∧ gb_bitmap_pixfmt bitmap = pixfmt
          ∧ (row_bytes = 0 → ∃ btp : Nat, env.gb_pixmap_btp pixfmt = some btp
              ∧ gb_bitmap_row_bytes bitmap = width * btp)) := by
  have hwrap : ∀ btp : Nat, env.gb_pixmap_btp pixfmt = some btp → width ≤ env.GB_WIDTH_MAXN →
      tb_size_t (width * btp) = width * btp ∧ width * btp ≤ 65535 := by
    intro btp hbtp hle
    have h1 := (hb _ _ hbtp).2
    have h2 : width * btp ≤ env.GB_WIDTH_MAXN * btp := Nat.mul_le_mul_right _ hle
    refine ⟨?_, by omega⟩
    unfold tb_size_t
    apply Nat.mod_eq_of_lt
    have : (65535 : Nat) < 2 ^ 64 := by norm_num
    omega
  constructor
  · intro h
    unfold gb_bitmap_init
    by_cases h1 : env.GB_PIXFMT_OK pixfmt = false
    · simp [h1]
    by_cases h2 : width ≠ 0 ∧ width ≤ env.GB_WIDTH_MAXN ∧ height ≠ 0
        ∧ height ≤ env.GB_HEIGHT_MAXN
    swap
    · simp [h1, h2]
    by_cases h3 : env.tb_malloc0_type = false
    · simp [h1, h2, h3]
    cases h4 : env.gb_pixmap_btp pixfmt with
    | none => simp [h1, h2, h3]
    | some btp =>
      obtain ⟨hw0, hwm, hh0, hhm⟩ := h2
      rcases h with h | h | h | h | h | h | ⟨btp', hb', hr0, hrlt⟩
      · exact absurd h h1
      · rw [h4] at h; simp at h
      · exact absurd h hw0
      · omega
      · exact absurd h hh0
      · omega
      · rw [h4] at hb'
        obtain rfl : btp = btp' := by simpa using hb'
        have hwr := (hwrap btp h4 hwm).1
        simp only [h1, hw0, hwm, hh0, hhm, h3, hr0, hwr]
        simp
        intro _ hge
        omega
  · intro h hrec halloc
    simp only [not_or, not_exists, not_and] at h
    obtain ⟨h1, h4, hw0, hwm, hh0, hhm, hrow⟩ := h
    have h1' : env.GB_PIXFMT_OK pixfmt = true := by simpa using h1
    obtain ⟨btp, hbtp⟩ := Option.ne_none_iff_exists'.1 h4
    have hwm' : width ≤ env.GB_WIDTH_MAXN := by omega
    have hhm' : height ≤ env.GB_HEIGHT_MAXN := by omega
    obtain ⟨hwr, hwb⟩ := hwrap btp hbtp hwm'
    have hbpos := (hb _ _ hbtp).1
    have hpix := hp _ h1'
    have hu16 : ∀ x : Nat, x ≤ 65535 → tb_uint16_t x = x := by
      intro x hx
      unfold tb_uint16_t
      apply Nat.mod_eq_of_lt
      norm_num
      omega
    have hprod : 0 < width * btp := Nat.mul_pos (Nat.pos_of_ne_zero hw0) hbpos
    have hrb : (if row_bytes = 0 then width * btp else row_bytes) ≠ 0
        ∧ width * btp ≤ (if row_bytes = 0 then width * btp else row_bytes) := by
      by_cases hr0 : row_bytes = 0
      · simp only [hr0, if_true]
        omega
      · have hge : width * btp ≤ row_bytes := by
          by_contra hlt
          exact hrow btp hbtp hr0 (by omega)
        simp only [hr0, if_false]
        omega
    have hdata : ∀ size : Nat, (if data ≠ 0 then data else env.tb_malloc0 size) ≠ 0 := by
      intro size
      rcases halloc with hd | hm
      · simp [hd]
      · split_ifs
        · assumption
        · exact hm _
    refine ⟨{ pixfmt := tb_uint16_t pixfmt
              width := tb_uint16_t width
              height := tb_uint16_t height
              row_bytes := tb_uint16_t (if row_bytes = 0 then width * btp else row_bytes)
              size := tb_size_t ((if row_bytes = 0 then width * btp else row_bytes) * height)
              data := if data ≠ 0 then data
                else env.tb_malloc0
                  (tb_size_t ((if row_bytes = 0 then width * btp else row_bytes) * height))
              has_alpha := has_alpha
              is_owner := decide (data = 0) }, ?_, ?_⟩
    · unfold gb_bitmap_init
      simp only [h1', hrec, hbtp, hwr]
      rw [if_neg (by simp), if_neg (by simp [hw0, hwm', hh0, hhm']), if_neg (by simp)]
      rw [if_neg (by simp only [not_not]; exact ⟨hrb.1, hrb.2⟩), if_neg (hdata _)]
    · simp only [gb_bitmap_width, gb_bitmap_height, gb_bitmap_pixfmt, gb_bitmap_row_bytes]
      refine ⟨hu16 _ (by omega), hu16 _ (by omega), hu16 _ hpix, ?_⟩
      intro hr0
      refine ⟨btp, hbtp, ?_⟩
      simp only [hr0, if_true]
      exact hu16 _ hwb

theorem gb_bitmap_init_checks_witness :
    gb_bitmap_init gb_bitmap_env_sample 0 1 0 10 0 false = none
    ∧ ∃ bitmap : gb_bitmap_impl_t,
        gb_bitmap_init gb_bitmap_env_sample 0 1 10 10 0 false = some bitmap
        ∧ gb_bitmap_width bitmap = 10
        ∧ gb_bitmap_height bitmap = 10
        ∧ gb_bitmap_pixfmt bitmap = 1
        ∧ ((0 : Nat) = 0 → ∃ btp : Nat, gb_bitmap_env_sample.gb_pixmap_btp 1 = some btp
            ∧ gb_bitmap_row_bytes bitmap = 10 * btp) := by
  have hw : gb_bitmap_env_sample.GB_WIDTH_MAXN ≤ 65535 := by decide
  have hh : gb_bitmap_env_sample.GB_HEIGHT_MAXN ≤ 65535 := by decide
  have hp : ∀ p : Nat, gb_bitmap_env_sample.GB_PIXFMT_OK p = true → p ≤ 65535 := by
    intro p hp
    simp [gb_bitmap_env_sample] at hp
    omega
  have hb : ∀ p btp : Nat, gb_bitmap_env_sample.gb_pixmap_btp p = some btp →
      0 < btp ∧ gb_bitmap_env_sample.GB_WIDTH_MAXN * btp ≤ 65535 := by
    intro p btp h
    simp only [gb_bitmap_env_sample] at h ⊢
    split_ifs at h
    obtain rfl : 4 = btp := by simpa using h
    decide
  exact ⟨(gb_bitmap_init_checks gb_bitmap_env_sample 0 1 0 10 0 false hw hh hp hb).1
      (Or.inr (Or.inr (Or.inl rfl))),
    (gb_bitmap_init_checks gb_bitmap_env_sample 0 1 10 10 0 false hw hh hp hb).2
      (by decide) rfl (Or.inr (fun _ => by simp [gb_bitmap_env_sample]))⟩

/-! ## Arc flattening -/

/-- The points that `gb_geometry_make_arc2` leaves in `points` for the clockwise direction
when the sweep is a whole number `k` of 45° sectors: the table up to the end of sector `k`,
except for `k = 1`, where only the start point is left, and `k = 5`, where the table stops
at the end of sector 4. -/
theorem gb_geometry_make_arc2_points_sectors (k : Nat) (hk1 : 1 ≤ k) (hk7 : k ≤ 7)
    (start stop : ℚ × ℚ)
    (hsweep : (gb_vector_dot start stop, gb_vector_cross start stop)
      = g_quad_points_of_unit_circle.getD (2 * k) (0, 0)) :
    gb_geometry_make_arc2_points start stop .CW
      = some (g_quad_points_of_unit_circle.take
          (2 * (if k = 1 then 0 else if k = 5 then 4 else k) + 1)) := by
  have hS : (0 : ℚ) < 707106781 / 1000000000 := by norm_num
  have hS' : |(707106781 / 1000000000 : ℚ)| = 707106781 / 1000000000 := abs_of_pos hS
  have h1 : |(1 : ℚ)| = 1 := abs_one
  obtain ⟨hx, hy⟩ := Prod.mk.inj hsweep
  interval_cases k <;>
    simp [g_quad_points_of_unit_circle, GB_ONE, float.GB_SQRT2_OVER2] at hx hy <;>
    simp [gb_geometry_make_arc2_points, hx, hy, gb_fabs, gb_bz, gb_lz, gb_ez, gb_nz, GB_ONE,
      GB_NEAR0, float.GB_SQRT2_OVER2, hS', abs_neg] <;>
    norm_num [g_quad_points_of_unit_circle]

/-- The matrix that `gb_geometry_make_arc2` applies maps a point by the flip of `y` for the
counter-clockwise direction, then the rotation of the start vector, then `matrix`. -/
theorem gb_geometry_make_arc2_matrix_apply (start : ℚ × ℚ) (matrix : Option gb_matrix_t)
    (direction : gb_rotate_direction_e) (q : ℚ × ℚ) :
    gb_point_apply q (gb_geometry_make_arc2_matrix start matrix direction)
      = match matrix with
        | some m =>
          gb_point_apply
            (start.1 * q.1 - start.2 * (if direction = .CCW then -q.2 else q.2),
              start.2 * q.1 + start.1 * (if direction = .CCW then -q.2 else q.2)) m
        | none =>
          (start.1 * q.1 - start.2 * (if direction = .CCW then -q.2 else q.2),
            start.2 * q.1 + start.1 * (if direction = .CCW then -q.2 else q.2)) := by
  have hlhs : ∀ (A m : gb_matrix_t) (p : ℚ × ℚ),
      gb_point_apply p (gb_matrix_multiply_lhs A m).2 = gb_point_apply (gb_point_apply p A) m := by
    intro A m p
    unfold gb_matrix_multiply_lhs
    split
    · rename_i h
      rw [(gb_matrix_identity_iff m).1 h, gb_point_apply_clear]
    · simp only [gb_matrix_multiply_eq, gb_point_apply, Prod.mk.injEq]
      constructor <;> ring
  have hrot : ∀ p : ℚ × ℚ,
      gb_point_apply p
          (if direction = .CCW then
            (gb_matrix_scale (gb_matrix_init_sincos start.2 start.1) GB_ONE (-GB_ONE)).2
          else gb_matrix_init_sincos start.2 start.1)
        = (start.1 * p.1 - start.2 * (if direction = .CCW then -p.2 else p.2),
            start.2 * p.1 + start.1 * (if direction = .CCW then -p.2 else p.2)) := by
    intro p
    cases direction
    · simp only [gb_point_apply, gb_matrix_init_sincos, gb_matrix_init, reduceCtorEq, if_false,
        Prod.mk.injEq]
      constructor <;> ring
    · simp only [gb_point_apply, gb_matrix_init_sincos, gb_matrix_init, gb_matrix_scale, GB_ONE,
        gb_mul, if_true, Prod.mk.injEq]
      norm_num
  unfold gb_geometry_make_arc2_matrix
  cases matrix with
  | none => exact hrot q
  | some m =>
    simp only
    rw [hlhs, hrot]

/-- The first point that `gb_geometry_make_arc2` leaves in `points` is `(GB_ONE, 0)`. -/
theorem gb_geometry_make_arc2_points_head (start stop : ℚ × ℚ)
    (direction : gb_rotate_direction_e) (points : List (ℚ × ℚ))
    (h : gb_geometry_make_arc2_points start stop direction = some points) :
    ∃ rest : List (ℚ × ℚ), points = (GB_ONE, 0) :: rest := by
  unfold gb_geometry_make_arc2_points at h
  simp only at h
  split_ifs at h <;>
    simp [g_quad_points_of_unit_circle] at h <;>
    exact ⟨_, h.symm⟩

/-- With unit vectors for `start` and `stop` no `tb_assert_abort` of `gb_geometry_make_arc2`
fails. -/
theorem gb_geometry_make_arc2_points_some (start stop : ℚ × ℚ)
    (direction : gb_rotate_direction_e)
    (hstart : start.1 ^ 2 + start.2 ^ 2 = 1) (hstop : stop.1 ^ 2 + stop.2 ^ 2 = 1) :
    ∃ points : List (ℚ × ℚ),
      gb_geometry_make_arc2_points start stop direction = some points := by
  have hid : gb_vector_dot start stop ^ 2 + gb_vector_cross start stop ^ 2 = 1 := by
    have : gb_vector_dot start stop ^ 2 + gb_vector_cross start stop ^ 2
        = (start.1 ^ 2 + start.2 ^ 2) * (stop.1 ^ 2 + stop.2 ^ 2) := by
      unfold gb_vector_dot gb_vector_cross
      ring
    rw [this, hstart, hstop]
    norm_num
  unfold gb_geometry_make_arc2_points
  simp only
  generalize gb_vector_dot start stop = x at hid ⊢
  generalize gb_vector_cross start stop = y at hid ⊢
  by_cases hnz : gb_fabs y ≤ GB_NEAR0 ∧ gb_bz x = true
      ∧ ((gb_lz y = false ∧ direction = .CW) ∨ (gb_bz y = false ∧ direction = .CCW))
  · exact ⟨_, if_pos hnz⟩
  · rw [if_neg hnz]
    have ha : gb_ez (if direction = .CCW then -y else y) = true →
        gb_fabs (x + GB_ONE) ≤ GB_NEAR0 := by
      intro h0
      have hy0 : y = 0 := by
        cases direction <;> simpa [gb_ez] using h0
      subst hy0
      have hx : x = 1 ∨ x = -1 := by
        have : (x - 1) * (x + 1) = 0 := by nlinarith
        rcases mul_eq_zero.1 this with h | h
        · left; linarith
        · right; linarith
      rcases hx with hx | hx
      · exfalso
        apply hnz
        subst hx
        cases direction <;> norm_num [gb_fabs, GB_NEAR0, gb_bz, gb_lz]
      · subst hx
        norm_num [gb_fabs, GB_ONE, GB_NEAR0]
    have hb : gb_ez x = true → gb_fabs y - GB_ONE ≤ GB_NEAR0 := by
      intro h0
      have hx0 : x = 0 := by simpa [gb_ez] using h0
      subst hx0
      have hy1 : |y| = 1 := by
        have h2 : |y| ^ 2 = 1 := by rw [sq_abs]; linarith
        have h3 : (|y| - 1) * (|y| + 1) = 0 := by nlinarith
        rcases mul_eq_zero.1 h3 with h | h
        · linarith
        · have := abs_nonneg y
          linarith
      norm_num [gb_fabs, hy1, GB_ONE, GB_NEAR0]
    generalize (if direction = .CCW then -y else y) = sy at ha ⊢
    split_ifs <;> simp [g_quad_points_of_unit_circle] <;> simp_all

/-- C29: for the clockwise direction and a sweep of exactly `k` sectors of 45°, `1 ≤ k ≤ 7`
(the cosine and the sine of the sweep are the end point of sector `k` in the table),
`gb_geometry_make_arc2` returns after calling `func` with a null control for the image of
`(GB_ONE, 0)` and then with the images of the table pairs of the first `n` sectors, where
`n = k` for `k = 2, 3, 4, 6, 7`, but `n = 0` for `k = 1` and `n = 4` for `k = 5`: the test
`(sweep_abs_x < sweep_abs_y) == same` fails for equal absolute values, and the patch of the
last curve is skipped for `GB_SQRT2_OVER2`.  For `k` other than `1` and `5` and a unit start
vector the last end point is the image of `stop`. -/
theorem gb_geometry_make_arc2_sectors (k : Nat) (hk1 : 1 ≤ k) (hk7 : k ≤ 7)
    (start stop : ℚ × ℚ) (matrix : Option gb_matrix_t)
    (hsweep : (gb_vector_dot start stop, gb_vector_cross start stop)
      = g_quad_points_of_unit_circle.getD (2 * k) (0, 0)) :
    ∃ out : List (Option (ℚ × ℚ) × (ℚ × ℚ)),
      gb_geometry_make_arc2 start stop matrix .CW = some out
      ∧ out = gb_geometry_make_arc2_done (gb_geometry_make_arc2_matrix start matrix .CW)
          (g_quad_points_of_unit_circle.take
            (2 * (if k = 1 then 0 else if k = 5 then 4 else k) + 1))
      ∧ out.head? = some (none,
          gb_point_apply (GB_ONE, 0) (gb_geometry_make_arc2_matrix start matrix .CW))
      ∧ out.length = 1 + (if k = 1 then 0 else if k = 5 then 4 else k)
      ∧ (k ≠ 1 → k ≠ 5 → start.1 ^ 2 + start.2 ^ 2 = 1 →
          out.getLast?.map Prod.snd
            = some (match matrix with
                    | some m => gb_point_apply stop m
                    | none => stop)) := by
  refine ⟨_, ?_, rfl, ?_, ?_, ?_⟩
  · unfold gb_geometry_make_arc2
    rw [gb_geometry_make_arc2_points_sectors k hk1 hk7 start stop hsweep]
  · interval_cases k <;>
      simp [g_quad_points_of_unit_circle, gb_geometry_make_arc2_done]
  · interval_cases k <;>
      simp [g_quad_points_of_unit_circle, gb_geometry_make_arc2_done,
        gb_geometry_make_arc2_walk]
  · intro h1 h5 hunit
    have hstop : ∀ x y : ℚ, gb_vector_dot start stop = x → gb_vector_cross start stop = y →
        (start.1 * x - start.2 * y, start.2 * x + start.1 * y) = stop := by
      intro x y hx hy
      subst hx hy
      unfold gb_vector_dot gb_vector_cross
      ext
      · simp only
        linear_combination stop.1 * hunit
      · simp only
        linear_combination stop.2 * hunit
    obtain ⟨hx, hy⟩ := Prod.mk.inj hsweep
    interval_cases k <;>
      first
        | exact absurd rfl h1
        | exact absurd rfl h5
        | (simp [g_quad_points_of_unit_circle] at hx hy
           simp only [g_quad_points_of_unit_circle, gb_geometry_make_arc2_done,
            gb_geometry_make_arc2_walk, List.take, List.getLast?, List.getLast,
            gb_geometry_make_arc2_matrix_apply, Option.map]
           have := hstop _ _ hx hy
           cases matrix <;> simp [← this])

/-- C29 (failing input): `start = (1, 0)`, `stop = (GB_SQRT2_OVER2, GB_SQRT2_OVER2)`, no
matrix, clockwise, a sweep of one sector: `func` is called for the start point only. -/
theorem gb_geometry_make_arc2_sectors_witness :
    gb_geometry_make_arc2 (1, 0) (float.GB_SQRT2_OVER2, float.GB_SQRT2_OVER2) none .CW
      = some [(none, (1, 0))] := by
  obtain ⟨out, h1, h2, -⟩ := gb_geometry_make_arc2_sectors 1 (le_refl 1) (by norm_num)
    (1, 0) (float.GB_SQRT2_OVER2, float.GB_SQRT2_OVER2) none
    (by simp [gb_vector_dot, gb_vector_cross, g_quad_points_of_unit_circle])
  rw [h1, h2]
  simp [g_quad_points_of_unit_circle, gb_geometry_make_arc2_done, gb_geometry_make_arc2_walk,
    gb_geometry_make_arc2_matrix, gb_matrix_init_sincos, gb_matrix_init, gb_point_apply, GB_ONE]

/-! ## Matrix: failed inversion, hand-optimised transforms, pivots -/

/-- C33: whenever `gb_matrix_invert(M)` returns false, the matrix left behind is `M`, in all
six elements. -/
theorem gb_matrix_invert_atomic (M : gb_matrix_t) (h : (gb_matrix_invert M).1 = false) :
    (gb_matrix_invert M).2 = M := by
  unfold gb_matrix_invert at h ⊢
  simp only at h ⊢
  split_ifs at h ⊢ <;> rfl

theorem gb_matrix_invert_atomic_witness :
    (gb_matrix_invert { sx := 0, kx := 0, ky := 0, sy := 2, tx := 3, ty := 4 }).1 = false
    ∧ (gb_matrix_invert { sx := 0, kx := 0, ky := 0, sy := 2, tx := 3, ty := 4 }).2
      = { sx := 0, kx := 0, ky := 0, sy := 2, tx := 3, ty := 4 } :=
  have h : (gb_matrix_invert { sx := 0, kx := 0, ky := 0, sy := 2, tx := 3, ty := 4 }).1
      = false := by
    norm_num [gb_matrix_invert, gb_matrix_identity, gb_near0, gb_abs, GB_ONE, GB_NEAR0]
  ⟨h, gb_matrix_invert_atomic _ h⟩

/-- C36: over exact arithmetic `gb_matrix_scale(M, sx, sy)` returns the flag and leaves the
matrix of `gb_matrix_multiply(M, scale(sx, sy))`, `gb_matrix_translate(M, dx, dy)` those of
`gb_matrix_multiply(M, translate(dx, dy))`, and `gb_matrix_translate_lhs(M, dx, dy)` those of
`gb_matrix_multiply_lhs(M, translate(dx, dy))`. -/
theorem gb_matrix_optimised_eq_multiply (M : gb_matrix_t) (sx sy dx dy : ℚ) :
    gb_matrix_scale M sx sy = gb_matrix_multiply M (gb_matrix_init_scale sx sy)
    ∧ gb_matrix_translate M dx dy = gb_matrix_multiply M (gb_matrix_init_translate dx dy)
    ∧ gb_matrix_translate_lhs M dx dy
      = gb_matrix_multiply_lhs M (gb_matrix_init_translate dx dy) := by
  have hflag : ∀ A B : gb_matrix_t, (gb_matrix_multiply A B).1 = true := by
    intro A B
    unfold gb_matrix_multiply
    split_ifs <;> rfl
  have hflag' : ∀ A B : gb_matrix_t, (gb_matrix_multiply_lhs A B).1 = true := by
    intro A B
    unfold gb_matrix_multiply_lhs
    split_ifs
    · rfl
    · exact hflag _ _
  have hlhs : ∀ A B : gb_matrix_t, (gb_matrix_multiply_lhs A B).2 = (gb_matrix_multiply B A).2 := by
    intro A B
    unfold gb_matrix_multiply_lhs
    split_ifs with h
    · rw [(gb_matrix_identity_iff B).1 h, gb_matrix_multiply_clear_left]
    · rfl
  refine ⟨?_, ?_, ?_⟩
  · apply Prod.ext
    · rw [hflag]
      unfold gb_matrix_scale
      split_ifs <;> rfl
    · rw [gb_matrix_multiply_eq]
      unfold gb_matrix_scale
      cases M
      split_ifs with h
      · simp [gb_matrix_init_scale, gb_matrix_init, gb_mul]
      · have h1 : sx = 1 := by
          by_contra hne
          exact h (Or.inl (fun e => hne (by simpa [GB_ONE] using e.symm)))
        have h2 : sy = 1 := by
          by_contra hne
          exact h (Or.inr (fun e => hne (by simpa [GB_ONE] using e.symm)))
        simp [gb_matrix_init_scale, gb_matrix_init, h1, h2]
  · apply Prod.ext
    · rw [hflag]
      unfold gb_matrix_translate
      split_ifs <;> rfl
    · rw [gb_matrix_multiply_eq]
      unfold gb_matrix_translate
      cases M
      split_ifs with h
      · simp [gb_matrix_init_translate, gb_matrix_init, gb_matrix_mul_add, GB_ONE]
      · have h1 : dx = 0 := by
          by_contra hne
          exact h (Or.inl hne)
        have h2 : dy = 0 := by
          by_contra hne
          exact h (Or.inr hne)
        simp [gb_matrix_init_translate, gb_matrix_init, h1, h2, GB_ONE]
  · apply Prod.ext
    · rw [hflag']
      unfold gb_matrix_translate_lhs
      split_ifs <;> rfl
    · rw [hlhs, gb_matrix_multiply_eq]
      unfold gb_matrix_translate_lhs
      cases M
      split_ifs with h
      · simp [gb_matrix_init_translate, gb_matrix_init, GB_ONE, add_comm]
      · have h1 : dx = 0 := by
          by_contra hne
          exact h (Or.inl hne)
        have h2 : dy = 0 := by
          by_contra hne
          exact h (Or.inr hne)
        simp [gb_matrix_init_translate, gb_matrix_init, h1, h2, GB_ONE]

/-- C38: over exact arithmetic, for all parameters and every pivot `(px, py)`, the matrices
built by `gb_matrix_init_sincosp`, `gb_matrix_init_scalep` and `gb_matrix_init_skewp` map the
point `(px, py)` to itself. -/
theorem gb_matrix_init_pivot_fixed (sin cos sx sy kx ky px py : ℚ) :
    gb_point_apply (px, py) (gb_matrix_init_sincosp sin cos px py) = (px, py)
    ∧ gb_point_apply (px, py) (gb_matrix_init_scalep sx sy px py) = (px, py)
    ∧ gb_point_apply (px, py) (gb_matrix_init_skewp kx ky px py) = (px, py) := by
  refine ⟨?_, ?_, ?_⟩ <;>
    simp only [gb_point_apply, gb_matrix_init_sincosp, gb_matrix_init_scalep,
      gb_matrix_init_skewp, gb_matrix_init, gb_mul, GB_ONE, Prod.mk.injEq] <;>
    constructor <;> ring

/-! ### The flattener of cubic curves terminates -/

/-- The last point that `gb_geometry_make_cube` hands over is `pe`. -/
theorem gb_geometry_make_cube_last (fuel : Nat) (pb cpb cpe pe : ℚ × ℚ) (out : List (ℚ × ℚ))
    (h : gb_geometry_make_cube fuel pb cpb cpe pe = some out) : out.getLast? = some pe := by
  induction fuel generalizing pb cpb cpe pe out with
  | zero => simp [gb_geometry_make_cube] at h
  | succ n ih =>
    rw [gb_geometry_make_cube_succ] at h
    split_ifs at h with hc
    · obtain rfl : [pe] = out := by simpa using h
      rfl
    · cases h1 : gb_geometry_make_cube n pb (gb_point_mid pb cpb)
          (gb_point_mid (gb_point_mid cpb cpe) (gb_point_mid pb cpb))
          (gb_point_mid (gb_point_mid (gb_point_mid cpb cpe) (gb_point_mid pb cpb))
            (gb_point_mid (gb_point_mid cpb cpe) (gb_point_mid cpe pe))) with
      | none => rw [h1] at h; simp at h
      | some a =>
        rw [h1] at h
        cases h2 : gb_geometry_make_cube n
            (gb_point_mid (gb_point_mid (gb_point_mid cpb cpe) (gb_point_mid pb cpb))
              (gb_point_mid (gb_point_mid cpb cpe) (gb_point_mid cpe pe)))
            (gb_point_mid (gb_point_mid cpb cpe) (gb_point_mid cpe pe))
            (gb_point_mid cpe pe) pe with
        | none => rw [h2] at h; simp at h
        | some b =>
          rw [h2] at h
          obtain rfl : a ++ b = out := by simpa using h
          rw [List.getLast?_append, ih _ _ _ _ _ h2]
          rfl

/-- The second differences of the two halves of a cubic curve, for one axis, are at most a
quarter of the larger second difference of the curve. -/
theorem gb_cubic_second_halves_axis (a b c d : ℚ) :
    |a - 2 * ((a + b) / 2) + ((b + c) / 2 + (a + b) / 2) / 2|
        ≤ max |a - 2 * b + c| |b - 2 * c + d| / 4
    ∧ |(a + b) / 2 - 2 * (((b + c) / 2 + (a + b) / 2) / 2)
            + (((b + c) / 2 + (a + b) / 2) / 2 + ((b + c) / 2 + (c + d) / 2) / 2) / 2|
        ≤ max |a - 2 * b + c| |b - 2 * c + d| / 4
    ∧ |(((b + c) / 2 + (a + b) / 2) / 2 + ((b + c) / 2 + (c + d) / 2) / 2) / 2
          - 2 * (((b + c) / 2 + (c + d) / 2) / 2) + (c + d) / 2|
        ≤ max |a - 2 * b + c| |b - 2 * c + d| / 4
    ∧ |((b + c) / 2 + (c + d) / 2) / 2 - 2 * ((c + d) / 2) + d|
        ≤ max |a - 2 * b + c| |b - 2 * c + d| / 4 := by
  have h1 := neg_abs_le (a - 2 * b + c)
  have h2 := le_abs_self (a - 2 * b + c)
  have h3 := neg_abs_le (b - 2 * c + d)
  have h4 := le_abs_self (b - 2 * c + d)
  have m1 := le_max_left |a - 2 * b + c| |b - 2 * c + d|
  have m2 := le_max_right |a - 2 * b + c| |b - 2 * c + d|
  refine ⟨?_, ?_, ?_, ?_⟩ <;> (rw [abs_le]; constructor <;> linarith)

theorem gb_cubic_second_halves (pb cpb cpe pe : ℚ × ℚ) :
    gb_cubic_second pb (gb_point_mid pb cpb)
        (gb_point_mid (gb_point_mid cpb cpe) (gb_point_mid pb cpb))
        (gb_point_mid (gb_point_mid (gb_point_mid cpb cpe) (gb_point_mid pb cpb))
          (gb_point_mid (gb_point_mid cpb cpe) (gb_point_mid cpe pe)))
      ≤ gb_cubic_second pb cpb cpe pe / 4 ∧
    gb_cubic_second
        (gb_point_mid (gb_point_mid (gb_point_mid cpb cpe) (gb_point_mid pb cpb))
          (gb_point_mid (gb_point_mid cpb cpe) (gb_point_mid cpe pe)))
        (gb_point_mid (gb_point_mid cpb cpe) (gb_point_mid cpe pe))
        (gb_point_mid cpe pe) pe
      ≤ gb_cubic_second pb cpb cpe pe / 4 := by
  obtain ⟨x1, x2, x3, x4⟩ := gb_cubic_second_halves_axis pb.1 cpb.1 cpe.1 pe.1
  obtain ⟨y1, y2, y3, y4⟩ := gb_cubic_second_halves_axis pb.2 cpb.2 cpe.2 pe.2
  have mx := le_max_left (max |pb.1 - 2 * cpb.1 + cpe.1| |cpb.1 - 2 * cpe.1 + pe.1|)
    (max |pb.2 - 2 * cpb.2 + cpe.2| |cpb.2 - 2 * cpe.2 + pe.2|)
  have my := le_max_right (max |pb.1 - 2 * cpb.1 + cpe.1| |cpb.1 - 2 * cpe.1 + pe.1|)
    (max |pb.2 - 2 * cpb.2 + cpe.2| |cpb.2 - 2 * cpe.2 + pe.2|)
  simp only [gb_cubic_second, gb_point_mid]
  constructor
  · refine max_le (max_le ?_ ?_) (max_le ?_ ?_) <;> linarith
  · refine max_le (max_le ?_ ?_) (max_le ?_ ?_) <;> linarith

/-- C34: over exact arithmetic, for all control points, `gb_geometry_make_cube` returns, with
the same list for every depth of recursion from some depth on; the list of the points handed
to the callback is not empty and its last point is `pe`; and in each of the two halves that
a subdivision makes, every second difference of the control points is at most a quarter of
the largest second difference of the curve. -/
theorem gb_geometry_make_cube_terminates (pb cpb cpe pe : ℚ × ℚ) :
    (∃ (fuel : Nat) (out : List (ℚ × ℚ)),
      (∀ fuel', fuel ≤ fuel' → gb_geometry_make_cube fuel' pb cpb cpe pe = some out)
      ∧ out ≠ [] ∧ out.getLast? = some pe)
    ∧ gb_cubic_second pb (gb_point_mid pb cpb)
        (gb_point_mid (gb_point_mid cpb cpe) (gb_point_mid pb cpb))
        (gb_point_mid (gb_point_mid (gb_point_mid cpb cpe) (gb_point_mid pb cpb))
          (gb_point_mid (gb_point_mid cpb cpe) (gb_point_mid cpe pe)))
      ≤ gb_cubic_second pb cpb cpe pe / 4
    ∧ gb_cubic_second
        (gb_point_mid (gb_point_mid (gb_point_mid cpb cpe) (gb_point_mid pb cpb))
          (gb_point_mid (gb_point_mid cpb cpe) (gb_point_mid cpe pe)))
        (gb_point_mid (gb_point_mid cpb cpe) (gb_point_mid cpe pe))
        (gb_point_mid cpe pe) pe
      ≤ gb_cubic_second pb cpb cpe pe / 4 := by
  refine ⟨?_, gb_cubic_second_halves pb cpb cpe pe⟩
  obtain ⟨n, hn⟩ := pow_unbounded_of_one_lt
    (2 * gb_cubic_spread pb cpb cpe pe) (by norm_num : (1 : ℚ) < 2)
  obtain ⟨out, hout⟩ := gb_geometry_make_cube_some n pb cpb cpe pe (by linarith)
  have hlast := gb_geometry_make_cube_last _ _ _ _ _ _ hout
  refine ⟨n + 1, out, fun fuel' hle => gb_geometry_make_cube_mono_le _ _ hle _ _ _ _ _ hout,
    ?_, hlast⟩
  intro hnil
  rw [hnil] at hlast
  simp at hlast

/-! ### The point buffer of `gb_geometry_make_arc2` -/

/-- The count of `gb_geometry_make_arc2` is odd and leaves room for the two points of the
patch. -/
theorem gb_geometry_make_arc2_count_odd (sweep_x sweep_y : ℚ) (count : Nat)
    (h : gb_geometry_make_arc2_count sweep_x sweep_y = some count) :
    count % 2 = 1 ∧ 1 ≤ count ∧ count + 2 ≤ g_quad_points_of_unit_circle.length := by
  unfold gb_geometry_make_arc2_count at h
  simp only at h
  have hlen : g_quad_points_of_unit_circle.length = 17 := rfl
  rw [hlen]
  split_ifs at h <;> simp at h <;> omega

/-- The `points` of `gb_geometry_make_arc2` in terms of its count: the start point alone for
a sweep that is nearly zero, else the first `count` points of the table, followed by the
two points of the patch, if any. -/
theorem gb_geometry_make_arc2_points_count (start stop : ℚ × ℚ)
    (direction : gb_rotate_direction_e) :
    (gb_geometry_make_arc2_points start stop direction = none →
      gb_geometry_make_arc2_count (gb_vector_dot start stop)
        (if direction = .CCW then -gb_vector_cross start stop
          else gb_vector_cross start stop) = none)
    ∧ ∀ points : List (ℚ × ℚ), gb_geometry_make_arc2_points start stop direction = some points →
      points.length = 1
      ∨ ∃ count : Nat,
          gb_geometry_make_arc2_count (gb_vector_dot start stop)
            (if direction = .CCW then -gb_vector_cross start stop
              else gb_vector_cross start stop) = some count
          ∧ (points.length = count ∨ points.length = count + 2) := by
  generalize hx : gb_vector_dot start stop = x
  generalize hy : gb_vector_cross start stop = y
  have hlen : g_quad_points_of_unit_circle.length = 17 := rfl
  have key : gb_geometry_make_arc2_points start stop direction
      = if gb_fabs y ≤ GB_NEAR0 ∧ gb_bz x = true
            ∧ ((gb_lz y = false ∧ direction = .CW) ∨ (gb_bz y = false ∧ direction = .CCW)) then
          some [(GB_ONE, 0)]
        else
          match gb_geometry_make_arc2_count x (if direction = .CCW then -y else y) with
          | none => none
          | some count =>
            if ¬ (count % 2 = 1 ∧ count ≤ g_quad_points_of_unit_circle.length) then none
            else
              if gb_nz (gb_fabs x) = true ∧ gb_nz (gb_fabs y) = true
                  ∧ gb_fabs x ≠ float.GB_SQRT2_OVER2 ∧ gb_fabs y ≠ float.GB_SQRT2_OVER2 then
                some (g_quad_points_of_unit_circle.take count
                  ++ [gb_point_apply
                        (GB_ONE,
                          gb_div
                            (gb_vector_cross
                              ((g_quad_points_of_unit_circle.take count).getD (count - 1) (0, 0))
                              (x, if direction = .CCW then -y else y))
                            (gb_vector_dot
                              ((g_quad_points_of_unit_circle.take count).getD (count - 1) (0, 0))
                              (x, if direction = .CCW then -y else y) + GB_ONE))
                        (gb_matrix_init_sincos
                          ((g_quad_points_of_unit_circle.take count).getD (count - 1) (0, 0)).2
                          ((g_quad_points_of_unit_circle.take count).getD (count - 1) (0, 0)).1),
                      (x, if direction = .CCW then -y else y)])
              else some (g_quad_points_of_unit_circle.take count) := by
    unfold gb_geometry_make_arc2_points gb_geometry_make_arc2_count
    simp only [hx, hy]
    have habs : gb_fabs (if direction = .CCW then -y else y) = gb_fabs y := by
      cases direction <;> simp [gb_fabs]
    simp only [habs]
  rw [key]
  generalize (if direction = gb_rotate_direction_e.CCW then -y else y) = sy
  by_cases h0 : gb_fabs y ≤ GB_NEAR0 ∧ gb_bz x = true
      ∧ ((gb_lz y = false ∧ direction = .CW) ∨ (gb_bz y = false ∧ direction = .CCW))
  · rw [if_pos h0]
    refine ⟨fun h => by simp at h, fun points h => Or.inl ?_⟩
    obtain rfl : [(GB_ONE, (0 : ℚ))] = points := by simpa using h
    rfl
  · rw [if_neg h0]
    cases hc : gb_geometry_make_arc2_count x sy with
    | none => exact ⟨fun _ => rfl, fun points h => by simp at h⟩
    | some count =>
      obtain ⟨h1, h3, h2⟩ := gb_geometry_make_arc2_count_odd _ _ _ hc
      have htake : (g_quad_points_of_unit_circle.take count).length = count := by
        rw [List.length_take]
        omega
      simp only
      rw [if_neg (by simp only [not_not]; exact ⟨h1, by omega⟩)]
      by_cases hp : gb_nz (gb_fabs x) = true ∧ gb_nz (gb_fabs y) = true
          ∧ gb_fabs x ≠ float.GB_SQRT2_OVER2 ∧ gb_fabs y ≠ float.GB_SQRT2_OVER2
      · rw [if_pos hp]
        refine ⟨fun h => by simp at h, fun points h => Or.inr ⟨count, rfl, Or.inr ?_⟩⟩
        obtain rfl := Option.some.inj h
        simp [htake]
      · rw [if_neg hp]
        refine ⟨fun h => by simp at h, fun points h => Or.inr ⟨count, rfl, Or.inl ?_⟩⟩
        obtain rfl := Option.some.inj h
        exact htake

/-- C35: for all start and stop vectors and both directions, the count that
`gb_geometry_make_arc2` checks with `tb_assert_abort((count & 0x1) && count <= tb_arrayn(...))`
is odd and at most 15, so that the check holds (the function stops early only on one of the
two checks on the sweep) and `points[count - 1]` is in range; and the number of points left
in the 17-entry buffer, the patch included, is odd and at most 17. -/
theorem gb_geometry_make_arc2_buffer (start stop : ℚ × ℚ) (direction : gb_rotate_direction_e) :
    (∀ count : Nat,
      gb_geometry_make_arc2_count (gb_vector_dot start stop)
        (if direction = .CCW then -gb_vector_cross start stop
          else gb_vector_cross start stop) = some count →
      count % 2 = 1 ∧ 1 ≤ count ∧ count ≤ 15)
    ∧ (gb_geometry_make_arc2_points start stop direction = none →
      gb_geometry_make_arc2_count (gb_vector_dot start stop)
        (if direction = .CCW then -gb_vector_cross start stop
          else gb_vector_cross start stop) = none)
    ∧ (∀ points : List (ℚ × ℚ),
      gb_geometry_make_arc2_points start stop direction = some points →
      points.length % 2 = 1 ∧ points.length ≤ g_quad_points_of_unit_circle.length)
    ∧ g_quad_points_of_unit_circle.length = 17 := by
  have hlen : g_quad_points_of_unit_circle.length = 17 := rfl
  obtain ⟨hnone, hsome⟩ := gb_geometry_make_arc2_points_count start stop direction
  refine ⟨?_, hnone, ?_, hlen⟩
  · intro count hc
    obtain ⟨h1, h2, h3⟩ := gb_geometry_make_arc2_count_odd _ _ _ hc
    rw [hlen] at h3
    omega
  · intro points hp
    rw [hlen]
    rcases hsome points hp with h | ⟨count, hc, h⟩
    · omega
    · obtain ⟨h1, h2, h3⟩ := gb_geometry_make_arc2_count_odd _ _ _ hc
      rw [hlen] at h3
      omega
/-! ### The placement of the arc -/

/-- The walk of `gb_geometry_make_arc2` makes one call for each pair of points, with the
matrix applied to both. -/
theorem gb_geometry_make_arc2_walk_eq (applied_matrix : gb_matrix_t) (n : Nat) :
    ∀ points : List (ℚ × ℚ), points.length ≤ n →
      gb_geometry_make_arc2_walk applied_matrix points
        = (List.range (points.length / 2)).map (fun i =>
            (some (gb_point_apply (points.getD (2 * i) (0, 0)) applied_matrix),
              gb_point_apply (points.getD (2 * i + 1) (0, 0)) applied_matrix)) := by
  induction n using Nat.strong_induction_on with
  | _ n ih =>
    intro points hn
    match points, hn with
    | [], _ => simp [gb_geometry_make_arc2_walk]
    | [_], _ => simp [gb_geometry_make_arc2_walk]
    | pb :: pe :: rest, hn =>
      have hlen : (pb :: pe :: rest).length / 2 = rest.length / 2 + 1 := by
        simp only [List.length_cons]
        omega
      rw [hlen, List.range_succ_eq_map, List.map_cons, List.map_map]
      simp only [gb_geometry_make_arc2_walk]
      rw [ih rest.length (by simp only [List.length_cons] at hn; omega) rest (le_refl _)]
      congr 1

/-- The calls of the second part of `gb_geometry_make_arc2` for an odd number of points: the
first point with a null `ctrl`, then the pairs `(points[2 i + 1], points[2 i + 2])`, all
with the matrix applied. -/
theorem gb_geometry_make_arc2_done_eq (applied_matrix : gb_matrix_t) (points : List (ℚ × ℚ))
    (hodd : points.length % 2 = 1) :
    gb_geometry_make_arc2_done applied_matrix points
      = (none, gb_point_apply (points.getD 0 (0, 0)) applied_matrix)
          :: (List.range (points.length / 2)).map (fun i =>
              (some (gb_point_apply (points.getD (2 * i + 1) (0, 0)) applied_matrix),
                gb_point_apply (points.getD (2 * i + 2) (0, 0)) applied_matrix)) := by
  match points, hodd with
  | [], hodd => simp at hodd
  | point :: rest, hodd =>
    have hlen : (point :: rest).length / 2 = rest.length / 2 := by
      simp only [List.length_cons] at hodd ⊢
      omega
    rw [hlen]
    simp only [gb_geometry_make_arc2_done, List.getD_cons_zero, List.getD_cons_succ]
    rw [gb_geometry_make_arc2_walk_eq applied_matrix rest.length rest (le_refl _)]

/-- The points of the unit arc are the first `count` points of the table, followed for a
sweep that ends inside a sector by the two points of the patch, the second of which is the
sweep vector. -/
theorem gb_geometry_make_arc2_points_table (start stop : ℚ × ℚ)
    (direction : gb_rotate_direction_e) (points : List (ℚ × ℚ))
    (h : gb_geometry_make_arc2_points start stop direction = some points) :
    ∃ (count : Nat) (patch : List (ℚ × ℚ)),
      points = g_quad_points_of_unit_circle.take count ++ patch
      ∧ (patch = [] ∨ ∃ ctrl : ℚ × ℚ, patch = [ctrl, (gb_vector_dot start stop,
          if direction = .CCW then -gb_vector_cross start stop
          else gb_vector_cross start stop)]) := by
  have hlen : g_quad_points_of_unit_circle.length = 17 := rfl
  have aux : ∀ a b b' : ℚ × ℚ, b = b' → ∃ ctrl : ℚ × ℚ, [a, b] = [ctrl, b'] :=
    fun a b b' hb => ⟨a, by rw [hb]⟩
  unfold gb_geometry_make_arc2_points at h
  simp only at h
  split_ifs at h <;>
    simp [hlen] at h <;>
    subst h <;>
    first
      | exact ⟨_, [], (List.append_nil _).symm, Or.inl rfl⟩
      | exact ⟨1, [], rfl, Or.inl rfl⟩
      | exact ⟨_, _, rfl, Or.inr (aux _ _ _ (by simp [*]))⟩

/-- C30: for an arc with `rx` or `ry` not zero, with `(s, co)` the sine and the cosine that
`gb_sincos` gives for the start angle, the matrix that `gb_geometry_make_arc2` applies is the
placement `translate(c) · scale(rx, ry) · rotate-by-start · scale(1, −1)` of `gb_arc_place`
(the last factor only when the sweep angle is not positive), and for the `points` of the unit
arc (an odd number of them: `(1, 0)` first, then points of the table of the unit circle,
the last two possibly patched) `gb_geometry_make_arc` makes exactly these calls: the first
with a null control and the start point `(cx + rx·co, cy + ry·s)` of the arc, which is the
placement of `points[0]`, then for each `i < count / 2` one with the placement of
`points[2 i + 1]` as control and the placement of `points[2 i + 2]` as end point.  It makes
no call when the unit arc fails a check on the sweep, and with unit vectors from `gb_sincos`
it does not fail. -/
theorem gb_geometry_make_arc_placement (gb_sincos : ℚ → ℚ × ℚ) (c : ℚ × ℚ) (rx ry ab an : ℚ)
    (hr : ¬ (rx = 0 ∧ ry = 0)) :
    (∀ q : ℚ × ℚ,
      gb_point_apply q
          (gb_geometry_make_arc2_matrix
            ((gb_sincos (gb_degree_to_radian ab)).2, (gb_sincos (gb_degree_to_radian ab)).1)
            (some (gb_matrix_translate_lhs (gb_matrix_init_scale rx ry) c.1 c.2).2)
            (if gb_bz an = true then .CW else .CCW))
        = gb_arc_place c rx ry (gb_sincos (gb_degree_to_radian ab)).2
            (gb_sincos (gb_degree_to_radian ab)).1 an q)
    ∧ (gb_geometry_make_arc2_points
          ((gb_sincos (gb_degree_to_radian ab)).2, (gb_sincos (gb_degree_to_radian ab)).1)
          ((gb_sincos (gb_degree_to_radian (ab + an))).2,
            (gb_sincos (gb_degree_to_radian (ab + an))).1)
          (if 0 < an then .CW else .CCW) = none →
        gb_geometry_make_arc gb_sincos c rx ry ab an = none)
    ∧ (∀ points : List (ℚ × ℚ),
        gb_geometry_make_arc2_points
          ((gb_sincos (gb_degree_to_radian ab)).2, (gb_sincos (gb_degree_to_radian ab)).1)
          ((gb_sincos (gb_degree_to_radian (ab + an))).2,
            (gb_sincos (gb_degree_to_radian (ab + an))).1)
          (if 0 < an then .CW else .CCW) = some points →
        points.length % 2 = 1
        ∧ points.getD 0 (0, 0) = (1, 0)
        ∧ (∃ (count : Nat) (patch : List (ℚ × ℚ)),
            points = g_quad_points_of_unit_circle.take count ++ patch
            ∧ (patch = [] ∨ patch.length = 2))
        ∧ gb_geometry_make_arc gb_sincos c rx ry ab an
          = some ((none,
                gb_arc_place c rx ry (gb_sincos (gb_degree_to_radian ab)).2
                  (gb_sincos (gb_degree_to_radian ab)).1 an (points.getD 0 (0, 0)))
              :: (List.range (points.length / 2)).map (fun i =>
                  (some (gb_arc_place c rx ry (gb_sincos (gb_degree_to_radian ab)).2
                      (gb_sincos (gb_degree_to_radian ab)).1 an
                      (points.getD (2 * i + 1) (0, 0))),
                    gb_arc_place c rx ry (gb_sincos (gb_degree_to_radian ab)).2
                      (gb_sincos (gb_degree_to_radian ab)).1 an
                      (points.getD (2 * i + 2) (0, 0)))))
        ∧ gb_arc_place c rx ry (gb_sincos (gb_degree_to_radian ab)).2
              (gb_sincos (gb_degree_to_radian ab)).1 an (points.getD 0 (0, 0))
            = (c.1 + rx * (gb_sincos (gb_degree_to_radian ab)).2,
                c.2 + ry * (gb_sincos (gb_degree_to_radian ab)).1))
    ∧ ((gb_sincos (gb_degree_to_radian ab)).2 ^ 2
          + (gb_sincos (gb_degree_to_radian ab)).1 ^ 2 = 1 →
        (gb_sincos (gb_degree_to_radian (ab + an))).2 ^ 2
          + (gb_sincos (gb_degree_to_radian (ab + an))).1 ^ 2 = 1 →
        ∃ out : List (Option (ℚ × ℚ) × (ℚ × ℚ)),
          gb_geometry_make_arc gb_sincos c rx ry ab an = some out) := by
  have hdir : (if gb_bz an = true then gb_rotate_direction_e.CW else gb_rotate_direction_e.CCW)
      = (if 0 < an then gb_rotate_direction_e.CW else gb_rotate_direction_e.CCW) := by
    simp only [gb_bz, decide_eq_true_eq]
  have hdeg : gb_geometry_make_arc gb_sincos c rx ry ab an
      = gb_geometry_make_arc2
          ((gb_sincos (gb_degree_to_radian ab)).2, (gb_sincos (gb_degree_to_radian ab)).1)
          ((gb_sincos (gb_degree_to_radian (ab + an))).2,
            (gb_sincos (gb_degree_to_radian (ab + an))).1)
          (some (gb_matrix_translate_lhs (gb_matrix_init_scale rx ry) c.1 c.2).2)
          (if 0 < an then .CW else .CCW) := by
    unfold gb_geometry_make_arc
    rw [if_neg (by simpa [gb_ez] using hr)]
    simp only [gb_bz, decide_eq_true_eq]
  have hplace : ∀ p : ℚ × ℚ,
      gb_point_apply p (gb_matrix_translate_lhs (gb_matrix_init_scale rx ry) c.1 c.2).2
        = (c.1 + rx * p.1, c.2 + ry * p.2) := by
    intro p
    unfold gb_matrix_translate_lhs
    split_ifs with h0
    · simp only [gb_point_apply, gb_matrix_init_scale, gb_matrix_init, Prod.mk.injEq]
      constructor <;> ring
    · have hc1 : c.1 = 0 := by
        by_contra hne
        exact h0 (Or.inl hne)
      have hc2 : c.2 = 0 := by
        by_contra hne
        exact h0 (Or.inr hne)
      simp [gb_point_apply, gb_matrix_init_scale, gb_matrix_init, hc1, hc2]
  have happly : ∀ q : ℚ × ℚ,
      gb_point_apply q
          (gb_geometry_make_arc2_matrix
            ((gb_sincos (gb_degree_to_radian ab)).2, (gb_sincos (gb_degree_to_radian ab)).1)
            (some (gb_matrix_translate_lhs (gb_matrix_init_scale rx ry) c.1 c.2).2)
            (if 0 < an then .CW else .CCW))
        = gb_arc_place c rx ry (gb_sincos (gb_degree_to_radian ab)).2
            (gb_sincos (gb_degree_to_radian ab)).1 an q := by
    intro q
    rw [gb_geometry_make_arc2_matrix_apply]
    simp only [hplace, gb_arc_place]
    by_cases han : 0 < an <;> simp [han]
  refine ⟨?_, ?_, ?_, ?_⟩
  · rw [hdir]
    exact happly
  · intro hnone
    rw [hdeg]
    unfold gb_geometry_make_arc2
    rw [hnone]
  · intro points hpts
    obtain ⟨rest, hrest⟩ := gb_geometry_make_arc2_points_head _ _ _ _ hpts
    obtain ⟨count, patch, htable, hpatch⟩ := gb_geometry_make_arc2_points_table _ _ _ _ hpts
    have hodd : points.length % 2 = 1 := by
      rcases (gb_geometry_make_arc2_points_count _ _ _).2 points hpts with h | ⟨n, hn, h⟩
      · omega
      · obtain ⟨h1, -, -⟩ := gb_geometry_make_arc2_count_odd _ _ _ hn
        omega
    have hhead : points.getD 0 (0, 0) = (1, 0) := by
      rw [hrest]
      simp [GB_ONE]
    refine ⟨hodd, hhead, ⟨count, patch, htable, ?_⟩, ?_, ?_⟩
    · rcases hpatch with h | ⟨ctrl, h⟩
      · exact Or.inl h
      · exact Or.inr (by rw [h]; rfl)
    · rw [hdeg]
      unfold gb_geometry_make_arc2
      rw [hpts]
      simp only
      rw [gb_geometry_make_arc2_done_eq _ _ hodd]
      simp only [happly]
    · rw [hhead]
      simp only [gb_arc_place]
      by_cases han : 0 < an <;> simp [han]
  · intro hstart hstop
    obtain ⟨points, hpts⟩ := gb_geometry_make_arc2_points_some
      ((gb_sincos (gb_degree_to_radian ab)).2, (gb_sincos (gb_degree_to_radian ab)).1)
      ((gb_sincos (gb_degree_to_radian (ab + an))).2,
        (gb_sincos (gb_degree_to_radian (ab + an))).1)
      (if 0 < an then .CW else .CCW) hstart hstop
    rw [hdeg]
    unfold gb_geometry_make_arc2
    rw [hpts]
    exact ⟨_, rfl⟩

theorem gb_geometry_make_arc_placement_witness :
    ¬ ((2 : ℚ) = 0 ∧ (3 : ℚ) = 0)
    ∧ gb_geometry_make_arc (fun x => if x = 0 then (0, 1) else (1, 0)) (10, 20) 2 3 0 90
      = some [(none, (12, 20)),
          (some (12, 10621320343 / 500000000),
            (5707106781 / 500000000, 22121320343 / 1000000000)),
          (some (2707106781 / 250000000, 23), (10, 23))] := by
  obtain ⟨-, -, hall, -⟩ := gb_geometry_make_arc_placement
    (fun x => if x = 0 then (0, 1) else (1, 0)) (10, 20) 2 3 0 90 (by norm_num)
  have hp := hall (g_quad_points_of_unit_circle.take 5) (by
    have h2 := gb_geometry_make_arc2_points_sectors 2 (by norm_num) (by norm_num) (1, 0) (0, 1)
      (by simp [gb_vector_dot, gb_vector_cross, g_quad_points_of_unit_circle, GB_ONE])
    norm_num [gb_degree_to_radian, float.GB_PIOVER180] at h2 ⊢
    exact h2)
  refine ⟨by norm_num, ?_⟩
  rw [hp.2.2.2.1]
  norm_num [gb_arc_place, g_quad_points_of_unit_circle, gb_degree_to_radian, List.range_succ,
    GB_ONE, float.GB_TAN_PIOVER8, float.GB_SQRT2_OVER2]

/-! ### The packed position of the path iterator -/

theorem gb_path_steps_take_succ (codes : List gb_path_code_e) (i : Nat) (code : gb_path_code_e)
    (h : codes.get? i = some code) :
    gb_path_steps (codes.take (i + 1)) = gb_path_steps (codes.take i) + gb_path_point_step code := by
  induction codes generalizing i with
  | nil => simp at h
  | cons c codes ih =>
    cases i with
    | zero =>
      simp only [List.get?_cons_zero, Option.some.injEq] at h
      subst h
      simp [gb_path_steps]
    | succ i =>
      simp only [List.get?_cons_succ] at h
      have := ih i h
      simp only [gb_path_steps, List.take_succ_cons, List.map_cons, List.sum_cons] at this ⊢
      omega

theorem gb_path_steps_take_le (codes : List gb_path_code_e) (i : Nat) :
    gb_path_steps (codes.take i) ≤ gb_path_steps codes := by
  induction codes generalizing i with
  | nil => simp
  | cons c codes ih =>
    cases i with
    | zero => simp [gb_path_steps]
    | succ i =>
      have := ih i
      simp only [gb_path_steps, List.take_succ_cons, List.map_cons, List.sum_cons] at this ⊢
      omega

/-- The packing of a code index and a point index below `2^16`. -/
theorem gb_path_itor_pack (i p : Nat) (hp : p < 65536) :
    (i * 65536 + p) >>> 16 = i ∧ (i * 65536 + p) &&& 0xffff = p
      ∧ (i <<< 16) ||| p = i * 65536 + p := by
  refine ⟨?_, ?_, ?_⟩
  · rw [Nat.shiftRight_eq_div_pow]
    omega
  · have h := Nat.and_pow_two_sub_one_eq_mod (i * 65536 + p) 16
    norm_num at h
    rw [h]
    omega
  · have h := Nat.mul_add_lt_is_or (show p < 2 ^ 16 by norm_num; exact hp) i
    rw [Nat.shiftLeft_eq, ← Nat.mul_comm (2 ^ 16) i, ← h]

theorem gb_path_itor_step (code : gb_path_code_e) :
    0x10000 ||| gb_path_point_step code = 65536 + gb_path_point_step code
      ∧ gb_path_point_step code ≤ 3 := by
  cases code <;> decide

/-- After `i` applications of `gb_path_itor_next` the position holds `i` and the sum of the
steps of the first `i` codes. -/
theorem gb_path_itor_walk_eq (impl : gb_path_impl_t) (hc : impl.codes.length ≤ 65535)
    (hp : impl.points.length ≤ 65535) (hcount : gb_path_counted impl) (i : Nat)
    (hi : i ≤ impl.codes.length) :
    gb_path_itor_walk impl i = some (i * 65536 + gb_path_steps (impl.codes.take i)) := by
  induction i with
  | zero => simp [gb_path_itor_walk, gb_path_itor_head, gb_path_steps]
  | succ i ih =>
    have hlt : i < impl.codes.length := hi
    have hle := gb_path_steps_take_le impl.codes i
    have hcnt : impl.points.length = gb_path_steps impl.codes := hcount
    obtain ⟨h1, -, -⟩ := gb_path_itor_pack i (gb_path_steps (impl.codes.take i)) (by omega)
    have hget : impl.codes.get? i = some (impl.codes.get ⟨i, hlt⟩) := List.get?_eq_get hlt
    obtain ⟨hor, h3⟩ := gb_path_itor_step (impl.codes.get ⟨i, hlt⟩)
    rw [gb_path_itor_walk, ih (Nat.le_of_lt hlt)]
    simp only [Option.some_bind, gb_path_itor_next, h1, hget]
    rw [hor, gb_path_steps_take_succ _ _ _ hget]
    have h64 : (2 : Nat) ^ 64 = 18446744073709551616 := by norm_num
    unfold tb_size_t
    rw [Nat.mod_eq_of_lt (by omega), Option.some.injEq]
    omega

/-- C39: for a path with at most 65535 codes and points whose point count is the sum of the
steps of its codes, `i` applications of `gb_path_itor_next` from `gb_path_itor_head` reach,
for every `i` up to the number of codes, a position with `i` in its upper 16 bits and the
sum of the steps of the codes `0..i-1` in its lower 16 bits; that position is
`gb_path_itor_tail` exactly when `i` is the number of codes; and at every position before the
tail `gb_path_itor_prev` takes the result of `gb_path_itor_next` back. -/
theorem gb_path_itor_visits (impl : gb_path_impl_t) (hc : impl.codes.length ≤ 65535)
    (hp : impl.points.length ≤ 65535) (hcount : gb_path_counted impl) :
    (∀ i : Nat, i ≤ impl.codes.length →
      ∃ itor : Nat, gb_path_itor_walk impl i = some itor
        ∧ itor >>> 16 = i
        ∧ itor &&& 0xffff = gb_path_steps (impl.codes.take i)
        ∧ (itor = gb_path_itor_tail impl ↔ i = impl.codes.length))
    ∧ gb_path_itor_walk impl impl.codes.length = some (gb_path_itor_tail impl)
    ∧ (∀ i itor : Nat, i < impl.codes.length → gb_path_itor_walk impl i = some itor →
      ∃ next : Nat, gb_path_itor_next impl itor = some next
        ∧ gb_path_itor_walk impl (i + 1) = some next
        ∧ gb_path_itor_prev impl next = some itor) := by
  have hcnt : impl.points.length = gb_path_steps impl.codes := hcount
  have htail : gb_path_itor_tail impl
      = impl.codes.length * 65536 + gb_path_steps impl.codes := by
    have h64 : (2 : Nat) ^ 64 = 18446744073709551616 := by norm_num
    have h16 : (2 : Nat) ^ 16 = 65536 := by norm_num
    have hlt : impl.codes.length <<< 16 < 2 ^ 64 := by
      rw [Nat.shiftLeft_eq]
      omega
    unfold gb_path_itor_tail tb_size_t
    rw [Nat.mod_eq_of_lt hlt,
      (gb_path_itor_pack _ _ (show impl.points.length < 65536 by omega)).2.2, hcnt]
  refine ⟨?_, ?_, ?_⟩
  · intro i hi
    have hle := gb_path_steps_take_le impl.codes i
    obtain ⟨h1, h2, -⟩ := gb_path_itor_pack i (gb_path_steps (impl.codes.take i)) (by omega)
    refine ⟨_, gb_path_itor_walk_eq impl hc hp hcount i hi, h1, h2, ?_⟩
    rw [htail]
    constructor
    · intro h
      have hle' := gb_path_steps_take_le impl.codes i
      omega
    · intro h
      subst h
      rw [List.take_length]
  · rw [gb_path_itor_walk_eq impl hc hp hcount _ (le_refl _), htail, List.take_length]
  · intro i itor hi hw
    have hw1 := gb_path_itor_walk_eq impl hc hp hcount (i + 1) hi
    rw [gb_path_itor_walk_eq impl hc hp hcount i (Nat.le_of_lt hi)] at hw
    obtain rfl := Option.some.inj hw
    have hnext : gb_path_itor_walk impl (i + 1)
        = gb_path_itor_next impl (i * 65536 + gb_path_steps (impl.codes.take i)) := by
      rw [gb_path_itor_walk, gb_path_itor_walk_eq impl hc hp hcount i (Nat.le_of_lt hi)]
      rfl
    refine ⟨_, by rw [← hnext, hw1], hw1, ?_⟩
    have hget : impl.codes.get? i = some (impl.codes.get ⟨i, hi⟩) := List.get?_eq_get hi
    obtain ⟨hor, h3⟩ := gb_path_itor_step (impl.codes.get ⟨i, hi⟩)
    have hle := gb_path_steps_take_le impl.codes (i + 1)
    have hsucc := gb_path_steps_take_succ _ _ _ hget
    obtain ⟨h1, -, -⟩ := gb_path_itor_pack (i + 1) (gb_path_steps (impl.codes.take (i + 1)))
      (by omega)
    unfold gb_path_itor_prev
    rw [h1, if_neg (Nat.succ_ne_zero i), Nat.add_sub_cancel, hget]
    simp only
    rw [hor, hsucc]
    have h64 : (2 : Nat) ^ 64 = 18446744073709551616 := by norm_num
    unfold tb_size_t
    rw [Option.some.injEq]
    omega

theorem gb_path_itor_visits_witness :
    gb_path_itor_walk (gb_path_line_to (gb_path_move_to gb_path_init ⟨1, 2⟩) ⟨3, 4⟩) 2
      = some (gb_path_itor_tail (gb_path_line_to (gb_path_move_to gb_path_init ⟨1, 2⟩) ⟨3, 4⟩)) :=
  (gb_path_itor_visits (gb_path_line_to (gb_path_move_to gb_path_init ⟨1, 2⟩) ⟨3, 4⟩)
    (by decide) (by decide) rfl).2.1

/-- The item at index `i` of `gb_path_items_from`. -/
theorem gb_path_items_from_get (points : List gb_point_t) (codes : List gb_path_code_e)
    (p i : Nat) :
    (gb_path_items_from points codes p).get? i
      = (codes.get? i).map (fun code =>
          { code := code
            points := points.drop
              (if code.val < 1 then p + gb_path_steps (codes.take i)
                else p + gb_path_steps (codes.take i) - 1) }) := by
  induction codes generalizing p i with
  | nil => simp [gb_path_items_from]
  | cons c codes ih =>
    cases i with
    | zero => simp [gb_path_items_from, gb_path_steps]
    | succ i =>
      simp only [gb_path_items_from, List.get?_cons_succ, ih, List.take_succ_cons]
      cases codes.get? i with
      | none => rfl
      | some code =>
        simp only [Option.map_some', gb_path_steps, List.map_cons, List.sum_cons]
        rw [Nat.add_assoc]

/-- The items that the packed positions designate, in the order of the walk, are the items
of `gb_path_items`, which keeps the code index and the point index apart. -/
theorem gb_path_itor_walk_items (impl : gb_path_impl_t) (hc : impl.codes.length ≤ 65535)
    (hp : impl.points.length ≤ 65535) (hcount : gb_path_counted impl) (i : Nat)
    (hi : i < impl.codes.length) :
    (gb_path_itor_walk impl i).bind (gb_path_itor_item_at impl) = (gb_path_items impl).get? i := by
  have hcnt : impl.points.length = gb_path_steps impl.codes := hcount
  have hle := gb_path_steps_take_le impl.codes i
  obtain ⟨h1, h2, -⟩ := gb_path_itor_pack i (gb_path_steps (impl.codes.take i)) (by omega)
  rw [gb_path_itor_walk_eq impl hc hp hcount i (Nat.le_of_lt hi)]
  simp only [Option.some_bind, gb_path_itor_item_at, h1, h2, gb_path_itor_item, gb_path_items,
    gb_path_items_from_get, Nat.zero_add]
  cases impl.codes.get? i <;> rfl

/-! ## ARGB4444 blending -/

/-- C31 (failing input): `d = 0x0000`, `s = 0x0010` (green `1`), `a = 1`.  Every channel of
the documented blend is `0`, but `gb_pixmap_argb4444_blend` returns `0x0800`, red `8`: the
channels are spread 8 bits apart and the shift by 5 moves the low bits of green into the top
bit of red.  For `d = 0x0001`, `s = 0x0000`, `a = 1` the difference `s - d` wraps and the
result is `0x8000`, alpha `8`, where every channel of the documented blend is `0`. -/
theorem gb_pixmap_argb4444_blend_bleeds :
    gb_pixmap_argb4444_blend 0x0000 0x0010 1 = 0x0800
    ∧ gb_pixmap_argb4444_channel (gb_pixmap_argb4444_blend 0x0000 0x0010 1) 2 = 8
    ∧ gb_pixmap_argb4444_blend_channel 0x0000 0x0010 1 2 = 0
    ∧ gb_pixmap_argb4444_blend 0x0001 0x0000 1 = 0x8000
    ∧ gb_pixmap_argb4444_channel (gb_pixmap_argb4444_blend 0x0001 0x0000 1) 3 = 8
    ∧ gb_pixmap_argb4444_blend_channel 0x0001 0x0000 1 3 = 0 := by
  refine ⟨?_, ?_, ?_, ?_, ?_, ?_⟩ <;> decide

/-- C37 (failing input): a buffer of one pixel `0x0000`, the source pixel `0x0f00` (red `15`),
`count = 1`, `alpha = 128`.  `gb_pixmap_argb4444_pixel_set_la` stores `0x0700`;
`gb_pixmap_argb4444_pixels_fill_la` stores `0x7700`: it spreads the source with
`pixel << 16`, which puts red and blue in the places of alpha and green, where
`gb_pixmap_argb4444_blend` spreads with `s << 12`. -/
theorem gb_pixmap_argb4444_pixels_fill_la_shift :
    gb_pixmap_argb4444_pixel_set_la [0x0000] 0 0x0f00 128 = [0x0700]
    ∧ gb_pixmap_argb4444_pixels_fill_la [0x0000] 0x0f00 1 128 = [0x7700]
    ∧ gb_pixmap_argb4444_pixels_fill_la [0, 0, 0, 0, 0, 0] 0x0f00 5 128
      = [0x7700, 0x7700, 0x7700, 0x7700, 0x7700, 0] := by
  refine ⟨?_, ?_, ?_⟩ <;> decide

/-! ## Active regions of the tessellator -/

/-- The order of two regions depends on their edges only. -/
theorem gb_tessellator_active_region_leq_edge (deps : gb_tessellator_deps_t)
    (l l' r r' : gb_tessellator_active_region_t) (hl : l.edge = l'.edge)
    (hr : r.edge = r'.edge) :
    gb_tessellator_active_region_leq deps l r = gb_tessellator_active_region_leq deps l' r' := by
  unfold gb_tessellator_active_region_leq
  rw [hl, hr]

/-- With edges that go up `gb_tessellator_active_region_leq` returns. -/
theorem gb_tessellator_active_region_leq_some (deps : gb_tessellator_deps_t)
    (l r : gb_tessellator_active_region_t)
    (hl : deps.gb_tessellator_edge_go_up l.edge = true)
    (hr : deps.gb_tessellator_edge_go_up r.edge = true) :
    ∃ b : Bool, gb_tessellator_active_region_leq deps l r = some b := by
  unfold gb_tessellator_active_region_leq
  simp only [hl, hr]
  rw [if_neg (by decide), if_neg (by decide)]
  split_ifs <;> exact ⟨_, rfl⟩

/-- The predicate `tb_predicate_beq` holds of an item when the item is not `leq` the value. -/
theorem tb_predicate_beq_eq (deps : gb_tessellator_deps_t)
    (item value : gb_tessellator_active_region_t) :
    tb_predicate_beq deps item value
      = (gb_tessellator_active_region_leq deps item value).map (fun b => !b) := by
  unfold tb_predicate_beq gb_tessellator_active_region_comp
  cases gb_tessellator_active_region_leq deps item value with
  | none => rfl
  | some b => cases b <;> simp

/-- The walk of `tb_find_if` stops at the first node whose item satisfies the predicate. -/
theorem tb_find_if_walk_spec {α : Type} (pred : α → Option Bool) (nodes : List (Nat × α))
    (hpred : ∀ node ∈ nodes, ∃ b, pred node.2 = some b) :
    ∃ scanned rest : List (Nat × α), nodes = scanned ++ rest
      ∧ (∀ node ∈ scanned, pred node.2 = some false)
      ∧ ((rest = [] ∧ tb_find_if_walk pred nodes = some tb_iterator_tail)
        ∨ ∃ (x : Nat × α) (rest' : List (Nat × α)), rest = x :: rest'
            ∧ pred x.2 = some true ∧ tb_find_if_walk pred nodes = some x.1) := by
  induction nodes with
  | nil => exact ⟨[], [], rfl, by simp, Or.inl ⟨rfl, rfl⟩⟩
  | cons node nodes ih =>
    obtain ⟨b, hb⟩ := hpred node (List.mem_cons_self _ _)
    cases b with
    | true =>
      refine ⟨[], node :: nodes, rfl, by simp, Or.inr ⟨node, nodes, rfl, hb, ?_⟩⟩
      simp [tb_find_if_walk, hb]
    | false =>
      obtain ⟨scanned, rest, h1, h2, h3⟩ :=
        ih (fun n hn => hpred n (List.mem_cons_of_mem _ hn))
      refine ⟨node :: scanned, rest, by rw [h1]; rfl, ?_, ?_⟩
      · intro n hn
        rcases List.mem_cons.1 hn with rfl | hn
        · exact hb
        · exact h2 n hn
      · have hw : tb_find_if_walk pred (node :: nodes) = tb_find_if_walk pred nodes := by
          simp [tb_find_if_walk, hb]
        rw [hw]
        exact h3

/-- The iterator of a new node is not the tail and is not that of a node of the list. -/
theorem tb_list_node_new_fresh {α : Type} (list : List (Nat × α)) :
    tb_list_node_new list ≠ tb_iterator_tail ∧ tb_list_node_new list ∉ list.map Prod.fst := by
  have hfold : ∀ (l : List Nat) (a : Nat), a ≤ l.foldl max a ∧ ∀ x ∈ l, x ≤ l.foldl max a := by
    intro l
    induction l with
    | nil => intro a; simp
    | cons y l ih =>
      intro a
      obtain ⟨h1, h2⟩ := ih (max a y)
      refine ⟨le_trans (le_max_left a y) h1, ?_⟩
      intro x hx
      rcases List.mem_cons.1 hx with rfl | hx
      · exact le_trans (le_max_right a x) h1
      · exact h2 x hx
  unfold tb_list_node_new tb_iterator_tail
  refine ⟨Nat.succ_ne_zero _, ?_⟩
  intro hmem
  have := (hfold (list.map Prod.fst) 0).2 _ hmem
  omega

/-- In a list of nodes with different iterators, the nodes before and from a node. -/
theorem tb_list_split_at {α : Type} (l r : List (Nat × α)) (x : Nat × α)
    (h : (List.map Prod.fst (l ++ x :: r)).Nodup) :
    (l ++ x :: r).takeWhile (fun node => node.1 ≠ x.1) = l
      ∧ (l ++ x :: r).dropWhile (fun node => node.1 ≠ x.1) = x :: r := by
  induction l with
  | nil => simp [List.takeWhile, List.dropWhile]
  | cons y l ih =>
    simp only [List.cons_append, List.map_cons, List.nodup_cons] at h
    obtain ⟨hy, hn⟩ := h
    have hne : y.1 ≠ x.1 := by
      intro he
      apply hy
      rw [he]
      simp
    simpa [List.takeWhile_cons, List.dropWhile_cons, hne] using ih hn

/-- No node of a list has the iterator that none of its nodes has. -/
theorem tb_list_split_none {α : Type} (list : List (Nat × α)) (itor : Nat)
    (h : itor ∉ list.map Prod.fst) :
    list.takeWhile (fun node => node.1 ≠ itor) = list
      ∧ list.dropWhile (fun node => node.1 ≠ itor) = [] := by
  induction list with
  | nil => simp
  | cons y l ih =>
    simp only [List.map_cons, List.mem_cons, not_or] at h
    obtain ⟨hy, hn⟩ := h
    have hne : y.1 ≠ itor := fun he => hy he.symm
    simpa [List.takeWhile_cons, List.dropWhile_cons, hne] using ih hn

/-- What `gb_tessellator_active_regions_insert_done` does on a sorted list when every region
before `prev` is `leq` the new region: the new node goes between two parts of the list, the
first of which holds the nodes before `prev`, and the list stays sorted. -/
theorem gb_tessellator_active_regions_insert_done_spec (deps : gb_tessellator_deps_t)
    (impl : gb_tessellator_impl_t) (prev : Nat) (region : gb_tessellator_active_region_t)
    (before range : List (Nat × gb_tessellator_active_region_t))
    (hlist : impl.active_regions = before ++ range)
    (hdrop : impl.active_regions.dropWhile (fun node => node.1 ≠ prev) = range)
    (hwf : tb_list_wellformed impl.active_regions)
    (hsorted : gb_tessellator_active_regions_sorted deps impl.active_regions)
    (hup : ∀ node ∈ impl.active_regions, deps.gb_tessellator_edge_go_up node.2.edge = true)
    (hupr : deps.gb_tessellator_edge_go_up region.edge = true)
    (htotal : ∀ node ∈ impl.active_regions,
      gb_tessellator_active_region_leq deps node.2 region = some true
        ∨ gb_tessellator_active_region_leq deps region node.2 = some true)
    (htrans : ∀ node ∈ impl.active_regions, ∀ node' ∈ impl.active_regions,
      gb_tessellator_active_region_leq deps region node.2 = some true →
      gb_tessellator_active_region_leq deps node.2 node'.2 = some true →
      gb_tessellator_active_region_leq deps region node'.2 = some true)
    (hbefore : ∀ node ∈ before,
      gb_tessellator_active_region_leq deps node.2 region = some true) :
    ∃ l r : List (Nat × gb_tessellator_active_region_t),
      impl.active_regions = before ++ l ++ r
      ∧ gb_tessellator_active_regions_insert_done deps impl prev region
        = some ({ active_regions :=
                    before ++ l
                      ++ (tb_list_node_new impl.active_regions,
                          { region with position := tb_list_node_new impl.active_regions }) :: r
                  edge_region := Function.update impl.edge_region region.edge
                    (tb_list_node_new impl.active_regions) },
                tb_list_node_new impl.active_regions)
      ∧ gb_tessellator_active_regions_sorted deps
          (before ++ l
            ++ (tb_list_node_new impl.active_regions,
                { region with position := tb_list_node_new impl.active_regions }) :: r) := by
  obtain ⟨hnodup, htail⟩ := hwf
  obtain ⟨hnew0, hnew⟩ := tb_list_node_new_fresh impl.active_regions
  generalize hn : tb_list_node_new impl.active_regions = new at hnew0 hnew ⊢
  -- the walk
  have hpred : ∀ node ∈ range, ∃ b, tb_predicate_beq deps node.2 region = some b := by
    intro node hnode
    have hmem : node ∈ impl.active_regions := by
      rw [hlist]
      exact List.mem_append_right _ hnode
    obtain ⟨b, hb⟩ := gb_tessellator_active_region_leq_some deps node.2 region
      (hup node hmem) hupr
    exact ⟨!b, by rw [tb_predicate_beq_eq, hb]; rfl⟩
  obtain ⟨scanned, rest, hrange, hscanned, hrest⟩ :=
    tb_find_if_walk_spec (fun item => tb_predicate_beq deps item region) range hpred
  have hleq_scanned : ∀ node ∈ scanned,
      gb_tessellator_active_region_leq deps node.2 region = some true := by
    intro node hnode
    have h := hscanned node hnode
    simp only [tb_predicate_beq_eq] at h
    cases hl : gb_tessellator_active_region_leq deps node.2 region with
    | none => rw [hl] at h; simp at h
    | some b =>
      rw [hl] at h
      cases b
      · simp at h
      · rfl
  have hall : impl.active_regions = before ++ scanned ++ rest := by
    rw [hlist, hrange, List.append_assoc]
  -- setting the position in the new node leaves the other nodes
  have hmap : ∀ l : List (Nat × gb_tessellator_active_region_t), new ∉ l.map Prod.fst →
      l.map (fun node => if node.1 = new then (node.1, { node.2 with position := new }) else node)
        = l := by
    intro l hl
    induction l with
    | nil => rfl
    | cons y l ih =>
      simp only [List.map_cons, List.mem_cons, not_or] at hl
      rw [List.map_cons, ih hl.2, if_neg (fun he => hl.1 he.symm)]
  have hnew_l : new ∉ (before ++ scanned).map Prod.fst := by
    intro hmem
    apply hnew
    rw [hall, List.map_append]
    exact List.mem_append_left _ hmem
  have hnew_r : new ∉ rest.map Prod.fst := by
    intro hmem
    apply hnew
    rw [hall, List.map_append]
    exact List.mem_append_right _ hmem
  -- the order around the new node
  have hsorted' : List.Pairwise
      (fun l r => gb_tessellator_active_region_leq deps l.2 r.2 = some true)
      (before ++ scanned ++ rest) := by
    have := hsorted
    unfold gb_tessellator_active_regions_sorted at this
    rwa [hall] at this
  have hleft : ∀ node ∈ before ++ scanned,
      gb_tessellator_active_region_leq deps node.2 { region with position := new }
        = some true := by
    intro node hnode
    have he := gb_tessellator_active_region_leq_edge deps node.2 node.2
      { region with position := new } region rfl rfl
    rw [he]
    rcases List.mem_append.1 hnode with h | h
    · exact hbefore node h
    · exact hleq_scanned node h
  have hinsert : ∀ itor : Nat,
      impl.active_regions.takeWhile (fun node => node.1 ≠ itor) = before ++ scanned →
      impl.active_regions.dropWhile (fun node => node.1 ≠ itor) = rest →
      tb_find_if_walk (fun item => tb_predicate_beq deps item region) range = some itor →
      (∀ node ∈ rest,
        gb_tessellator_active_region_leq deps { region with position := new } node.2
          = some true) →
      gb_tessellator_active_regions_insert_done deps impl prev region
          = some ({ active_regions :=
                      before ++ scanned ++ (new, { region with position := new }) :: rest
                    edge_region := Function.update impl.edge_region region.edge new }, new)
        ∧ gb_tessellator_active_regions_sorted deps
            (before ++ scanned ++ (new, { region with position := new }) :: rest) := by
    intro itor htake hdropi hwalk hright
    constructor
    · unfold gb_tessellator_active_regions_insert_done tb_find_if tb_list_insert_prev
      rw [if_neg (by simp [hupr]), hdrop, hwalk]
      simp only [htake, hdropi, hn]
      rw [List.map_append, List.map_cons, hmap _ hnew_l, hmap _ hnew_r, if_pos rfl]
    · unfold gb_tessellator_active_regions_sorted
      rw [List.pairwise_append] at hsorted' ⊢
      obtain ⟨hp1, hp2, hp3⟩ := hsorted'
      refine ⟨hp1, List.pairwise_cons.2 ⟨fun node hnode => hright node hnode, hp2⟩, ?_⟩
      intro a ha b hb
      rcases List.mem_cons.1 hb with rfl | hb
      · exact hleft a ha
      · exact hp3 a ha b hb
  rcases hrest with ⟨hnil, hwalk⟩ | ⟨x, rest', hcons, hx, hwalk⟩
  · subst hnil
    obtain ⟨h1, h2⟩ := tb_list_split_none impl.active_regions tb_iterator_tail htail
    have hall' : impl.active_regions = before ++ scanned := by rw [hall, List.append_nil]
    exact ⟨scanned, [], hall,
      hinsert tb_iterator_tail (by rw [h1, hall']) h2 hwalk (by simp)⟩
  · subst hcons
    have hnd : (List.map Prod.fst ((before ++ scanned) ++ x :: rest')).Nodup := by
      rw [← hall]
      exact hnodup
    obtain ⟨h1, h2⟩ := tb_list_split_at (before ++ scanned) rest' x hnd
    refine ⟨scanned, x :: rest', hall, ?_⟩
    have hxmem : x ∈ impl.active_regions := by
      rw [hall]
      exact List.mem_append_right _ (List.mem_cons_self _ _)
    have hregion_x : gb_tessellator_active_region_leq deps region x.2 = some true := by
      rcases htotal x hxmem with h | h
      · rw [tb_predicate_beq_eq, h] at hx
        simp at hx
      · exact h
    apply hinsert x.1 (by rw [hall]; exact h1) (by rw [hall]; exact h2) hwalk
    intro node hnode
    have he := gb_tessellator_active_region_leq_edge deps
      { region with position := new } region node.2 node.2 rfl rfl
    rw [he]
    rcases List.mem_cons.1 hnode with rfl | hnode
    · exact hregion_x
    · have hnmem : node ∈ impl.active_regions := by
        rw [hall]
        exact List.mem_append_right _ (List.mem_cons_of_mem _ hnode)
      apply htrans x hxmem node hnmem hregion_x
      rw [List.pairwise_append] at hsorted'
      exact (List.pairwise_cons.1 hsorted'.2.1).1 node hnode

/-- The specification of `gb_tessellator_active_regions_insert_done` in the form of
`gb_tessellator_active_regions_inserted`. -/
theorem gb_tessellator_active_regions_insert_done_inserted (deps : gb_tessellator_deps_t)
    (impl : gb_tessellator_impl_t) (prev : Nat) (region : gb_tessellator_active_region_t)
    (before range : List (Nat × gb_tessellator_active_region_t))
    (hlist : impl.active_regions = before ++ range)
    (hdrop : impl.active_regions.dropWhile (fun node => node.1 ≠ prev) = range)
    (hwf : tb_list_wellformed impl.active_regions)
    (hsorted : gb_tessellator_active_regions_sorted deps impl.active_regions)
    (hup : ∀ node ∈ impl.active_regions, deps.gb_tessellator_edge_go_up node.2.edge = true)
    (hupr : deps.gb_tessellator_edge_go_up region.edge = true)
    (htotal : ∀ node ∈ impl.active_regions,
      gb_tessellator_active_region_leq deps node.2 region = some true
        ∨ gb_tessellator_active_region_leq deps region node.2 = some true)
    (htrans : ∀ node ∈ impl.active_regions, ∀ node' ∈ impl.active_regions,
      gb_tessellator_active_region_leq deps region node.2 = some true →
      gb_tessellator_active_region_leq deps node.2 node'.2 = some true →
      gb_tessellator_active_region_leq deps region node'.2 = some true)
    (hbefore : ∀ node ∈ before,
      gb_tessellator_active_region_leq deps node.2 region = some true) :
    gb_tessellator_active_regions_inserted deps impl region before
      (gb_tessellator_active_regions_insert_done deps impl prev region) := by
  obtain ⟨l, r, h1, h2, h3⟩ := gb_tessellator_active_regions_insert_done_spec deps impl prev
    region before range hlist hdrop hwf hsorted hup hupr htotal htrans hbefore
  obtain ⟨hnew0, hnew⟩ := tb_list_node_new_fresh impl.active_regions
  refine ⟨l, r, _, _, h2, h1, hnew, rfl, ?_, ?_, h3, ?_, ?_⟩
  · simp
  · intro edge hedge
    simp [Function.update, hedge]
  · rw [List.map_append, List.map_cons]
    apply List.nodup_middle.2
    rw [← List.map_append, ← h1]
    exact List.nodup_cons.2 ⟨hnew, hwf.1⟩
  · rw [List.map_append, List.map_cons]
    intro hmem
    rcases List.mem_append.1 hmem with h | h
    · apply hwf.2
      rw [h1, List.map_append]
      exact List.mem_append_left _ h
    · rcases List.mem_cons.1 h with h | h
      · exact hnew0 h.symm
      · apply hwf.2
        rw [h1, List.map_append]
        exact List.mem_append_right _ h

/-- C32: on a list of active regions that is sorted under
`gb_tessellator_active_region_leq`, with edges that go up and with `leq` total and transitive
on the regions of the list and the new region, `gb_tessellator_active_regions_insert` returns
a new node and leaves the list sorted, with the new node put in once and every other node as
it was and in its order; the region in the new node has the iterator of the node as its
`position` and its edge refers to the node.  So does
`gb_tessellator_active_regions_insert_after` for a `region_prev` that is in the list at its
`position` and is `leq` the new region, the new node going after the nodes before
`region_prev`. -/
theorem gb_tessellator_active_regions_insert_sorted (deps : gb_tessellator_deps_t)
    (impl : gb_tessellator_impl_t) (region_prev region : gb_tessellator_active_region_t)
    (hwf : tb_list_wellformed impl.active_regions)
    (hsorted : gb_tessellator_active_regions_sorted deps impl.active_regions)
    (hup : ∀ node ∈ impl.active_regions, deps.gb_tessellator_edge_go_up node.2.edge = true)
    (hupr : deps.gb_tessellator_edge_go_up region.edge = true)
    (htotal : ∀ node ∈ impl.active_regions,
      gb_tessellator_active_region_leq deps node.2 region = some true
        ∨ gb_tessellator_active_region_leq deps region node.2 = some true)
    (htrans : ∀ a b c : gb_tessellator_active_region_t,
      (a = region ∨ a ∈ impl.active_regions.map Prod.snd) →
      (b = region ∨ b ∈ impl.active_regions.map Prod.snd) →
      (c = region ∨ c ∈ impl.active_regions.map Prod.snd) →
      gb_tessellator_active_region_leq deps a b = some true →
      gb_tessellator_active_region_leq deps b c = some true →
      gb_tessellator_active_region_leq deps a c = some true) :
    gb_tessellator_active_regions_inserted deps impl region []
        (gb_tessellator_active_regions_insert deps impl region)
    ∧ ∀ before after : List (Nat × gb_tessellator_active_region_t),
        impl.active_regions = before ++ (region_prev.position, region_prev) :: after →
        gb_tessellator_active_region_leq deps region_prev region = some true →
        gb_tessellator_active_regions_inserted deps impl region before
          (gb_tessellator_active_regions_insert_after deps impl region_prev region) := by
  have hmem : ∀ node ∈ impl.active_regions, node.2 ∈ impl.active_regions.map Prod.snd :=
    fun node hnode => List.mem_map_of_mem Prod.snd hnode
  have htrans' : ∀ node ∈ impl.active_regions, ∀ node' ∈ impl.active_regions,
      gb_tessellator_active_region_leq deps region node.2 = some true →
      gb_tessellator_active_region_leq deps node.2 node'.2 = some true →
      gb_tessellator_active_region_leq deps region node'.2 = some true :=
    fun node hnode node' hnode' h1 h2 =>
      htrans region node.2 node'.2 (Or.inl rfl) (Or.inr (hmem node hnode))
        (Or.inr (hmem node' hnode')) h1 h2
  constructor
  · unfold gb_tessellator_active_regions_insert
    apply gb_tessellator_active_regions_insert_done_inserted deps impl _ region []
      impl.active_regions (List.nil_append _).symm ?_ hwf hsorted hup hupr htotal htrans'
      (by simp)
    cases h : impl.active_regions with
    | nil => rfl
    | cons node nodes => simp [tb_iterator_head, List.dropWhile_cons]
  · intro before after hlist hprev
    unfold gb_tessellator_active_regions_insert_after
    have hnd : (List.map Prod.fst (before ++ (region_prev.position, region_prev) :: after)).Nodup := by
      rw [← hlist]
      exact hwf.1
    obtain ⟨-, h2⟩ := tb_list_split_at before after (region_prev.position, region_prev) hnd
    apply gb_tessellator_active_regions_insert_done_inserted deps impl _ region before
      ((region_prev.position, region_prev) :: after) hlist (by rw [hlist]; exact h2) hwf hsorted
      hup hupr htotal htrans'
    intro node hnode
    have hs := hsorted
    unfold gb_tessellator_active_regions_sorted at hs
    rw [hlist, List.pairwise_append] at hs
    have h1 := hs.2.2 node hnode (region_prev.position, region_prev) (List.mem_cons_self _ _)
    have hnm : node.2 ∈ impl.active_regions.map Prod.snd := by
      apply hmem
      rw [hlist]
      exact List.mem_append_left _ hnode
    have hpm : region_prev ∈ impl.active_regions.map Prod.snd := by
      have := hmem (region_prev.position, region_prev)
        (by rw [hlist]; exact List.mem_append_right _ (List.mem_cons_self _ _))
      exact this
    exact htrans node.2 region_prev region (Or.inr hnm) (Or.inr hpm) (Or.inl rfl) h1 hprev

/-- In the sample instance the regions are ordered by their edges. -/
theorem gb_tessellator_deps_sample_leq (l r : gb_tessellator_active_region_t) :
    gb_tessellator_active_region_leq gb_tessellator_deps_sample l r
      = some (decide (l.edge ≤ r.edge)) := by
  unfold gb_tessellator_active_region_leq gb_tessellator_deps_sample
  simp only [Bool.true_eq_false, if_false]
  have h1 : ∀ e : Nat, 2 * e / 2 = e := fun e => by omega
  have h2 : ∀ e : Nat, 2 * e % 2 = 0 := fun e => by omega
  have h3 : ∀ e : Nat, (2 * e + 1) / 2 = e := fun e => by omega
  have h4 : ∀ e : Nat, (2 * e + 1) % 2 = 1 := fun e => by omega
  simp only [h1, h2, h3, h4]
  by_cases he : l.edge = r.edge
  · simp [he]
  · have hne : 2 * l.edge ≠ 2 * r.edge := by omega
    rw [if_neg hne]
    by_cases hle : l.edge ≤ r.edge
    · simp [hle]
    · simp [hle]

theorem gb_tessellator_active_regions_insert_sorted_witness :
    gb_tessellator_active_regions_inserted gb_tessellator_deps_sample
        { active_regions :=
            [(1, { position := 1, edge := 10, winding := 0, dirty := false, inside := false,
                   bounds := true, fixedge := false }),
             (2, { position := 2, edge := 30, winding := 0, dirty := false, inside := false,
                   bounds := true, fixedge := false })]
          edge_region := fun edge => if edge = 10 then 1 else if edge = 30 then 2 else 0 }
        { position := 0, edge := 20, winding := 1, dirty := false, inside := true,
          bounds := false, fixedge := false } []
        (gb_tessellator_active_regions_insert gb_tessellator_deps_sample
          { active_regions :=
              [(1, { position := 1, edge := 10, winding := 0, dirty := false, inside := false,
                     bounds := true, fixedge := false }),
               (2, { position := 2, edge := 30, winding := 0, dirty := false, inside := false,
                     bounds := true, fixedge := false })]
            edge_region := fun edge => if edge = 10 then 1 else if edge = 30 then 2 else 0 }
          { position := 0, edge := 20, winding := 1, dirty := false, inside := true,
            bounds := false, fixedge := false })
    ∧ (gb_tessellator_active_regions_insert gb_tessellator_deps_sample
          { active_regions :=
              [(1, { position := 1, edge := 10, winding := 0, dirty := false, inside := false,
                     bounds := true, fixedge := false }),
               (2, { position := 2, edge := 30, winding := 0, dirty := false, inside := false,
                     bounds := true, fixedge := false })]
            edge_region := fun edge => if edge = 10 then 1 else if edge = 30 then 2 else 0 }
          { position := 0, edge := 20, winding := 1, dirty := false, inside := true,
            bounds := false, fixedge := false }).map
        (fun result =>
          (result.1.active_regions.map (fun node => (node.1, node.2.position, node.2.edge)),
            result.1.edge_region 20, result.2))
      = some ([(1, 1, 10), (3, 3, 20), (2, 2, 30)], 3, 3) := by
  refine ⟨(gb_tessellator_active_regions_insert_sorted gb_tessellator_deps_sample _
    { position := 1, edge := 10, winding := 0, dirty := false, inside := false,
      bounds := true, fixedge := false } _ ?_ ?_ ?_ rfl ?_ ?_).1, ?_⟩
  · unfold tb_list_wellformed
    decide
  · unfold gb_tessellator_active_regions_sorted
    simp [gb_tessellator_deps_sample_leq]
  · intro node _
    rfl
  · intro node hnode
    simp only [gb_tessellator_deps_sample_leq]
    simp only [List.mem_cons, List.mem_singleton, List.not_mem_nil, or_false] at hnode
    rcases hnode with rfl | rfl <;> simp
  · intro a b c _ _ _ h1 h2
    simp only [gb_tessellator_deps_sample_leq, Option.some.injEq, decide_eq_true_eq] at h1 h2 ⊢
    exact le_trans h1 h2
  · decide

end Gbox
